import Mathlib

set_option linter.all false

/-!
# A verification development for the segregated-free-list allocator `mm.c`

The C program is embedded shallowly: the heap is a byte-addressed memory, the
two globals and the state of the heap primitive are fields of `State`, and every
C routine is a Lean function on `State`.  Routines that contain an unbounded
loop return an `Option`; `none` stands for "the call does not return"
(the loop does not terminate, or the program faults).
-/

namespace MM

/-! ## Memory -/

/-- Byte-addressed memory. -/
abbrev Mem := Nat → Fin 256

/-- The byte `v mod 256`. -/
def byte (v : Nat) : Fin 256 := ⟨v % 256, Nat.mod_lt _ (by decide)⟩

/-- `GET(p)`: read the little-endian 32-bit word at address `p`. -/
def GET (m : Mem) (p : Nat) : Nat :=
  (m p).val + 256 * (m (p + 1)).val + 65536 * (m (p + 2)).val + 16777216 * (m (p + 3)).val

/-- `PUT(p, val)`: write `val` (truncated to 32 bits) as a word at address `p`. -/
def PUT (m : Mem) (p v : Nat) : Mem := fun a =>
  if a = p then byte v
  else if a = p + 1 then byte (v / 256)
  else if a = p + 2 then byte (v / 65536)
  else if a = p + 3 then byte (v / 16777216)
  else m a

/-- `memset(p, c, n)`. -/
def memset (m : Mem) (p c n : Nat) : Mem := fun a =>
  if p ≤ a ∧ a < p + n then byte c else m a

/-- `memcpy(dst, src, n)` for non-overlapping ranges. -/
def memcpy (m : Mem) (dst src n : Nat) : Mem := fun a =>
  if dst ≤ a ∧ a < dst + n then m (src + (a - dst)) else m a

/-! ## Constants and macros of `mm.c` -/

abbrev ALIGNMENT : Nat := 8
abbrev WSIZE : Nat := 4
abbrev DSIZE : Nat := 8
abbrev CHUNKSIZE : Nat := 2048
abbrev INITSIZE : Nat := 2048
abbrev CLASS_NUM : Nat := 12
abbrev PREV_ALLOCATED : Nat := 2
abbrev PREV_FREE : Nat := 0
abbrev ALLOCATED : Nat := 1
abbrev FREE : Nat := 0

/-- The value of `(void *)-1` and of `(size_t)-1` on the 64-bit target. -/
abbrev MINUS_ONE : Nat := 18446744073709551615

/-- Arithmetic in `size_t` is modulo `2^64`. -/
abbrev SIZE_MOD : Nat := 18446744073709551616

/-- `PACK(size, prev_alloc, alloc)`. -/
def PACK (size prev_alloc alloc : Nat) : Nat := size ||| prev_alloc ||| alloc

/-- `GET_SIZE(p)`: `GET(p) & ~0x7` in `unsigned int`. -/
def GET_SIZE (m : Mem) (p : Nat) : Nat := GET m p &&& 4294967288

/-- `GET_PREV_ALLOC(p)`. -/
def GET_PREV_ALLOC (m : Mem) (p : Nat) : Nat := GET m p &&& 2

/-- `GET_ALLOC(p)`. -/
def GET_ALLOC (m : Mem) (p : Nat) : Nat := GET m p &&& 1

/-- `HDRP(bp)`. -/
def HDRP (bp : Nat) : Nat := bp - WSIZE

/-- `FTRP(bp)`. -/
def FTRP (m : Mem) (bp : Nat) : Nat := bp + GET_SIZE m (HDRP bp) - DSIZE

/-- `PREDP(bp)`. -/
def PREDP (bp : Nat) : Nat := bp

/-- `SUCCP(bp)`. -/
def SUCCP (bp : Nat) : Nat := bp + WSIZE

/-- `NEXT_BLKP(bp)`. -/
def NEXT_BLKP (m : Mem) (bp : Nat) : Nat := bp + GET_SIZE m (bp - WSIZE)

/-- `PREV_BLKP(bp)`: uses the footer of the previous block. -/
def PREV_BLKP (m : Mem) (bp : Nat) : Nat := bp - GET_SIZE m (bp - DSIZE)

/-! ## State -/

/-- The globals of `mm.c` (`heap_listp`, `class_head`), the heap memory, and the
state of the heap primitive (`mem_heap` is the first heap byte, `mem_brk` the
break, `mem_max_addr` the address past which the primitive refuses to grow). -/
structure State where
  mem : Mem
  heap_listp : Nat
  class_head : Nat
  mem_heap : Nat
  mem_brk : Nat
  mem_max_addr : Nat

/-- Store a word. -/
def State.put (s : State) (p v : Nat) : State := { s with mem := PUT s.mem p v }

/-- Modelled from the spec: the heap primitive `mem_sbrk` is not part of the
sources.  "`extend(n)` grows the heap by exactly `n` bytes and returns the old
break", extensions are contiguous, and it answers `(void *)-1` when it refuses;
a refusal leaves the heap as it is. -/
def mem_sbrk (s : State) (incr : Nat) : Nat × State :=
  if s.mem_brk + incr > s.mem_max_addr then (MINUS_ONE, s)
  else (s.mem_brk, { s with mem_brk := s.mem_brk + incr })

/-- Modelled from the spec: `mem_heap_lo()`, the lowest heap address. -/
def mem_heap_lo (s : State) : Nat := s.mem_heap

/-- Modelled from the spec: `mem_heap_hi()`, the highest heap address (inclusive). -/
def mem_heap_hi (s : State) : Nat := s.mem_brk - 1

/-- `A2O(bp)`: `(unsigned int)((char *)bp - heap_listp)`. -/
def A2O (s : State) (bp : Nat) : Nat :=
  (((bp : Int) - (s.heap_listp : Int)) % 4294967296).toNat

/-- `O2A(off)`. -/
def O2A (s : State) (off : Nat) : Nat := off + s.heap_listp

/-- `PRED_BLKP(bp)`. -/
def PRED_BLKP (s : State) (bp : Nat) : Nat := GET s.mem (PREDP bp) + s.heap_listp

/-- `SUCC_BLKP(bp)`. -/
def SUCC_BLKP (s : State) (bp : Nat) : Nat := GET s.mem (SUCCP bp) + s.heap_listp

/-- Bound on the number of iterations of a list traversal: a list of distinct
blocks inside the heap is shorter than the heap is long. -/
def fuel (s : State) : Nat := s.mem_brk - s.mem_heap

/-! ## Helper routines -/

/-- The loop of `get_class_ptr` and of `find_fit`:
`while (size && i < CLASS_NUM - 1) { ++i; size >>= 1; }`.  It runs at most
`CLASS_NUM - 1` times, which is the first argument. -/
def class_loop : Nat → Nat → Nat → Nat
  | 0, _, i => i
  | k + 1, size, i =>
    if size ≠ 0 ∧ i < CLASS_NUM - 1 then class_loop k (size >>> 1) (i + 1) else i

/-- The index computed by `get_class_ptr` / `find_fit` for a size. -/
def class_index (size : Nat) : Nat := class_loop (CLASS_NUM - 1) (size >>> 5) 0

/-- `get_class_ptr(bp)`. -/
def get_class_ptr (s : State) (bp : Nat) : Nat :=
  s.class_head + class_index (GET_SIZE s.mem (HDRP bp)) * WSIZE

/-- `del_free_list(bp)`. -/
def del_free_list (s : State) (bp : Nat) : State :=
  let pred_bp := PRED_BLKP s bp
  let succ_bp := SUCC_BLKP s bp
  let s1 :=
    if pred_bp = s.heap_listp then s.put (get_class_ptr s bp) (A2O s (SUCC_BLKP s bp))
    else s.put (SUCCP pred_bp) (A2O s (SUCC_BLKP s bp))
  if succ_bp ≠ s1.heap_listp then s1.put (PREDP succ_bp) (A2O s1 (PRED_BLKP s1 bp))
  else s1

/-- The `while` loop of `add_free_list`; returns the final `(cur_bp, succ_bp)`. -/
def add_loop : Nat → State → Nat → Nat → Nat → Option (Nat × Nat)
  | 0, _, _, _, _ => none
  | k + 1, s, cur_bp, succ_bp, size =>
    if succ_bp ≠ s.heap_listp ∧ GET_SIZE s.mem succ_bp < size then
      add_loop k s succ_bp (SUCC_BLKP s succ_bp) size
    else some (cur_bp, succ_bp)

/-- `add_free_list(bp)`. -/
def add_free_list (s : State) (bp : Nat) : Option State :=
  let cp := get_class_ptr s bp
  if GET s.mem cp = 0 then
    some (((s.put cp (A2O s bp)).put (PREDP bp) 0).put (SUCCP bp) 0)
  else
    let cur_bp := O2A s (GET s.mem cp)
    let succ_bp := SUCC_BLKP s cur_bp
    let size := GET_SIZE s.mem bp
    match add_loop (fuel s) s cur_bp succ_bp size with
    | none => none
    | some (cur_bp, succ_bp) =>
      let s1 := s.put (SUCCP cur_bp) (A2O s bp)
      let s2 := s1.put (PREDP bp) (A2O s1 cur_bp)
      let s3 := s2.put (SUCCP bp) (A2O s2 succ_bp)
      if succ_bp ≠ s3.heap_listp then some (s3.put (PREDP succ_bp) (A2O s3 bp))
      else some s3

/-- `coalesce(bp)`. -/
def coalesce (s : State) (bp : Nat) : Option (Nat × State) :=
  let prev_alloc := GET_PREV_ALLOC s.mem (HDRP bp)
  let next_alloc := GET_ALLOC s.mem (HDRP (NEXT_BLKP s.mem bp))
  let size := GET_SIZE s.mem (HDRP bp)
  if prev_alloc ≠ 0 ∧ next_alloc ≠ 0 then
    (add_free_list s bp).map (fun s1 => (bp, s1))
  else if prev_alloc ≠ 0 ∧ next_alloc = 0 then
    let s1 := del_free_list s (NEXT_BLKP s.mem bp)
    let size := (size + GET_SIZE s1.mem (HDRP (NEXT_BLKP s1.mem bp))) % SIZE_MOD
    let s2 := s1.put (HDRP bp) (PACK size prev_alloc FREE)
    let s3 := s2.put (FTRP s2.mem bp) (PACK size prev_alloc FREE)
    (add_free_list s3 bp).map (fun s4 => (bp, s4))
  else if prev_alloc = 0 ∧ next_alloc ≠ 0 then
    let s1 := del_free_list s (PREV_BLKP s.mem bp)
    let size := (size + GET_SIZE s1.mem (HDRP (PREV_BLKP s1.mem bp))) % SIZE_MOD
    let prev_alloc := GET_PREV_ALLOC s1.mem (HDRP (PREV_BLKP s1.mem bp))
    let s2 := s1.put (FTRP s1.mem bp) (PACK size prev_alloc FREE)
    let s3 := s2.put (HDRP (PREV_BLKP s2.mem bp)) (PACK size prev_alloc FREE)
    let bp := PREV_BLKP s3.mem bp
    (add_free_list s3 bp).map (fun s4 => (bp, s4))
  else
    let s1 := del_free_list s (PREV_BLKP s.mem bp)
    let s2 := del_free_list s1 (NEXT_BLKP s1.mem bp)
    let size := (size + (GET_SIZE s2.mem (HDRP (PREV_BLKP s2.mem bp))
        + GET_SIZE s2.mem (HDRP (NEXT_BLKP s2.mem bp))) % 4294967296) % SIZE_MOD
    let prev_alloc := GET_PREV_ALLOC s2.mem (HDRP (PREV_BLKP s2.mem bp))
    let s3 := s2.put (HDRP (PREV_BLKP s2.mem bp)) (PACK size prev_alloc FREE)
    let s4 := s3.put (FTRP s3.mem (NEXT_BLKP s3.mem bp)) (PACK size prev_alloc FREE)
    let bp := PREV_BLKP s4.mem bp
    (add_free_list s4 bp).map (fun s5 => (bp, s5))

/-- `extend_heap(words)`; the result pointer is `0` (`NULL`) on failure. -/
def extend_heap (s : State) (words : Nat) : Option (Nat × State) :=
  let size := (if words % 2 ≠ 0 then (words + 1) * WSIZE else words * WSIZE) % SIZE_MOD
  let r := mem_sbrk s size
  let bp := r.1
  let s0 := r.2
  if bp = MINUS_ONE then some (0, s0)
  else
    let prev_alloc := GET_PREV_ALLOC s0.mem (HDRP bp)
    let s1 := s0.put (HDRP bp) (PACK size prev_alloc FREE)
    let s2 := s1.put (FTRP s1.mem bp) (PACK size prev_alloc FREE)
    let s3 := s2.put (HDRP (NEXT_BLKP s2.mem bp)) (PACK 0 PREV_FREE ALLOCATED)
    coalesce s3 bp

/-- The inner loop of `find_fit`: follow `succ` links until the end of the list
or a block of at least `asize` bytes. -/
def fit_loop : Nat → State → Nat → Nat → Option Nat
  | 0, _, _, _ => none
  | k + 1, s, bp, asize =>
    if bp ≠ s.heap_listp ∧ GET_SIZE s.mem (HDRP bp) < asize then
      fit_loop k s (SUCC_BLKP s bp) asize
    else some bp

/-- The outer loop of `find_fit` (`while (i < CLASS_NUM)`), at most `CLASS_NUM`
rounds, which is the first argument. -/
def class_scan : Nat → State → Nat → Nat → Option Nat
  | 0, _, _, _ => some 0
  | k + 1, s, i, asize =>
    if i < CLASS_NUM then
      let cp := s.class_head + i * WSIZE
      if GET s.mem cp ≠ 0 then
        match fit_loop (fuel s) s (O2A s (GET s.mem cp)) asize with
        | none => none
        | some bp => if bp ≠ s.heap_listp then some bp else class_scan k s (i + 1) asize
      else class_scan k s (i + 1) asize
    else some 0

/-- `find_fit(asize)`; `0` is `NULL`. -/
def find_fit (s : State) (asize : Nat) : Option Nat :=
  class_scan CLASS_NUM s (class_index asize) asize

/-- `place(bp, asize)`. -/
def place (s : State) (bp asize : Nat) : Option State :=
  let csize := GET_SIZE s.mem (HDRP bp)
  let s1 := del_free_list s bp
  let rest := (csize + SIZE_MOD - asize) % SIZE_MOD
  if rest ≥ 2 * DSIZE then
    let s2 := s1.put (HDRP bp) (PACK asize PREV_ALLOCATED ALLOCATED)
    let bp := NEXT_BLKP s2.mem bp
    let s3 := s2.put (HDRP bp) (PACK rest PREV_ALLOCATED FREE)
    let s4 := s3.put (FTRP s3.mem bp) (PACK rest PREV_ALLOCATED FREE)
    add_free_list s4 bp
  else
    let s2 := s1.put (HDRP bp) (PACK csize PREV_ALLOCATED ALLOCATED)
    let next_size := GET_SIZE s2.mem (HDRP (NEXT_BLKP s2.mem bp))
    some (s2.put (HDRP (NEXT_BLKP s2.mem bp)) (PACK next_size PREV_ALLOCATED ALLOCATED))

/-! ## Public entry points -/

/-- `mm_init()`; the first component is the return value (`0` or `-1`). -/
def mm_init (s : State) : Option (Int × State) :=
  let s0 : State := { s with heap_listp := 0, class_head := 0 }
  let padding := if CLASS_NUM % 2 ≠ 0 then 0 else 1
  let r := mem_sbrk s0 ((CLASS_NUM + padding + 3) * WSIZE)
  let s1 : State := { r.2 with class_head := r.1 }
  if s1.class_head = MINUS_ONE then some (-1, s1)
  else
    let s2 : State := { s1 with mem := memset s1.mem s1.class_head 0 (CLASS_NUM * WSIZE) }
    let s3 : State := { s2 with heap_listp := s2.class_head + (CLASS_NUM + padding) * WSIZE }
    let s4 := s3.put s3.heap_listp (PACK DSIZE PREV_ALLOCATED ALLOCATED)
    let s5 := s4.put (s4.heap_listp + 1 * WSIZE) 0
    let s6 := s5.put (s5.heap_listp + 2 * WSIZE) (PACK 0 PREV_ALLOCATED ALLOCATED)
    let s7 : State := { s6 with heap_listp := s6.heap_listp + 1 * WSIZE }
    match extend_heap s7 (INITSIZE / WSIZE) with
    | none => none
    | some (bp, s8) => if bp = 0 then some (-1, s8) else some (0, s8)

/-- The first statement of `malloc` and `free`: `if (heap_listp == 0) mm_init();`
(the return value of `mm_init` is dropped). -/
def ensure_init (s : State) : Option State :=
  if s.heap_listp = 0 then (mm_init s).map Prod.snd else some s

/-- The size adjustment of `malloc` and `realloc`, in `size_t` arithmetic. -/
def adjust (size : Nat) : Nat :=
  if size ≤ 3 * WSIZE then 4 * WSIZE
  else (DSIZE * (((size + WSIZE + (DSIZE - 1)) % SIZE_MOD) / DSIZE)) % SIZE_MOD

/-- `malloc(size)`; the first component is the returned pointer (`0` is `NULL`).
When the first `mem_sbrk` of `mm_init` was refused, `class_head` is `(void *)-1`
and `find_fit` reads the head slots through it, which faults: there is no
result then. -/
def malloc (s : State) (size : Nat) : Option (Nat × State) :=
  match ensure_init s with
  | none => none
  | some s0 =>
    if size = 0 then some (0, s0)
    else if s0.class_head = MINUS_ONE then none
    else
      let asize := adjust size
      match find_fit s0 asize with
      | none => none
      | some bp =>
        if bp ≠ 0 then (place s0 bp asize).map (fun s1 => (bp, s1))
        else
          let extendsize := max asize CHUNKSIZE
          match extend_heap s0 (extendsize / WSIZE) with
          | none => none
          | some (bp, s1) =>
            if bp = 0 then some (0, s1)
            else (place s1 bp asize).map (fun s2 => (bp, s2))

/-- `free(bp)`. -/
def free (s : State) (bp : Nat) : Option State :=
  if bp = 0 then some s
  else
    let size := GET_SIZE s.mem (HDRP bp)
    match ensure_init s with
    | none => none
    | some s0 =>
      let prev_alloc := GET_PREV_ALLOC s0.mem (HDRP bp)
      let s1 := s0.put (HDRP bp) (PACK size prev_alloc FREE)
      let s2 := s1.put (FTRP s1.mem bp) (PACK size prev_alloc FREE)
      let next_size := GET_SIZE s2.mem (HDRP (NEXT_BLKP s2.mem bp))
      let next_alloc := GET_ALLOC s2.mem (HDRP (NEXT_BLKP s2.mem bp))
      let s3 := s2.put (HDRP (NEXT_BLKP s2.mem bp)) (PACK next_size PREV_FREE next_alloc)
      let s4 :=
        if next_alloc = 0 then
          s3.put (FTRP s3.mem (NEXT_BLKP s3.mem bp)) (PACK next_size PREV_FREE next_alloc)
        else s3
      (coalesce s4 bp).map Prod.snd

/-- `realloc(oldbp, size)`. -/
def realloc (s : State) (oldbp size : Nat) : Option (Nat × State) :=
  if size = 0 then (free s oldbp).map (fun s1 => (0, s1))
  else if oldbp = 0 then malloc s size
  else
    let prev_alloc := GET_PREV_ALLOC s.mem (HDRP oldbp)
    let oldsize := GET_SIZE s.mem (HDRP oldbp)
    let freesize :=
      if GET_ALLOC s.mem (HDRP (NEXT_BLKP s.mem oldbp)) = 0 then
        GET_SIZE s.mem (HDRP (NEXT_BLKP s.mem oldbp))
      else 0
    let asize := adjust size
    if oldsize + freesize ≥ asize then
      if oldsize + freesize ≥ (asize + 2 * DSIZE) % SIZE_MOD then
        let s1 := if freesize ≠ 0 then del_free_list s (NEXT_BLKP s.mem oldbp) else s
        let s2 := s1.put (HDRP oldbp) (PACK asize prev_alloc ALLOCATED)
        let freebp := NEXT_BLKP s2.mem oldbp
        let s3 := s2.put (HDRP freebp) (PACK (oldsize + freesize - asize) PREV_ALLOCATED FREE)
        let s4 := s3.put (FTRP s3.mem freebp)
          (PACK (oldsize + freesize - asize) PREV_ALLOCATED FREE)
        match add_free_list s4 freebp with
        | none => none
        | some s5 =>
          if freesize = 0 then
            let nextbp := NEXT_BLKP s5.mem freebp
            let next_size := GET_SIZE s5.mem (HDRP nextbp)
            let next_alloc := GET_ALLOC s5.mem (HDRP nextbp)
            some (oldbp, s5.put (HDRP nextbp) (PACK next_size PREV_FREE next_alloc))
          else some (oldbp, s5)
      else
        let s1 := if freesize ≠ 0 then del_free_list s (NEXT_BLKP s.mem oldbp) else s
        let s2 := s1.put (HDRP oldbp) (PACK (oldsize + freesize) prev_alloc ALLOCATED)
        if freesize ≠ 0 then
          let nextbp := NEXT_BLKP s2.mem oldbp
          let next_size := GET_SIZE s2.mem (HDRP nextbp)
          let next_alloc := GET_ALLOC s2.mem (HDRP nextbp)
          some (oldbp, s2.put (HDRP nextbp) (PACK next_size PREV_ALLOCATED next_alloc))
        else some (oldbp, s2)
    else
      match malloc s asize with
      | none => none
      | some (newbp, s1) =>
        if newbp = 0 then some (0, s1)
        else
          let n := if size < oldsize then size else oldsize
          let s2 : State := { s1 with mem := memcpy s1.mem newbp oldbp n }
          (free s2 oldbp).map (fun s3 => (newbp, s3))

/-- `calloc(nmemb, size)`.  `memset` runs also when `malloc` answered `NULL`;
storing through the null pointer faults, so there is no result then unless no
byte is stored. -/
def calloc (s : State) (nmemb size : Nat) : Option (Nat × State) :=
  let bytes := (nmemb * size) % SIZE_MOD
  match malloc s bytes with
  | none => none
  | some (bp, s1) =>
    if bp = 0 ∧ bytes ≠ 0 then none
    else some (bp, { s1 with mem := memset s1.mem bp 0 bytes })

/-! ## The heap walk of `mm_checkheap` -/

/-- What the heap walk sees of one block: its block pointer, the size and the
two flag bits of its header. -/
structure Blk where
  bp : Nat
  sz : Nat
  al : Bool
  pa : Bool
  deriving DecidableEq, Repr

/-- The block whose header is read at `bp - 4`. -/
def blk_at (m : Mem) (bp : Nat) : Blk :=
  ⟨bp, GET_SIZE m (HDRP bp), decide (GET_ALLOC m (HDRP bp) ≠ 0),
    decide (GET_PREV_ALLOC m (HDRP bp) ≠ 0)⟩

/-- The loop `for (bp = heap_listp; bp < mem_heap_hi(); bp = NEXT_BLKP(bp))` of
`mm_checkheap`, collecting the blocks it visits (the prologue first; the
epilogue header ends the walk and is not visited). -/
def walk : Nat → State → Nat → Option (List Blk)
  | 0, _, _ => none
  | k + 1, s, bp =>
    if bp < mem_heap_hi s then (walk k s (NEXT_BLKP s.mem bp)).map (fun l => blk_at s.mem bp :: l)
    else some []

/-- The blocks of the heap in address order, the prologue included. -/
def heap_blocks (s : State) : Option (List Blk) := walk (fuel s) s s.heap_listp

/-! ## Valid call sequences -/

/-- The heap as the primitive hands it over before `mm_init`: empty, starting at
an 8-byte aligned address, and limited to a region of at most `2^32` bytes that
ends below the top of the address space. -/
def FreshHeap (s : State) : Prop :=
  s.mem_brk = s.mem_heap ∧ s.mem_heap % 8 = 0 ∧
  s.mem_max_addr ≤ s.mem_heap + 4294967296 ∧ s.mem_max_addr < MINUS_ONE

/-- Whether `p` is the payload pointer of an allocated block of the heap walk
other than the prologue, that is, a pointer handed out earlier and not freed
since. -/
def is_allocated (s : State) (p : Nat) : Bool :=
  match heap_blocks s with
  | some bl => bl.any (fun b => decide (b.bp = p) && b.al && decide (p ≠ s.heap_listp))
  | none => false

/-- The user stores the byte `v` at address `a`. -/
def store_byte (s : State) (a : Nat) (v : Fin 256) : State :=
  { s with mem := fun x => if x = a then v else s.mem x }

/-- The heap states that arise from a successful `mm_init` on a fresh heap by
calls of `malloc`, `free`, `realloc` and `calloc` that return, where `free` and
`realloc` get `NULL` or a currently allocated pointer, and in between the user
stores bytes into the payload of allocated blocks only.  The request sizes of
these calls are such that the size adjustment does not wrap around in `size_t`:
`mm.c` does not check for that, and a wrapped size makes `malloc` hand out a
block that is still free or one of 8 bytes, which is not a block of a well
formed heap. -/
inductive Reachable : State → Prop
  | init (s0 s : State) : FreshHeap s0 → mm_init s0 = some (0, s) → Reachable s
  | malloc (s : State) (n p : Nat) (s' : State) : Reachable s → n + 12 ≤ SIZE_MOD →
      MM.malloc s n = some (p, s') → Reachable s'
  | free (s : State) (p : Nat) (s' : State) : Reachable s →
      (p = 0 ∨ is_allocated s p = true) → MM.free s p = some s' → Reachable s'
  | realloc (s : State) (p n q : Nat) (s' : State) : Reachable s →
      (p = 0 ∨ is_allocated s p = true) → n + 20 ≤ SIZE_MOD →
      MM.realloc s p n = some (q, s') → Reachable s'
  | calloc (s : State) (k z p : Nat) (s' : State) : Reachable s →
      (k * z) % SIZE_MOD + 12 ≤ SIZE_MOD → MM.calloc s k z = some (p, s') → Reachable s'
  | write (s : State) (p a : Nat) (v : Fin 256) : Reachable s → is_allocated s p = true →
      p ≤ a → a < p + GET_SIZE s.mem (HDRP p) - 4 → Reachable (store_byte s a v)

/-! ## The representation invariant -/

/-- The value of a flag bit. -/
def flag (b : Bool) (v : Nat) : Nat := if b then v else 0

/-- The header word of a block. -/
def hdr_word (b : Blk) : Nat := b.sz + flag b.pa 2 + flag b.al 1

/-- The blocks of `bl` lie one after the other from `p` to `e`; each records in
`pa` whether the block before it is allocated. -/
def Contig : Nat → Bool → List Blk → Nat → Bool → Prop
  | p, pa, [], e, la => p = e ∧ pa = la
  | p, pa, b :: bs, e, la => b.bp = p ∧ b.pa = pa ∧ Contig (p + b.sz) b.al bs e la

/-- Size and position constraints of one block; the block at `lo + 56` is the
prologue, a block of size 0 is the epilogue header. -/
def BlkOK (lo brk : Nat) (b : Blk) : Prop :=
  b.bp % 8 = 0 ∧ b.sz % 8 = 0 ∧ lo + 56 ≤ b.bp ∧ b.bp + b.sz ≤ brk ∧
  (b.bp = lo + 56 → b.sz = 8 ∧ b.al = true) ∧ (b.sz = 0 → b.al = true) ∧
  (b.bp ≠ lo + 56 → b.sz = 0 ∨ 16 ≤ b.sz)

/-- The block list `bl` (prologue, blocks, epilogue header) tiles the heap. -/
structure Shape (lo brk : Nat) (bl : List Blk) : Prop where
  contig : Contig (lo + 56) true bl brk true
  ok : ∀ b ∈ bl, BlkOK lo brk b
  last : ∃ body e, bl = body ++ [e] ∧ e.sz = 0 ∧ ∀ b ∈ body, b.sz ≠ 0

/-- Headers (and the footers of free blocks) in memory are those of `bl`. -/
def Hdrs (m : Mem) (bl : List Blk) : Prop :=
  ∀ b ∈ bl, GET m (b.bp - 4) = hdr_word b ∧ (b.al = false → GET m (b.bp + b.sz - 8) = hdr_word b)

/-- Following `succ` offsets from `c` runs through `xs` and ends at `e`. -/
def SC (m : Mem) (hl : Nat) : Nat → List Nat → Nat → Prop
  | c, [], e => c = e
  | c, x :: xs, e => c = x ∧ SC m hl (GET m (hl + x + 4)) xs e

/-- The `pred` offset of every node of `xs` is the node before it (`p` for the first). -/
def PC (m : Mem) (hl : Nat) : Nat → List Nat → Prop
  | _, [] => True
  | p, x :: xs => GET m (hl + x) = p ∧ PC m hl x xs

/-- Class list `i` in memory is the doubly linked list `L i` of block offsets. -/
def Lists (m : Mem) (ch hl : Nat) (L : Nat → List Nat) : Prop :=
  ∀ i, i < 12 → SC m hl (GET m (ch + 4 * i)) (L i) 0 ∧ PC m hl 0 (L i)

/-- The nodes of the class lists are exactly the free blocks of `bl` (those at
an address in `ex` excepted), each once and in the list of its size class. -/
def Nodes (hl : Nat) (bl : List Blk) (L : Nat → List Nat) (ex : Nat → Prop) : Prop :=
  (∀ i, (L i).Nodup) ∧
  ∀ i x, x ∈ L i ↔
    ∃ b ∈ bl, b.al = false ∧ b.bp = hl + x ∧ class_index b.sz = i ∧ ¬ ex b.bp

/-- Node offsets are distinct multiples of 8 behind the prologue. -/
structure NodesWF (L : Nat → List Nat) : Prop where
  nodup : ∀ i, (L i).Nodup
  ok : ∀ i y, y ∈ L i → 8 ≤ y ∧ y % 8 = 0 ∧ y < 4294967296
  disj : ∀ i j y, y ∈ L i → y ∈ L j → i = j

/-- A free block is preceded by an allocated one (blocks at `ex` excepted). -/
def NoAdj (bl : List Blk) (ex : Nat → Prop) : Prop :=
  ∀ b ∈ bl, ¬ ex b.bp → b.al = false → b.pa = true

/-- Where the globals point, and the limits of the heap primitive. -/
structure Geo (s : State) : Prop where
  ch : s.class_head = s.mem_heap
  hl : s.heap_listp = s.mem_heap + 56
  al : s.mem_heap % 8 = 0
  brk_le : s.mem_brk ≤ s.mem_max_addr
  max_le : s.mem_max_addr ≤ s.mem_heap + 4294967296
  max_lt : s.mem_max_addr < MINUS_ONE

/-- The heap of `s` represents the block list `bl` and the class lists `L`,
up to a pending free block: blocks at `ex` are not yet in a list, and blocks at
`exa` may touch a free neighbour. -/
structure Mid (s : State) (bl : List Blk) (L : Nat → List Nat) (ex exa : Nat → Prop) : Prop where
  geo : Geo s
  shape : Shape s.mem_heap s.mem_brk bl
  hdrs : Hdrs s.mem bl
  lists : Lists s.mem s.mem_heap (s.mem_heap + 56) L
  nodes : Nodes (s.mem_heap + 56) bl L ex
  noadj : NoAdj bl exa

/-- The representation invariant between two calls. -/
def Rep (s : State) (bl : List Blk) (L : Nat → List Nat) : Prop :=
  Mid s bl L (fun _ => False) (fun _ => False)

/-- The invariant. -/
def Inv (s : State) : Prop := ∃ bl L, Rep s bl L

/-- The allocated blocks of a block list, as (pointer, size) pairs; the
epilogue header, of size 0, is not one. -/
def allocs (bl : List Blk) : List (Nat × Nat) :=
  (bl.filter (fun b => b.al && decide (b.sz ≠ 0))).map (fun b => (b.bp, b.sz))

/-- The globals and the state of the heap primitive are the same in `s` and `s'`. -/
def SameConsts (s s' : State) : Prop :=
  s'.heap_listp = s.heap_listp ∧ s'.class_head = s.class_head ∧ s'.mem_heap = s.mem_heap ∧
  s'.mem_brk = s.mem_brk ∧ s'.mem_max_addr = s.mem_max_addr

/-- Memory `m'` equals `m` outside the words at the addresses in `T`. -/
def EqOutside (m m' : Mem) (T : Nat → Prop) : Prop :=
  ∀ a, (∀ w, T w → a < w ∨ w + 4 ≤ a) → m' a = m a

/-- The bytes an operation may change in a heap with block list `bl`: the
class-head slots, the bytes from the epilogue header on, every header, and the
bytes of free blocks and of the block at `D`. -/
def MayChange (lo brk : Nat) (bl : List Blk) (D : Nat) (a : Nat) : Prop :=
  a < lo + 48 ∨ brk ≤ a + 4 ∨
    ∃ x ∈ bl, x.bp ≤ a + 4 ∧ (a < x.bp ∨ ((x.al = false ∨ x.bp = D) ∧ a + 4 < x.bp + x.sz))

/-- Memory `m'` equals `m` at every byte that is not in `P`. -/
def Unchanged (m m' : Mem) (P : Nat → Prop) : Prop := ∀ a, ¬ P a → m' a = m a

/-- The words a list operation may store to: the class-head slots and the link
words of the nodes in `N`. -/
def Touched (ch hl : Nat) (N : Nat → Prop) (w : Nat) : Prop :=
  (∃ i, i < 12 ∧ w = ch + 4 * i) ∨ ∃ y, N y ∧ (w = hl + y ∨ w = hl + y + 4)

/-- What `coalesce` establishes when it is called at the pending free block `b`
of a heap with block list `bl`: a state that represents a block list with the
same allocated blocks, in which a free block `f` that starts at the returned
pointer covers `b`. -/
def Coalesced (s : State) (bl : List Blk) (b : Blk) (D : Nat) (p : Nat) (s' : State) : Prop :=
  ∃ bl' L' f, Rep s' bl' L' ∧ SameConsts s s' ∧ allocs bl' = allocs bl ∧ f ∈ bl' ∧
    f.al = false ∧ f.bp = p ∧ p ≤ b.bp ∧ b.bp + b.sz ≤ f.bp + f.sz ∧
    (p = b.bp ∨ ∃ a ∈ bl, a.al = false ∧ a.bp = p ∧ a.bp + a.sz = b.bp) ∧
    Unchanged s.mem s'.mem (MayChange s.mem_heap s.mem_brk bl D) ∧
    ∀ a, MayChange s.mem_heap s.mem_brk bl' D a → MayChange s.mem_heap s.mem_brk bl D a

/-- The list `Y` is the list `X` with the pair `e` inserted. -/
def InsAt (e : Nat × Nat) (X Y : List (Nat × Nat)) : Prop :=
  ∃ X1 X2, X = X1 ++ X2 ∧ Y = X1 ++ e :: X2

/-- What `free` of the allocated block `b` establishes: the allocated blocks
are those of before without `b`, and a free block `f` covers `b`. -/
def Freed (s : State) (bl : List Blk) (b : Blk) (s' : State) : Prop :=
  ∃ bl' L' f, Rep s' bl' L' ∧ SameConsts s s' ∧ InsAt (b.bp, b.sz) (allocs bl') (allocs bl) ∧
    f ∈ bl' ∧ f.al = false ∧ f.bp ≤ b.bp ∧ b.bp + b.sz ≤ f.bp + f.sz ∧
    Unchanged s.mem s'.mem (MayChange s.mem_heap s.mem_brk bl b.bp)

/-- What `realloc` in place establishes for the allocated block `b` whose free
successor (if any) has `fs` bytes: the block has the new size `z`, followed by
a free remainder if at least 16 bytes remain; the first bytes of the payload
are kept. -/
def Resized (s : State) (bl : List Blk) (b : Blk) (asize fs : Nat) (s' : State) : Prop :=
  ∃ bl' L' z, Rep s' bl' L' ∧ SameConsts s s' ∧
    (∃ X1 X2, allocs bl = X1 ++ (b.bp, b.sz) :: X2 ∧ allocs bl' = X1 ++ (b.bp, z) :: X2) ∧
    (⟨b.bp, z, true, b.pa⟩ : Blk) ∈ bl' ∧
    (asize + 16 ≤ b.sz + fs →
      z = asize ∧ (⟨b.bp + asize, b.sz + fs - asize, false, true⟩ : Blk) ∈ bl') ∧
    (b.sz + fs < asize + 16 → z = b.sz + fs) ∧
    (∀ a, b.bp ≤ a → a + 4 < b.bp + asize → a + 4 < b.bp + b.sz → s'.mem a = s.mem a) ∧
    Unchanged s.mem s'.mem (MayChange s.mem_heap s.mem_brk bl b.bp)

/-- What a successful `malloc` with adjusted size `asize` establishes: the
block at the returned pointer `p` is a new allocated block of size `z`, carved
out of a free block or of the extended heap. -/
def MallocOk (s : State) (bl : List Blk) (asize p : Nat) (s' : State) : Prop :=
  ∃ bl' L' z, Rep s' bl' L' ∧ s'.heap_listp = s.heap_listp ∧ s'.class_head = s.class_head ∧
    s'.mem_heap = s.mem_heap ∧ s'.mem_max_addr = s.mem_max_addr ∧ s.mem_brk ≤ s'.mem_brk ∧
    InsAt (p, z) (allocs bl) (allocs bl') ∧ asize ≤ z ∧ z ≤ asize + 8 ∧
    Unchanged s.mem s'.mem (MayChange s.mem_heap s.mem_brk bl 0) ∧
    ((∃ b ∈ bl, b.al = false ∧ b.bp = p ∧ (z ≤ b.sz ∨ b.bp + b.sz = s.mem_brk)) ∨
      p = s.mem_brk) ∧
    ((∃ b ∈ bl, b.al = false ∧ asize ≤ b.sz) ∨
      s.mem_brk + max asize CHUNKSIZE ≤ s.mem_max_addr) ∧
    ((∀ b ∈ bl, b.al = false → asize + 16 ≤ b.sz) → asize + 16 ≤ CHUNKSIZE → z = asize)

/-- The loop `for (bp = O2A(GET(class_head + no * WSIZE)); A2O(bp); bp = SUCC_BLKP(bp))`
of `mm_checkheap` over one class list, collecting the blocks it visits. -/
def list_walk : Nat → State → Nat → Option (List Nat)
  | 0, _, _ => none
  | k + 1, s, bp =>
    if A2O s bp ≠ 0 then (list_walk k s (SUCC_BLKP s bp)).map (fun l => bp :: l)
    else some []

/-- The blocks of class list `no`, from its head on. -/
def class_list (s : State) (no : Nat) : Option (List Nat) :=
  list_walk (fuel s) s (O2A s (GET s.mem (s.class_head + no * WSIZE)))

/-- The blocks of the class lists `0`, ..., `k - 1`, one list after the other. -/
def index_upto : Nat → State → Option (List Nat)
  | 0, _ => some []
  | k + 1, s =>
    match index_upto k s, class_list s k with
    | some a, some l => some (a ++ l)
    | _, _ => none

/-- The free-list index: the blocks of all `CLASS_NUM` class lists. -/
def free_index (s : State) : Option (List Nat) := index_upto CLASS_NUM s

/-- The value `freesize` that `realloc` computes: the size of the block after
the block at `bp` if that block is free, and 0 otherwise. -/
def freesize (s : State) (bp : Nat) : Nat :=
  if GET_ALLOC s.mem (HDRP (NEXT_BLKP s.mem bp)) = 0 then
    GET_SIZE s.mem (HDRP (NEXT_BLKP s.mem bp))
  else 0

/-- What `realloc` establishes when it moves the allocated block `b` to a new
block at `q`: the first bytes of the payload are copied, and `b` is free. -/
def Moved (s : State) (bl : List Blk) (b : Blk) (n q : Nat) (s' : State) : Prop :=
  ∃ bl' L' z mid, Rep s' bl' L' ∧ s'.heap_listp = s.heap_listp ∧
    s'.class_head = s.class_head ∧ s'.mem_heap = s.mem_heap ∧
    s'.mem_max_addr = s.mem_max_addr ∧ s.mem_brk ≤ s'.mem_brk ∧
    InsAt (q, z) (allocs bl) mid ∧ InsAt (b.bp, b.sz) (allocs bl') mid ∧ q ≠ b.bp ∧
    n + 8 ≤ z ∧
    (∀ i, i < n → i + 4 < b.sz → s'.mem (q + i) = s.mem (b.bp + i)) ∧
    ∃ f ∈ bl', f.al = false ∧ f.bp ≤ b.bp ∧ b.bp + b.sz ≤ f.bp + f.sz

/-- The state in which `mm_init` calls `extend_heap`: the class heads are
cleared, the prologue block and the epilogue header are in place. -/
def init_state (s : State) : State :=
  ⟨PUT (PUT (PUT (memset s.mem s.mem_heap 0 48) (s.mem_heap + 52) 11) (s.mem_heap + 56) 0)
    (s.mem_heap + 60) 3, s.mem_heap + 56, s.mem_heap, s.mem_heap, s.mem_heap + 64,
    s.mem_max_addr⟩

/-- Whether the heap walk finds a free block of at least `asize` bytes. -/
def fits (s : State) (asize : Nat) : Bool :=
  match heap_blocks s with
  | some bs => bs.any (fun b => !b.al && decide (asize ≤ b.sz))
  | none => false

/-- The state an operation leaves (the state itself if the operation does not return). -/
def run_init (s : State) : State :=
  match mm_init s with
  | some r => r.2
  | none => s

/-- The result of `malloc` (`NULL` and the state itself if it does not return). -/
def run_malloc (s : State) (n : Nat) : Nat × State :=
  match malloc s n with
  | some r => r
  | none => (0, s)

/-- The result of `calloc`. -/
def run_calloc (s : State) (k z : Nat) : Nat × State :=
  match calloc s k z with
  | some r => r
  | none => (0, s)

/-- A fresh heap of one megabyte at address 4096. -/
def fresh_big : State := ⟨fun _ => 0, 0, 0, 4096, 4096, 1052672⟩

/-- A fresh heap that has room for the initial heap of `mm_init` only. -/
def fresh_small : State := ⟨fun _ => 0, 0, 0, 4096, 4096, 6208⟩

/-- The big heap after `mm_init`. -/
def big1 : State := run_init fresh_big

/-- The big heap after `mm_init` and `malloc(24)`, which returns `4160`. -/
def big2 : State := (run_malloc big1 24).2

/-- The small heap after `mm_init`. -/
def small1 : State := run_init fresh_small

/-- The small heap after `mm_init` and `malloc(24)`, which returns `4160`. -/
def small2 : State := (run_malloc small1 24).2

/-- The state in which `place` leaves the heap when it is asked for 8 bytes in
the free block `f` of at least 24 bytes, which happens for a request size whose
adjustment wraps around: at `f.bp` there is an allocated block of 8 bytes, too
small for a block of the block list, and behind it a free remainder that is in
its class list.  `bl` is the block list before the call, `L1` are its class
lists without `f`. -/
structure Split8 (s : State) (bl : List Blk) (L1 : Nat → List Nat) (f : Blk) : Prop where
  geo : Geo s
  shape : Shape s.mem_heap s.mem_brk bl
  fm : f ∈ bl
  ff : f.al = false
  f24 : 24 ≤ f.sz
  hdrs : ∀ b ∈ bl, b ≠ f → GET s.mem (b.bp - 4) = hdr_word b ∧
    (b.al = false → GET s.mem (b.bp + b.sz - 8) = hdr_word b)
  head : GET s.mem (f.bp - 4) = 11
  rest : GET s.mem (f.bp + 4) = f.sz - 8 + 2
  lists : ∃ P S, L1 (class_index (f.sz - 8)) = P ++ S ∧
    Lists s.mem s.mem_heap (s.mem_heap + 56)
      (Function.update L1 (class_index (f.sz - 8)) (P ++ (f.bp + 8 - (s.mem_heap + 56)) :: S))
  nodes : Nodes (s.mem_heap + 56) bl L1 (fun p => p = f.bp)
  noadj : NoAdj bl (fun _ => False)

/-- What `malloc` does when the adjusted size wrapped around to 0: it returns
the pointer of a free block and leaves the block free. -/
def MallocFree (s : State) (bl : List Blk) (p : Nat) (s' : State) : Prop :=
  ∃ bl' L' f, Rep s' bl' L' ∧ s'.mem_heap = s.mem_heap ∧ s.mem_brk ≤ s'.mem_brk ∧
    allocs bl' = allocs bl ∧ f ∈ bl' ∧ f.al = false ∧ f.bp = p ∧
    Unchanged s.mem s'.mem (MayChange s.mem_heap s.mem_brk bl 0) ∧
    (f ∈ bl ∨ p = s.mem_brk)

/-- What `malloc` does when the adjusted size wrapped around to 8 and the free
block it takes has at least 24 bytes: it splits off an allocated block of 8
bytes. -/
def MallocTiny (s : State) (bl : List Blk) (p : Nat) (s' : State) : Prop :=
  ∃ bl' L1 f, Split8 s' bl' L1 f ∧ s'.mem_heap = s.mem_heap ∧ s.mem_brk ≤ s'.mem_brk ∧
    allocs bl' = allocs bl ∧ f.bp = p ∧
    Unchanged s.mem s'.mem (MayChange s.mem_heap s.mem_brk bl 0) ∧
    (f ∈ bl ∨ p = s.mem_brk)

/-- The state `free` leaves (the state itself if `free` does not return). -/
def run_free (s : State) (p : Nat) : State :=
  match free s p with
  | some r => r
  | none => s

/-- The big heap after `mm_init` and `malloc(40)`, which returns `4160`, a
block of 48 bytes. -/
def ord1 : State := (run_malloc big1 40).2

/-- The heap `ord1` after `malloc(24)`, which returns `4208`. -/
def ord2 : State := (run_malloc ord1 24).2

/-- The heap `ord2` after `malloc(24)`, which returns `4240`, a block of 32 bytes. -/
def ord3 : State := (run_malloc ord2 24).2

/-- The heap `ord3` after `malloc(24)`, which returns `4272`. -/
def ord4 : State := (run_malloc ord3 24).2

/-- The heap `ord4` after `free(4160)`. -/
def ord5 : State := run_free ord4 4160

/-- The heap `ord5` after `free(4240)`: the blocks at `4160` (48 bytes) and
at `4240` (32 bytes) are free, with allocated blocks around them. -/
def ord6 : State := run_free ord5 4240

/-- The big heap after `mm_init` and `malloc(300)`, which returns `4160`. -/
def big300 : State := (run_malloc big1 300).2

/-- The big heap after `mm_init` and `malloc(2^64 - 3)`, which returns `4160`. -/
def wrap8 : State := (run_malloc big1 18446744073709551613).2

/-- The state in which `free(bp)` calls `coalesce`: the header and the footer
of the block mark it free, and the prev_alloc bit of the following block (in
its header, and in its footer if it is free) is cleared. -/
def free_pending (s : State) (bp : Nat) : State :=
  let size := GET_SIZE s.mem (HDRP bp)
  let prev_alloc := GET_PREV_ALLOC s.mem (HDRP bp)
  let s1 := s.put (HDRP bp) (PACK size prev_alloc FREE)
  let s2 := s1.put (FTRP s1.mem bp) (PACK size prev_alloc FREE)
  let next_size := GET_SIZE s2.mem (HDRP (NEXT_BLKP s2.mem bp))
  let next_alloc := GET_ALLOC s2.mem (HDRP (NEXT_BLKP s2.mem bp))
  let s3 := s2.put (HDRP (NEXT_BLKP s2.mem bp)) (PACK next_size PREV_FREE next_alloc)
  if next_alloc = 0 then
    s3.put (FTRP s3.mem (NEXT_BLKP s3.mem bp)) (PACK next_size PREV_FREE next_alloc)
  else s3

/-- The big heap after `mm_init` and `malloc(24)`, in the state in which
`free(4160)` calls `coalesce`. -/
def pend2 : State := free_pending big2 4160

/-- The blocks of `pend2`: the prologue, the block at `4160` marked free, its
free successor and the epilogue header. -/
def pend2_blocks : List Blk :=
  [⟨4152, 8, true, true⟩, ⟨4160, 32, false, true⟩, ⟨4192, 2016, false, false⟩,
    ⟨6208, 0, true, false⟩]

/-- The class lists of `pend2`: the block at `4192` (offset 40) is in list 6. -/
def pend2_lists (i : Nat) : List Nat := if i = 6 then [40] else []

/-! # The baseline allocator `backup.c`

`backup.c` is embedded like `mm.c`.  Its macros `GET`, `PUT`, `GET_SIZE`,
`GET_ALLOC`, `HDRP`, `FTRP`, `NEXT_BLKP` and `PREV_BLKP` are those of `mm.c`
(`PUT` stores the low 32 bits of its argument); the definitions above are used
for them.  Every block has a header and a footer here, and a header holds
`PACK(size, alloc)`. -/

namespace Backup

/-- `CHUNKSIZE`: `1 << 14`. -/
abbrev CHUNKSIZE : Nat := 16384

/-- `CLASS_NUM`, the number of free lists. -/
abbrev CLASS_NUM : Nat := 11

/-- `ALIGN(p)`: `((size_t)(p) + (ALIGNMENT - 1)) & ~0x7`, in `size_t`. -/
def ALIGN (p : Nat) : Nat := ((p + (ALIGNMENT - 1)) % SIZE_MOD) &&& 18446744073709551608

/-- `PACK(size, alloc)`. -/
def PACK (size alloc : Nat) : Nat := size ||| alloc

/-- The globals of `backup.c` (`heap_listp`, `heap_start`), the heap memory,
and the state of the heap primitive. -/
structure State where
  mem : Mem
  heap_listp : Nat
  heap_start : Nat
  mem_heap : Nat
  mem_brk : Nat
  mem_max_addr : Nat

/-- Store a word. -/
def State.put (s : State) (p v : Nat) : State := { s with mem := PUT s.mem p v }

/-- Modelled from the spec: the heap primitive `mem_sbrk` is not part of the
sources.  "`extend(n)` grows the heap by exactly `n` bytes and returns the old
break", extensions are contiguous, and it answers `(void *)-1` when it refuses;
a refusal leaves the heap as it is. -/
def mem_sbrk (s : State) (incr : Nat) : Nat × State :=
  if s.mem_brk + incr > s.mem_max_addr then (MINUS_ONE, s)
  else (s.mem_brk, { s with mem_brk := s.mem_brk + incr })

/-- `GET_LINK_FIRST(index)`: `heap_start + GET(heap_start + index * WSIZE)`. -/
def GET_LINK_FIRST (s : State) (index : Nat) : Nat :=
  s.heap_start + GET s.mem (s.heap_start + index * WSIZE)

/-- `GET_LINK_PRED(bp)`: `heap_start + GET(bp)`. -/
def GET_LINK_PRED (s : State) (bp : Nat) : Nat := s.heap_start + GET s.mem bp

/-- `GET_LINK_SUCC(bp)`: `heap_start + GET(bp + WSIZE)`. -/
def GET_LINK_SUCC (s : State) (bp : Nat) : Nat := s.heap_start + GET s.mem (bp + WSIZE)

/-- Bound on the number of iterations of a list traversal. -/
def fuel (s : State) : Nat := s.mem_brk - s.mem_heap

/-- `search(asize)`: the index of the free list for a size. -/
def search (asize : Nat) : Nat :=
  if asize ≤ 32 then 0
  else if asize ≤ 64 then 1
  else if asize ≤ 80 then 2
  else if asize ≤ 96 then 3
  else if asize ≤ 128 then 4
  else if asize ≤ 256 then 5
  else if asize ≤ 512 then 6
  else if asize ≤ 1024 then 7
  else if asize ≤ 2048 then 8
  else if asize ≤ 4096 then 9
  else 10

/-- The loop `while (GET_LINK_SUCC(cur) != heap_start)` of `insert`, with the
stores that end it. -/
def insert_loop : Nat → State → Nat → Nat → Nat → Option State
  | 0, _, _, _, _ => none
  | k + 1, s, bp, size, cur =>
    if GET_LINK_SUCC s cur ≠ s.heap_start then
      let next := GET_LINK_SUCC s cur
      if size ≤ GET_SIZE s.mem (HDRP next) then
        some ((((s.put (cur + WSIZE) bp).put bp cur).put (bp + WSIZE) next).put next bp)
      else insert_loop k s bp size next
    else some (((s.put (cur + WSIZE) bp).put bp cur).put (bp + WSIZE) 0)

/-- `insert(bp)`. -/
def insert (s : State) (bp : Nat) : Option State :=
  let size := GET_SIZE s.mem (HDRP bp)
  let index := search size
  let first := GET_LINK_FIRST s index
  if first = s.heap_start then
    some (((s.put bp 0).put (bp + WSIZE) 0).put (s.heap_start + index * WSIZE) bp)
  else insert_loop (fuel s) s bp size first

/-- `delete(bp)`. -/
def delete (s : State) (bp : Nat) : State :=
  if GET_LINK_PRED s bp = s.heap_start ∧ GET_LINK_SUCC s bp = s.heap_start then
    s.put (s.heap_start + search (GET_SIZE s.mem (HDRP bp)) * WSIZE) 0
  else if GET_LINK_PRED s bp ≠ s.heap_start ∧ GET_LINK_SUCC s bp ≠ s.heap_start then
    let s1 := s.put (GET_LINK_PRED s bp + WSIZE) (GET_LINK_SUCC s bp)
    s1.put (GET_LINK_SUCC s1 bp) (GET_LINK_PRED s1 bp)
  else if GET_LINK_PRED s bp = s.heap_start ∧ GET_LINK_SUCC s bp ≠ s.heap_start then
    let s1 := s.put (s.heap_start + search (GET_SIZE s.mem (HDRP bp)) * WSIZE)
      (GET_LINK_SUCC s bp)
    s1.put (GET_LINK_SUCC s1 bp) 0
  else if GET_LINK_PRED s bp ≠ s.heap_start ∧ GET_LINK_SUCC s bp = s.heap_start then
    let s1 := s.put (GET_LINK_PRED s bp + WSIZE) 0
    s1.put (GET_LINK_SUCC s1 bp) 0
  else s.put (s.heap_start + search (GET_SIZE s.mem (HDRP bp)) * WSIZE) 0

/-- `coalesce(bp)`; the sums of sizes are computed in `unsigned int`. -/
def coalesce (s : State) (bp : Nat) : Option (Nat × State) :=
  let prev_alloc := GET_ALLOC s.mem (FTRP s.mem (PREV_BLKP s.mem bp))
  let next_alloc := GET_ALLOC s.mem (HDRP (NEXT_BLKP s.mem bp))
  if prev_alloc ≠ 0 ∧ next_alloc ≠ 0 then
    (insert s bp).map (fun s1 => (bp, s1))
  else if prev_alloc = 0 ∧ next_alloc ≠ 0 then
    let s1 := delete s (PREV_BLKP s.mem bp)
    let size := (GET_SIZE s1.mem (HDRP bp) + GET_SIZE s1.mem (HDRP (PREV_BLKP s1.mem bp)))
      % 4294967296
    let s2 := s1.put (FTRP s1.mem bp) (PACK size 0)
    let s3 := s2.put (HDRP (PREV_BLKP s2.mem bp)) (PACK size 0)
    (insert s3 (PREV_BLKP s3.mem bp)).map (fun s4 => (PREV_BLKP s4.mem bp, s4))
  else if prev_alloc ≠ 0 ∧ next_alloc = 0 then
    let s1 := delete s (NEXT_BLKP s.mem bp)
    let size := (GET_SIZE s1.mem (HDRP bp) + GET_SIZE s1.mem (HDRP (NEXT_BLKP s1.mem bp)))
      % 4294967296
    let s2 := s1.put (HDRP bp) (PACK size 0)
    let s3 := s2.put (FTRP s2.mem bp) (PACK size 0)
    (insert s3 bp).map (fun s4 => (bp, s4))
  else
    let s1 := delete s (PREV_BLKP s.mem bp)
    let s2 := delete s1 (NEXT_BLKP s1.mem bp)
    let size := (GET_SIZE s2.mem (HDRP bp) + GET_SIZE s2.mem (HDRP (PREV_BLKP s2.mem bp))
      + GET_SIZE s2.mem (HDRP (NEXT_BLKP s2.mem bp))) % 4294967296
    let s3 := s2.put (HDRP (PREV_BLKP s2.mem bp)) (PACK size 0)
    let s4 := s3.put (FTRP s3.mem (NEXT_BLKP s3.mem bp)) (PACK size 0)
    let s5 := s4.put (PREV_BLKP s4.mem bp) 0
    let s6 := s5.put (PREV_BLKP s5.mem bp + WSIZE) 0
    (insert s6 (PREV_BLKP s6.mem bp)).map (fun s7 => (PREV_BLKP s7.mem bp, s7))

/-- `extend_heap(words)`; the result pointer is `0` (`NULL`) on failure. -/
def extend_heap (s : State) (words : Nat) : Option (Nat × State) :=
  let size := (if words % 2 ≠ 0 then (words + 1) * WSIZE else words * WSIZE) % SIZE_MOD
  let r := mem_sbrk s size
  let bp := r.1
  let s0 := r.2
  if bp = MINUS_ONE then some (0, s0)
  else
    let s1 := s0.put (HDRP bp) (PACK size 0)
    let s2 := s1.put (FTRP s1.mem bp) (PACK size 0)
    let s3 := s2.put (HDRP (NEXT_BLKP s2.mem bp)) (PACK 0 1)
    coalesce s3 bp

/-- `place(bp, asize)`; the first component is the pointer it returns. -/
def place (s : State) (bp asize : Nat) : Option (Nat × State) :=
  let block_size := GET_SIZE s.mem (HDRP bp)
  let rest_size := (block_size + SIZE_MOD - asize) % SIZE_MOD
  let s0 := if GET_ALLOC s.mem (HDRP bp) = 0 then delete s bp else s
  if rest_size ≥ 2 * DSIZE then
    if asize < 256 then
      let s1 := s0.put (HDRP bp) (PACK asize 1)
      let s2 := s1.put (FTRP s1.mem bp) (PACK asize 1)
      let s3 := s2.put (HDRP (NEXT_BLKP s2.mem bp)) (PACK rest_size 0)
      let s4 := s3.put (FTRP s3.mem (NEXT_BLKP s3.mem bp)) (PACK rest_size 0)
      (coalesce s4 (NEXT_BLKP s4.mem bp)).map (fun r => (bp, r.2))
    else
      let s1 := s0.put (HDRP bp) (PACK rest_size 0)
      let s2 := s1.put (FTRP s1.mem bp) (PACK rest_size 0)
      let s3 := s2.put (HDRP (NEXT_BLKP s2.mem bp)) (PACK asize 1)
      let s4 := s3.put (FTRP s3.mem (NEXT_BLKP s3.mem bp)) (PACK asize 1)
      (coalesce s4 bp).map (fun r => (NEXT_BLKP r.2.mem bp, r.2))
  else
    let s1 := s0.put (HDRP bp) (PACK block_size 1)
    let s2 := s1.put (FTRP s1.mem bp) (PACK block_size 1)
    some (bp, s2)

/-- The inner loop of `find_fit` over one list; the answer `heap_start` means
that the list has no block of at least `asize` bytes. -/
def fit_loop : Nat → State → Nat → Nat → Option Nat
  | 0, _, _, _ => none
  | k + 1, s, cur, asize =>
    if cur ≠ s.heap_start then
      if GET_SIZE s.mem (HDRP cur) ≥ asize then some cur
      else fit_loop k s (GET_LINK_SUCC s cur) asize
    else some s.heap_start

/-- The loop `for (i = search(asize); i < CLASS_NUM; i++)` of `find_fit`, at
most `CLASS_NUM` rounds, which is the first argument. -/
def class_scan : Nat → State → Nat → Nat → Option Nat
  | 0, _, _, _ => some 0
  | k + 1, s, i, asize =>
    if i < CLASS_NUM then
      match fit_loop (fuel s) s (GET_LINK_FIRST s i) asize with
      | none => none
      | some cur => if cur ≠ s.heap_start then some cur else class_scan k s (i + 1) asize
    else some 0

/-- `find_fit(asize)`; `0` is `NULL`. -/
def find_fit (s : State) (asize : Nat) : Option Nat :=
  class_scan CLASS_NUM s (search asize) asize

/-- The loop `for (i = 0; i < CLASS_NUM; i++) PUT(heap_listp + i * WSIZE, NULL)`
of `mm_init`, for the first `k` slots. -/
def clear_heads : Nat → State → State
  | 0, s => s
  | k + 1, s => (clear_heads k s).put (s.heap_listp + k * WSIZE) 0

/-- `mm_init()`; the first component is the return value (`0` or `-1`). -/
def mm_init (s : State) : Option (Int × State) :=
  let r := mem_sbrk s ((CLASS_NUM + 3) * WSIZE)
  let s1 : State := { r.2 with heap_listp := r.1 }
  if s1.heap_listp = MINUS_ONE then some (-1, s1)
  else
    let s2 := clear_heads CLASS_NUM s1
    let s3 := s2.put (s2.heap_listp + CLASS_NUM * WSIZE) (PACK DSIZE 1)
    let s4 := s3.put (s3.heap_listp + (CLASS_NUM + 1) * WSIZE) (PACK DSIZE 1)
    let s5 := s4.put (s4.heap_listp + (CLASS_NUM + 2) * WSIZE) (PACK 0 1)
    let s6 : State := { s5 with heap_start := s5.heap_listp }
    let s7 : State := { s6 with heap_listp := s6.heap_listp + (CLASS_NUM + 1) * WSIZE }
    match extend_heap s7 (CHUNKSIZE / WSIZE) with
    | none => none
    | some (bp, s8) => if bp = 0 then some (-1, s8) else some (0, s8)

/-- `malloc(size)`; the first component is the returned pointer (`0` is `NULL`). -/
def malloc (s : State) (size : Nat) : Option (Nat × State) :=
  match (if s.heap_start = 0 then (mm_init s).map Prod.snd else some s) with
  | none => none
  | some s0 =>
    if size = 0 then some (0, s0)
    else
      let asize := ALIGN ((size + WSIZE) % SIZE_MOD)
      match find_fit s0 asize with
      | none => none
      | some bp =>
        if bp ≠ 0 then place s0 bp asize
        else
          let extendsize := max asize CHUNKSIZE
          match extend_heap s0 (extendsize / WSIZE) with
          | none => none
          | some (bp, s1) => if bp = 0 then some (0, s1) else place s1 bp asize

/-- `free(ptr)`. -/
def free (s : State) (ptr : Nat) : Option State :=
  if ptr = 0 then some s
  else
    let size := GET_SIZE s.mem (HDRP ptr)
    let s1 := s.put (HDRP ptr) (PACK size 0)
    let s2 := s1.put (FTRP s1.mem ptr) (PACK size 0)
    (coalesce s2 ptr).map Prod.snd

/-- The traversal `for (cur = GET_LINK_FIRST(i); cur != heap_start;
cur = GET_LINK_SUCC(cur))` of one free list, as in `mm_checkheap`, collecting
the blocks it visits. -/
def list_walk : Nat → State → Nat → Option (List Nat)
  | 0, _, _ => none
  | k + 1, s, cur =>
    if cur ≠ s.heap_start then (list_walk k s (GET_LINK_SUCC s cur)).map (fun l => cur :: l)
    else some []

/-- The blocks of free list `i`, from its head on. -/
def class_list (s : State) (i : Nat) : Option (List Nat) :=
  list_walk (fuel s) s (GET_LINK_FIRST s i)

/-- The loop `for (cur = NEXT_BLKP(heap_listp); in_heap(cur); cur = NEXT_BLKP(cur))`
of `mm_checkheap`, collecting the blocks it visits; `in_heap(p)` is
`mem_heap_lo() <= p <= mem_heap_hi()`. -/
def walk : Nat → State → Nat → Option (List Blk)
  | 0, _, _ => none
  | k + 1, s, cur =>
    if s.mem_heap ≤ cur ∧ cur ≤ s.mem_brk - 1 then
      (walk k s (NEXT_BLKP s.mem cur)).map (fun l => blk_at s.mem cur :: l)
    else some []

/-- The blocks of the heap behind the prologue, in address order. -/
def heap_blocks (s : State) : Option (List Blk) :=
  walk (fuel s) s (NEXT_BLKP s.mem s.heap_listp)

/-- The state an operation leaves (the state itself if the operation does not return). -/
def run_init (s : State) : State :=
  match mm_init s with
  | some r => r.2
  | none => s

/-- The result of `malloc` (`NULL` and the state itself if it does not return). -/
def run_malloc (s : State) (n : Nat) : Nat × State :=
  match malloc s n with
  | some r => r
  | none => (0, s)

/-- The state `free` leaves (the state itself if `free` does not return). -/
def run_free (s : State) (p : Nat) : State :=
  match free s p with
  | some r => r
  | none => s

/-- A fresh heap of one megabyte at address `0x800000000`. -/
def fresh : State := ⟨fun _ => 0, 0, 0, 34359738368, 34359738368, 34360786944⟩

/-- The heap after `mm_init`: one free block of 16384 bytes at offset 56. -/
def init1 : State := run_init fresh

/-- The heap after `mm_init` and `malloc(1)`, which returns the block at offset 56. -/
def tiny : State := (run_malloc init1 1).2

/-- The heap `init1` after `malloc(9000)`, which returns the block at offset 7432. -/
def tail1 : State := (run_malloc init1 9000).2

/-- The heap `tail1` after `malloc(20)`, which returns the block at offset 56. -/
def tail2 : State := (run_malloc tail1 20).2

/-- The heap `tail2` after `malloc(20)`, which returns the block at offset 80. -/
def tail3 : State := (run_malloc tail2 20).2

/-- The heap `tail3` after `malloc(300)`, which returns the block at offset 7128. -/
def tail4 : State := (run_malloc tail3 300).2

/-- The heap `tail4` after `free` of the block at offset 7432. -/
def tail5 : State := run_free tail4 34359745800

/-- The heap `tail5` after `free` of the block at offset 56: list 0 holds the
block at offset 56, and list 10 holds the block at offset 104 (of 7024 bytes)
followed by the block at offset 7432 (of 9008 bytes). -/
def tail6 : State := run_free tail5 34359738424

/-- The heap `init1` after `malloc(20)`, which returns the block at offset 56. -/
def gap1 : State := (run_malloc init1 20).2

/-- The heap `gap1` after `malloc(200)`, which returns the block at offset 80. -/
def gap2 : State := (run_malloc gap1 200).2

/-- The heap `gap2` after `malloc(200)`, which returns the block at offset 288. -/
def gap3 : State := (run_malloc gap2 200).2

/-- The heap `gap3` after `malloc(20)`, which returns the block at offset 496. -/
def gap4 : State := (run_malloc gap3 20).2

/-- The heap `gap4` after `free` of the block at offset 80. -/
def gap5 : State := run_free gap4 34359738448

/-- The heap `gap5` after `free` of the block at offset 288: the block at
offset 80 is free, of 416 bytes, between two allocated blocks of 24 bytes. -/
def gap6 : State := run_free gap5 34359738656

/-- The blocks of `gap6`, the prologue and the epilogue header included; the
field `pa` of a block says whether the block before it is allocated (`backup.c`
does not store that bit). -/
def gap6_blocks : List Blk :=
  [⟨34359738416, 8, true, true⟩, ⟨34359738424, 24, true, true⟩,
    ⟨34359738448, 416, false, true⟩, ⟨34359738864, 24, true, false⟩,
    ⟨34359738888, 15920, false, true⟩, ⟨34359754808, 0, true, false⟩]

/-- The free lists of `gap6`, as offsets from `heap_start`. -/
def gap6_lists (i : Nat) : List Nat := if i = 6 then [80] else if i = 10 then [520] else []

/-- Size and position constraints of one block of `backup.c`; the block at
`lo + 56` is the prologue, a block of size 0 is the epilogue header.  A free
block has at least 16 bytes (header, two links, footer); for an allocated block
nothing but a multiple of 8 is asked, so that the blocks of 8 bytes that
`malloc` carves for small requests are blocks. -/
def BlockOK (lo brk : Nat) (b : Blk) : Prop :=
  b.bp % 8 = 0 ∧ b.sz % 8 = 0 ∧ lo + 56 ≤ b.bp ∧ b.bp + b.sz ≤ brk ∧
  (b.bp = lo + 56 → b.sz = 8 ∧ b.al = true) ∧ (b.sz = 0 → b.al = true) ∧
  (b.al = false → 16 ≤ b.sz)

/-- The block list `bl` (prologue, blocks, epilogue header) tiles the heap. -/
structure Layout (lo brk : Nat) (bl : List Blk) : Prop where
  contig : Contig (lo + 56) true bl brk true
  ok : ∀ b ∈ bl, BlockOK lo brk b
  last : ∃ body e, bl = body ++ [e] ∧ e.sz = 0 ∧ ∀ b ∈ body, b.sz ≠ 0

/-- A heap of `backup.c` that is well formed: `heap_start` is a multiple of
`2^32` (the links are stored as the low 32 bits of addresses), the block list
`bl` (prologue, blocks, epilogue header) tiles the heap behind the head slots,
every block has its header and its footer, and the free lists `L`, given as
offsets from `heap_start`, are doubly linked and hold free blocks only, each in
the list of its size.  A free block need not be in a list, and an allocated
block may have 8 bytes only. -/
structure Rep (s : State) (bl : List Blk) (L : Nat → List Nat) : Prop where
  base : s.heap_start % 4294967296 = 0
  pos : 8 ≤ s.heap_start
  lo : s.mem_heap = s.heap_start
  hi : s.mem_brk ≤ s.heap_start + 4294967296
  shape : Layout (s.heap_start - 8) s.mem_brk bl
  hdrs : ∀ b ∈ bl, GET s.mem (b.bp - 4) = b.sz + flag b.al 1 ∧
    (b.sz ≠ 0 → GET s.mem (b.bp + b.sz - 8) = b.sz + flag b.al 1)
  lists : ∀ i, i < 11 →
    SC s.mem s.heap_start (GET s.mem (s.heap_start + 4 * i)) (L i) 0 ∧
      PC s.mem s.heap_start 0 (L i)
  nodes : (∀ i, (L i).Nodup) ∧
    ∀ i x, x ∈ L i → ∃ b ∈ bl, b.al = false ∧ b.bp = s.heap_start + x ∧ search b.sz = i

/-- The heap after `mm_init` and `malloc(12)`, which returns the block at offset 56. -/
def twelve : State := (run_malloc init1 12).2

/-- The heap `tail6` after `malloc(8000)`, which returns the block at offset
8432: the free block at offset 56 is in no list any more. -/
def tail7 : State := (run_malloc tail6 8000).2

/-- The blocks of `tiny`, the prologue and the epilogue header included. -/
def tiny_blocks : List Blk :=
  [⟨34359738416, 8, true, true⟩, ⟨34359738424, 8, true, true⟩,
    ⟨34359738432, 16376, false, true⟩, ⟨34359754808, 0, true, false⟩]

/-- The free lists of `tiny`, as offsets from `heap_start`. -/
def tiny_lists (i : Nat) : List Nat := if i = 10 then [64] else []

end Backup

/-! ## Runs of `mm.c` with a request size that wraps -/

/-- The heap `wrap8` after `malloc(24)`, which returns the block at 4168. -/
def adj2 : State := (run_malloc wrap8 24).2

/-- The heap `adj2` after `malloc(1)`, which returns the block at 4200. -/
def adj3 : State := (run_malloc adj2 1).2

/-- The heap `adj3` after `malloc(100)`, which returns the block at 4216. -/
def adj4 : State := (run_malloc adj3 100).2

/-- The heap `adj4` after `free` of the block of 8 bytes at 4160. -/
def adj5 : State := run_free adj4 4160

/-- The heap `adj5` after `free` of the block of 16 bytes at 4200. -/
def adj6 : State := run_free adj5 4200

/-- The heap `adj2` after `free` of the block of 8 bytes at 4160. -/
def ftr3 : State := run_free adj2 4160

/-- The heap `adj2` after `malloc(13)`, which returns the block at 4200. -/
def bit3 : State := (run_malloc adj2 13).2

/-- The heap `bit3` after `malloc(100)`, which returns the block at 4224. -/
def bit4 : State := (run_malloc bit3 100).2

/-- The heap `bit4` after the user has stored the byte 11 at 4212, in the
payload of the block at 4200. -/
def bit5 : State := store_byte bit4 4212 11

/-- The heap `bit5` after `free` of the block of 8 bytes at 4160. -/
def bit6 : State := run_free bit5 4160

/-- The heap `bit6` after `free` of the block of 24 bytes at 4200. -/
def bit7 : State := run_free bit6 4200

/-- The heap after `mm_init` and `malloc(2^64 - 5)`, which returns 4160. -/
def self1 : State := (run_malloc big1 18446744073709551611).2

/-- The heap `self1` after `free` of the pointer 4160. -/
def self2 : State := run_free self1 4160

/-! # Theorems -/

/-! ## Words and bytes -/

theorem and_halve (a b : Nat) : a &&& b = 2 * (a / 2 &&& b / 2) + (a % 2) * (b % 2) := by
  have h1 := @Nat.and_div_two a b
  have h2 : (a &&& b) % 2 = (a % 2) * (b % 2) := by
    have := @Nat.and_mod_two_eq_one a b
    rcases Nat.mod_two_eq_zero_or_one a with ha | ha <;>
    rcases Nat.mod_two_eq_zero_or_one b with hb | hb <;>
    rcases Nat.mod_two_eq_zero_or_one (a &&& b) with hc | hc <;>
    simp_all
  omega

theorem and_mask8 (x : Nat) (h : x < 4294967296) : x &&& 4294967288 = x - x % 8 := by
  rw [and_halve x, and_halve (x / 2), and_halve (x / 2 / 2)]
  have h3 : x / 2 / 2 / 2 &&& 4294967288 / 2 / 2 / 2 = x / 2 / 2 / 2 := by
    have h4 := Nat.and_pow_two_sub_one_eq_mod (x / 2 / 2 / 2) 29
    norm_num at h4 ⊢
    rw [h4]; omega
  rw [h3]; omega

theorem and_two (x : Nat) : x &&& 2 = 2 * (x / 2 % 2) := by
  rw [and_halve x]; simp

theorem or_low (a b : Nat) (ha : a % 8 = 0) (hb : b < 8) : a ||| b = a + b := by
  have h := Nat.mul_add_lt_is_or (i := 3) (b := b) (by simpa using hb) (a / 8)
  have e : 2 ^ 3 * (a / 8) = a := by omega
  rw [e] at h; exact h.symm

theorem PACK_eq (sz p a : Nat) (h : sz % 8 = 0) (hp : p = 0 ∨ p = 2) (ha : a = 0 ∨ a = 1) :
    PACK sz p a = sz + p + a := by
  unfold PACK
  have h1 : sz ||| p = sz + p := or_low sz p h (by omega)
  have h2 : p ||| a = p + a := by
    rcases hp with rfl | rfl <;> rcases ha with rfl | rfl <;> rfl
  rw [Nat.or_assoc, h2, or_low sz (p + a) h (by omega)]; omega

theorem byte_val (v : Nat) : (byte v).val = v % 256 := rfl

theorem GET_lt (m : Mem) (p : Nat) : GET m p < 4294967296 := by
  unfold GET
  have h0 := (m p).isLt
  have h1 := (m (p + 1)).isLt
  have h2 := (m (p + 2)).isLt
  have h3 := (m (p + 3)).isLt
  omega

theorem GET_PUT_same (m : Mem) (p v : Nat) (h : v < 4294967296) : GET (PUT m p v) p = v := by
  unfold GET PUT
  simp [byte_val]
  omega

theorem PUT_other (m : Mem) (p v a : Nat) (h : a < p ∨ p + 4 ≤ a) : PUT m p v a = m a := by
  unfold PUT
  have h0 : a ≠ p := by omega
  have h1 : a ≠ p + 1 := by omega
  have h2 : a ≠ p + 2 := by omega
  have h3 : a ≠ p + 3 := by omega
  simp [h0, h1, h2, h3]

theorem GET_congr (m m' : Mem) (p : Nat) (h : ∀ a, p ≤ a → a < p + 4 → m' a = m a) :
    GET m' p = GET m p := by
  unfold GET
  rw [h p (by omega) (by omega), h (p + 1) (by omega) (by omega),
    h (p + 2) (by omega) (by omega), h (p + 3) (by omega) (by omega)]

theorem GET_PUT_other (m : Mem) (p v q : Nat) (h : q + 4 ≤ p ∨ p + 4 ≤ q) :
    GET (PUT m p v) q = GET m q :=
  GET_congr _ _ _ (fun a h1 h2 => PUT_other m p v a (by omega))

/-- Reading the three fields back from a header word. -/
theorem word_size (sz p a : Nat) (h : sz % 8 = 0) (hp : p = 0 ∨ p = 2) (ha : a = 0 ∨ a = 1)
    (hlt : sz + p + a < 4294967296) : (sz + p + a) &&& 4294967288 = sz := by
  rw [and_mask8 _ hlt]; omega

theorem word_prev (sz p a : Nat) (h : sz % 8 = 0) (hp : p = 0 ∨ p = 2) (ha : a = 0 ∨ a = 1) :
    (sz + p + a) &&& 2 = p := by
  rw [and_two]; omega

theorem word_alloc (sz p a : Nat) (h : sz % 8 = 0) (hp : p = 0 ∨ p = 2) (ha : a = 0 ∨ a = 1) :
    (sz + p + a) &&& 1 = a := by
  rw [Nat.and_one_is_mod]; omega

/-! ## Block lists -/

theorem Contig_append (X Y : List Blk) : ∀ (p : Nat) (pa : Bool) (e : Nat) (la : Bool),
    Contig p pa (X ++ Y) e la ↔ ∃ q qa, Contig p pa X q qa ∧ Contig q qa Y e la := by
  induction X with
  | nil =>
    intro p pa e la
    constructor
    · intro h; exact ⟨p, pa, ⟨rfl, rfl⟩, h⟩
    · rintro ⟨q, qa, ⟨rfl, rfl⟩, h⟩; exact h
  | cons b X ih =>
    intro p pa e la
    show (b.bp = p ∧ b.pa = pa ∧ Contig (p + b.sz) b.al (X ++ Y) e la) ↔
      ∃ q qa, (b.bp = p ∧ b.pa = pa ∧ Contig (p + b.sz) b.al X q qa) ∧ Contig q qa Y e la
    rw [ih]
    constructor
    · rintro ⟨h1, h2, q, qa, h3, h4⟩; exact ⟨q, qa, ⟨h1, h2, h3⟩, h4⟩
    · rintro ⟨q, qa, ⟨h1, h2, h3⟩, h4⟩; exact ⟨h1, h2, q, qa, h3, h4⟩

theorem Contig_le (bl : List Blk) : ∀ (p : Nat) (pa : Bool) (e : Nat) (la : Bool),
    Contig p pa bl e la → p ≤ e := by
  induction bl with
  | nil => intro p pa e la h; exact le_of_eq h.1
  | cons b bl ih =>
    intro p pa e la h
    have := ih _ _ _ _ h.2.2
    omega

theorem Contig_bounds (bl : List Blk) : ∀ (p : Nat) (pa : Bool) (e : Nat) (la : Bool),
    Contig p pa bl e la → ∀ b ∈ bl, p ≤ b.bp ∧ b.bp + b.sz ≤ e := by
  induction bl with
  | nil => intro p pa e la _ b hb; simp at hb
  | cons c bl ih =>
    intro p pa e la h b hb
    obtain ⟨h1, _, h3⟩ := h
    rcases List.mem_cons.1 hb with rfl | hb
    · have := Contig_le _ _ _ _ _ h3
      omega
    · have := ih _ _ _ _ h3 b hb
      omega

theorem Contig_pairwise (bl : List Blk) : ∀ (p : Nat) (pa : Bool) (e : Nat) (la : Bool),
    Contig p pa bl e la → bl.Pairwise (fun b c => b.bp + b.sz ≤ c.bp) := by
  induction bl with
  | nil => intro _ _ _ _ _; exact List.Pairwise.nil
  | cons c bl ih =>
    intro p pa e la h
    obtain ⟨h1, _, h3⟩ := h
    refine List.Pairwise.cons ?_ (ih _ _ _ _ h3)
    intro b hb
    have := (Contig_bounds _ _ _ _ _ h3 b hb).1
    omega

/-- Two blocks of a tiling are the same block or do not overlap. -/
theorem Contig_sep {bl : List Blk} {p : Nat} {pa : Bool} {e : Nat} {la : Bool}
    (h : Contig p pa bl e la) {b c : Blk} (hb : b ∈ bl) (hc : c ∈ bl) :
    b = c ∨ b.bp + b.sz ≤ c.bp ∨ c.bp + c.sz ≤ b.bp := by
  by_cases hbc : b = c
  · exact Or.inl hbc
  · right
    have hp := Contig_pairwise _ _ _ _ _ h
    have hs : bl.Pairwise (fun b c => b.bp + b.sz ≤ c.bp ∨ c.bp + c.sz ≤ b.bp) :=
      hp.imp (fun h => Or.inl h)
    exact hs.forall (fun x y hxy => hxy.symm) hb hc hbc

theorem Contig_window {A W B : List Blk} {p : Nat} {pa : Bool} {e : Nat} {la : Bool}
    (h : Contig p pa (A ++ W ++ B) e la) :
    ∃ q qa r ra, Contig p pa A q qa ∧ Contig q qa W r ra ∧ Contig r ra B e la := by
  rw [List.append_assoc, Contig_append] at h
  obtain ⟨q, qa, h1, h2⟩ := h
  rw [Contig_append] at h2
  obtain ⟨r, ra, h2, h3⟩ := h2
  exact ⟨q, qa, r, ra, h1, h2, h3⟩

theorem Contig_join {A W B : List Blk} {p : Nat} {pa : Bool} {e : Nat} {la : Bool}
    {q : Nat} {qa : Bool} {r : Nat} {ra : Bool}
    (h1 : Contig p pa A q qa) (h2 : Contig q qa W r ra) (h3 : Contig r ra B e la) :
    Contig p pa (A ++ W ++ B) e la := by
  rw [List.append_assoc, Contig_append]
  refine ⟨q, qa, h1, ?_⟩
  rw [Contig_append]
  exact ⟨r, ra, h2, h3⟩

/-! ## Linked lists in memory -/

theorem SC_append (m : Mem) (hl : Nat) (X Y : List Nat) : ∀ (c e : Nat),
    SC m hl c (X ++ Y) e ↔ ∃ q, SC m hl c X q ∧ SC m hl q Y e := by
  induction X with
  | nil =>
    intro c e
    constructor
    · intro h; exact ⟨c, rfl, h⟩
    · rintro ⟨q, h1, h2⟩
      have h1 : c = q := h1
      subst h1; exact h2
  | cons x X ih =>
    intro c e
    show (c = x ∧ SC m hl (GET m (hl + x + 4)) (X ++ Y) e) ↔
      ∃ q, (c = x ∧ SC m hl (GET m (hl + x + 4)) X q) ∧ SC m hl q Y e
    rw [ih]
    constructor
    · rintro ⟨h1, q, h2, h3⟩; exact ⟨q, ⟨h1, h2⟩, h3⟩
    · rintro ⟨q, ⟨h1, h2⟩, h3⟩; exact ⟨h1, q, h2, h3⟩

theorem SC_head (m : Mem) (hl : Nat) (xs : List Nat) (c e : Nat) (h : SC m hl c xs e) :
    c = xs.headD e := by
  cases xs with
  | nil => exact h
  | cons x xs => exact h.1

theorem SC_frame (m m' : Mem) (hl : Nat) (xs : List Nat) : ∀ (c e : Nat),
    SC m hl c xs e → (∀ y ∈ xs, GET m' (hl + y + 4) = GET m (hl + y + 4)) → SC m' hl c xs e := by
  induction xs with
  | nil => intro c e h _; exact h
  | cons x xs ih =>
    intro c e h hf
    refine ⟨h.1, ?_⟩
    rw [hf x (List.mem_cons_self _ _)]
    exact ih _ _ h.2 (fun y hy => hf y (List.mem_cons_of_mem _ hy))

theorem SC_snoc (m : Mem) (hl : Nat) (X : List Nat) (a c e : Nat) :
    SC m hl c (X ++ [a]) e ↔ SC m hl c X a ∧ GET m (hl + a + 4) = e := by
  rw [SC_append]
  constructor
  · rintro ⟨q, h1, h2, h3⟩
    have h3 : GET m (hl + a + 4) = e := h3
    subst h2; exact ⟨h1, h3⟩
  · rintro ⟨h1, h2⟩; exact ⟨a, h1, rfl, h2⟩

theorem PC_append (m : Mem) (hl : Nat) (X Y : List Nat) : ∀ (p : Nat),
    PC m hl p (X ++ Y) ↔ PC m hl p X ∧ PC m hl (X.getLastD p) Y := by
  induction X with
  | nil => intro p; simp [PC]
  | cons x X ih =>
    intro p
    show (GET m (hl + x) = p ∧ PC m hl x (X ++ Y)) ↔
      (GET m (hl + x) = p ∧ PC m hl x X) ∧ PC m hl ((x :: X).getLastD p) Y
    rw [ih, List.getLastD_cons]
    tauto

theorem PC_frame (m m' : Mem) (hl : Nat) (xs : List Nat) : ∀ (p : Nat),
    PC m hl p xs → (∀ y ∈ xs, GET m' (hl + y) = GET m (hl + y)) → PC m' hl p xs := by
  induction xs with
  | nil => intro p h _; exact h
  | cons x xs ih =>
    intro p h hf
    refine ⟨?_, ih _ h.2 (fun y hy => hf y (List.mem_cons_of_mem _ hy))⟩
    rw [hf x (List.mem_cons_self _ _)]
    exact h.1

theorem A2O_add (s : State) (off : Nat) (h : off < 4294967296) :
    A2O s (off + s.heap_listp) = off := by
  unfold A2O; omega

theorem A2O_add' (s : State) (off : Nat) (h : off < 4294967296) :
    A2O s (s.heap_listp + off) = off := by
  unfold A2O; omega

theorem getLastD_mem (X : List Nat) (p : Nat) (h : X ≠ []) : X.getLastD p ∈ X := by
  induction X generalizing p with
  | nil => exact absurd rfl h
  | cons x X ih =>
    rw [List.getLastD_cons]
    cases X with
    | nil => simp
    | cons y Y => exact List.mem_cons_of_mem _ (ih x (by simp))

theorem eq_nil_or_snoc (l : List Nat) : l = [] ∨ ∃ X a, l = X ++ [a] := by
  rcases List.eq_nil_or_concat l with h | ⟨X, a, h⟩
  · exact Or.inl h
  · exact Or.inr ⟨X, a, by rw [h, List.concat_eq_append]⟩

theorem getLastD_snoc (X : List Nat) (a p : Nat) : (X ++ [a]).getLastD p = a := by
  induction X generalizing p with
  | nil => rfl
  | cons x X ih => rw [List.cons_append, List.getLastD_cons]; exact ih x

theorem GET_frame (m m' : Mem) (T : Nat → Prop) (r : Nat) (h : EqOutside m m' T)
    (hs : ∀ w, T w → r + 4 ≤ w ∨ w + 4 ≤ r) : GET m' r = GET m r :=
  GET_congr _ _ _ (fun a h1 h2 => h a (fun w hw => by have := hs w hw; omega))

theorem EqOutside_mono (m m' : Mem) (T T' : Nat → Prop) (h : EqOutside m m' T)
    (hT : ∀ w, T w → T' w) : EqOutside m m' T' :=
  fun a ha => h a (fun w hw => ha w (hT w hw))

theorem EqOutside_trans (m m' m'' : Mem) (T : Nat → Prop) (h : EqOutside m m' T)
    (h' : EqOutside m' m'' T) : EqOutside m m'' T :=
  fun a ha => (h' a ha).trans (h a ha)

@[simp]
theorem put_mem (s : State) (p v : Nat) : (s.put p v).mem = PUT s.mem p v := rfl
@[simp]
theorem put_heap_listp (s : State) (p v : Nat) : (s.put p v).heap_listp = s.heap_listp := rfl
@[simp]
theorem put_class_head (s : State) (p v : Nat) : (s.put p v).class_head = s.class_head := rfl
@[simp]
theorem put_mem_heap (s : State) (p v : Nat) : (s.put p v).mem_heap = s.mem_heap := rfl
@[simp]
theorem put_mem_brk (s : State) (p v : Nat) : (s.put p v).mem_brk = s.mem_brk := rfl
@[simp]
theorem put_mem_max_addr (s : State) (p v : Nat) :
    (s.put p v).mem_max_addr = s.mem_max_addr := rfl

theorem put_eq (s : State) (p v : Nat) : s.put p v = { s with mem := PUT s.mem p v } := rfl

theorem A2O_off (s : State) (hl off : Nat) (h : s.heap_listp = hl) (ho : off < 4294967296) :
    A2O s (off + hl) = off := by
  unfold A2O; rw [h]; omega

theorem A2O_off' (s : State) (hl off : Nat) (h : s.heap_listp = hl) (ho : off < 4294967296) :
    A2O s (hl + off) = off := by
  unfold A2O; rw [h]; omega

theorem SameConsts_trans {s s' s'' : State} (h : SameConsts s s') (h' : SameConsts s' s'') :
    SameConsts s s'' := by
  obtain ⟨a1, a2, a3, a4, a5⟩ := h
  obtain ⟨b1, b2, b3, b4, b5⟩ := h'
  exact ⟨b1.trans a1, b2.trans a2, b3.trans a3, b4.trans a4, b5.trans a5⟩

theorem SameConsts_put (s : State) (p v : Nat) : SameConsts s (s.put p v) :=
  ⟨rfl, rfl, rfl, rfl, rfl⟩

theorem del_consts (s : State) (bp : Nat) : SameConsts s (del_free_list s bp) := by
  unfold del_free_list
  simp only []
  split_ifs <;> exact ⟨rfl, rfl, rfl, rfl, rfl⟩

/-- The memory after `del_free_list`, for a node with `pred` offset `px` and
`succ` offset `sx` in class `i`. -/
theorem del_mem (s : State) (i q px sx : Nat)
    (hch : s.class_head = s.mem_heap) (hhl : s.heap_listp = s.mem_heap + 56)
    (hc : class_index (GET_SIZE s.mem (HDRP (s.mem_heap + 56 + q))) = i)
    (hpred : GET s.mem (s.mem_heap + 56 + q) = px)
    (hsuc : GET s.mem (s.mem_heap + 56 + q + 4) = sx)
    (hq : q % 8 = 0) (hi : i < 12) (hpx : px % 8 = 0) :
    (del_free_list s (s.mem_heap + 56 + q)).mem =
      (if sx = 0 then
        (PUT s.mem (if px = 0 then s.mem_heap + 4 * i else s.mem_heap + 56 + px + 4) sx)
      else (PUT (PUT s.mem (if px = 0 then s.mem_heap + 4 * i else s.mem_heap + 56 + px + 4) sx)
        (s.mem_heap + 56 + sx) px)) := by
  have hpred_lt : px < 4294967296 := by rw [← hpred]; exact GET_lt _ _
  have hsuc_lt : sx < 4294967296 := by rw [← hsuc]; exact GET_lt _ _
  have e1 : PRED_BLKP s (s.mem_heap + 56 + q) = px + (s.mem_heap + 56) := by
    unfold PRED_BLKP PREDP; rw [hhl, hpred]
  have e2 : SUCC_BLKP s (s.mem_heap + 56 + q) = sx + (s.mem_heap + 56) := by
    unfold SUCC_BLKP SUCCP; rw [hhl, hsuc]
  have e3 : get_class_ptr s (s.mem_heap + 56 + q) = s.mem_heap + 4 * i := by
    unfold get_class_ptr WSIZE; rw [hc, hch]; omega
  have e4 : A2O s (sx + (s.mem_heap + 56)) = sx := A2O_off s _ _ hhl hsuc_lt
  have hs1 : (if px + (s.mem_heap + 56) = s.mem_heap + 56 then s.put (s.mem_heap + 4 * i) sx
      else s.put (SUCCP (px + (s.mem_heap + 56))) sx) =
      s.put (if px = 0 then s.mem_heap + 4 * i else s.mem_heap + 56 + px + 4) sx := by
    by_cases hp0 : px = 0
    · rw [if_pos (by omega), if_pos hp0]
    · rw [if_neg (by omega), if_neg hp0]
      unfold SUCCP WSIZE
      congr 1; omega
  have e5 : PRED_BLKP (s.put (if px = 0 then s.mem_heap + 4 * i else s.mem_heap + 56 + px + 4) sx)
      (s.mem_heap + 56 + q) = px + (s.mem_heap + 56) := by
    unfold PRED_BLKP PREDP
    rw [put_mem, put_heap_listp, hhl, GET_PUT_other _ _ _ _ (by split <;> omega), hpred]
  unfold del_free_list
  simp only [e1, e2, e3, e4, hhl]
  rw [hs1, e5, A2O_off _ _ _ (by simp [hhl]) hpred_lt]
  by_cases hs0 : sx = 0
  · rw [if_neg (by simp [hhl, hs0]), if_pos hs0]; rfl
  · rw [if_pos (by simp [hhl, hs0]), if_neg hs0]
    unfold PREDP
    rw [put_mem, put_mem, Nat.add_comm sx]

/-- Unlinking the node `q` from the list `P ++ q :: S`, on the level of memory:
`m'` is `m` with the `succ` word of the node before `q` (or the head slot,
whose value is `c0'` afterwards) and the `pred` word of the node after `q`
updated. -/
theorem del_chain (m m' : Mem) (hl c0 c0' : Nat) (P S : List Nat) (q px sx : Nat)
    (hsc1 : SC m hl c0 P q) (hsc2 : SC m hl sx S 0) (hpc1 : PC m hl 0 P) (hpc2 : PC m hl q S)
    (hpx : px = P.getLastD 0)
    (hnd : (P ++ q :: S).Nodup)
    (hfSS : ∀ y, y ∈ S → GET m' (hl + y + 4) = GET m (hl + y + 4))
    (hfSP : ∀ y, y ∈ P → y ≠ px → GET m' (hl + y + 4) = GET m (hl + y + 4))
    (hfPP : ∀ y, y ∈ P → GET m' (hl + y) = GET m (hl + y))
    (hfPS : ∀ y, y ∈ S → y ≠ sx → GET m' (hl + y) = GET m (hl + y))
    (hg1 : P ≠ [] → GET m' (hl + px + 4) = sx)
    (hg2 : S ≠ [] → GET m' (hl + sx) = px)
    (hc0 : c0' = if P = [] then sx else c0) :
    SC m' hl c0' (P ++ S) 0 ∧ PC m' hl 0 (P ++ S) := by
  have hsucc := SC_head _ _ _ _ _ hsc2
  have hndP : P.Nodup := (List.nodup_append.1 hnd).1
  have hndS : (q :: S).Nodup := (List.nodup_append.1 hnd).2.1
  have hS : SC m' hl sx S 0 := SC_frame _ _ _ _ _ _ hsc2 hfSS
  constructor
  · rcases eq_nil_or_snoc P with hP | ⟨P0, a, hP⟩
    · rw [hc0, if_pos hP, hP]; exact hS
    · have hne : P ≠ [] := by rw [hP]; simp
      rw [hc0, if_neg hne]
      have hpa : px = a := by rw [hpx, hP, getLastD_snoc]
      rw [hP, SC_snoc] at hsc1
      rw [hP, SC_append]
      refine ⟨sx, ?_, hS⟩
      rw [SC_snoc]
      constructor
      · apply SC_frame _ _ _ _ _ _ hsc1.1
        intro y hy
        apply hfSP y (by rw [hP]; simp [hy])
        rw [hpa]
        intro h; subst h
        rw [hP] at hndP
        exact (List.nodup_append.1 hndP).2.2 hy (by simp)
      · rw [← hpa]; exact hg1 hne
  · rw [PC_append]
    refine ⟨PC_frame _ _ _ _ _ hpc1 hfPP, ?_⟩
    cases S with
    | nil => trivial
    | cons b S0 =>
      have hsb : sx = b := hsucc
      refine ⟨?_, ?_⟩
      · rw [← hsb, hg2 (by simp), hpx]
      · apply PC_frame _ _ _ _ _ hpc2.2
        intro y hy
        apply hfPS y (by simp [hy])
        rw [hsb]
        intro h; subst h
        exact (List.nodup_cons.1 (List.nodup_cons.1 hndS).2).1 hy

/-- What `del_free_list` stores, seen from any other word. -/
theorem del_frames (m m' : Mem) (lo i px sx : Nat)
    (hcomp : m' = (if sx = 0 then
        (PUT m (if px = 0 then lo + 4 * i else lo + 56 + px + 4) sx)
      else (PUT (PUT m (if px = 0 then lo + 4 * i else lo + 56 + px + 4) sx)
        (lo + 56 + sx) px)))
    (hi : i < 12) (hpx : px % 8 = 0) (hsx : sx % 8 = 0)
    (hpl : px < 4294967296) (hsl : sx < 4294967296) :
    (∀ y, 8 ≤ y → y % 8 = 0 → y ≠ px → GET m' (lo + 56 + y + 4) = GET m (lo + 56 + y + 4)) ∧
    (∀ y, 8 ≤ y → y % 8 = 0 → y ≠ sx → GET m' (lo + 56 + y) = GET m (lo + 56 + y)) ∧
    (∀ j, j < 12 → (j ≠ i ∨ px ≠ 0) → GET m' (lo + 4 * j) = GET m (lo + 4 * j)) ∧
    (px ≠ 0 → GET m' (lo + 56 + px + 4) = sx) ∧ (px = 0 → GET m' (lo + 4 * i) = sx) ∧
    (sx ≠ 0 → GET m' (lo + 56 + sx) = px) ∧
    (∀ a, (a < (if px = 0 then lo + 4 * i else lo + 56 + px + 4) ∨
        (if px = 0 then lo + 4 * i else lo + 56 + px + 4) + 4 ≤ a) →
      (sx ≠ 0 → a < lo + 56 + sx ∨ lo + 56 + sx + 4 ≤ a) → m' a = m a) := by
  by_cases hp0 : px = 0 <;> by_cases hs0 : sx = 0
  · simp only [hp0, hs0, if_true] at hcomp
    subst hcomp
    refine ⟨?_, ?_, ?_, ?_, ?_, ?_, ?_⟩
    · intro y h1 h2 _; exact GET_PUT_other _ _ _ _ (by omega)
    · intro y h1 h2 _; exact GET_PUT_other _ _ _ _ (by omega)
    · intro j h1 h2; exact GET_PUT_other _ _ _ _ (by omega)
    · intro h; exact absurd hp0 h
    · intro _; rw [hs0]; exact GET_PUT_same _ _ _ (by omega)
    · intro h; exact absurd hs0 h
    · intro a h1 _; rw [hp0, if_pos rfl] at h1; exact PUT_other _ _ _ _ h1
  · simp only [hp0, hs0, if_true, if_false] at hcomp
    subst hcomp
    refine ⟨?_, ?_, ?_, ?_, ?_, ?_, ?_⟩
    · intro y h1 h2 _
      rw [GET_PUT_other _ _ _ _ (by omega), GET_PUT_other _ _ _ _ (by omega)]
    · intro y h1 h2 h3
      rw [GET_PUT_other _ _ _ _ (by omega), GET_PUT_other _ _ _ _ (by omega)]
    · intro j h1 h2
      rw [GET_PUT_other _ _ _ _ (by omega), GET_PUT_other _ _ _ _ (by omega)]
    · intro h; exact absurd hp0 h
    · intro _; rw [GET_PUT_other _ _ _ _ (by omega)]; exact GET_PUT_same _ _ _ hsl
    · intro _; rw [hp0]; exact GET_PUT_same _ _ _ (by omega)
    · intro a h1 h2
      rw [hp0, if_pos rfl] at h1
      rw [PUT_other _ _ _ _ (h2 hs0), PUT_other _ _ _ _ h1]
  · simp only [hp0, hs0, if_true, if_false] at hcomp
    subst hcomp
    refine ⟨?_, ?_, ?_, ?_, ?_, ?_, ?_⟩
    · intro y h1 h2 h3; exact GET_PUT_other _ _ _ _ (by omega)
    · intro y h1 h2 _; exact GET_PUT_other _ _ _ _ (by omega)
    · intro j h1 h2; exact GET_PUT_other _ _ _ _ (by omega)
    · intro _; rw [hs0]; exact GET_PUT_same _ _ _ (by omega)
    · intro h; exact absurd h hp0
    · intro h; exact absurd hs0 h
    · intro a h1 _; rw [if_neg hp0] at h1; exact PUT_other _ _ _ _ h1
  · simp only [hp0, hs0, if_false] at hcomp
    subst hcomp
    refine ⟨?_, ?_, ?_, ?_, ?_, ?_, ?_⟩
    · intro y h1 h2 h3
      rw [GET_PUT_other _ _ _ _ (by omega), GET_PUT_other _ _ _ _ (by omega)]
    · intro y h1 h2 h3
      rw [GET_PUT_other _ _ _ _ (by omega), GET_PUT_other _ _ _ _ (by omega)]
    · intro j h1 h2
      rw [GET_PUT_other _ _ _ _ (by omega), GET_PUT_other _ _ _ _ (by omega)]
    · intro _; rw [GET_PUT_other _ _ _ _ (by omega)]; exact GET_PUT_same _ _ _ hsl
    · intro h; exact absurd h hp0
    · intro _; exact GET_PUT_same _ _ _ hpl
    · intro a h1 h2
      rw [if_neg hp0] at h1
      rw [PUT_other _ _ _ _ (h2 hs0), PUT_other _ _ _ _ h1]

theorem del_spec (s : State) (L : Nat → List Nat) (i x : Nat)
    (hch : s.class_head = s.mem_heap) (hhl : s.heap_listp = s.mem_heap + 56)
    (hL : Lists s.mem s.mem_heap (s.mem_heap + 56) L) (hwf : NodesWF L) (hi : i < 12)
    (hx : x ∈ L i) (hc : class_index (GET_SIZE s.mem (HDRP (s.mem_heap + 56 + x))) = i) :
    Lists (del_free_list s (s.mem_heap + 56 + x)).mem s.mem_heap (s.mem_heap + 56)
        (Function.update L i ((L i).erase x)) ∧
      EqOutside s.mem (del_free_list s (s.mem_heap + 56 + x)).mem
        (Touched s.mem_heap (s.mem_heap + 56) (fun y => y ∈ L i ∧ y ≠ x)) := by
  obtain ⟨P, S, hPS⟩ := List.append_of_mem hx
  have hnd := hwf.nodup i
  rw [hPS] at hnd
  have hxP : x ∉ P := fun h => (List.nodup_append.1 hnd).2.2 h (List.mem_cons_self _ _)
  have hxS : x ∉ S := (List.nodup_cons.1 (List.nodup_append.1 hnd).2.1).1
  have hPSd : ∀ y, y ∈ P → y ∉ S := fun y hy hy' =>
    (List.nodup_append.1 hnd).2.2 hy (List.mem_cons_of_mem _ hy')
  have hmemP : ∀ y, y ∈ P → y ∈ L i := fun y hy => by rw [hPS]; simp [hy]
  have hmemS : ∀ y, y ∈ S → y ∈ L i := fun y hy => by rw [hPS]; simp [hy]
  have herase : (L i).erase x = P ++ S := by
    rw [hPS, List.erase_append_right _ hxP, List.erase_cons_head]
  obtain ⟨hsc, hpc⟩ := hL i hi
  rw [hPS, SC_append] at hsc
  obtain ⟨q, hsc1, hq, hsc2⟩ := hsc
  subst hq
  rw [hPS, PC_append] at hpc
  obtain ⟨hpc1, hpx, hpc2⟩ := hpc
  have hsucc := SC_head _ _ _ _ _ hsc2
  generalize hpred : GET s.mem (s.mem_heap + 56 + q) = px at hpx hpc2
  generalize hsuc : GET s.mem (s.mem_heap + 56 + q + 4) = sx at hsc2 hsucc
  have hpred_lt : px < 4294967296 := by rw [← hpred]; exact GET_lt _ _
  have hsuc_lt : sx < 4294967296 := by rw [← hsuc]; exact GET_lt _ _
  have hq := hwf.ok i q hx
  have hpxP : px = P.getLastD 0 := hpx
  have hpred0 : (P = [] ∧ px = 0) ∨ (P ≠ [] ∧ px ∈ P) := by
    rcases eq_nil_or_snoc P with hP | ⟨P0, a, hP⟩
    · left; rw [hpxP, hP]; exact ⟨rfl, rfl⟩
    · right
      have hne : P ≠ [] := by rw [hP]; simp
      exact ⟨hne, by rw [hpxP]; exact getLastD_mem _ _ hne⟩
  have hsuc0 : (S = [] ∧ sx = 0) ∨ (S ≠ [] ∧ sx ∈ S) := by
    cases S with
    | nil => left; exact ⟨rfl, hsucc⟩
    | cons b S0 => right; exact ⟨by simp, by rw [hsucc]; simp⟩
  have hpx8 : px % 8 = 0 ∧ (px ≠ 0 → 8 ≤ px) := by
    rcases hpred0 with h | h
    · rw [h.2]; exact ⟨rfl, fun h => absurd rfl h⟩
    · have := hwf.ok i px (hmemP _ h.2); exact ⟨this.2.1, fun _ => this.1⟩
  have hsx8 : sx % 8 = 0 ∧ (sx ≠ 0 → 8 ≤ sx) := by
    rcases hsuc0 with h | h
    · rw [h.2]; exact ⟨rfl, fun h => absurd rfl h⟩
    · have := hwf.ok i sx (hmemS _ h.2); exact ⟨this.2.1, fun _ => this.1⟩
  have hcomp := del_mem s i q px sx hch hhl hc hpred hsuc hq.2.1 hi hpx8.1
  generalize (del_free_list s (s.mem_heap + 56 + q)).mem = m' at hcomp
  obtain ⟨fS, fP, fH, g1, g1', g2, fB⟩ :=
    del_frames s.mem m' s.mem_heap i px sx hcomp hi hpx8.1 hsx8.1 hpred_lt hsuc_lt
  have hP0 : P = [] → px = 0 := fun h => by
    rcases hpred0 with h' | h'
    · exact h'.2
    · exact absurd h h'.1
  have hPne : P ≠ [] → px ≠ 0 := fun h => by
    rcases hpred0 with h' | h'
    · exact absurd h'.1 h
    · have := hwf.ok i px (hmemP _ h'.2); omega
  have hSne : S ≠ [] → sx ≠ 0 := fun h => by
    rcases hsuc0 with h' | h'
    · exact absurd h'.1 h
    · have := hwf.ok i sx (hmemS _ h'.2); omega
  have hpxS : px ∉ S := by
    intro h
    rcases hpred0 with h' | h'
    · have := hwf.ok i px (hmemS _ h); omega
    · exact hPSd _ h'.2 h
  have hsxP : sx ∉ P := by
    intro h
    rcases hsuc0 with h' | h'
    · have := hwf.ok i sx (hmemP _ h); omega
    · exact hPSd _ h h'.2
  constructor
  · intro j hj
    by_cases hji : j = i
    · rw [hji, Function.update_same, herase]
      apply del_chain s.mem m' (s.mem_heap + 56) (GET s.mem (s.mem_heap + 4 * i)) _ P S q px sx
        hsc1 hsc2 hpc1 hpc2 hpxP hnd
      · intro y hy
        have := hwf.ok i y (hmemS _ hy)
        exact fS y this.1 this.2.1 (fun h => hpxS (h ▸ hy))
      · intro y hy hne
        have := hwf.ok i y (hmemP _ hy)
        exact fS y this.1 this.2.1 hne
      · intro y hy
        have := hwf.ok i y (hmemP _ hy)
        exact fP y this.1 this.2.1 (fun h => hsxP (h ▸ hy))
      · intro y hy hne
        have := hwf.ok i y (hmemS _ hy)
        exact fP y this.1 this.2.1 hne
      · intro h; exact g1 (hPne h)
      · intro h; exact g2 (hSne h)
      · by_cases hP : P = []
        · rw [if_pos hP]; exact g1' (hP0 hP)
        · rw [if_neg hP]; exact fH i hi (Or.inr (hPne hP))
    · rw [Function.update_noteq hji]
      obtain ⟨hscj, hpcj⟩ := hL j hj
      have hyj : ∀ y ∈ L j, 8 ≤ y ∧ y % 8 = 0 ∧ y ≠ px ∧ y ≠ sx := by
        intro y hy
        have h1 := hwf.ok j y hy
        refine ⟨h1.1, h1.2.1, ?_, ?_⟩
        · intro h
          rcases hpred0 with h0 | h0
          · omega
          · exact hji (hwf.disj j i y hy (by rw [h]; exact hmemP _ h0.2))
        · intro h
          rcases hsuc0 with h0 | h0
          · omega
          · exact hji (hwf.disj j i y hy (by rw [h]; exact hmemS _ h0.2))
      refine ⟨?_, ?_⟩
      · rw [fH j hj (Or.inl hji)]
        apply SC_frame _ _ _ _ _ _ hscj
        intro y hy
        have := hyj y hy
        exact fS y this.1 this.2.1 this.2.2.1
      · apply PC_frame _ _ _ _ _ hpcj
        intro y hy
        have := hyj y hy
        exact fP y this.1 this.2.1 this.2.2.2
  · intro a ha
    apply fB a
    · apply ha
      by_cases hp0 : px = 0
      · rw [if_pos hp0]; left; exact ⟨i, hi, rfl⟩
      · rw [if_neg hp0]; right
        rcases hpred0 with h' | h'
        · exact absurd h'.2 hp0
        · exact ⟨px, ⟨hmemP _ h'.2, fun h => hxP (h ▸ h'.2)⟩, Or.inr rfl⟩
    · intro hs0
      apply ha
      right
      rcases hsuc0 with h' | h'
      · exact absurd h'.2 hs0
      · exact ⟨sx, ⟨hmemS _ h'.2, fun h => hxS (h ▸ h'.2)⟩, Or.inl rfl⟩

/-! ## Insertion into a class list -/

theorem nodup_length_le (l : List Nat) (B : Nat) (hnd : l.Nodup) (hb : ∀ y ∈ l, y < B) :
    l.length ≤ B := by
  have h := (List.subperm_of_subset hnd (fun y hy => List.mem_range.2 (hb y hy))).length_le
  rwa [List.length_range] at h

theorem add_loop_spec (s : State) (hl size : Nat) (hhl : s.heap_listp = hl) :
    ∀ (S : List Nat) (k a c : Nat), SC s.mem hl c S 0 → (∀ y ∈ S, y ≠ 0) → S.length < k →
      ∃ S1 S2, S = S1 ++ S2 ∧
        add_loop k s (a + hl) (c + hl) size = some (S1.getLastD a + hl, S2.headD 0 + hl) := by
  intro S
  induction S with
  | nil =>
    intro k a c hsc _ hk
    have hc : c = 0 := hsc
    obtain ⟨k', rfl⟩ : ∃ k', k = k' + 1 := ⟨k - 1, by simp at hk; omega⟩
    refine ⟨[], [], rfl, ?_⟩
    unfold add_loop
    rw [if_neg (by rw [hhl, hc]; simp)]
    simp [hc]
  | cons y T ih =>
    intro k a c hsc hnz hk
    obtain ⟨hcy, hsc'⟩ := hsc
    obtain ⟨k', rfl⟩ : ∃ k', k = k' + 1 := ⟨k - 1, by simp at hk; omega⟩
    unfold add_loop
    by_cases hcond : c + hl ≠ s.heap_listp ∧ GET_SIZE s.mem (c + hl) < size
    · rw [if_pos hcond]
      have e : SUCC_BLKP s (c + hl) = GET s.mem (hl + y + 4) + hl := by
        unfold SUCC_BLKP SUCCP WSIZE
        rw [hhl, hcy, Nat.add_comm y hl]
      rw [e]
      obtain ⟨S1, S2, hT, hres⟩ := ih k' c (GET s.mem (hl + y + 4)) hsc'
        (fun z hz => hnz z (List.mem_cons_of_mem _ hz)) (by simp at hk; omega)
      refine ⟨y :: S1, S2, by rw [hT]; rfl, ?_⟩
      rw [hres, List.getLastD_cons, hcy]
    · rw [if_neg hcond]
      refine ⟨[], y :: T, rfl, ?_⟩
      simp [hcy]

theorem add_consts (s : State) (bp : Nat) (s' : State) (h : add_free_list s bp = some s') :
    SameConsts s s' := by
  unfold add_free_list at h
  simp only [] at h
  split at h
  · injection h with h; subst h; exact ⟨rfl, rfl, rfl, rfl, rfl⟩
  · split at h
    · exact absurd h (by simp)
    · split at h <;> (injection h with h; subst h; exact ⟨rfl, rfl, rfl, rfl, rfl⟩)

/-- What `add_free_list` stores, seen from any other word. -/
theorem add_frames (m m' : Mem) (lo i x a c : Nat)
    (hcomp : m' = (if c = 0 then
        (PUT (PUT (PUT m (if a = 0 then lo + 4 * i else lo + 56 + a + 4) x) (lo + 56 + x) a)
          (lo + 56 + x + 4) c)
      else (PUT (PUT (PUT (PUT m (if a = 0 then lo + 4 * i else lo + 56 + a + 4) x)
          (lo + 56 + x) a) (lo + 56 + x + 4) c) (lo + 56 + c) x)))
    (hi : i < 12) (ha : a % 8 = 0) (hc : c % 8 = 0) (hx : x % 8 = 0) (hx8 : 8 ≤ x)
    (hxa : x ≠ a) (hxc : x ≠ c)
    (hal : a < 4294967296) (hcl : c < 4294967296) (hxl : x < 4294967296) :
    (∀ y, 8 ≤ y → y % 8 = 0 → y ≠ a → y ≠ x →
      GET m' (lo + 56 + y + 4) = GET m (lo + 56 + y + 4)) ∧
    (∀ y, 8 ≤ y → y % 8 = 0 → y ≠ c → y ≠ x → GET m' (lo + 56 + y) = GET m (lo + 56 + y)) ∧
    (∀ j, j < 12 → (j ≠ i ∨ a ≠ 0) → GET m' (lo + 4 * j) = GET m (lo + 4 * j)) ∧
    (a ≠ 0 → GET m' (lo + 56 + a + 4) = x) ∧ (a = 0 → GET m' (lo + 4 * i) = x) ∧
    GET m' (lo + 56 + x) = a ∧ GET m' (lo + 56 + x + 4) = c ∧
    (c ≠ 0 → GET m' (lo + 56 + c) = x) ∧
    (∀ b, (b < (if a = 0 then lo + 4 * i else lo + 56 + a + 4) ∨
        (if a = 0 then lo + 4 * i else lo + 56 + a + 4) + 4 ≤ b) →
      (b < lo + 56 + x ∨ lo + 56 + x + 8 ≤ b) →
      (c ≠ 0 → b < lo + 56 + c ∨ lo + 56 + c + 4 ≤ b) → m' b = m b) := by
  by_cases ha0 : a = 0 <;> by_cases hc0 : c = 0
  · simp only [ha0, hc0, if_true] at hcomp
    subst hcomp
    refine ⟨?_, ?_, ?_, ?_, ?_, ?_, ?_, ?_, ?_⟩
    · intro y h1 h2 _ h4
      rw [GET_PUT_other _ _ _ _ (by omega), GET_PUT_other _ _ _ _ (by omega),
        GET_PUT_other _ _ _ _ (by omega)]
    · intro y h1 h2 _ h4
      rw [GET_PUT_other _ _ _ _ (by omega), GET_PUT_other _ _ _ _ (by omega),
        GET_PUT_other _ _ _ _ (by omega)]
    · intro j h1 h2
      rw [GET_PUT_other _ _ _ _ (by omega), GET_PUT_other _ _ _ _ (by omega),
        GET_PUT_other _ _ _ _ (by omega)]
    · intro h; exact absurd ha0 h
    · intro _
      rw [GET_PUT_other _ _ _ _ (by omega), GET_PUT_other _ _ _ _ (by omega)]
      exact GET_PUT_same _ _ _ hxl
    · rw [ha0, GET_PUT_other _ _ _ _ (by omega)]; exact GET_PUT_same _ _ _ (by omega)
    · rw [hc0]; exact GET_PUT_same _ _ _ (by omega)
    · intro h; exact absurd hc0 h
    · intro b h1 h2 _
      rw [ha0, if_pos rfl] at h1
      rw [PUT_other _ _ _ _ (by omega), PUT_other _ _ _ _ (by omega), PUT_other _ _ _ _ h1]
  · simp only [ha0, hc0, if_true, if_false] at hcomp
    subst hcomp
    refine ⟨?_, ?_, ?_, ?_, ?_, ?_, ?_, ?_, ?_⟩
    · intro y h1 h2 _ h4
      rw [GET_PUT_other _ _ _ _ (by omega), GET_PUT_other _ _ _ _ (by omega),
        GET_PUT_other _ _ _ _ (by omega), GET_PUT_other _ _ _ _ (by omega)]
    · intro y h1 h2 h3 h4
      rw [GET_PUT_other _ _ _ _ (by omega), GET_PUT_other _ _ _ _ (by omega),
        GET_PUT_other _ _ _ _ (by omega), GET_PUT_other _ _ _ _ (by omega)]
    · intro j h1 h2
      rw [GET_PUT_other _ _ _ _ (by omega), GET_PUT_other _ _ _ _ (by omega),
        GET_PUT_other _ _ _ _ (by omega), GET_PUT_other _ _ _ _ (by omega)]
    · intro h; exact absurd ha0 h
    · intro _
      rw [GET_PUT_other _ _ _ _ (by omega), GET_PUT_other _ _ _ _ (by omega),
        GET_PUT_other _ _ _ _ (by omega)]
      exact GET_PUT_same _ _ _ hxl
    · rw [ha0, GET_PUT_other _ _ _ _ (by omega), GET_PUT_other _ _ _ _ (by omega)]
      exact GET_PUT_same _ _ _ (by omega)
    · rw [GET_PUT_other _ _ _ _ (by omega)]; exact GET_PUT_same _ _ _ hcl
    · intro _; exact GET_PUT_same _ _ _ hxl
    · intro b h1 h2 h3
      rw [ha0, if_pos rfl] at h1
      rw [PUT_other _ _ _ _ (h3 hc0), PUT_other _ _ _ _ (by omega),
        PUT_other _ _ _ _ (by omega), PUT_other _ _ _ _ h1]
  · simp only [ha0, hc0, if_true, if_false] at hcomp
    subst hcomp
    refine ⟨?_, ?_, ?_, ?_, ?_, ?_, ?_, ?_, ?_⟩
    · intro y h1 h2 h3 h4
      rw [GET_PUT_other _ _ _ _ (by omega), GET_PUT_other _ _ _ _ (by omega),
        GET_PUT_other _ _ _ _ (by omega)]
    · intro y h1 h2 _ h4
      rw [GET_PUT_other _ _ _ _ (by omega), GET_PUT_other _ _ _ _ (by omega),
        GET_PUT_other _ _ _ _ (by omega)]
    · intro j h1 h2
      rw [GET_PUT_other _ _ _ _ (by omega), GET_PUT_other _ _ _ _ (by omega),
        GET_PUT_other _ _ _ _ (by omega)]
    · intro _
      rw [GET_PUT_other _ _ _ _ (by omega), GET_PUT_other _ _ _ _ (by omega)]
      exact GET_PUT_same _ _ _ hxl
    · intro h; exact absurd h ha0
    · rw [GET_PUT_other _ _ _ _ (by omega)]; exact GET_PUT_same _ _ _ hal
    · rw [hc0]; exact GET_PUT_same _ _ _ (by omega)
    · intro h; exact absurd hc0 h
    · intro b h1 h2 _
      rw [if_neg ha0] at h1
      rw [PUT_other _ _ _ _ (by omega), PUT_other _ _ _ _ (by omega), PUT_other _ _ _ _ h1]
  · simp only [ha0, hc0, if_false] at hcomp
    subst hcomp
    refine ⟨?_, ?_, ?_, ?_, ?_, ?_, ?_, ?_, ?_⟩
    · intro y h1 h2 h3 h4
      rw [GET_PUT_other _ _ _ _ (by omega), GET_PUT_other _ _ _ _ (by omega),
        GET_PUT_other _ _ _ _ (by omega), GET_PUT_other _ _ _ _ (by omega)]
    · intro y h1 h2 h3 h4
      rw [GET_PUT_other _ _ _ _ (by omega), GET_PUT_other _ _ _ _ (by omega),
        GET_PUT_other _ _ _ _ (by omega), GET_PUT_other _ _ _ _ (by omega)]
    · intro j h1 h2
      rw [GET_PUT_other _ _ _ _ (by omega), GET_PUT_other _ _ _ _ (by omega),
        GET_PUT_other _ _ _ _ (by omega), GET_PUT_other _ _ _ _ (by omega)]
    · intro _
      rw [GET_PUT_other _ _ _ _ (by omega), GET_PUT_other _ _ _ _ (by omega),
        GET_PUT_other _ _ _ _ (by omega)]
      exact GET_PUT_same _ _ _ hxl
    · intro h; exact absurd h ha0
    · rw [GET_PUT_other _ _ _ _ (by omega), GET_PUT_other _ _ _ _ (by omega)]
      exact GET_PUT_same _ _ _ hal
    · rw [GET_PUT_other _ _ _ _ (by omega)]; exact GET_PUT_same _ _ _ hcl
    · intro _; exact GET_PUT_same _ _ _ hxl
    · intro b h1 h2 h3
      rw [if_neg ha0] at h1
      rw [PUT_other _ _ _ _ (h3 hc0), PUT_other _ _ _ _ (by omega),
        PUT_other _ _ _ _ (by omega), PUT_other _ _ _ _ h1]

/-- Linking the node `x` between `P` and `S`, on the level of memory. -/
theorem add_chain (m m' : Mem) (hl c0 c0' : Nat) (P S : List Nat) (x a c : Nat)
    (hsc : SC m hl c0 (P ++ S) 0) (hpc : PC m hl 0 (P ++ S))
    (ha : a = P.getLastD 0) (hc : c = S.headD 0)
    (hnd : (P ++ S).Nodup)
    (hfSS : ∀ y, y ∈ S → GET m' (hl + y + 4) = GET m (hl + y + 4))
    (hfSP : ∀ y, y ∈ P → y ≠ a → GET m' (hl + y + 4) = GET m (hl + y + 4))
    (hfPP : ∀ y, y ∈ P → GET m' (hl + y) = GET m (hl + y))
    (hfPS : ∀ y, y ∈ S → y ≠ c → GET m' (hl + y) = GET m (hl + y))
    (hg1 : P ≠ [] → GET m' (hl + a + 4) = x)
    (hg2 : GET m' (hl + x) = a) (hg3 : GET m' (hl + x + 4) = c)
    (hg4 : S ≠ [] → GET m' (hl + c) = x)
    (hc0 : c0' = if P = [] then x else c0) :
    SC m' hl c0' (P ++ x :: S) 0 ∧ PC m' hl 0 (P ++ x :: S) := by
  rw [SC_append] at hsc
  obtain ⟨q, hsc1, hsc2⟩ := hsc
  have hq := SC_head _ _ _ _ _ hsc2
  rw [← hc] at hq
  subst hq
  rw [PC_append] at hpc
  obtain ⟨hpc1, hpc2⟩ := hpc
  rw [← ha] at hpc2
  have hndP : P.Nodup := (List.nodup_append.1 hnd).1
  have hndS : S.Nodup := (List.nodup_append.1 hnd).2.1
  have hS : SC m' hl q S 0 := SC_frame _ _ _ _ _ _ hsc2 hfSS
  constructor
  · rw [SC_append]
    refine ⟨x, ?_, rfl, by rw [hg3]; exact hS⟩
    rcases eq_nil_or_snoc P with hP | ⟨P0, b, hP⟩
    · rw [hc0, if_pos hP, hP]; rfl
    · have hne : P ≠ [] := by rw [hP]; simp
      rw [hc0, if_neg hne]
      have hab : a = b := by rw [ha, hP, getLastD_snoc]
      rw [hP, SC_snoc] at hsc1
      rw [hP, SC_snoc]
      constructor
      · apply SC_frame _ _ _ _ _ _ hsc1.1
        intro y hy
        apply hfSP y (by rw [hP]; simp [hy])
        rw [hab]
        intro h; subst h
        rw [hP] at hndP
        exact (List.nodup_append.1 hndP).2.2 hy (by simp)
      · rw [← hab]; exact hg1 hne
  · rw [PC_append]
    refine ⟨PC_frame _ _ _ _ _ hpc1 hfPP, ?_⟩
    refine ⟨by rw [hg2, ha], ?_⟩
    cases S with
    | nil => trivial
    | cons d S0 =>
      have hcd : q = d := hc
      refine ⟨by rw [← hcd]; exact hg4 (by simp), ?_⟩
      apply PC_frame _ _ _ _ _ hpc2.2
      intro y hy
      apply hfPS y (by simp [hy])
      rw [hcd]
      intro h; subst h
      exact (List.nodup_cons.1 hndS).1 hy

theorem add_mem_empty (s : State) (i x : Nat)
    (hch : s.class_head = s.mem_heap) (hhl : s.heap_listp = s.mem_heap + 56)
    (hc : class_index (GET_SIZE s.mem (HDRP (s.mem_heap + 56 + x))) = i)
    (he : GET s.mem (s.mem_heap + 4 * i) = 0) (hxl : x < 4294967296) :
    ∃ s', add_free_list s (s.mem_heap + 56 + x) = some s' ∧
      s'.mem = PUT (PUT (PUT s.mem (s.mem_heap + 4 * i) x) (s.mem_heap + 56 + x) 0)
        (s.mem_heap + 56 + x + 4) 0 := by
  have e3 : get_class_ptr s (s.mem_heap + 56 + x) = s.mem_heap + 4 * i := by
    unfold get_class_ptr WSIZE; rw [hc, hch]; omega
  unfold add_free_list
  simp only [e3]
  rw [if_pos he, A2O_off' s _ _ hhl hxl]
  exact ⟨_, rfl, rfl⟩

theorem add_mem_loop (s : State) (i x a c : Nat)
    (hch : s.class_head = s.mem_heap) (hhl : s.heap_listp = s.mem_heap + 56)
    (hc : class_index (GET_SIZE s.mem (HDRP (s.mem_heap + 56 + x))) = i)
    (hne : GET s.mem (s.mem_heap + 4 * i) ≠ 0)
    (hloop : add_loop (fuel s) s (O2A s (GET s.mem (s.mem_heap + 4 * i)))
      (SUCC_BLKP s (O2A s (GET s.mem (s.mem_heap + 4 * i))))
      (GET_SIZE s.mem (s.mem_heap + 56 + x)) = some (a + (s.mem_heap + 56), c + (s.mem_heap + 56)))
    (hal : a < 4294967296) (hcl : c < 4294967296) (hxl : x < 4294967296) :
    ∃ s', add_free_list s (s.mem_heap + 56 + x) = some s' ∧
      s'.mem = (if c = 0 then
        (PUT (PUT (PUT s.mem (s.mem_heap + 56 + a + 4) x) (s.mem_heap + 56 + x) a)
          (s.mem_heap + 56 + x + 4) c)
      else (PUT (PUT (PUT (PUT s.mem (s.mem_heap + 56 + a + 4) x)
          (s.mem_heap + 56 + x) a) (s.mem_heap + 56 + x + 4) c) (s.mem_heap + 56 + c) x)) := by
  have e3 : get_class_ptr s (s.mem_heap + 56 + x) = s.mem_heap + 4 * i := by
    unfold get_class_ptr WSIZE; rw [hc, hch]; omega
  unfold add_free_list
  simp only [e3]
  rw [if_neg hne, hloop]
  simp only [put_heap_listp, hhl]
  rw [A2O_off' s _ _ hhl hxl, A2O_off _ _ _ (by simp [hhl]) hal,
    A2O_off _ _ _ (by simp [hhl]) hcl]
  by_cases hc0 : c = 0
  · rw [if_neg (by simp [hc0]), if_pos hc0]
    refine ⟨_, rfl, ?_⟩
    simp only [put_mem, SUCCP, PREDP, WSIZE]
    rw [Nat.add_comm a]
  · rw [if_pos (by simp [hc0]), if_neg hc0, A2O_off' _ _ _ (by simp [hhl]) hxl]
    refine ⟨_, rfl, ?_⟩
    simp only [put_mem, SUCCP, PREDP, WSIZE]
    rw [Nat.add_comm a, Nat.add_comm c]

/-- Where `add_free_list` links the block in: after the nodes `P` that its loop
passes, before the rest `S` of the class list. -/
theorem add_pos (s : State) (L : Nat → List Nat) (i x : Nat)
    (hch : s.class_head = s.mem_heap) (hhl : s.heap_listp = s.mem_heap + 56)
    (hL : Lists s.mem s.mem_heap (s.mem_heap + 56) L) (hwf : NodesWF L) (hi : i < 12)
    (hxl : x < 4294967296)
    (hc : class_index (GET_SIZE s.mem (HDRP (s.mem_heap + 56 + x))) = i)
    (hlen : (L i).length ≤ fuel s) :
    ∃ s' P S a c, add_free_list s (s.mem_heap + 56 + x) = some s' ∧ L i = P ++ S ∧
    a = P.getLastD 0 ∧ c = S.headD 0 ∧ (P = [] → S = []) ∧
    s'.mem = (if c = 0 then
      (PUT (PUT (PUT s.mem (if a = 0 then s.mem_heap + 4 * i else s.mem_heap + 56 + a + 4) x)
        (s.mem_heap + 56 + x) a) (s.mem_heap + 56 + x + 4) c)
    else (PUT (PUT (PUT (PUT s.mem
        (if a = 0 then s.mem_heap + 4 * i else s.mem_heap + 56 + a + 4) x)
        (s.mem_heap + 56 + x) a) (s.mem_heap + 56 + x + 4) c) (s.mem_heap + 56 + c) x)) := by
  obtain ⟨hsc, hpc⟩ := hL i hi
  cases hLi : L i with
  | nil =>
    rw [hLi] at hsc
    have he : GET s.mem (s.mem_heap + 4 * i) = 0 := hsc
    obtain ⟨s', h1, h2⟩ := add_mem_empty s i x hch hhl hc he hxl
    refine ⟨s', [], [], 0, 0, h1, rfl, rfl, rfl, fun _ => rfl, ?_⟩
    rw [h2]; simp
  | cons h T =>
    rw [hLi] at hsc hlen
    obtain ⟨hh, hscT⟩ := hsc
    have hh8 := hwf.ok i h (by rw [hLi]; simp)
    have hne : GET s.mem (s.mem_heap + 4 * i) ≠ 0 := by rw [hh]; omega
    obtain ⟨S1, S2, hT, hres⟩ := add_loop_spec s (s.mem_heap + 56)
      (GET_SIZE s.mem (s.mem_heap + 56 + x)) hhl T (fuel s) h
      (GET s.mem (s.mem_heap + 56 + h + 4)) hscT
      (fun y hy => by have := hwf.ok i y (by rw [hLi]; simp [hy]); omega)
      (by simp at hlen; omega)
    have hmemP : ∀ y, y ∈ h :: S1 → y ∈ L i := by
      intro y hy; rw [hLi, hT]; simp at hy ⊢; tauto
    have hmemS : ∀ y, y ∈ S2 → y ∈ L i := by
      intro y hy; rw [hLi, hT]; simp; tauto
    have haP : S1.getLastD h ∈ h :: S1 := by
      have := getLastD_mem (h :: S1) 0 (by simp)
      rwa [List.getLastD_cons] at this
    have ha8 := hwf.ok i _ (hmemP _ haP)
    have hc8 : S2.headD 0 < 4294967296 := by
      cases S2 with
      | nil => simp
      | cons d S0 => exact (hwf.ok i d (hmemS _ (by simp))).2.2
    have hloop : add_loop (fuel s) s (O2A s (GET s.mem (s.mem_heap + 4 * i)))
        (SUCC_BLKP s (O2A s (GET s.mem (s.mem_heap + 4 * i))))
        (GET_SIZE s.mem (s.mem_heap + 56 + x)) =
        some (S1.getLastD h + (s.mem_heap + 56), S2.headD 0 + (s.mem_heap + 56)) := by
      rw [← hres, hh]
      unfold O2A SUCC_BLKP SUCCP WSIZE
      rw [hhl, Nat.add_comm h]
    obtain ⟨s', h1, h2⟩ := add_mem_loop s i x _ _ hch hhl hc hne hloop ha8.2.2 hc8 hxl
    refine ⟨s', h :: S1, S2, S1.getLastD h, S2.headD 0, h1, by rw [hT]; rfl,
      by rw [List.getLastD_cons], rfl, fun h => by simp at h, ?_⟩
    rw [h2, if_neg (by omega : ¬ S1.getLastD h = 0)]

theorem add_spec (s : State) (L : Nat → List Nat) (i x : Nat)
    (hch : s.class_head = s.mem_heap) (hhl : s.heap_listp = s.mem_heap + 56)
    (hL : Lists s.mem s.mem_heap (s.mem_heap + 56) L) (hwf : NodesWF L) (hi : i < 12)
    (hx : ∀ j, x ∉ L j) (hx8 : 8 ≤ x) (hxm : x % 8 = 0) (hxl : x < 4294967296)
    (hc : class_index (GET_SIZE s.mem (HDRP (s.mem_heap + 56 + x))) = i)
    (hlen : (L i).length ≤ fuel s) :
    ∃ s' P S, add_free_list s (s.mem_heap + 56 + x) = some s' ∧ L i = P ++ S ∧
      Lists s'.mem s.mem_heap (s.mem_heap + 56) (Function.update L i (P ++ x :: S)) ∧
      EqOutside s.mem s'.mem (Touched s.mem_heap (s.mem_heap + 56) (fun y => y ∈ L i ∨ y = x)) := by
  obtain ⟨hsc, hpc⟩ := hL i hi
  obtain ⟨s', P, S, a, c, hadd, hPS, ha, hc', hPe, hcomp⟩ :=
    add_pos s L i x hch hhl hL hwf hi hxl hc hlen
  refine ⟨s', P, S, hadd, hPS, ?_⟩
  generalize s'.mem = m' at hcomp
  have hnd := hwf.nodup i
  rw [hPS] at hnd hsc hpc
  have hmemP : ∀ y, y ∈ P → y ∈ L i := fun y hy => by rw [hPS]; simp [hy]
  have hmemS : ∀ y, y ∈ S → y ∈ L i := fun y hy => by rw [hPS]; simp [hy]
  have hPSd : ∀ y, y ∈ P → y ∉ S := fun y hy hy' => (List.nodup_append.1 hnd).2.2 hy hy'
  have ha0 : (P = [] ∧ a = 0) ∨ (P ≠ [] ∧ a ∈ P) := by
    rcases eq_nil_or_snoc P with hP | ⟨P0, b, hP⟩
    · left; rw [ha, hP]; exact ⟨rfl, rfl⟩
    · right
      have hne : P ≠ [] := by rw [hP]; simp
      exact ⟨hne, by rw [ha]; exact getLastD_mem _ _ hne⟩
  have hc0 : (S = [] ∧ c = 0) ∨ (S ≠ [] ∧ c ∈ S) := by
    cases S with
    | nil => left; exact ⟨rfl, hc'⟩
    | cons b S0 => right; exact ⟨by simp, by rw [hc']; simp⟩
  have ha8 : a % 8 = 0 ∧ (a ≠ 0 → 8 ≤ a) ∧ a < 4294967296 ∧ x ≠ a := by
    rcases ha0 with h | h
    · rw [h.2]; exact ⟨rfl, fun h => absurd rfl h, by omega, by omega⟩
    · have := hwf.ok i a (hmemP _ h.2)
      exact ⟨this.2.1, fun _ => this.1, this.2.2, fun e => hx i (e ▸ hmemP _ h.2)⟩
  have hc8 : c % 8 = 0 ∧ (c ≠ 0 → 8 ≤ c) ∧ c < 4294967296 ∧ x ≠ c := by
    rcases hc0 with h | h
    · rw [h.2]; exact ⟨rfl, fun h => absurd rfl h, by omega, by omega⟩
    · have := hwf.ok i c (hmemS _ h.2)
      exact ⟨this.2.1, fun _ => this.1, this.2.2, fun e => hx i (e ▸ hmemS _ h.2)⟩
  obtain ⟨fS, fP, fH, g1, g1', g2, g3, g4, fB⟩ :=
    add_frames s.mem m' s.mem_heap i x a c hcomp hi ha8.1 hc8.1 hxm hx8 ha8.2.2.2 hc8.2.2.2
      ha8.2.2.1 hc8.2.2.1 hxl
  have hP0 : P = [] → a = 0 := fun h => by
    rcases ha0 with h' | h'
    · exact h'.2
    · exact absurd h h'.1
  have hPne : P ≠ [] → a ≠ 0 := fun h => by
    rcases ha0 with h' | h'
    · exact absurd h'.1 h
    · have := hwf.ok i a (hmemP _ h'.2); omega
  have hSne : S ≠ [] → c ≠ 0 := fun h => by
    rcases hc0 with h' | h'
    · exact absurd h'.1 h
    · have := hwf.ok i c (hmemS _ h'.2); omega
  have haS : a ∉ S := by
    intro h
    rcases ha0 with h' | h'
    · have := hwf.ok i a (hmemS _ h); omega
    · exact hPSd _ h'.2 h
  have hcP : c ∉ P := by
    intro h
    rcases hc0 with h' | h'
    · have := hwf.ok i c (hmemP _ h); omega
    · exact hPSd _ h h'.2
  constructor
  · intro j hj
    by_cases hji : j = i
    · rw [hji, Function.update_same]
      apply add_chain s.mem m' (s.mem_heap + 56) (GET s.mem (s.mem_heap + 4 * i)) _ P S x a c
        hsc hpc ha hc' hnd
      · intro y hy
        have := hwf.ok i y (hmemS _ hy)
        exact fS y this.1 this.2.1 (fun h => haS (h ▸ hy)) (fun h => hx i (h ▸ hmemS _ hy))
      · intro y hy hne
        have := hwf.ok i y (hmemP _ hy)
        exact fS y this.1 this.2.1 hne (fun h => hx i (h ▸ hmemP _ hy))
      · intro y hy
        have := hwf.ok i y (hmemP _ hy)
        exact fP y this.1 this.2.1 (fun h => hcP (h ▸ hy)) (fun h => hx i (h ▸ hmemP _ hy))
      · intro y hy hne
        have := hwf.ok i y (hmemS _ hy)
        exact fP y this.1 this.2.1 hne (fun h => hx i (h ▸ hmemS _ hy))
      · intro h; exact g1 (hPne h)
      · exact g2
      · exact g3
      · intro h; exact g4 (hSne h)
      · by_cases hP : P = []
        · rw [if_pos hP]; exact g1' (hP0 hP)
        · rw [if_neg hP]; exact fH i hi (Or.inr (hPne hP))
    · rw [Function.update_noteq hji]
      obtain ⟨hscj, hpcj⟩ := hL j hj
      have hyj : ∀ y ∈ L j, 8 ≤ y ∧ y % 8 = 0 ∧ y ≠ a ∧ y ≠ c ∧ y ≠ x := by
        intro y hy
        have h1 := hwf.ok j y hy
        refine ⟨h1.1, h1.2.1, ?_, ?_, fun h => hx j (h ▸ hy)⟩
        · intro h
          rcases ha0 with h0 | h0
          · omega
          · exact hji (hwf.disj j i y hy (by rw [h]; exact hmemP _ h0.2))
        · intro h
          rcases hc0 with h0 | h0
          · omega
          · exact hji (hwf.disj j i y hy (by rw [h]; exact hmemS _ h0.2))
      refine ⟨?_, ?_⟩
      · rw [fH j hj (Or.inl hji)]
        apply SC_frame _ _ _ _ _ _ hscj
        intro y hy
        have := hyj y hy
        exact fS y this.1 this.2.1 this.2.2.1 this.2.2.2.2
      · apply PC_frame _ _ _ _ _ hpcj
        intro y hy
        have := hyj y hy
        exact fP y this.1 this.2.1 this.2.2.2.1 this.2.2.2.2
  · intro b hb
    apply fB b
    · apply hb
      by_cases hp0 : a = 0
      · rw [if_pos hp0]; left; exact ⟨i, hi, rfl⟩
      · rw [if_neg hp0]; right
        rcases ha0 with h' | h'
        · exact absurd h'.2 hp0
        · exact ⟨a, Or.inl (hmemP _ h'.2), Or.inr rfl⟩
    · have h1 := hb (s.mem_heap + 56 + x) (Or.inr ⟨x, Or.inr rfl, Or.inl rfl⟩)
      have h2 := hb (s.mem_heap + 56 + x + 4) (Or.inr ⟨x, Or.inr rfl, Or.inr rfl⟩)
      omega
    · intro hs0
      apply hb
      right
      rcases hc0 with h' | h'
      · exact absurd h'.2 hs0
      · exact ⟨c, Or.inl (hmemS _ h'.2), Or.inl rfl⟩

/-! ## Searching the class lists -/

theorem fit_loop_spec (s : State) (hl asize : Nat) (hhl : s.heap_listp = hl) :
    ∀ (xs : List Nat) (k c : Nat), SC s.mem hl c xs 0 → (∀ y ∈ xs, y ≠ 0) → xs.length < k →
      (∃ X r Y, xs = X ++ r :: Y ∧ (∀ y ∈ X, GET_SIZE s.mem (HDRP (y + hl)) < asize) ∧
        asize ≤ GET_SIZE s.mem (HDRP (r + hl)) ∧ fit_loop k s (c + hl) asize = some (r + hl)) ∨
      ((∀ y ∈ xs, GET_SIZE s.mem (HDRP (y + hl)) < asize) ∧
        fit_loop k s (c + hl) asize = some hl) := by
  intro xs
  induction xs with
  | nil =>
    intro k c hsc _ hk
    have hc : c = 0 := hsc
    obtain ⟨k', rfl⟩ : ∃ k', k = k' + 1 := ⟨k - 1, by simp at hk; omega⟩
    right
    refine ⟨fun y hy => by simp at hy, ?_⟩
    unfold fit_loop
    rw [if_neg (by rw [hhl, hc]; simp)]
    simp [hc]
  | cons y T ih =>
    intro k c hsc hnz hk
    obtain ⟨hcy, hsc'⟩ := hsc
    obtain ⟨k', rfl⟩ : ∃ k', k = k' + 1 := ⟨k - 1, by simp at hk; omega⟩
    have hy0 : y ≠ 0 := hnz y (by simp)
    unfold fit_loop
    by_cases hsz : GET_SIZE s.mem (HDRP (y + hl)) < asize
    · rw [if_pos (by rw [hhl, hcy]; exact ⟨by omega, hsz⟩)]
      have e : SUCC_BLKP s (c + hl) = GET s.mem (hl + y + 4) + hl := by
        unfold SUCC_BLKP SUCCP WSIZE
        rw [hhl, hcy, Nat.add_comm y hl]
      rw [e]
      rcases ih k' (GET s.mem (hl + y + 4)) hsc'
        (fun z hz => hnz z (List.mem_cons_of_mem _ hz)) (by simp at hk; omega) with
        ⟨X, r, Y, hT, hX, hr, hres⟩ | ⟨hall, hres⟩
      · left
        refine ⟨y :: X, r, Y, by rw [hT]; rfl, ?_, hr, hres⟩
        intro z hz
        rcases List.mem_cons.1 hz with rfl | hz
        · exact hsz
        · exact hX z hz
      · right
        refine ⟨?_, hres⟩
        intro z hz
        rcases List.mem_cons.1 hz with rfl | hz
        · exact hsz
        · exact hall z hz
    · rw [if_neg (by rw [hcy]; exact fun h => hsz h.2)]
      left
      refine ⟨[], y, T, rfl, fun z hz => by simp at hz, by omega, by rw [hcy]⟩

/-- The result of the class scan: `0` when no node of the classes from `i` on
is large enough, and otherwise the first large enough node of the first class
from `i` on that has one. -/
theorem class_scan_spec (s : State) (L : Nat → List Nat) (asize : Nat)
    (hch : s.class_head = s.mem_heap) (hhl : s.heap_listp = s.mem_heap + 56)
    (hL : Lists s.mem s.mem_heap (s.mem_heap + 56) L) (hwf : NodesWF L)
    (hlen : ∀ j, (L j).length < fuel s) :
    ∀ (k i : Nat), 12 ≤ k + i →
      (class_scan k s i asize = some 0 ∧
        ∀ j, i ≤ j → j < 12 → ∀ y ∈ L j,
          GET_SIZE s.mem (HDRP (y + (s.mem_heap + 56))) < asize) ∨
      (∃ j X r Y, i ≤ j ∧ j < 12 ∧ L j = X ++ r :: Y ∧
        (∀ y ∈ X, GET_SIZE s.mem (HDRP (y + (s.mem_heap + 56))) < asize) ∧
        asize ≤ GET_SIZE s.mem (HDRP (r + (s.mem_heap + 56))) ∧
        (∀ j', i ≤ j' → j' < j → ∀ y ∈ L j',
          GET_SIZE s.mem (HDRP (y + (s.mem_heap + 56))) < asize) ∧
        class_scan k s i asize = some (r + (s.mem_heap + 56))) := by
  intro k
  induction k with
  | zero =>
    intro i hi
    left
    exact ⟨rfl, fun j h1 h2 => by omega⟩
  | succ k ih =>
    intro i hi
    unfold class_scan
    by_cases hi12 : i < CLASS_NUM
    · rw [if_pos hi12]
      simp only [hch, WSIZE]
      obtain ⟨hsc, hpc⟩ := hL i hi12
      have hnext := ih (i + 1) (by omega)
      have hcont : (∀ y ∈ L i, GET_SIZE s.mem (HDRP (y + (s.mem_heap + 56))) < asize) →
          ((class_scan k s (i + 1) asize = some 0 ∧
            ∀ j, i ≤ j → j < 12 → ∀ y ∈ L j,
              GET_SIZE s.mem (HDRP (y + (s.mem_heap + 56))) < asize) ∨
          (∃ j X r Y, i ≤ j ∧ j < 12 ∧ L j = X ++ r :: Y ∧
            (∀ y ∈ X, GET_SIZE s.mem (HDRP (y + (s.mem_heap + 56))) < asize) ∧
            asize ≤ GET_SIZE s.mem (HDRP (r + (s.mem_heap + 56))) ∧
            (∀ j', i ≤ j' → j' < j → ∀ y ∈ L j',
              GET_SIZE s.mem (HDRP (y + (s.mem_heap + 56))) < asize) ∧
            class_scan k s (i + 1) asize = some (r + (s.mem_heap + 56)))) := by
        intro hall
        rcases hnext with ⟨h0, hrest⟩ | ⟨j, X, r, Y, h1, h2, h3, h4, h5, h6, h7⟩
        · left
          refine ⟨h0, ?_⟩
          intro j h1 h2
          by_cases hji : j = i
          · rw [hji]; exact hall
          · exact hrest j (by omega) h2
        · right
          refine ⟨j, X, r, Y, by omega, h2, h3, h4, h5, ?_, h7⟩
          intro j' h1' h2'
          by_cases hji : j' = i
          · rw [hji]; exact hall
          · exact h6 j' (by omega) h2'
      have hmul : s.mem_heap + i * 4 = s.mem_heap + 4 * i := by omega
      rw [hmul]
      by_cases hhead : GET s.mem (s.mem_heap + 4 * i) = 0
      · rw [if_neg (by simp [hhead])]
        have hnil : L i = [] := by
          cases hLi : L i with
          | nil => rfl
          | cons h T =>
            rw [hLi] at hsc
            have := hwf.ok i h (by rw [hLi]; simp)
            have hh : GET s.mem (s.mem_heap + 4 * i) = h := hsc.1
            omega
        rcases hcont (by rw [hnil]; intro y hy; simp at hy) with h | h
        · left; exact h
        · right; exact h
      · rw [if_pos hhead]
        have hO : O2A s (GET s.mem (s.mem_heap + 4 * i)) =
            GET s.mem (s.mem_heap + 4 * i) + (s.mem_heap + 56) := by
          unfold O2A; rw [hhl]
        rw [hO]
        rcases fit_loop_spec s (s.mem_heap + 56) asize hhl (L i) (fuel s) _ hsc
          (fun y hy => by have := hwf.ok i y hy; omega) (hlen i) with
          ⟨X, r, Y, hT, hX, hr, hres⟩ | ⟨hall, hres⟩
        · rw [hres]
          simp only []
          have hr8 := hwf.ok i r (by rw [hT]; simp)
          rw [if_pos (by rw [hhl]; omega)]
          right
          exact ⟨i, X, r, Y, le_refl _, hi12, hT, hX, hr, fun j' h1 h2 => by omega, rfl⟩
        · rw [hres]
          simp only []
          rw [if_neg (by rw [hhl]; simp)]
          rcases hcont hall with h | h
          · left; exact h
          · right; exact h
    · rw [if_neg hi12]
      left
      exact ⟨rfl, fun j h1 h2 => absurd h2 (by unfold CLASS_NUM at hi12; omega)⟩

theorem class_loop_le (k : Nat) : ∀ (size i : Nat), i ≤ 11 → class_loop k size i ≤ 11 := by
  induction k with
  | zero => intro size i hi; exact hi
  | succ k ih =>
    intro size i hi
    unfold class_loop
    split
    · rename_i h
      exact ih _ _ (by unfold CLASS_NUM at h; omega)
    · exact hi

theorem class_index_lt (size : Nat) : class_index size < 12 := by
  have := class_loop_le (CLASS_NUM - 1) (size >>> 5) 0 (by omega)
  unfold class_index
  omega

/-! ## Facts about a tiling -/

theorem Shape.zero_last {lo brk : Nat} {bl : List Blk} (h : Shape lo brk bl) {b : Blk}
    (hb : b ∈ bl) (hz : b.sz = 0) : ∃ body, bl = body ++ [b] ∧ ∀ c ∈ body, c.sz ≠ 0 := by
  obtain ⟨body, e, hbl, he, hbody⟩ := h.last
  rw [hbl] at hb
  rcases List.mem_append.1 hb with hb | hb
  · exact absurd hz (hbody b hb)
  · have : b = e := by simpa using hb
    subst this
    exact ⟨body, hbl, hbody⟩

theorem Shape.bp_lt {lo brk : Nat} {bl : List Blk} (h : Shape lo brk bl) {b : Blk}
    (hb : b ∈ bl) (hz : b.sz ≠ 0) : b.bp + 8 ≤ brk ∧ 8 ≤ b.sz := by
  obtain ⟨h1, h2, h3, h4, h5, h6, h7⟩ := h.ok b hb
  by_cases hp : b.bp = lo + 56
  · have := h5 hp; omega
  · have := h7 hp; omega

/-- Two different blocks of the heap do not overlap, and the lower one is not
the epilogue header. -/
theorem Shape.sep {lo brk : Nat} {bl : List Blk} (h : Shape lo brk bl) {b c : Blk}
    (hb : b ∈ bl) (hc : c ∈ bl) (hne : b ≠ c) :
    (b.bp + b.sz ≤ c.bp ∧ 8 ≤ b.sz) ∨ (c.bp + c.sz ≤ b.bp ∧ 8 ≤ c.sz) := by
  have hokb := h.ok b hb
  have hokc := h.ok c hc
  by_cases hbz : b.sz = 0
  · -- b is the epilogue header
    obtain ⟨body, hbl, hbody⟩ := h.zero_last hb hbz
    have hcb : c ∈ body := by
      rw [hbl] at hc
      rcases List.mem_append.1 hc with hc | hc
      · exact hc
      · exact absurd (by simpa using hc : c = b).symm hne
    have hp := Contig_pairwise _ _ _ _ _ h.contig
    rw [hbl, List.pairwise_append] at hp
    have := hp.2.2 c hcb b (by simp)
    have := h.bp_lt hc (hbody c hcb)
    right; omega
  · by_cases hcz : c.sz = 0
    · obtain ⟨body, hbl, hbody⟩ := h.zero_last hc hcz
      have hbb : b ∈ body := by
        rw [hbl] at hb
        rcases List.mem_append.1 hb with hb | hb
        · exact hb
        · exact absurd (by simpa using hb : b = c) hne
      have hp := Contig_pairwise _ _ _ _ _ h.contig
      rw [hbl, List.pairwise_append] at hp
      have := hp.2.2 b hbb c (by simp)
      have := h.bp_lt hb hbz
      left; omega
    · have h1 := h.bp_lt hb hbz
      have h2 := h.bp_lt hc hcz
      rcases Contig_sep h.contig hb hc with e | e | e
      · exact absurd e hne
      · left; omega
      · right; omega

theorem Shape.uniq {lo brk : Nat} {bl : List Blk} (h : Shape lo brk bl) {b c : Blk}
    (hb : b ∈ bl) (hc : c ∈ bl) (he : b.bp = c.bp) : b = c := by
  by_contra hne
  rcases h.sep hb hc hne with e | e <;> omega

theorem Shape.lo_al {lo brk : Nat} {bl : List Blk} (h : Shape lo brk bl) : lo % 8 = 0 := by
  cases hbl : bl with
  | nil =>
    obtain ⟨body, e, hbl', _⟩ := h.last
    rw [hbl] at hbl'
    exact absurd hbl' (by simp)
  | cons x R =>
    have hc := h.contig
    rw [hbl] at hc
    have := (h.ok x (by rw [hbl]; simp)).1
    have := hc.1
    omega

/-- Facts about a free block. -/
theorem Shape.free_facts {lo brk : Nat} {bl : List Blk} (h : Shape lo brk bl) {b : Blk}
    (hb : b ∈ bl) (hf : b.al = false) :
    16 ≤ b.sz ∧ b.sz % 8 = 0 ∧ b.bp % 8 = 0 ∧ lo + 64 ≤ b.bp ∧ b.bp + b.sz ≤ brk := by
  obtain ⟨h1, h2, h3, h4, h5, h6, h7⟩ := h.ok b hb
  have hp : b.bp ≠ lo + 56 := fun hp => by rw [(h5 hp).2] at hf; exact absurd hf (by simp)
  have hz : b.sz ≠ 0 := fun hz => by rw [h6 hz] at hf; exact absurd hf (by simp)
  have := h7 hp
  have := h.lo_al
  refine ⟨by omega, h2, h1, ?_, h4⟩
  omega

/-- The block after a block that is not the epilogue header. -/
theorem Shape.next {lo brk : Nat} {bl : List Blk} (h : Shape lo brk bl) {b : Blk}
    (hb : b ∈ bl) (hz : b.sz ≠ 0) : ∃ A c B, bl = A ++ b :: c :: B := by
  obtain ⟨A, R, hbl⟩ := List.append_of_mem hb
  cases R with
  | nil =>
    obtain ⟨body, e, hbl', he, hbody⟩ := h.last
    rw [hbl] at hbl'
    have : b = e := by
      have := List.append_inj_right' hbl' rfl
      simpa using this
    rw [this] at hz
    exact absurd he hz
  | cons c B => exact ⟨A, c, B, hbl⟩

/-- The block before a block that is not the prologue. -/
theorem Shape.prev {lo brk : Nat} {bl : List Blk} (h : Shape lo brk bl) {b : Blk}
    (hb : b ∈ bl) (hp : b.bp ≠ lo + 56) : ∃ A a B, bl = A ++ a :: b :: B := by
  obtain ⟨A, B, hbl⟩ := List.append_of_mem hb
  rcases List.eq_nil_or_concat A with hA | ⟨A0, a, hA⟩
  · have hc := h.contig
    rw [hbl, hA] at hc
    exact absurd hc.1 hp
  · refine ⟨A0, a, B, ?_⟩
    rw [hbl, hA, List.concat_eq_append, List.append_assoc]
    rfl

theorem Contig_mid {A B : List Blk} {a b : Blk} {p : Nat} {pa : Bool} {e : Nat} {la : Bool}
    (h : Contig p pa (A ++ a :: b :: B) e la) : b.bp = a.bp + a.sz ∧ b.pa = a.al := by
  rw [Contig_append] at h
  obtain ⟨q, qa, _, h2⟩ := h
  obtain ⟨h3, _, h5, h6, _⟩ := h2
  exact ⟨by omega, h6⟩

/-! ## Reading headers -/

theorem hdr_read (b : Blk) (h8 : b.sz % 8 = 0) (hlt : b.sz < 4294967288) :
    hdr_word b &&& 4294967288 = b.sz ∧ hdr_word b &&& 2 = flag b.pa 2 ∧
      hdr_word b &&& 1 = flag b.al 1 := by
  unfold hdr_word
  have hp : flag b.pa 2 = 0 ∨ flag b.pa 2 = 2 := by cases b.pa <;> simp [flag]
  have ha : flag b.al 1 = 0 ∨ flag b.al 1 = 1 := by cases b.al <;> simp [flag]
  exact ⟨word_size _ _ _ h8 hp ha (by omega), word_prev _ _ _ h8 hp ha, word_alloc _ _ _ h8 hp ha⟩

theorem hdr_word_lt (b : Blk) (hlt : b.sz < 4294967288) : hdr_word b < 4294967296 := by
  unfold hdr_word
  have hp : flag b.pa 2 ≤ 2 := by cases b.pa <;> simp [flag]
  have ha : flag b.al 1 ≤ 1 := by cases b.al <;> simp [flag]
  omega

theorem PACK_hdr (sz : Nat) (al pa : Bool) (bp : Nat) (h8 : sz % 8 = 0) :
    PACK sz (flag pa 2) (flag al 1) = hdr_word ⟨bp, sz, al, pa⟩ := by
  unfold hdr_word
  exact PACK_eq _ _ _ h8 (by cases pa <;> simp [flag]) (by cases al <;> simp [flag])

theorem flag_ne_zero (b : Bool) (v : Nat) (hv : v ≠ 0) : flag b v ≠ 0 ↔ b = true := by
  cases b <;> simp [flag, hv]

theorem flag_eq_zero (b : Bool) (v : Nat) (hv : v ≠ 0) : flag b v = 0 ↔ b = false := by
  cases b <;> simp [flag, hv]

/-! ## Nodes and blocks -/

theorem wf_of {lo brk : Nat} {bl : List Blk} {L : Nat → List Nat} (hs : Shape lo brk bl)
    (hbrk : brk ≤ lo + 4294967296)
    (hN : ∀ i y, y ∈ L i → ∃ b ∈ bl, b.al = false ∧ b.bp = lo + 56 + y ∧ class_index b.sz = i)
    (hnd : ∀ i, (L i).Nodup) : NodesWF L := by
  refine ⟨hnd, ?_, ?_⟩
  · intro i y hy
    obtain ⟨b, hb, hf, hbp, _⟩ := hN i y hy
    have := hs.free_facts hb hf
    have := hs.lo_al
    omega
  · intro i j y hi hj
    obtain ⟨b, hb, hf, hbp, hci⟩ := hN i y hi
    obtain ⟨c, hc, hf', hcp, hcj⟩ := hN j y hj
    have : b = c := hs.uniq hb hc (by omega)
    rw [← hci, ← hcj, this]

theorem len_of {lo brk : Nat} {bl : List Blk} {L : Nat → List Nat} (hs : Shape lo brk bl)
    (hN : ∀ i y, y ∈ L i → ∃ b ∈ bl, b.al = false ∧ b.bp = lo + 56 + y ∧ class_index b.sz = i)
    (hnd : ∀ i, (L i).Nodup) (j : Nat) : (L j).length < brk - lo := by
  have h1 : (L j).length ≤ brk - lo - 71 := by
    apply nodup_length_le _ _ (hnd j)
    intro y hy
    obtain ⟨b, hb, hf, hbp, _⟩ := hN j y hy
    have := hs.free_facts hb hf
    omega
  obtain ⟨body, e, hbl, he, _⟩ := hs.last
  have := (hs.ok e (by rw [hbl]; simp)).2.2
  omega

/-- A word stored to by a list operation is apart from every header and footer. -/
theorem touched_sep_meta {lo brk : Nat} {bl : List Blk} {N : Nat → Prop} (hs : Shape lo brk bl)
    (hN : ∀ y, N y → ∃ b ∈ bl, b.al = false ∧ b.bp = lo + 56 + y)
    {x : Blk} (hx : x ∈ bl) {w : Nat} (hw : Touched lo (lo + 56) N w) :
    (x.bp - 4 + 4 ≤ w ∨ w + 4 ≤ x.bp - 4) ∧
      (16 ≤ x.sz → x.bp + x.sz - 8 + 4 ≤ w ∨ w + 4 ≤ x.bp + x.sz - 8) := by
  have hxo := (hs.ok x hx).2.2.1
  rcases hw with ⟨i, hi, rfl⟩ | ⟨y, hy, hw⟩
  · constructor
    · right; omega
    · intro _; right; omega
  · obtain ⟨b, hb, hf, hbp⟩ := hN y hy
    have hbf := hs.free_facts hb hf
    by_cases hbx : b = x
    · subst hbx
      constructor
      · left; omega
      · intro _; right; omega
    · have hsep := hs.sep hb hx hbx
      constructor
      · rcases hsep with e | e
        · right; omega
        · left; omega
      · intro h16
        rcases hsep with e | e
        · right; omega
        · left; omega

/-- A word stored to by a list operation is outside the payload of every allocated block. -/
theorem touched_sep_pay {lo brk : Nat} {bl : List Blk} {N : Nat → Prop} (hs : Shape lo brk bl)
    (hN : ∀ y, N y → ∃ b ∈ bl, b.al = false ∧ b.bp = lo + 56 + y)
    {x : Blk} (hx : x ∈ bl) (hxa : x.al = true) {w : Nat} (hw : Touched lo (lo + 56) N w)
    (a : Nat) (h1 : x.bp ≤ a) (h2 : a < x.bp + x.sz - 4) : a < w ∨ w + 4 ≤ a := by
  have hxo := (hs.ok x hx).2.2.1
  rcases hw with ⟨i, hi, rfl⟩ | ⟨y, hy, hw⟩
  · right; omega
  · obtain ⟨b, hb, hf, hbp⟩ := hN y hy
    have hbf := hs.free_facts hb hf
    have hbx : b ≠ x := fun h => by rw [h, hxa] at hf; exact absurd hf (by simp)
    rcases hs.sep hb hx hbx with e | e
    · right; omega
    · left; omega

/-- Headers and footers survive a list operation. -/
theorem Hdrs_touched {lo brk : Nat} {bl : List Blk} {N : Nat → Prop} {m m' : Mem}
    (hs : Shape lo brk bl)
    (hN : ∀ y, N y → ∃ b ∈ bl, b.al = false ∧ b.bp = lo + 56 + y)
    (hE : EqOutside m m' (Touched lo (lo + 56) N)) {x : Blk} (hx : x ∈ bl) :
    GET m' (x.bp - 4) = GET m (x.bp - 4) ∧
      (16 ≤ x.sz → GET m' (x.bp + x.sz - 8) = GET m (x.bp + x.sz - 8)) := by
  constructor
  · apply GET_frame _ _ _ _ hE
    intro w hw
    exact (touched_sep_meta hs hN hx hw).1
  · intro h16
    apply GET_frame _ _ _ _ hE
    intro w hw
    exact (touched_sep_meta hs hN hx hw).2 h16

/-! ## Rewriting a window of the block list -/

theorem prefix_mem_body {A R body : List Blk} {b e : Blk} (h : A ++ b :: R = body ++ [e])
    {y : Blk} (hy : y ∈ A) : y ∈ body := by
  rcases List.eq_nil_or_concat (b :: R) with hR | ⟨R', l, hR⟩
  · exact absurd hR (by simp)
  · rw [hR, List.concat_eq_append, ← List.append_assoc] at h
    have := List.append_inj_left' h rfl
    rw [← this]
    exact List.mem_append_left _ hy

theorem Shape.pre_facts {lo brk : Nat} {A R : List Blk} {b : Blk}
    (h : Shape lo brk (A ++ b :: R)) :
    ∀ y ∈ A, y.bp + y.sz ≤ b.bp ∧ 8 ≤ y.sz ∧ lo + 56 ≤ y.bp := by
  intro y hy
  have hp := Contig_pairwise _ _ _ _ _ h.contig
  rw [List.pairwise_append] at hp
  have h1 := hp.2.2 y hy b (by simp)
  have hym : y ∈ A ++ b :: R := by simp [hy]
  obtain ⟨body, e, hbl, he, hbody⟩ := h.last
  have hyz : y.sz ≠ 0 := hbody y (prefix_mem_body hbl hy)
  have := h.bp_lt hym hyz
  have := (h.ok y hym).2.2.1
  omega

theorem Shape.post_facts {lo brk : Nat} {A R : List Blk} {b : Blk}
    (h : Shape lo brk (A ++ b :: R)) : ∀ y ∈ R, b.bp + b.sz ≤ y.bp ∧ 8 ≤ b.sz := by
  intro y hy
  obtain ⟨R1, R2, hR⟩ := List.append_of_mem hy
  have h' : Shape lo brk ((A ++ b :: R1) ++ y :: R2) := by
    rw [hR] at h; simpa using h
  have := Shape.pre_facts h' b (by simp)
  exact ⟨this.1, this.2.1⟩

/-- Replacing a window `W0 ++ [c]` of the block list by `W0' ++ [c']`, where
`c'` has the size of `c`. -/
theorem Shape.replace {lo brk : Nat} {A W0 W0' B : List Blk} {c c' : Blk}
    (h : Shape lo brk (A ++ (W0 ++ [c]) ++ B))
    (hW : ∀ q qa r ra, Contig q qa (W0 ++ [c]) r ra → Contig q qa (W0' ++ [c']) r ra)
    (hok : ∀ y ∈ W0', BlkOK lo brk y ∧ y.sz ≠ 0) (hc : BlkOK lo brk c' ∧ c'.sz = c.sz) :
    Shape lo brk (A ++ (W0' ++ [c']) ++ B) := by
  obtain ⟨q, qa, r, ra, h1, h2, h3⟩ := Contig_window h.contig
  refine ⟨Contig_join h1 (hW _ _ _ _ h2) h3, ?_, ?_⟩
  · intro y hy
    simp only [List.mem_append, List.mem_singleton] at hy
    rcases hy with (hy | hy | hy) | hy
    · exact h.ok y (by simp [hy])
    · exact (hok y hy).1
    · rw [hy]; exact hc.1
    · exact h.ok y (by simp [hy])
  · obtain ⟨body, e, hbl, he, hbody⟩ := h.last
    rcases List.eq_nil_or_concat B with hB' | ⟨B0, l, hB'⟩
    · rw [hB', List.append_nil, ← List.append_assoc] at hbl
      have e1 := List.append_inj_left' hbl rfl
      have e2 := List.append_inj_right' hbl rfl
      have hce : c = e := by simpa using e2
      refine ⟨A ++ W0', c', by rw [hB']; simp, by rw [hc.2, hce]; exact he, ?_⟩
      intro y hy
      simp only [List.mem_append] at hy
      rcases hy with hy | hy
      · exact hbody y (by rw [← e1]; simp [hy])
      · exact (hok y hy).2
    · rw [List.concat_eq_append] at hB'
      have hbl' : (A ++ (W0 ++ [c]) ++ B0) ++ [l] = body ++ [e] := by
        rw [← hbl, hB']; simp
      have e1 := List.append_inj_left' hbl' rfl
      have e2 := List.append_inj_right' hbl' rfl
      have hle : l = e := by simpa using e2
      refine ⟨A ++ (W0' ++ [c']) ++ B0, e, by rw [hB', hle]; simp, he, ?_⟩
      intro y hy
      simp only [List.mem_append, List.mem_singleton] at hy
      rcases hy with ((hy | hy | hy) | hy)
      · exact hbody y (by rw [← e1]; simp [hy])
      · exact (hok y hy).2
      · rw [hy, hc.2]; exact hbody c (by rw [← e1]; simp)
      · exact hbody y (by rw [← e1]; simp [hy])

/-! ## Bookkeeping of list nodes -/

theorem Nodes_erase {lo brk hl : Nat} {bl : List Blk} {L : Nat → List Nat} {ex : Nat → Prop}
    (hs : Shape lo brk bl) (h : Nodes hl bl L ex) (i x : Nat) (hx : x ∈ L i) :
    Nodes hl bl (Function.update L i ((L i).erase x)) (fun p => ex p ∨ p = hl + x) := by
  obtain ⟨hnd, hiff⟩ := h
  constructor
  · intro j
    by_cases hj : j = i
    · rw [hj, Function.update_same]; exact (hnd i).erase x
    · rw [Function.update_noteq hj]; exact hnd j
  · intro j y
    by_cases hj : j = i
    · rw [hj, Function.update_same, (hnd i).mem_erase_iff, hiff]
      constructor
      · rintro ⟨hne, b, hb, h1, h2, h3, h4⟩
        exact ⟨b, hb, h1, h2, h3, fun h => by rcases h with h | h; exact h4 h; omega⟩
      · rintro ⟨b, hb, h1, h2, h3, h4⟩
        refine ⟨fun h => h4 (Or.inr (by rw [h2, h])), b, hb, h1, h2, h3, fun h => h4 (Or.inl h)⟩
    · rw [Function.update_noteq hj, hiff]
      constructor
      · rintro ⟨b, hb, h1, h2, h3, h4⟩
        refine ⟨b, hb, h1, h2, h3, fun h => ?_⟩
        rcases h with h | h
        · exact h4 h
        · obtain ⟨b', hb', _, h2', h3', _⟩ := (hiff i x).1 hx
          have : b = b' := hs.uniq hb hb' (by omega)
          rw [this] at h3
          exact hj (h3.symm.trans h3')
      · rintro ⟨b, hb, h1, h2, h3, h4⟩
        exact ⟨b, hb, h1, h2, h3, fun h => h4 (Or.inl h)⟩

theorem Nodes_insert {hl : Nat} {bl : List Blk} {L : Nat → List Nat} {ex : Nat → Prop}
    (h : Nodes hl bl L ex) (i x : Nat) (P S : List Nat) (hPS : L i = P ++ S)
    (hex : ex (hl + x)) {b : Blk} (hb : b ∈ bl) (hf : b.al = false) (hbp : b.bp = hl + x)
    (hc : class_index b.sz = i)
    (huniq : ∀ c ∈ bl, c.bp = b.bp → c = b) :
    Nodes hl bl (Function.update L i (P ++ x :: S)) (fun p => ex p ∧ p ≠ hl + x) := by
  obtain ⟨hnd, hiff⟩ := h
  have hxL : ∀ j, x ∉ L j := by
    intro j hx
    obtain ⟨c, _, _, h2, _, h4⟩ := (hiff j x).1 hx
    rw [h2] at h4
    exact h4 hex
  constructor
  · intro j
    by_cases hj : j = i
    · rw [hj, Function.update_same]
      have h1 := hnd i
      rw [hPS] at h1
      have hx1 : x ∉ P ++ S := by rw [← hPS]; exact hxL i
      rw [List.nodup_append] at h1 ⊢
      simp only [List.mem_append, not_or] at hx1
      refine ⟨h1.1, List.nodup_cons.2 ⟨hx1.2, h1.2.1⟩, ?_⟩
      intro a ha1 ha2
      rcases List.mem_cons.1 ha2 with rfl | ha2
      · exact hx1.1 ha1
      · exact h1.2.2 ha1 ha2
    · rw [Function.update_noteq hj]; exact hnd j
  · intro j y
    by_cases hj : j = i
    · rw [hj, Function.update_same]
      have hmem : y ∈ P ++ x :: S ↔ y ∈ L i ∨ y = x := by
        rw [hPS]; simp only [List.mem_append, List.mem_cons]; tauto
      rw [hmem, hiff]
      constructor
      · rintro (⟨c, hc1, h1, h2, h3, h4⟩ | rfl)
        · exact ⟨c, hc1, h1, h2, h3, fun h => h4 h.1⟩
        · exact ⟨b, hb, hf, hbp, hc, fun h => h.2 hbp⟩
      · rintro ⟨c, hc1, h1, h2, h3, h4⟩
        by_cases hyx : y = x
        · right; exact hyx
        · left
          refine ⟨c, hc1, h1, h2, h3, fun h => h4 ⟨h, ?_⟩⟩
          rw [h2]; omega
    · rw [Function.update_noteq hj, hiff]
      constructor
      · rintro ⟨c, hc1, h1, h2, h3, h4⟩
        exact ⟨c, hc1, h1, h2, h3, fun h => h4 h.1⟩
      · rintro ⟨c, hc1, h1, h2, h3, h4⟩
        refine ⟨c, hc1, h1, h2, h3, fun h => h4 ⟨h, fun he => ?_⟩⟩
        have : c = b := huniq c hc1 (by rw [he, hbp])
        rw [this, hc] at h3
        exact hj h3.symm

theorem Nodes_relayout {hl : Nat} {bl bl' : List Blk} {L : Nat → List Nat} {ex ex' : Nat → Prop}
    (h : Nodes hl bl L ex)
    (hrel : ∀ p sz, (∃ y ∈ bl, y.al = false ∧ y.bp = p ∧ y.sz = sz ∧ ¬ ex p) ↔
      (∃ y ∈ bl', y.al = false ∧ y.bp = p ∧ y.sz = sz ∧ ¬ ex' p)) :
    Nodes hl bl' L ex' := by
  obtain ⟨hnd, hiff⟩ := h
  refine ⟨hnd, ?_⟩
  intro j y
  rw [hiff]
  constructor
  · rintro ⟨c, hc1, h1, h2, h3, h4⟩
    obtain ⟨c', hc', h1', h2', h3', h4'⟩ := (hrel c.bp c.sz).1 ⟨c, hc1, h1, rfl, rfl, h4⟩
    exact ⟨c', hc', h1', by rw [h2', h2], by rw [h3', h3], by rw [h2']; exact h4'⟩
  · rintro ⟨c, hc1, h1, h2, h3, h4⟩
    obtain ⟨c', hc', h1', h2', h3', h4'⟩ := (hrel c.bp c.sz).2 ⟨c, hc1, h1, rfl, rfl, h4⟩
    exact ⟨c', hc', h1', by rw [h2', h2], by rw [h3', h3], by rw [h2']; exact h4'⟩

theorem Lists_put {m : Mem} {lo : Nat} {L : Nat → List Nat} (h : Lists m lo (lo + 56) L)
    (w v : Nat) (hw : lo + 48 ≤ w)
    (hsep : ∀ i y, y ∈ L i → w + 4 ≤ lo + 56 + y ∨ lo + 56 + y + 8 ≤ w) :
    Lists (PUT m w v) lo (lo + 56) L := by
  intro i hi
  obtain ⟨h1, h2⟩ := h i hi
  refine ⟨?_, ?_⟩
  · rw [GET_PUT_other _ _ _ _ (by omega)]
    apply SC_frame _ _ _ _ _ _ h1
    intro y hy
    have := hsep i y hy
    exact GET_PUT_other _ _ _ _ (by omega)
  · apply PC_frame _ _ _ _ _ h2
    intro y hy
    have := hsep i y hy
    exact GET_PUT_other _ _ _ _ (by omega)

/-- Storing a header word keeps the class lists. -/
theorem Lists_put_hdr {m : Mem} {lo brk : Nat} {bl : List Blk} {L : Nat → List Nat}
    (h : Lists m lo (lo + 56) L) (hs : Shape lo brk bl)
    (hN : ∀ i y, y ∈ L i → ∃ b ∈ bl, b.al = false ∧ b.bp = lo + 56 + y)
    {x : Blk} (hx : x ∈ bl) (v : Nat) : Lists (PUT m (x.bp - 4) v) lo (lo + 56) L := by
  have hx3 := (hs.ok x hx).2.2.1
  apply Lists_put h _ _ (by omega)
  intro i y hy
  have hN' : ∀ y, (∃ i, y ∈ L i) → ∃ b ∈ bl, b.al = false ∧ b.bp = lo + 56 + y :=
    fun y ⟨i, hy⟩ => hN i y hy
  have h1 := (touched_sep_meta hs hN' hx
    (w := lo + 56 + y) (Or.inr ⟨y, ⟨i, hy⟩, Or.inl rfl⟩)).1
  have h2 := (touched_sep_meta hs hN' hx
    (w := lo + 56 + y + 4) (Or.inr ⟨y, ⟨i, hy⟩, Or.inr rfl⟩)).1
  omega

/-- Storing a footer word keeps the class lists. -/
theorem Lists_put_ftr {m : Mem} {lo brk : Nat} {bl : List Blk} {L : Nat → List Nat}
    (h : Lists m lo (lo + 56) L) (hs : Shape lo brk bl)
    (hN : ∀ i y, y ∈ L i → ∃ b ∈ bl, b.al = false ∧ b.bp = lo + 56 + y)
    {x : Blk} (hx : x ∈ bl) (h16 : 16 ≤ x.sz) (v : Nat) :
    Lists (PUT m (x.bp + x.sz - 8) v) lo (lo + 56) L := by
  have hx3 := (hs.ok x hx).2.2.1
  apply Lists_put h _ _ (by omega)
  intro i y hy
  have hN' : ∀ y, (∃ i, y ∈ L i) → ∃ b ∈ bl, b.al = false ∧ b.bp = lo + 56 + y :=
    fun y ⟨i, hy⟩ => hN i y hy
  have h1 := (touched_sep_meta hs hN' hx
    (w := lo + 56 + y) (Or.inr ⟨y, ⟨i, hy⟩, Or.inl rfl⟩)).2 h16
  have h2 := (touched_sep_meta hs hN' hx
    (w := lo + 56 + y + 4) (Or.inr ⟨y, ⟨i, hy⟩, Or.inr rfl⟩)).2 h16
  omega

/-! ## Generic steps -/

theorem Geo_of_consts {s s' : State} (hc : SameConsts s s') (h : Geo s) : Geo s' := by
  obtain ⟨c1, c2, c3, c4, c5⟩ := hc
  exact ⟨by rw [c2, c3]; exact h.ch, by rw [c1, c3]; exact h.hl, by rw [c3]; exact h.al,
    by rw [c4, c5]; exact h.brk_le, by rw [c5, c3]; exact h.max_le, by rw [c5]; exact h.max_lt⟩

theorem Mid_of {s s' : State} {bl : List Blk} {L : Nat → List Nat} {ex exa : Nat → Prop}
    (hc : SameConsts s s') (hg : Geo s) (hs : Shape s.mem_heap s.mem_brk bl)
    (hh : Hdrs s'.mem bl) (hl : Lists s'.mem s.mem_heap (s.mem_heap + 56) L)
    (hn : Nodes (s.mem_heap + 56) bl L ex) (ha : NoAdj bl exa) : Mid s' bl L ex exa := by
  have hg' := Geo_of_consts hc hg
  obtain ⟨c1, c2, c3, c4, c5⟩ := hc
  exact ⟨hg', by rw [c3, c4]; exact hs, hh, by rw [c3]; exact hl, by rw [c3]; exact hn, ha⟩

theorem Mid.wf {s : State} {bl : List Blk} {L : Nat → List Nat} {ex exa : Nat → Prop}
    (h : Mid s bl L ex exa) : NodesWF L :=
  wf_of h.shape (le_trans h.geo.brk_le h.geo.max_le)
    (fun i y hy => by
      obtain ⟨b, hb, h1, h2, h3, _⟩ := (h.nodes.2 i y).1 hy
      exact ⟨b, hb, h1, h2, h3⟩) h.nodes.1

theorem Mid.len {s : State} {bl : List Blk} {L : Nat → List Nat} {ex exa : Nat → Prop}
    (h : Mid s bl L ex exa) (j : Nat) : (L j).length < fuel s :=
  len_of h.shape
    (fun i y hy => by
      obtain ⟨b, hb, h1, h2, h3, _⟩ := (h.nodes.2 i y).1 hy
      exact ⟨b, hb, h1, h2, h3⟩) h.nodes.1 j

theorem Mid.sz_lt {s : State} {bl : List Blk} {L : Nat → List Nat} {ex exa : Nat → Prop}
    (h : Mid s bl L ex exa) {b : Blk} (hb : b ∈ bl) :
    b.sz % 8 = 0 ∧ b.sz < 4294967288 ∧ b.bp % 8 = 0 := by
  obtain ⟨h1, h2, h3, h4, _⟩ := h.shape.ok b hb
  have := h.geo.brk_le
  have := h.geo.max_le
  exact ⟨h2, by omega, h1⟩

/-- Reading the header of a block of the list. -/
theorem Mid.read {s : State} {bl : List Blk} {L : Nat → List Nat} {ex exa : Nat → Prop}
    (h : Mid s bl L ex exa) {b : Blk} (hb : b ∈ bl) :
    GET_SIZE s.mem (HDRP b.bp) = b.sz ∧ GET_PREV_ALLOC s.mem (HDRP b.bp) = flag b.pa 2 ∧
      GET_ALLOC s.mem (HDRP b.bp) = flag b.al 1 := by
  have hz := h.sz_lt hb
  have hr := hdr_read b hz.1 hz.2.1
  unfold GET_SIZE GET_PREV_ALLOC GET_ALLOC HDRP WSIZE
  rw [(h.hdrs b hb).1]
  exact hr

/-- A word inside a free block, or a header, lies in the bytes that may change. -/
theorem Unchanged_of_EqOutside {m m' : Mem} {T P : Nat → Prop} (h : EqOutside m m' T)
    (hT : ∀ w, T w → ∀ a, w ≤ a → a < w + 4 → P a) : Unchanged m m' P := by
  intro a ha
  apply h a
  intro w hw
  by_contra hc
  exact ha (hT w hw a (by omega) (by omega))

theorem Unchanged_refl (m : Mem) (P : Nat → Prop) : Unchanged m m P := fun _ _ => rfl

theorem Unchanged_trans {m m' m'' : Mem} {P : Nat → Prop} (h : Unchanged m m' P)
    (h' : Unchanged m' m'' P) : Unchanged m m'' P :=
  fun a ha => (h' a ha).trans (h a ha)

theorem Unchanged_mono {m m' : Mem} {P P' : Nat → Prop} (h : Unchanged m m' P)
    (hP : ∀ a, P a → P' a) : Unchanged m m' P' :=
  fun a ha => h a (fun hp => ha (hP a hp))

theorem Unchanged_PUT {m m' : Mem} {P : Nat → Prop} (h : Unchanged m m' P) (w v : Nat)
    (hw : ∀ a, w ≤ a → a < w + 4 → P a) : Unchanged m (PUT m' w v) P := by
  intro a ha
  rw [PUT_other _ _ _ _ (by by_contra hc; exact ha (hw a (by omega) (by omega)))]
  exact h a ha

/-- The link words of free blocks and the head slots may change. -/
theorem touched_may {lo brk : Nat} {bl : List Blk} {N : Nat → Prop} {D : Nat}
    (hN : ∀ y, N y → ∃ b ∈ bl, (b.al = false ∨ b.bp = D) ∧ b.bp ≤ lo + 56 + y ∧
      lo + 56 + y + 12 ≤ b.bp + b.sz)
    (w : Nat) (hw : Touched lo (lo + 56) N w) (a : Nat) (h1 : w ≤ a) (h2 : a < w + 4) :
    MayChange lo brk bl D a := by
  rcases hw with ⟨i, hi, rfl⟩ | ⟨y, hy, hw⟩
  · left; omega
  · obtain ⟨b, hb, hf, h16, hbp⟩ := hN y hy
    right; right
    exact ⟨b, hb, by omega, Or.inr ⟨hf, by omega⟩⟩

/-- Bytes of the payload of an allocated block do not change. -/
theorem pay_not_may {lo brk : Nat} {bl : List Blk} {D : Nat} (hs : Shape lo brk bl)
    {x : Blk} (hx : x ∈ bl) (hxa : x.al = true) (hxD : x.bp ≠ D) (a : Nat)
    (h1 : x.bp ≤ a) (h2 : a + 4 < x.bp + x.sz) : ¬ MayChange lo brk bl D a := by
  obtain ⟨_, _, hx3, hx4, _⟩ := hs.ok x hx
  rintro (h | h | ⟨y, hy, h3, h4⟩)
  · omega
  · omega
  · by_cases hyx : y = x
    · subst hyx
      rcases h4 with h4 | ⟨h4 | h4, _⟩
      · omega
      · rw [hxa] at h4; exact absurd h4 (by simp)
      · exact hxD h4
    · rcases hs.sep hy hx hyx with e | e
      · rcases h4 with h4 | ⟨_, h4⟩ <;> omega
      · omega

theorem hdr_may {lo brk : Nat} {bl : List Blk} {D : Nat} {x : Blk} (hx : x ∈ bl)
    (h4 : 4 ≤ x.bp) (a : Nat) (h1 : x.bp - 4 ≤ a) (h2 : a < x.bp - 4 + 4) :
    MayChange lo brk bl D a :=
  Or.inr (Or.inr ⟨x, hx, by omega, Or.inl (by omega)⟩)

theorem in_may {lo brk : Nat} {bl : List Blk} {D : Nat} {x : Blk} (hx : x ∈ bl)
    (hf : x.al = false ∨ x.bp = D) (w : Nat) (hw1 : x.bp ≤ w + 4) (hw2 : w + 8 ≤ x.bp + x.sz)
    (a : Nat) (h1 : w ≤ a) (h2 : a < w + 4) : MayChange lo brk bl D a :=
  Or.inr (Or.inr ⟨x, hx, by omega, Or.inr ⟨hf, by omega⟩⟩)

/-! ## `place` -/

theorem place_consts (s : State) (bp asize : Nat) (s' : State) (h : place s bp asize = some s') :
    SameConsts s s' := by
  unfold place at h
  simp only [] at h
  split at h
  · exact SameConsts_trans (SameConsts_trans (SameConsts_trans (SameConsts_trans
      (del_consts s bp) (SameConsts_put _ _ _)) (SameConsts_put _ _ _)) (SameConsts_put _ _ _))
      (add_consts _ _ _ h)
  · injection h with h
    subst h
    exact SameConsts_trans (SameConsts_trans (del_consts s bp) (SameConsts_put _ _ _))
      (SameConsts_put _ _ _)

theorem PACK_aa (sz bp : Nat) (h8 : sz % 8 = 0) :
    PACK sz PREV_ALLOCATED ALLOCATED = hdr_word ⟨bp, sz, true, true⟩ :=
  PACK_hdr sz true true bp h8

theorem PACK_af (sz bp : Nat) (h8 : sz % 8 = 0) :
    PACK sz PREV_ALLOCATED FREE = hdr_word ⟨bp, sz, false, true⟩ :=
  PACK_hdr sz false true bp h8

theorem GET_SIZE_put (m : Mem) (w : Nat) (b : Blk) (h8 : b.sz % 8 = 0) (hlt : b.sz < 4294967288) :
    GET_SIZE (PUT m w (hdr_word b)) w = b.sz := by
  unfold GET_SIZE
  rw [GET_PUT_same _ _ _ (hdr_word_lt b hlt)]
  exact (hdr_read b h8 hlt).1

theorem place_nosplit_eq (s : State) (b c : Blk) (asize : Nat)
    (hszb : GET_SIZE s.mem (HDRP b.bp) = b.sz) (hle : asize ≤ b.sz) (hrest : b.sz < asize + 16)
    (hb8 : b.sz % 8 = 0) (hbl : b.sz < 4294967288) (hcb : c.bp = b.bp + b.sz)
    (hb16 : 16 ≤ b.sz) (hb4 : 4 ≤ b.bp)
    (hc8 : c.sz % 8 = 0) (hcl : c.sz < 4294967288)
    (hrc : GET (del_free_list s b.bp).mem (c.bp - 4) = hdr_word c) :
    place s b.bp asize = some (((del_free_list s b.bp).put (b.bp - 4)
      (hdr_word ⟨b.bp, b.sz, true, true⟩)).put (c.bp - 4) (hdr_word ⟨c.bp, c.sz, true, true⟩)) := by
  unfold place
  simp only [hszb]
  rw [if_neg (by unfold SIZE_MOD DSIZE; omega)]
  simp only [put_mem, HDRP, WSIZE, NEXT_BLKP]
  rw [PACK_aa b.sz b.bp hb8, GET_SIZE_put _ _ ⟨b.bp, b.sz, true, true⟩ hb8 hbl, ← hcb]
  have h2 : GET_SIZE (PUT (del_free_list s b.bp).mem (b.bp - 4)
      (hdr_word ⟨b.bp, b.sz, true, true⟩)) (c.bp - 4) = c.sz := by
    unfold GET_SIZE
    rw [GET_PUT_other _ _ _ _ (by omega), hrc]
    exact (hdr_read c hc8 hcl).1
  rw [h2, PACK_aa c.sz c.bp hc8]

theorem place_nosplit (s : State) (bl : List Blk) (L : Nat → List Nat) (b : Blk) (asize : Nat)
    (hrep : Rep s bl L) (hb : b ∈ bl) (hf : b.al = false) (hle : asize ≤ b.sz)
    (hrest : b.sz < asize + 16) :
    ∃ s' A c B L', place s b.bp asize = some s' ∧ bl = A ++ b :: c :: B ∧ c.al = true ∧
      Rep s' (A ++ ⟨b.bp, b.sz, true, true⟩ :: ⟨c.bp, c.sz, true, true⟩ :: B) L' ∧
      Unchanged s.mem s'.mem (MayChange s.mem_heap s.mem_brk bl 0) := by
  have hg := hrep.geo
  have hs := hrep.shape
  have hbf := hs.free_facts hb hf
  have hbz := hrep.sz_lt hb
  have hbpa : b.pa = true := hrep.noadj b hb (fun h => h) hf
  obtain ⟨A, c, B, hbl⟩ := hs.next hb (by omega)
  have hcm : c ∈ bl := by rw [hbl]; simp
  have hcb : c.bp = b.bp + b.sz ∧ c.pa = b.al := by
    have := hs.contig; rw [hbl] at this; exact Contig_mid this
  have hca : c.al = true := by
    by_contra hca
    have hca : c.al = false := by simpa using hca
    have := hrep.noadj c hcm (fun h => h) hca
    rw [hcb.2, hf] at this
    exact absurd this (by simp)
  have hcz := hrep.sz_lt hcm
  -- the node of `b`
  obtain ⟨x, hx⟩ : ∃ x, b.bp = s.mem_heap + 56 + x := ⟨b.bp - (s.mem_heap + 56), by omega⟩
  have hxL : x ∈ L (class_index b.sz) :=
    (hrep.nodes.2 _ x).2 ⟨b, hb, hf, hx, rfl, fun h => h⟩
  have hrb := hrep.read hb
  have hrc := hrep.read hcm
  obtain ⟨hL1, hE1⟩ := del_spec s L (class_index b.sz) x hg.ch hg.hl hrep.lists hrep.wf
    (class_index_lt _) hxL (by rw [← hx, hrb.1])
  have hN : ∀ y, (y ∈ L (class_index b.sz) ∧ y ≠ x) →
      ∃ b' ∈ bl, b'.al = false ∧ b'.bp = s.mem_heap + 56 + y := by
    intro y hy
    obtain ⟨b', hb', h1, h2, _⟩ := (hrep.nodes.2 _ y).1 hy.1
    exact ⟨b', hb', h1, h2⟩
  have hdc := del_consts s b.bp
  rw [← hx] at hL1 hE1
  have hrc1 : GET (del_free_list s b.bp).mem (c.bp - 4) = hdr_word c := by
    rw [(Hdrs_touched hs hN hE1 hcm).1]; exact (hrep.hdrs c hcm).1
  have hplace := place_nosplit_eq s b c asize hrb.1 hle hrest hbz.1 hbz.2.1 hcb.1 hbf.1
    (by omega) hcz.1 hcz.2.1 hrc1
  have hU1 : Unchanged s.mem (del_free_list s b.bp).mem
      (MayChange s.mem_heap s.mem_brk bl 0) := by
    apply Unchanged_of_EqOutside hE1
    apply touched_may
    intro y hy
    obtain ⟨b', hb', h1, h2⟩ := hN y hy
    have := hs.free_facts hb' h1
    exact ⟨b', hb', Or.inl h1, by omega, by omega⟩
  generalize del_free_list s b.bp = s1 at hL1 hE1 hdc hplace hrc1 hU1
  have hnodes1 := Nodes_erase hs hrep.nodes (class_index b.sz) x hxL
  generalize Function.update L (class_index b.sz) ((L (class_index b.sz)).erase x) = L1
    at hL1 hnodes1
  have hpre := Shape.pre_facts (A := A) (b := b) (R := c :: B) (by rw [← hbl]; exact hs)
  have hpost := Shape.post_facts (A := A ++ [b]) (b := c) (R := B)
    (by rw [List.append_assoc]; simp only [List.singleton_append]; rw [← hbl]; exact hs)
  have hAm : ∀ y, y ∈ A → y ∈ bl := fun y hy => by rw [hbl]; simp [hy]
  have hBm : ∀ y, y ∈ B → y ∈ bl := fun y hy => by rw [hbl]; simp [hy]
  have hshape' : Shape s.mem_heap s.mem_brk
      (A ++ ⟨b.bp, b.sz, true, true⟩ :: ⟨c.bp, c.sz, true, true⟩ :: B) := by
    have h0 : Shape s.mem_heap s.mem_brk (A ++ ([b] ++ [c]) ++ B) := by
      simpa [hbl] using hs
    have := @Shape.replace _ _ _ _ [⟨b.bp, b.sz, true, true⟩] _ _ ⟨c.bp, c.sz, true, true⟩ h0
      (by
        intro q qa r ra h
        have h : Contig q qa (b :: c :: []) r ra := h
        obtain ⟨h1, h2, h3, h4, h5, h6⟩ := h
        rw [hca] at h6
        exact ⟨h1, by rw [← h2, hbpa], h3, rfl, h5, h6⟩)
      (by
        intro y hy
        have hy : y = ⟨b.bp, b.sz, true, true⟩ := by simpa using hy
        subst hy
        have hok := hs.ok b hb
        refine ⟨⟨hok.1, hok.2.1, hok.2.2.1, hok.2.2.2.1, fun h => ?_, fun h => rfl,
          fun _ => Or.inr hbf.1⟩, by show b.sz ≠ 0; omega⟩
        exact ⟨(hok.2.2.2.2.1 h).1, rfl⟩)
      (by
        have hok := hs.ok c hcm
        refine ⟨⟨hok.1, hok.2.1, hok.2.2.1, hok.2.2.2.1, fun h => ⟨(hok.2.2.2.2.1 h).1, rfl⟩,
          fun _ => rfl, hok.2.2.2.2.2.2⟩, rfl⟩)
    simpa using this
  refine ⟨_, A, c, B, L1, hplace, hbl, hca, ?_, ?_⟩
  · apply Mid_of (SameConsts_trans (SameConsts_trans hdc (SameConsts_put _ _ _))
      (SameConsts_put _ _ _)) hg hshape'
    · -- headers
      intro y hy
      simp only [put_mem]
      have hold : ∀ y ∈ bl, y ≠ b → y ≠ c →
          GET (PUT (PUT s1.mem (b.bp - 4) (hdr_word ⟨b.bp, b.sz, true, true⟩)) (c.bp - 4)
            (hdr_word ⟨c.bp, c.sz, true, true⟩)) (y.bp - 4) = hdr_word y ∧
          (y.al = false → GET (PUT (PUT s1.mem (b.bp - 4) (hdr_word ⟨b.bp, b.sz, true, true⟩))
            (c.bp - 4) (hdr_word ⟨c.bp, c.sz, true, true⟩)) (y.bp + y.sz - 8) = hdr_word y) := by
        intro y hy hyb hyc
        have hyo := (hs.ok y hy).2.2.1
        have h1 := hs.sep hy hb hyb
        have h2 := hs.sep hy hcm hyc
        have hT := Hdrs_touched hs hN hE1 hy
        constructor
        · rw [GET_PUT_other _ _ _ _ (by omega), GET_PUT_other _ _ _ _ (by omega), hT.1]
          exact (hrep.hdrs y hy).1
        · intro hyf
          have hyf' := hs.free_facts hy hyf
          rw [GET_PUT_other _ _ _ _ (by omega), GET_PUT_other _ _ _ _ (by omega),
            hT.2 hyf'.1]
          exact (hrep.hdrs y hy).2 hyf
      simp only [List.mem_append, List.mem_cons] at hy
      rcases hy with hy | rfl | rfl | hy
      · have := hpre y hy
        exact hold y (hAm y hy) (fun h => by rw [h] at this; omega)
          (fun h => by rw [h] at this; omega)
      · refine ⟨?_, fun h => absurd h (by simp)⟩
        show GET _ (b.bp - 4) = _
        rw [GET_PUT_other _ _ _ _ (by omega),
          GET_PUT_same _ _ _ (hdr_word_lt _ (by exact hbz.2.1))]
      · refine ⟨?_, fun h => absurd h (by simp)⟩
        show GET _ (c.bp - 4) = _
        rw [GET_PUT_same _ _ _ (hdr_word_lt _ (by exact hcz.2.1))]
      · have := hpost y hy
        exact hold y (hBm y hy) (fun h => by rw [h] at this; omega)
          (fun h => by rw [h] at this; have := (hs.bp_lt hb (by omega)); omega)
    · -- class lists
      simp only [put_mem]
      have hN1 : ∀ i y, y ∈ L1 i → ∃ b' ∈ bl, b'.al = false ∧ b'.bp = s.mem_heap + 56 + y := by
        intro i y hy
        obtain ⟨b', hb', h1, h2, _⟩ := (hnodes1.2 i y).1 hy
        exact ⟨b', hb', h1, h2⟩
      exact Lists_put_hdr (Lists_put_hdr hL1 hs hN1 hb _) hs hN1 hcm _
    · -- nodes
      apply Nodes_relayout hnodes1
      intro p sz
      constructor
      · rintro ⟨y, hy, h1, h2, h3, h4⟩
        refine ⟨y, ?_, h1, h2, h3, fun h => h⟩
        rw [hbl] at hy
        simp only [List.mem_append, List.mem_cons] at hy ⊢
        rcases hy with hy | rfl | rfl | hy
        · exact Or.inl hy
        · exact absurd (Or.inr (by rw [← h2, hx])) h4
        · rw [hca] at h1; exact absurd h1 (by simp)
        · exact Or.inr (Or.inr (Or.inr hy))
      · rintro ⟨y, hy, h1, h2, h3, _⟩
        simp only [List.mem_append, List.mem_cons] at hy
        rcases hy with hy | rfl | rfl | hy
        · have := hpre y hy
          exact ⟨y, hAm y hy, h1, h2, h3, fun h => by rcases h with h | h; exact h; omega⟩
        · exact absurd h1 (by simp)
        · exact absurd h1 (by simp)
        · have := hpost y hy
          exact ⟨y, hBm y hy, h1, h2, h3, fun h => by rcases h with h | h; exact h; omega⟩
    · -- no two adjacent free blocks
      intro y hy _ hyf
      simp only [List.mem_append, List.mem_cons] at hy
      rcases hy with hy | rfl | rfl | hy
      · exact hrep.noadj y (hAm y hy) (fun h => h) hyf
      · rfl
      · rfl
      · exact hrep.noadj y (hBm y hy) (fun h => h) hyf
  · simp only [put_mem]
    refine Unchanged_PUT (Unchanged_PUT hU1 _ _ ?h1) _ _ ?h2
    case h1 => exact fun a h1 h2 => hdr_may hb (by omega) a h1 h2
    case h2 => exact fun a h1 h2 => hdr_may hcm (by omega) a h1 h2

theorem Nodes_ex_congr {hl : Nat} {bl : List Blk} {L : Nat → List Nat} {ex ex' : Nat → Prop}
    (h : Nodes hl bl L ex) (hiff : ∀ p, ex p ↔ ex' p) : Nodes hl bl L ex' := by
  refine ⟨h.1, fun i x => ?_⟩
  rw [h.2]
  constructor
  · rintro ⟨b, hb, h1, h2, h3, h4⟩; exact ⟨b, hb, h1, h2, h3, fun h => h4 ((hiff _).2 h)⟩
  · rintro ⟨b, hb, h1, h2, h3, h4⟩; exact ⟨b, hb, h1, h2, h3, fun h => h4 ((hiff _).1 h)⟩

theorem place_split_eq (s : State) (b : Blk) (asize : Nat)
    (hszb : GET_SIZE s.mem (HDRP b.bp) = b.sz) (hle : asize + 16 ≤ b.sz)
    (hb8 : b.sz % 8 = 0) (hbl : b.sz < 4294967288) (ha8 : asize % 8 = 0) (hb4 : 4 ≤ b.bp) :
    place s b.bp asize = add_free_list ((((del_free_list s b.bp).put (b.bp - 4)
      (hdr_word ⟨b.bp, asize, true, true⟩)).put (b.bp + asize - 4)
      (hdr_word ⟨b.bp + asize, b.sz - asize, false, true⟩)).put (b.bp + asize + (b.sz - asize) - 8)
      (hdr_word ⟨b.bp + asize, b.sz - asize, false, true⟩)) (b.bp + asize) := by
  unfold place
  simp only [hszb]
  have hrest : (b.sz + SIZE_MOD - asize) % SIZE_MOD = b.sz - asize := by
    unfold SIZE_MOD; omega
  rw [hrest, if_pos (by unfold DSIZE; omega)]
  simp only [put_mem, HDRP, WSIZE, NEXT_BLKP, FTRP, DSIZE]
  rw [PACK_aa asize b.bp ha8, GET_SIZE_put _ _ ⟨b.bp, asize, true, true⟩ ha8 (by show asize < _; omega),
    PACK_af (b.sz - asize) (b.bp + asize) (by omega),
    GET_SIZE_put _ _ ⟨b.bp + asize, b.sz - asize, false, true⟩ (by show (b.sz - asize) % 8 = 0; omega)
      (by show b.sz - asize < _; omega)]

theorem place_split (s : State) (bl : List Blk) (L : Nat → List Nat) (b : Blk) (asize : Nat)
    (hrep : Rep s bl L) (hb : b ∈ bl) (hf : b.al = false) (hle : asize + 16 ≤ b.sz)
    (ha8 : asize % 8 = 0) (ha16 : 16 ≤ asize) :
    ∃ s' A c B L', place s b.bp asize = some s' ∧ bl = A ++ b :: c :: B ∧
      Rep s' (A ++ ⟨b.bp, asize, true, true⟩ ::
        ⟨b.bp + asize, b.sz - asize, false, true⟩ :: c :: B) L' ∧
      Unchanged s.mem s'.mem (MayChange s.mem_heap s.mem_brk bl 0) := by
  have hg := hrep.geo
  have hs := hrep.shape
  have hbf := hs.free_facts hb hf
  have hbz := hrep.sz_lt hb
  have hbpa : b.pa = true := hrep.noadj b hb (fun h => h) hf
  obtain ⟨A, c, B, hbl⟩ := hs.next hb (by omega)
  have hcm : c ∈ bl := by rw [hbl]; simp
  have hcb : c.bp = b.bp + b.sz ∧ c.pa = b.al := by
    have := hs.contig; rw [hbl] at this; exact Contig_mid this
  obtain ⟨x, hx⟩ : ∃ x, b.bp = s.mem_heap + 56 + x := ⟨b.bp - (s.mem_heap + 56), by omega⟩
  have hxL : x ∈ L (class_index b.sz) :=
    (hrep.nodes.2 _ x).2 ⟨b, hb, hf, hx, rfl, fun h => h⟩
  have hrb := hrep.read hb
  obtain ⟨hL1, hE1⟩ := del_spec s L (class_index b.sz) x hg.ch hg.hl hrep.lists hrep.wf
    (class_index_lt _) hxL (by rw [← hx, hrb.1])
  have hN : ∀ y, (y ∈ L (class_index b.sz) ∧ y ≠ x) →
      ∃ b' ∈ bl, b'.al = false ∧ b'.bp = s.mem_heap + 56 + y := by
    intro y hy
    obtain ⟨b', hb', h1, h2, _⟩ := (hrep.nodes.2 _ y).1 hy.1
    exact ⟨b', hb', h1, h2⟩
  have hdc := del_consts s b.bp
  rw [← hx] at hL1 hE1
  have hplace := place_split_eq s b asize hrb.1 hle hbz.1 hbz.2.1 ha8 (by omega)
  have hU1 : Unchanged s.mem (del_free_list s b.bp).mem
      (MayChange s.mem_heap s.mem_brk bl 0) := by
    apply Unchanged_of_EqOutside hE1
    apply touched_may
    intro y hy
    obtain ⟨b', hb', h1, h2⟩ := hN y hy
    have := hs.free_facts hb' h1
    exact ⟨b', hb', Or.inl h1, by omega, by omega⟩
  generalize del_free_list s b.bp = s1 at hL1 hE1 hdc hplace hU1
  have hnodes1 := Nodes_erase hs hrep.nodes (class_index b.sz) x hxL
  generalize Function.update L (class_index b.sz) ((L (class_index b.sz)).erase x) = L1
    at hL1 hnodes1
  have hpre := Shape.pre_facts (A := A) (b := b) (R := c :: B) (by rw [← hbl]; exact hs)
  have hpost := Shape.post_facts (A := A ++ [b]) (b := c) (R := B)
    (by rw [List.append_assoc]; simp only [List.singleton_append]; rw [← hbl]; exact hs)
  have hAm : ∀ y, y ∈ A → y ∈ bl := fun y hy => by rw [hbl]; simp [hy]
  have hBm : ∀ y, y ∈ B → y ∈ bl := fun y hy => by rw [hbl]; simp [hy]
  -- the new layout
  generalize hb1 : (⟨b.bp, asize, true, true⟩ : Blk) = b1 at hplace
  generalize hb2 : (⟨b.bp + asize, b.sz - asize, false, true⟩ : Blk) = b2 at hplace
  have hb1f : b1.bp = b.bp ∧ b1.sz = asize ∧ b1.al = true ∧ b1.pa = true := by
    rw [← hb1]; exact ⟨rfl, rfl, rfl, rfl⟩
  have hb2f : b2.bp = b.bp + asize ∧ b2.sz = b.sz - asize ∧ b2.al = false ∧ b2.pa = true := by
    rw [← hb2]; exact ⟨rfl, rfl, rfl, rfl⟩
  have hshape' : Shape s.mem_heap s.mem_brk (A ++ b1 :: b2 :: c :: B) := by
    have h0 : Shape s.mem_heap s.mem_brk (A ++ ([b] ++ [c]) ++ B) := by
      simpa [hbl] using hs
    have := @Shape.replace _ _ _ _ [b1, b2] _ _ c h0
      (by
        intro q qa r ra h
        have h : Contig q qa (b :: c :: []) r ra := h
        obtain ⟨h1, h2, h3, h4, h5, h6⟩ := h
        show Contig q qa (b1 :: b2 :: c :: []) r ra
        refine ⟨by omega, by rw [hb1f.2.2.2, ← h2, hbpa], by omega, by rw [hb2f.2.2.2, hb1f.2.2.1],
          by omega, by rw [hb2f.2.2.1, h4, hf], by omega, h6⟩)
      (by
        intro y hy
        have hok := hs.ok b hb
        simp only [List.mem_cons, List.mem_singleton, List.not_mem_nil, or_false] at hy
        rcases hy with rfl | rfl
        · exact ⟨⟨by omega, by omega, by omega, by omega, fun h => by omega,
            fun h => by omega, fun _ => Or.inr (by omega)⟩, by omega⟩
        · exact ⟨⟨by omega, by omega, by omega, by omega, fun h => by omega,
            fun h => by omega, fun _ => Or.inr (by omega)⟩, by omega⟩)
      ⟨hs.ok c hcm, rfl⟩
    simpa using this
  have hm1 : b1 ∈ A ++ b1 :: b2 :: c :: B := by simp
  have hm2 : b2 ∈ A ++ b1 :: b2 :: c :: B := by simp
  -- headers after the three stores
  have hold : ∀ y ∈ bl, y ≠ b →
      GET (PUT (PUT (PUT s1.mem (b.bp - 4) (hdr_word b1)) (b.bp + asize - 4) (hdr_word b2))
        (b.bp + asize + (b.sz - asize) - 8) (hdr_word b2)) (y.bp - 4) = hdr_word y ∧
      (y.al = false → GET (PUT (PUT (PUT s1.mem (b.bp - 4) (hdr_word b1)) (b.bp + asize - 4)
        (hdr_word b2)) (b.bp + asize + (b.sz - asize) - 8) (hdr_word b2))
        (y.bp + y.sz - 8) = hdr_word y) := by
    intro y hy hyb
    have hyo := (hs.ok y hy).2.2.1
    have h1 := hs.sep hy hb hyb
    have hT := Hdrs_touched hs hN hE1 hy
    constructor
    · rw [GET_PUT_other _ _ _ _ (by omega), GET_PUT_other _ _ _ _ (by omega),
        GET_PUT_other _ _ _ _ (by omega), hT.1]
      exact (hrep.hdrs y hy).1
    · intro hyf
      have hyf' := hs.free_facts hy hyf
      rw [GET_PUT_other _ _ _ _ (by omega), GET_PUT_other _ _ _ _ (by omega),
        GET_PUT_other _ _ _ _ (by omega), hT.2 hyf'.1]
      exact (hrep.hdrs y hy).2 hyf
  have hb2lt : hdr_word b2 < 4294967296 := hdr_word_lt _ (by omega)
  have hb1lt : hdr_word b1 < 4294967296 := hdr_word_lt _ (by omega)
  have hhdrs4 : Hdrs (PUT (PUT (PUT s1.mem (b.bp - 4) (hdr_word b1)) (b.bp + asize - 4)
      (hdr_word b2)) (b.bp + asize + (b.sz - asize) - 8) (hdr_word b2))
      (A ++ b1 :: b2 :: c :: B) := by
    intro y hy
    simp only [List.mem_append, List.mem_cons] at hy
    rcases hy with hy | rfl | rfl | rfl | hy
    · have := hpre y hy
      exact hold y (hAm y hy) (fun h => by rw [h] at this; omega)
    · refine ⟨?_, fun h => absurd h (by rw [hb1f.2.2.1]; simp)⟩
      rw [hb1f.1, GET_PUT_other _ _ _ _ (by omega), GET_PUT_other _ _ _ _ (by omega),
        GET_PUT_same _ _ _ hb1lt]
    · rw [hb2f.1, hb2f.2.1]
      refine ⟨?_, fun _ => ?_⟩
      · rw [GET_PUT_other _ _ _ _ (by omega), GET_PUT_same _ _ _ hb2lt]
      · rw [GET_PUT_same _ _ _ hb2lt]
    · exact hold y hcm (fun h => by rw [h] at hcb; omega)
    · have := hpost y hy
      exact hold y (hBm y hy) (fun h => by rw [h] at this; omega)
  have hnodes4 : Nodes (s.mem_heap + 56) (A ++ b1 :: b2 :: c :: B) L1 (fun p => p = b2.bp) := by
    apply Nodes_relayout hnodes1
    intro p sz
    constructor
    · rintro ⟨y, hy, h1, h2, h3, h4⟩
      rw [hbl] at hy
      simp only [List.mem_append, List.mem_cons] at hy
      rcases hy with hy | rfl | rfl | hy
      · have := hpre y hy
        exact ⟨y, by simp [hy], h1, h2, h3, by omega⟩
      · exact absurd (Or.inr (by rw [← h2, hx])) h4
      · exact ⟨y, by simp, h1, h2, h3, by omega⟩
      · have := hpost y hy
        exact ⟨y, by simp [hy], h1, h2, h3, by omega⟩
    · rintro ⟨y, hy, h1, h2, h3, h4⟩
      simp only [List.mem_append, List.mem_cons] at hy
      rcases hy with hy | rfl | rfl | rfl | hy
      · have := hpre y hy
        exact ⟨y, hAm y hy, h1, h2, h3, fun h => by rcases h with h | h; exact h; omega⟩
      · rw [hb1f.2.2.1] at h1; exact absurd h1 (by simp)
      · exact absurd h2.symm h4
      · exact ⟨y, hcm, h1, h2, h3, fun h => by rcases h with h | h; exact h; omega⟩
      · have := hpost y hy
        exact ⟨y, hBm y hy, h1, h2, h3, fun h => by rcases h with h | h; exact h; omega⟩
  have hN1 : ∀ i y, y ∈ L1 i →
      ∃ b' ∈ A ++ b1 :: b2 :: c :: B, b'.al = false ∧ b'.bp = s.mem_heap + 56 + y := by
    intro i y hy
    obtain ⟨b', hb', h1, h2, _⟩ := (hnodes4.2 i y).1 hy
    exact ⟨b', hb', h1, h2⟩
  have hnoadj4 : NoAdj (A ++ b1 :: b2 :: c :: B) (fun _ => False) := by
    intro y hy _ hyf
    simp only [List.mem_append, List.mem_cons] at hy
    rcases hy with hy | rfl | rfl | rfl | hy
    · exact hrep.noadj y (hAm y hy) (fun h => h) hyf
    · exact hb1f.2.2.2
    · exact hb2f.2.2.2
    · exact hrep.noadj y hcm (fun h => h) hyf
    · exact hrep.noadj y (hBm y hy) (fun h => h) hyf
  have hc4 : SameConsts s (((s1.put (b.bp - 4) (hdr_word b1)).put (b.bp + asize - 4)
      (hdr_word b2)).put (b.bp + asize + (b.sz - asize) - 8) (hdr_word b2)) :=
    SameConsts_trans (SameConsts_trans (SameConsts_trans hdc (SameConsts_put _ _ _))
      (SameConsts_put _ _ _)) (SameConsts_put _ _ _)
  have hmid4 : Mid (((s1.put (b.bp - 4) (hdr_word b1)).put (b.bp + asize - 4)
      (hdr_word b2)).put (b.bp + asize + (b.sz - asize) - 8) (hdr_word b2))
      (A ++ b1 :: b2 :: c :: B) L1 (fun p => p = b2.bp) (fun _ => False) := by
    apply Mid_of hc4 hg hshape' hhdrs4 _ hnodes4 hnoadj4
    simp only [put_mem]
    have h3 := Lists_put_ftr (Lists_put_hdr (Lists_put_hdr hL1 hshape' hN1 hm1 (hdr_word b1))
      hshape' hN1 hm2 (hdr_word b2)) hshape' hN1 hm2 (by omega) (hdr_word b2)
    rw [hb1f.1, hb2f.1, hb2f.2.1] at h3
    exact h3
  have hU4 : Unchanged s.mem (((s1.put (b.bp - 4) (hdr_word b1)).put (b.bp + asize - 4)
      (hdr_word b2)).put (b.bp + asize + (b.sz - asize) - 8) (hdr_word b2)).mem
      (MayChange s.mem_heap s.mem_brk bl 0) := by
    simp only [put_mem]
    refine Unchanged_PUT (Unchanged_PUT (Unchanged_PUT hU1 _ _ ?h1) _ _ ?h2) _ _ ?h3
    case h1 => exact fun a h1 h2 => hdr_may hb (by omega) a h1 h2
    case h2 => exact fun a h1 h2 => in_may hb (Or.inl hf) _ (by omega) (by omega) a h1 h2
    case h3 => exact fun a h1 h2 => in_may hb (Or.inl hf) _ (by omega) (by omega) a h1 h2
  generalize (((s1.put (b.bp - 4) (hdr_word b1)).put (b.bp + asize - 4)
      (hdr_word b2)).put (b.bp + asize + (b.sz - asize) - 8) (hdr_word b2)) = s4
    at hplace hc4 hmid4 hU4
  -- insert the remainder
  have hx2 : b.bp + asize = s4.mem_heap + 56 + (x + asize) := by
    rw [hc4.2.2.1]; omega
  have hrd2 := hmid4.read hm2
  rw [hb2f.1] at hrd2
  have hal := hg.al
  have hxn : ∀ j, x + asize ∉ L1 j := by
    intro j hj
    obtain ⟨y, _, _, h2, _, h4⟩ := (hnodes4.2 j _).1 hj
    exact h4 (by rw [h2, hb2f.1]; omega)
  obtain ⟨s5, P, S, hadd, hPS, hL5, hE5⟩ := add_spec s4 L1 (class_index b2.sz) (x + asize)
    hmid4.geo.ch hmid4.geo.hl hmid4.lists hmid4.wf (class_index_lt _) hxn (by omega) (by omega)
    (by have := hg.brk_le; have := hg.max_le; omega) (by rw [← hx2, hrd2.1])
    (le_of_lt (hmid4.len _))
  rw [← hx2] at hadd
  have hc5 := add_consts _ _ _ hadd
  rw [hc4.2.2.1] at hL5 hE5
  refine ⟨s5, A, c, B, Function.update L1 (class_index b2.sz) (P ++ (x + asize) :: S),
    by rw [hplace, hadd], hbl, ?_, ?_⟩
  · apply Mid_of (SameConsts_trans hc4 hc5) hg hshape' _ hL5
    · have := Nodes_insert hnodes4 (class_index b2.sz) (x + asize) P S hPS
        (by show s.mem_heap + 56 + (x + asize) = b2.bp; rw [hb2f.1]; omega) hm2 hb2f.2.2.1
        (by rw [hb2f.1]; omega) rfl (fun y hy h => hshape'.uniq hy hm2 h)
      exact Nodes_ex_congr this (fun p => ⟨fun h => h.2 (by rw [h.1, hb2f.1]; omega), fun h => h.elim⟩)
    · exact hnoadj4
    · intro y hy
      have hT := Hdrs_touched (N := fun y => y ∈ L1 (class_index b2.sz) ∨ y = x + asize)
        hshape' (by
          intro z hz
          rcases hz with hz | hz
          · exact hN1 _ z hz
          · exact ⟨b2, hm2, hb2f.2.2.1, by rw [hz, hb2f.1]; omega⟩) hE5 hy
      have h4 := hmid4.hdrs y hy
      refine ⟨by rw [hT.1]; exact h4.1, fun hyf => ?_⟩
      rw [hT.2 (hshape'.free_facts hy hyf).1]
      exact h4.2 hyf
  · apply Unchanged_trans hU4
    apply Unchanged_of_EqOutside hE5
    apply touched_may
    intro z hz
    rcases hz with hz | hz
    · obtain ⟨y, hy, h1, h2, h3, h4⟩ := (hnodes1.2 _ z).1 hz
      have := hs.free_facts hy h1
      exact ⟨y, hy, Or.inl h1, by omega, by omega⟩
    · exact ⟨b, hb, Or.inl hf, by omega, by omega⟩

/-! ## Generic steps on an intermediate state -/

theorem Mid.nodes_in {s : State} {bl : List Blk} {L : Nat → List Nat} {ex exa : Nat → Prop}
    (h : Mid s bl L ex exa) (i y : Nat) (hy : y ∈ L i) :
    ∃ b ∈ bl, b.al = false ∧ b.bp = s.mem_heap + 56 + y := by
  obtain ⟨b, hb, h1, h2, _⟩ := (h.nodes.2 i y).1 hy
  exact ⟨b, hb, h1, h2⟩

/-- Unlinking a free block that is in a class list. -/
theorem del_step {s : State} {bl : List Blk} {L : Nat → List Nat} {ex exa : Nat → Prop}
    (D : Nat) (hmid : Mid s bl L ex exa) {y : Blk} (hy : y ∈ bl) (hyf : y.al = false)
    (hyx : ¬ ex y.bp) :
    ∃ L1, Mid (del_free_list s y.bp) bl L1 (fun p => ex p ∨ p = y.bp) exa ∧
      Unchanged s.mem (del_free_list s y.bp).mem (MayChange s.mem_heap s.mem_brk bl D) := by
  have hg := hmid.geo
  have hs := hmid.shape
  have hyf' := hs.free_facts hy hyf
  obtain ⟨x, hx⟩ : ∃ x, y.bp = s.mem_heap + 56 + x := ⟨y.bp - (s.mem_heap + 56), by omega⟩
  have hxL : x ∈ L (class_index y.sz) := (hmid.nodes.2 _ x).2 ⟨y, hy, hyf, hx, rfl, hyx⟩
  have hry := hmid.read hy
  obtain ⟨hL1, hE1⟩ := del_spec s L (class_index y.sz) x hg.ch hg.hl hmid.lists hmid.wf
    (class_index_lt _) hxL (by rw [← hx, hry.1])
  have hN : ∀ z, (z ∈ L (class_index y.sz) ∧ z ≠ x) →
      ∃ b' ∈ bl, b'.al = false ∧ b'.bp = s.mem_heap + 56 + z :=
    fun z hz => hmid.nodes_in _ z hz.1
  rw [← hx] at hL1 hE1
  refine ⟨_, Mid_of (del_consts s y.bp) hg hs ?_ hL1 ?_ hmid.noadj, ?_⟩
  · intro z hz
    have hT := Hdrs_touched hs hN hE1 hz
    have h4 := hmid.hdrs z hz
    refine ⟨by rw [hT.1]; exact h4.1, fun hzf => ?_⟩
    rw [hT.2 (hs.free_facts hz hzf).1]
    exact h4.2 hzf
  · have := Nodes_erase hs hmid.nodes (class_index y.sz) x hxL
    exact Nodes_ex_congr this (fun p => by rw [hx])
  · apply Unchanged_of_EqOutside hE1
    apply touched_may
    intro z hz
    obtain ⟨b', hb', h1, h2⟩ := hN z hz
    have := hs.free_facts hb' h1
    exact ⟨b', hb', Or.inl h1, by omega, by omega⟩

/-- Linking the one free block that is in no class list. -/
theorem add_step {s : State} {bl : List Blk} {L : Nat → List Nat} {ex exa : Nat → Prop}
    (D : Nat) (hmid : Mid s bl L ex exa) {m : Blk} (hm : m ∈ bl) (hmf : m.al = false)
    (hex : ∀ p, ex p ↔ p = m.bp) :
    ∃ s' L', add_free_list s m.bp = some s' ∧ Mid s' bl L' (fun _ => False) exa ∧
      SameConsts s s' ∧ Unchanged s.mem s'.mem (MayChange s.mem_heap s.mem_brk bl D) := by
  have hg := hmid.geo
  have hs := hmid.shape
  have hmf' := hs.free_facts hm hmf
  have hal := hg.al
  have hb1 := hg.brk_le
  have hb2 := hg.max_le
  obtain ⟨x, hx⟩ : ∃ x, m.bp = s.mem_heap + 56 + x := ⟨m.bp - (s.mem_heap + 56), by omega⟩
  have hrd := hmid.read hm
  have hxn : ∀ j, x ∉ L j := by
    intro j hj
    obtain ⟨y, _, _, h2, _, h4⟩ := (hmid.nodes.2 j _).1 hj
    exact h4 ((hex _).2 (by rw [h2, hx]))
  obtain ⟨s5, P, S, hadd, hPS, hL5, hE5⟩ := add_spec s L (class_index m.sz) x
    hg.ch hg.hl hmid.lists hmid.wf (class_index_lt _) hxn (by omega) (by omega)
    (by omega) (by rw [← hx, hrd.1]) (le_of_lt (hmid.len _))
  rw [← hx] at hadd
  have hc5 := add_consts _ _ _ hadd
  have hN : ∀ z, (z ∈ L (class_index m.sz) ∨ z = x) →
      ∃ b' ∈ bl, b'.al = false ∧ b'.bp = s.mem_heap + 56 + z := by
    intro z hz
    rcases hz with hz | hz
    · exact hmid.nodes_in _ z hz
    · exact ⟨m, hm, hmf, by rw [hz, hx]⟩
  refine ⟨s5, _, hadd, Mid_of hc5 hg hs ?_ hL5 ?_ hmid.noadj, hc5, ?_⟩
  · intro z hz
    have hT := Hdrs_touched hs hN hE5 hz
    have h4 := hmid.hdrs z hz
    refine ⟨by rw [hT.1]; exact h4.1, fun hzf => ?_⟩
    rw [hT.2 (hs.free_facts hz hzf).1]
    exact h4.2 hzf
  · have := Nodes_insert hmid.nodes (class_index m.sz) x P S hPS
      ((hex _).2 hx.symm) hm hmf hx rfl (fun y hy h => hs.uniq hy hm h)
    exact Nodes_ex_congr this
      (fun p => ⟨fun h => h.2 (by rw [(hex p).1 h.1, hx]), fun h => h.elim⟩)
  · apply Unchanged_of_EqOutside hE5
    apply touched_may
    intro z hz
    obtain ⟨b', hb', h1, h2⟩ := hN z hz
    have := hs.free_facts hb' h1
    exact ⟨b', hb', Or.inl h1, by omega, by omega⟩

/-- A tiling covers its range. -/
theorem Contig_cover (W : List Blk) : ∀ (q : Nat) (pa : Bool) (r : Nat) (la : Bool),
    Contig q pa W r la → ∀ t, q ≤ t → t < r → ∃ y ∈ W, y.bp ≤ t ∧ t < y.bp + y.sz := by
  induction W with
  | nil => intro q pa r la h t h1 h2; have := h.1; omega
  | cons b W ih =>
    intro q pa r la h t h1 h2
    obtain ⟨hb, _, hrest⟩ := h
    by_cases ht : t < b.bp + b.sz
    · exact ⟨b, by simp, by omega, ht⟩
    · obtain ⟨y, hy, h3⟩ := ih _ _ _ _ hrest t (by omega) h2
      exact ⟨y, by simp [hy], h3⟩

theorem Contig_fun (W : List Blk) : ∀ (q : Nat) (pa : Bool) (r : Nat) (la : Bool) (r' : Nat)
    (la' : Bool), Contig q pa W r la → Contig q pa W r' la' → r = r' ∧ la = la' := by
  induction W with
  | nil =>
    intro q pa r la r' la' h h'
    exact ⟨h.1.symm.trans h'.1, h.2.symm.trans h'.2⟩
  | cons b W ih =>
    intro q pa r la r' la' h h'
    exact ih _ _ _ _ _ _ h.2.2 h'.2.2

theorem Lists_frame {m m' : Mem} {lo : Nat} {L : Nat → List Nat} (h : Lists m lo (lo + 56) L)
    (hslot : ∀ i, i < 12 → GET m' (lo + 4 * i) = GET m (lo + 4 * i))
    (hlink : ∀ i y, y ∈ L i → GET m' (lo + 56 + y) = GET m (lo + 56 + y) ∧
      GET m' (lo + 56 + y + 4) = GET m (lo + 56 + y + 4)) :
    Lists m' lo (lo + 56) L := by
  intro i hi
  obtain ⟨h1, h2⟩ := h i hi
  refine ⟨?_, ?_⟩
  · rw [hslot i hi]
    exact SC_frame _ _ _ _ _ _ h1 (fun y hy => (hlink i y hy).2)
  · exact PC_frame _ _ _ _ _ h2 (fun y hy => (hlink i y hy).1)

/-- Merging a run `W0` of free blocks that are in no class list into one free
block `m`, by storing its header and its footer. -/
theorem merge_step {s s' : State} {A W0 B : List Blk} {nxt : Blk} {L : Nat → List Nat}
    {ex exa : Nat → Prop} (D : Nat)
    (hmid : Mid s (A ++ W0 ++ nxt :: B) L ex exa) (hc : SameConsts s s')
    (hW0 : W0 ≠ []) (hfree : ∀ y ∈ W0, y.al = false)
    (hex : ∀ p, ex p ↔ ∃ y ∈ W0, y.bp = p)
    (q r : Nat) (hcont : Contig q true W0 r false) (hnxt : nxt.al = true)
    (hna : ∀ y, (y ∈ A ∨ y ∈ B) → y.al = false → y.pa = true)
    (m : Blk) (hm : m = ⟨q, r - q, false, true⟩)
    (hh : GET s'.mem (q - 4) = hdr_word m) (hf : GET s'.mem (r - 8) = hdr_word m)
    (hrest : ∀ a, (a < q - 4 ∨ q ≤ a) → (a < r - 8 ∨ r - 4 ≤ a) → s'.mem a = s.mem a) :
    Mid s' (A ++ m :: nxt :: B) L (fun p => p = q) (fun _ => False) ∧
      Unchanged s.mem s'.mem (MayChange s.mem_heap s.mem_brk (A ++ W0 ++ nxt :: B) D) := by
  have hg := hmid.geo
  have hs := hmid.shape
  obtain ⟨f, W1, hW⟩ : ∃ f W1, W0 = f :: W1 := by
    cases W0 with
    | nil => exact absurd rfl hW0
    | cons f W1 => exact ⟨f, W1, rfl⟩
  have hfm : f ∈ A ++ W0 ++ nxt :: B := by rw [hW]; simp
  have hff := hs.free_facts hfm (hfree f (by rw [hW]; simp))
  have hfq : f.bp = q := by rw [hW] at hcont; exact hcont.1
  have hfr : f.bp + f.sz ≤ r := by
    rw [hW] at hcont; have := Contig_le _ _ _ _ _ hcont.2.2; omega
  have hnm : nxt ∈ A ++ W0 ++ nxt :: B := by simp
  have hnr : nxt.bp = r := by
    have h0 : Contig (s.mem_heap + 56) true (A ++ W0 ++ (nxt :: B)) s.mem_brk true := hs.contig
    obtain ⟨q', qa', r', ra', h1, h2, h3⟩ := Contig_window h0
    have hq' : q' = q ∧ qa' = true := by
      rw [hW] at h2 hcont
      exact ⟨h2.1.symm.trans hcont.1, h2.2.1.symm.trans hcont.2.1⟩
    rw [hq'.1, hq'.2] at h2
    have := (Contig_fun _ _ _ _ _ _ _ h2 hcont).1
    rw [← this]; exact h3.1
  obtain ⟨hn1, hn2, hn3, hn4, _⟩ := hs.ok nxt hnm
  have hpre := Shape.pre_facts (A := A) (b := f) (R := W1 ++ nxt :: B)
    (by have := hs; rw [hW] at this; simpa using this)
  have hpost := Shape.post_facts (A := A ++ W0) (b := nxt) (R := B) hs
  have hAm : ∀ y, y ∈ A → y ∈ A ++ W0 ++ nxt :: B := fun y hy => by simp [hy]
  have hBm : ∀ y, y ∈ B → y ∈ A ++ W0 ++ nxt :: B := fun y hy => by simp [hy]
  have hWb : ∀ y, y ∈ W0 → q ≤ y.bp ∧ y.bp + y.sz ≤ r := Contig_bounds _ _ _ _ _ hcont
  have hmf : m.bp = q ∧ m.sz = r - q ∧ m.al = false ∧ m.pa = true := by
    rw [hm]; exact ⟨rfl, rfl, rfl, rfl⟩
  have hshape' : Shape s.mem_heap s.mem_brk (A ++ m :: nxt :: B) := by
    have h0 : Shape s.mem_heap s.mem_brk (A ++ (W0 ++ [nxt]) ++ B) := by simpa using hs
    have := @Shape.replace _ _ _ _ [m] _ _ nxt h0
      (by
        intro q' qa' r' ra' h
        rw [Contig_append] at h
        obtain ⟨q2, qa2, h1, h2⟩ := h
        have hq' : q' = q ∧ qa' = true := by
          rw [hW] at h1 hcont
          exact ⟨h1.1.symm.trans hcont.1, h1.2.1.symm.trans hcont.2.1⟩
        rw [hq'.1, hq'.2] at h1
        have h3 := Contig_fun _ _ _ _ _ _ _ h1 hcont
        rw [h3.1, h3.2] at h2
        obtain ⟨h4, h5, h6⟩ := h2
        show Contig q' qa' (m :: nxt :: []) r' ra'
        refine ⟨by omega, by rw [hmf.2.2.2, hq'.2], by omega, by rw [h5, hmf.2.2.1], ?_⟩
        have e : q' + m.sz + nxt.sz = r + nxt.sz := by omega
        rw [e]; exact h6)
      (by
        intro y hy
        have hy : y = m := by simpa using hy
        subst hy
        exact ⟨⟨by omega, by omega, by omega, by omega, fun h => by omega, fun h => by omega,
          fun _ => Or.inr (by omega)⟩, by omega⟩)
      ⟨hs.ok nxt hnm, rfl⟩
    simpa using this
  have hbyte : ∀ w, (w + 4 ≤ q - 4 ∨ q ≤ w) → (w + 4 ≤ r - 8 ∨ r - 4 ≤ w) →
      GET s'.mem w = GET s.mem w := by
    intro w h1 h2
    apply GET_congr
    intro a h3 h4
    exact hrest a (by omega) (by omega)
  have hold : ∀ y, (y ∈ A ∨ y = nxt ∨ y ∈ B) →
      GET s'.mem (y.bp - 4) = hdr_word y ∧
      (y.al = false → GET s'.mem (y.bp + y.sz - 8) = hdr_word y) := by
    intro y hy
    have hym : y ∈ A ++ W0 ++ nxt :: B := by
      rcases hy with hy | rfl | hy
      · exact hAm y hy
      · exact hnm
      · exact hBm y hy
    have hh4 := hmid.hdrs y hym
    rcases hy with hy | rfl | hy
    · have := hpre y hy
      refine ⟨by rw [hbyte _ (by omega) (by omega)]; exact hh4.1, fun hyf => ?_⟩
      rw [hbyte _ (by omega) (by omega)]; exact hh4.2 hyf
    · refine ⟨by rw [hbyte _ (by omega) (by omega)]; exact hh4.1, fun hyf => ?_⟩
      rw [hnxt] at hyf; exact absurd hyf (by simp)
    · have := hpost y hy
      refine ⟨by rw [hbyte _ (by omega) (by omega)]; exact hh4.1, fun hyf => ?_⟩
      have := hs.free_facts hym hyf
      rw [hbyte _ (by omega) (by omega)]; exact hh4.2 hyf
  constructor
  · apply Mid_of hc hg hshape'
    · intro y hy
      simp only [List.mem_append, List.mem_cons] at hy
      rcases hy with hy | rfl | rfl | hy
      · exact hold y (Or.inl hy)
      · rw [hmf.1, hmf.2.1]
        refine ⟨hh, fun _ => ?_⟩
        rw [show q + (r - q) - 8 = r - 8 by omega]; exact hf
      · exact hold y (Or.inr (Or.inl rfl))
      · exact hold y (Or.inr (Or.inr hy))
    · apply Lists_frame hmid.lists
      · intro i hi
        exact hbyte _ (by omega) (by omega)
      · intro i y hy
        obtain ⟨z, hz, h1, h2, h3, h4⟩ := (hmid.nodes.2 i y).1 hy
        have hzf := hs.free_facts hz h1
        simp only [List.mem_append, List.mem_cons] at hz
        rcases hz with (hz | hz) | rfl | hz
        · have := hpre z hz
          exact ⟨hbyte _ (by omega) (by omega), hbyte _ (by omega) (by omega)⟩
        · exact absurd ((hex _).2 ⟨z, hz, rfl⟩) h4
        · rw [hnxt] at h1; exact absurd h1 (by simp)
        · have := hpost z hz
          exact ⟨hbyte _ (by omega) (by omega), hbyte _ (by omega) (by omega)⟩
    · apply Nodes_relayout hmid.nodes
      intro p sz
      constructor
      · rintro ⟨y, hy, h1, h2, h3, h4⟩
        simp only [List.mem_append, List.mem_cons] at hy
        rcases hy with (hy | hy) | rfl | hy
        · have := hpre y hy
          exact ⟨y, by simp [hy], h1, h2, h3, by omega⟩
        · exact absurd ((hex _).2 ⟨y, hy, h2⟩) h4
        · rw [hnxt] at h1; exact absurd h1 (by simp)
        · have := hpost y hy
          exact ⟨y, by simp [hy], h1, h2, h3, by omega⟩
      · rintro ⟨y, hy, h1, h2, h3, h4⟩
        simp only [List.mem_append, List.mem_cons] at hy
        rcases hy with hy | rfl | rfl | hy
        · have := hpre y hy
          refine ⟨y, hAm y hy, h1, h2, h3, fun h => ?_⟩
          obtain ⟨z, hz, hzp⟩ := (hex _).1 h
          have := hWb z hz
          omega
        · exact absurd (h2.symm.trans hmf.1) h4
        · rw [hnxt] at h1; exact absurd h1 (by simp)
        · have := hpost y hy
          refine ⟨y, hBm y hy, h1, h2, h3, fun h => ?_⟩
          obtain ⟨z, hz, hzp⟩ := (hex _).1 h
          have := hWb z hz
          have := hs.free_facts (by simp [hz] : z ∈ A ++ W0 ++ nxt :: B) (hfree z hz)
          omega
    · intro y hy _ hyf
      simp only [List.mem_append, List.mem_cons] at hy
      rcases hy with hy | rfl | rfl | hy
      · exact hna y (Or.inl hy) hyf
      · exact hmf.2.2.2
      · rw [hnxt] at hyf; exact absurd hyf (by simp)
      · exact hna y (Or.inr hy) hyf
  · intro a ha
    apply hrest
    · by_contra h
      exact ha (hdr_may hfm (by omega) a (by omega) (by omega))
    · by_contra h
      obtain ⟨y, hy, h1, h2⟩ := Contig_cover _ _ _ _ _ hcont (a + 4) (by omega) (by omega)
      exact ha (Or.inr (Or.inr ⟨y, by simp [hy], h1, Or.inr ⟨Or.inl (hfree y hy), h2⟩⟩))

/-! ## `coalesce` -/

theorem GET_SIZE_other (m : Mem) (p v q : Nat) (h : q + 4 ≤ p ∨ p + 4 ≤ q) :
    GET_SIZE (PUT m p v) q = GET_SIZE m q := by
  unfold GET_SIZE; rw [GET_PUT_other m p v q h]

theorem GET_PREV_ALLOC_other (m : Mem) (p v q : Nat) (h : q + 4 ≤ p ∨ p + 4 ≤ q) :
    GET_PREV_ALLOC (PUT m p v) q = GET_PREV_ALLOC m q := by
  unfold GET_PREV_ALLOC; rw [GET_PUT_other m p v q h]

theorem GET_ALLOC_other (m : Mem) (p v q : Nat) (h : q + 4 ≤ p ∨ p + 4 ≤ q) :
    GET_ALLOC (PUT m p v) q = GET_ALLOC m q := by
  unfold GET_ALLOC; rw [GET_PUT_other m p v q h]

/-- Two stores of the same word at two separate places. -/
theorem two_puts (m : Mem) (w1 w2 v : Nat) (hv : v < 4294967296)
    (hsep : w1 + 4 ≤ w2 ∨ w2 + 4 ≤ w1) :
    GET (PUT (PUT m w1 v) w2 v) w1 = v ∧ GET (PUT (PUT m w1 v) w2 v) w2 = v ∧
      ∀ a, (a < w1 ∨ w1 + 4 ≤ a) → (a < w2 ∨ w2 + 4 ≤ a) → PUT (PUT m w1 v) w2 v a = m a := by
  refine ⟨?_, GET_PUT_same _ _ _ hv, ?_⟩
  · rw [GET_PUT_other _ _ _ _ (by omega)]; exact GET_PUT_same _ _ _ hv
  · intro a h1 h2
    rw [PUT_other _ _ _ _ h2, PUT_other _ _ _ _ h1]

/-- What may change in the merged layout may change in the layout before. -/
theorem MayChange_merge {lo brk : Nat} {A W0 R : List Blk} {m : Blk} {D q r : Nat}
    (hcont : Contig q true W0 r false) (hfree : ∀ y ∈ W0, y.al = false)
    (hW0 : W0 ≠ []) (hmq : m.bp = q) (hmr : m.sz = r - q) (a : Nat)
    (h : MayChange lo brk (A ++ m :: R) D a) : MayChange lo brk (A ++ W0 ++ R) D a := by
  rcases h with h | h | ⟨x, hx, h1, h2⟩
  · exact Or.inl h
  · exact Or.inr (Or.inl h)
  · simp only [List.mem_append, List.mem_cons] at hx
    rcases hx with hx | rfl | hx
    · exact Or.inr (Or.inr ⟨x, by simp [hx], h1, h2⟩)
    · obtain ⟨f, W1, hW⟩ : ∃ f W1, W0 = f :: W1 := by
        cases W0 with
        | nil => exact absurd rfl hW0
        | cons f W1 => exact ⟨f, W1, rfl⟩
      have hfq : f.bp = q := by rw [hW] at hcont; exact hcont.1
      have hqr := Contig_le _ _ _ _ _ hcont
      by_cases ha : a < x.bp
      · exact Or.inr (Or.inr ⟨f, by rw [hW]; simp, by omega, Or.inl (by omega)⟩)
      · have h3 : a + 4 < x.bp + x.sz := by
          rcases h2 with h2 | h2
          · exact absurd h2 ha
          · exact h2.2
        obtain ⟨y, hy, h4, h5⟩ := Contig_cover _ _ _ _ _ hcont (a + 4) (by omega) (by omega)
        exact Or.inr (Or.inr ⟨y, by simp [hy], h4, Or.inr ⟨Or.inl (hfree y hy), h5⟩⟩)
    · exact Or.inr (Or.inr ⟨x, by simp [hx], h1, h2⟩)

theorem NEXT_BLKP_eq (m : Mem) (bp sz : Nat) (h : GET_SIZE m (HDRP bp) = sz) :
    NEXT_BLKP m bp = bp + sz := by
  unfold NEXT_BLKP; unfold HDRP at h; rw [h]

theorem PREV_BLKP_eq (m : Mem) (bp sz : Nat) (h : GET_SIZE m (bp - 8) = sz) :
    PREV_BLKP m bp = bp - sz := by
  unfold PREV_BLKP DSIZE; rw [h]

theorem FTRP_eq (m : Mem) (bp sz : Nat) (h : GET_SIZE m (HDRP bp) = sz) :
    FTRP m bp = bp + sz - 8 := by
  unfold FTRP DSIZE; rw [h]

theorem coalesce_eq1 (s : State) (bp : Nat) (h1 : GET_PREV_ALLOC s.mem (HDRP bp) ≠ 0)
    (h2 : GET_ALLOC s.mem (HDRP (NEXT_BLKP s.mem bp)) ≠ 0) :
    coalesce s bp = (add_free_list s bp).map (fun s1 => (bp, s1)) := by
  unfold coalesce
  simp only []
  rw [if_pos ⟨h1, h2⟩]

theorem coalesce_eq2 (s : State) (bp bsz csz : Nat)
    (h1 : GET_PREV_ALLOC s.mem (HDRP bp) = 2)
    (h2 : GET_ALLOC s.mem (HDRP (NEXT_BLKP s.mem bp)) = 0)
    (h3 : GET_SIZE s.mem (HDRP bp) = bsz)
    (h4 : GET_SIZE (del_free_list s (bp + bsz)).mem (HDRP bp) = bsz)
    (h5 : GET_SIZE (del_free_list s (bp + bsz)).mem (HDRP (bp + bsz)) = csz)
    (h8 : (bsz + csz) % 8 = 0) (hlt : bsz + csz < 4294967288) :
    coalesce s bp = (add_free_list (((del_free_list s (bp + bsz)).put (bp - 4)
      (hdr_word ⟨bp, bsz + csz, false, true⟩)).put (bp + (bsz + csz) - 8)
      (hdr_word ⟨bp, bsz + csz, false, true⟩)) bp).map (fun s4 => (bp, s4)) := by
  unfold coalesce
  simp only []
  rw [if_neg (by rw [h2]; simp), if_pos ⟨by rw [h1]; simp, h2⟩]
  have hn : NEXT_BLKP s.mem bp = bp + bsz := NEXT_BLKP_eq _ _ _ h3
  rw [hn]
  have hn1 : NEXT_BLKP (del_free_list s (bp + bsz)).mem bp = bp + bsz := NEXT_BLKP_eq _ _ _ h4
  rw [hn1, h5, h3, h1]
  have hm : (bsz + csz) % SIZE_MOD = bsz + csz := by unfold SIZE_MOD; omega
  rw [hm]
  have hP : PACK (bsz + csz) 2 FREE = hdr_word ⟨bp, bsz + csz, false, true⟩ :=
    PACK_af (bsz + csz) bp h8
  rw [hP]
  simp only [put_mem, FTRP, HDRP, WSIZE, DSIZE]
  rw [GET_SIZE_put _ _ ⟨bp, bsz + csz, false, true⟩ h8 hlt]

theorem coalesce_eq3 (s : State) (bp asz bsz : Nat)
    (h1 : GET_PREV_ALLOC s.mem (HDRP bp) = 0)
    (h2 : GET_ALLOC s.mem (HDRP (NEXT_BLKP s.mem bp)) ≠ 0)
    (h3 : GET_SIZE s.mem (HDRP bp) = bsz)
    (h4 : GET_SIZE s.mem (bp - 8) = asz)
    (h5 : GET_SIZE (del_free_list s (bp - asz)).mem (bp - 8) = asz)
    (h6 : GET_SIZE (del_free_list s (bp - asz)).mem (HDRP (bp - asz)) = asz)
    (h7 : GET_PREV_ALLOC (del_free_list s (bp - asz)).mem (HDRP (bp - asz)) = 2)
    (h9 : GET_SIZE (del_free_list s (bp - asz)).mem (HDRP bp) = bsz)
    (h8 : (asz + bsz) % 8 = 0) (hlt : asz + bsz < 4294967288)
    (ha : 8 ≤ asz) (hb : 8 ≤ bsz) (hbp : asz + 4 ≤ bp) :
    coalesce s bp = (add_free_list (((del_free_list s (bp - asz)).put (bp + bsz - 8)
      (hdr_word ⟨bp - asz, asz + bsz, false, true⟩)).put (bp - asz - 4)
      (hdr_word ⟨bp - asz, asz + bsz, false, true⟩)) (bp - asz)).map
        (fun s4 => (bp - asz, s4)) := by
  unfold coalesce
  simp only []
  rw [if_neg (by rw [h1]; simp), if_neg (by rw [h1]; simp), if_pos ⟨h1, h2⟩]
  have hp : PREV_BLKP s.mem bp = bp - asz := PREV_BLKP_eq _ _ _ h4
  rw [hp]
  have hp1 : PREV_BLKP (del_free_list s (bp - asz)).mem bp = bp - asz := PREV_BLKP_eq _ _ _ h5
  rw [hp1, h6, h7, h3]
  have hm : (bsz + asz) % SIZE_MOD = asz + bsz := by unfold SIZE_MOD; omega
  rw [hm]
  have hP : PACK (asz + bsz) 2 FREE = hdr_word ⟨bp - asz, asz + bsz, false, true⟩ :=
    PACK_af (asz + bsz) (bp - asz) h8
  rw [hP]
  have hf : FTRP (del_free_list s (bp - asz)).mem bp = bp + bsz - 8 := FTRP_eq _ _ _ h9
  rw [hf]
  have hp2 : PREV_BLKP ((del_free_list s (bp - asz)).put (bp + bsz - 8)
      (hdr_word ⟨bp - asz, asz + bsz, false, true⟩)).mem bp = bp - asz := by
    apply PREV_BLKP_eq
    rw [put_mem, GET_SIZE_other _ _ _ _ (by omega), h5]
  rw [hp2]
  have hp3 : PREV_BLKP (((del_free_list s (bp - asz)).put (bp + bsz - 8)
      (hdr_word ⟨bp - asz, asz + bsz, false, true⟩)).put (HDRP (bp - asz))
      (hdr_word ⟨bp - asz, asz + bsz, false, true⟩)).mem bp = bp - asz := by
    apply PREV_BLKP_eq
    unfold HDRP WSIZE
    rw [put_mem, put_mem, GET_SIZE_other _ _ _ _ (by omega), GET_SIZE_other _ _ _ _ (by omega), h5]
  rw [hp3]
  rfl

theorem coalesce_eq4 (s : State) (bp asz bsz csz : Nat)
    (h1 : GET_PREV_ALLOC s.mem (HDRP bp) = 0)
    (h2 : GET_ALLOC s.mem (HDRP (NEXT_BLKP s.mem bp)) = 0)
    (h4 : GET_SIZE s.mem (bp - 8) = asz)
    (h3 : GET_SIZE (del_free_list s (bp - asz)).mem (HDRP bp) = bsz)
    (h5 : GET_SIZE (del_free_list (del_free_list s (bp - asz)) (bp + bsz)).mem (bp - 8) = asz)
    (h6 : GET_SIZE (del_free_list (del_free_list s (bp - asz)) (bp + bsz)).mem
      (HDRP (bp - asz)) = asz)
    (h7 : GET_PREV_ALLOC (del_free_list (del_free_list s (bp - asz)) (bp + bsz)).mem
      (HDRP (bp - asz)) = 2)
    (h9 : GET_SIZE (del_free_list (del_free_list s (bp - asz)) (bp + bsz)).mem (HDRP bp) = bsz)
    (h10 : GET_SIZE (del_free_list (del_free_list s (bp - asz)) (bp + bsz)).mem
      (HDRP (bp + bsz)) = csz)
    (h0 : GET_SIZE s.mem (HDRP bp) = bsz)
    (h8 : (asz + bsz + csz) % 8 = 0) (hlt : asz + bsz + csz < 4294967288)
    (ha : 8 ≤ asz) (hb : 8 ≤ bsz) (hc : 8 ≤ csz) (hbp : asz + 4 ≤ bp) :
    coalesce s bp = (add_free_list (((del_free_list (del_free_list s (bp - asz)) (bp + bsz)).put
      (bp - asz - 4) (hdr_word ⟨bp - asz, asz + bsz + csz, false, true⟩)).put
      (bp + bsz + csz - 8) (hdr_word ⟨bp - asz, asz + bsz + csz, false, true⟩)) (bp - asz)).map
        (fun s4 => (bp - asz, s4)) := by
  unfold coalesce
  simp only []
  rw [if_neg (by rw [h1]; simp), if_neg (by rw [h1]; simp), if_neg (by rw [h2]; simp)]
  have hp : PREV_BLKP s.mem bp = bp - asz := PREV_BLKP_eq _ _ _ h4
  rw [hp]
  have hn1 : NEXT_BLKP (del_free_list s (bp - asz)).mem bp = bp + bsz := NEXT_BLKP_eq _ _ _ h3
  rw [hn1]
  generalize del_free_list (del_free_list s (bp - asz)) (bp + bsz) = s2 at h5 h6 h7 h9 h10
  have hp2 : PREV_BLKP s2.mem bp = bp - asz := PREV_BLKP_eq _ _ _ h5
  have hn2 : NEXT_BLKP s2.mem bp = bp + bsz := NEXT_BLKP_eq _ _ _ h9
  rw [hp2, hn2, h6, h7, h10, h0]
  have hm : (bsz + (asz + csz) % 4294967296) % SIZE_MOD = asz + bsz + csz := by
    unfold SIZE_MOD; omega
  rw [hm]
  have hP : PACK (asz + bsz + csz) 2 FREE = hdr_word ⟨bp - asz, asz + bsz + csz, false, true⟩ :=
    PACK_af (asz + bsz + csz) (bp - asz) h8
  rw [hP]
  generalize hdr_word ⟨bp - asz, asz + bsz + csz, false, true⟩ = W
  have hn3 : NEXT_BLKP (s2.put (HDRP (bp - asz)) W).mem bp = bp + bsz := by
    apply NEXT_BLKP_eq
    unfold HDRP WSIZE
    rw [put_mem, GET_SIZE_other _ _ _ _ (by omega)]
    exact h9
  rw [hn3]
  have hf3 : FTRP (s2.put (HDRP (bp - asz)) W).mem (bp + bsz) = bp + bsz + csz - 8 := by
    apply FTRP_eq
    unfold HDRP WSIZE
    rw [put_mem, GET_SIZE_other _ _ _ _ (by omega)]
    exact h10
  rw [hf3]
  have hp4 : PREV_BLKP ((s2.put (HDRP (bp - asz)) W).put (bp + bsz + csz - 8) W).mem bp
      = bp - asz := by
    apply PREV_BLKP_eq
    unfold HDRP WSIZE
    rw [put_mem, put_mem, GET_SIZE_other _ _ _ _ (by omega), GET_SIZE_other _ _ _ _ (by omega), h5]
  rw [hp4]
  rfl

theorem Shape.not_last {lo brk : Nat} {X B : List Blk} {c : Blk}
    (h : Shape lo brk (X ++ c :: B)) (hc : c.sz ≠ 0) : ∃ d B', B = d :: B' := by
  cases B with
  | cons d B' => exact ⟨d, B', rfl⟩
  | nil =>
    exfalso
    obtain ⟨body, e, h1, h2, _⟩ := h.last
    have := List.append_inj_right' (show X ++ [c] = body ++ [e] from h1) rfl
    simp only [List.cons.injEq, and_true] at this
    rw [this] at hc
    exact hc h2

theorem allocs_append (X Y : List Blk) : allocs (X ++ Y) = allocs X ++ allocs Y := by
  unfold allocs; rw [List.filter_append, List.map_append]

theorem allocs_cons_free (b : Blk) (Y : List Blk) (h : b.al = false) :
    allocs (b :: Y) = allocs Y := by
  unfold allocs; rw [List.filter_cons_of_neg (by simp [h])]

theorem allocs_cons_alloc (b : Blk) (Y : List Blk) (h : b.al = true) (hz : b.sz ≠ 0) :
    allocs (b :: Y) = (b.bp, b.sz) :: allocs Y := by
  unfold allocs; rw [List.filter_cons_of_pos (by simp [h, hz])]; rfl

theorem allocs_cons_zero (b : Blk) (Y : List Blk) (hz : b.sz = 0) :
    allocs (b :: Y) = allocs Y := by
  unfold allocs; rw [List.filter_cons_of_neg (by simp [hz])]

/-- The common start of the four cases of `coalesce`. -/
theorem coalesce_setup {s : State} {bl : List Blk} {L : Nat → List Nat} {b : Blk}
    {ex exa : Nat → Prop} (hmid : Mid s bl L ex exa) (hb : b ∈ bl) (hf : b.al = false) :
    ∃ A c B, bl = A ++ b :: c :: B ∧ c.bp = b.bp + b.sz ∧ c.pa = false ∧ c ∈ bl ∧
      GET_PREV_ALLOC s.mem (HDRP b.bp) = flag b.pa 2 ∧
      GET_ALLOC s.mem (HDRP (NEXT_BLKP s.mem b.bp)) = flag c.al 1 := by
  have hs := hmid.shape
  have hbf := hs.free_facts hb hf
  obtain ⟨A, c, B, hbl⟩ := hs.next hb (by omega)
  have hcm : c ∈ bl := by rw [hbl]; simp
  have hcb : c.bp = b.bp + b.sz ∧ c.pa = b.al := by
    have := hs.contig; rw [hbl] at this; exact Contig_mid this
  have hrb := hmid.read hb
  have hrc := hmid.read hcm
  refine ⟨A, c, B, hbl, hcb.1, by rw [hcb.2, hf], hcm, hrb.2.1, ?_⟩
  rw [NEXT_BLKP_eq _ _ _ hrb.1, ← hcb.1]
  exact hrc.2.2

theorem coalesce_case1 {s : State} {bl : List Blk} {L : Nat → List Nat} {b : Blk} (D : Nat)
    (hmid : Mid s bl L (fun p => p = b.bp) (fun p => p = b.bp ∨ p = b.bp + b.sz))
    (hb : b ∈ bl) (hf : b.al = false) {A B : List Blk} {c : Blk}
    (hbl : bl = A ++ b :: c :: B) (hcb : c.bp = b.bp + b.sz) (hcm : c ∈ bl)
    (hpa : b.pa = true) (hca : c.al = true)
    (h1 : GET_PREV_ALLOC s.mem (HDRP b.bp) = flag b.pa 2)
    (h2 : GET_ALLOC s.mem (HDRP (NEXT_BLKP s.mem b.bp)) = flag c.al 1) :
    ∃ p s', coalesce s b.bp = some (p, s') ∧ Coalesced s bl b D p s' := by
  have hs := hmid.shape
  obtain ⟨s', L', hadd, hmid', hc, hU⟩ := add_step D hmid hb hf (fun p => Iff.rfl)
  refine ⟨b.bp, s', ?_, bl, L', b, ?_, hc, rfl, hb, hf, rfl, le_refl _, le_refl _,
    Or.inl rfl, hU, fun a h => h⟩
  · rw [coalesce_eq1 s b.bp (by rw [h1, hpa]; decide) (by rw [h2, hca]; decide), hadd]; rfl
  · refine ⟨hmid'.geo, hmid'.shape, hmid'.hdrs, hmid'.lists, hmid'.nodes, ?_⟩
    intro y hy _ hyf
    by_cases e1 : y.bp = b.bp
    · rw [hs.uniq hy hb e1]; exact hpa
    · by_cases e2 : y.bp = b.bp + b.sz
      · have := hs.uniq hy hcm (e2.trans hcb.symm)
        rw [this, hca] at hyf; exact absurd hyf (by simp)
      · exact hmid.noadj y hy (fun h => h.elim e1 e2) hyf

theorem coalesce_case2 {s : State} {bl : List Blk} {L : Nat → List Nat} {b : Blk} (D : Nat)
    (hmid : Mid s bl L (fun p => p = b.bp) (fun p => p = b.bp ∨ p = b.bp + b.sz))
    (hb : b ∈ bl) (hf : b.al = false) {A B : List Blk} {c : Blk}
    (hbl : bl = A ++ b :: c :: B) (hcb : c.bp = b.bp + b.sz) (hcp : c.pa = false) (hcm : c ∈ bl)
    (hpa : b.pa = true) (hca : c.al = false)
    (h1 : GET_PREV_ALLOC s.mem (HDRP b.bp) = flag b.pa 2)
    (h2 : GET_ALLOC s.mem (HDRP (NEXT_BLKP s.mem b.bp)) = flag c.al 1) :
    ∃ p s', coalesce s b.bp = some (p, s') ∧ Coalesced s bl b D p s' := by
  have hs := hmid.shape
  have hg := hmid.geo
  have hbf := hs.free_facts hb hf
  have hcf := hs.free_facts hcm hca
  have hbz := hmid.sz_lt hb
  obtain ⟨d, B', hB⟩ := Shape.not_last (X := A ++ [b]) (c := c) (B := B)
    (by rw [hbl] at hs; simpa using hs) (by omega)
  subst hB
  have hdm : d ∈ bl := by rw [hbl]; simp
  have hdc : d.bp = c.bp + c.sz ∧ d.pa = c.al := by
    have := hs.contig
    rw [hbl, show A ++ b :: c :: d :: B' = (A ++ [b]) ++ c :: d :: B' by simp] at this
    exact Contig_mid this
  have hda : d.al = true := by
    by_contra h
    have h' : d.al = false := by simpa using h
    have := hmid.noadj d hdm (fun h => by rcases h with h | h <;> omega) h'
    rw [hdc.2, hca] at this; exact absurd this (by simp)
  have hbrk : d.bp ≤ s.mem_brk := (hs.ok d hdm).2.2.2.1 |> fun h => by omega
  have hlt : b.sz + c.sz < 4294967288 := by
    have := hg.brk_le; have := hg.max_le; have := hg.max_lt
    unfold MINUS_ONE at *; omega
  obtain ⟨L1, hmid1, hU1⟩ := del_step D hmid hcm hca (by show ¬ (c.bp = b.bp); omega)
  have hc1 := del_consts s c.bp
  have hr1b := hmid1.read hb
  have hr1c := hmid1.read hcm
  have heq := coalesce_eq2 s b.bp b.sz c.sz (by rw [h1, hpa]; rfl) (by rw [h2, hca]; rfl)
    (hmid.read hb).1 (by rw [← hcb]; exact hr1b.1) (by rw [← hcb]; exact hr1c.1)
    (by omega) hlt
  rw [← hcb] at heq
  generalize del_free_list s c.bp = s1 at hmid1 hU1 hc1 hr1b hr1c heq
  generalize hm : (⟨b.bp, b.sz + c.sz, false, true⟩ : Blk) = m at heq
  have hmf : m.bp = b.bp ∧ m.sz = b.sz + c.sz ∧ m.al = false ∧ m.pa = true := by
    rw [← hm]; exact ⟨rfl, rfl, rfl, rfl⟩
  have hW : hdr_word m < 4294967296 := hdr_word_lt m (by rw [hmf.2.1]; exact hlt)
  obtain ⟨hp1, hp2, hp3⟩ := two_puts s1.mem (b.bp - 4) (b.bp + (b.sz + c.sz) - 8) (hdr_word m) hW
    (by omega)
  have hpre := Shape.pre_facts (A := A) (b := b) (R := c :: d :: B') (by rw [← hbl]; exact hs)
  have hpost := Shape.post_facts (A := A ++ [b, c]) (b := d) (R := B')
    (by rw [hbl] at hs; simpa using hs)
  have hAm : ∀ y, y ∈ A → y ∈ bl := fun y hy => by rw [hbl]; simp [hy]
  have hBm : ∀ y, y ∈ B' → y ∈ bl := fun y hy => by rw [hbl]; simp [hy]
  have hbl' : bl = A ++ [b, c] ++ d :: B' := by rw [hbl]; simp
  have hcs := SameConsts_trans (SameConsts_put s1 (b.bp - 4) (hdr_word m))
    (SameConsts_put _ (b.bp + (b.sz + c.sz) - 8) (hdr_word m))
  generalize hs3 : (s1.put (b.bp - 4) (hdr_word m)).put (b.bp + (b.sz + c.sz) - 8) (hdr_word m)
    = s3 at heq hcs
  have hs3m : s3.mem = PUT (PUT s1.mem (b.bp - 4) (hdr_word m)) (b.bp + (b.sz + c.sz) - 8)
      (hdr_word m) := by rw [← hs3]; rfl
  rw [← hs3m] at hp1 hp2 hp3
  rw [hbl'] at hmid1
  obtain ⟨hmid3, hU3⟩ := @merge_step _ _ _ [b, c] _ _ _ _ _ D hmid1 hcs (by simp)
    (by intro y hy; simp at hy; rcases hy with rfl | rfl; exact hf; exact hca)
    (by
      intro p; simp only [List.mem_cons, List.mem_singleton, List.not_mem_nil, or_false]
      constructor
      · rintro (h | h)
        · exact ⟨b, Or.inl rfl, h.symm⟩
        · exact ⟨c, Or.inr rfl, h.symm⟩
      · rintro ⟨y, rfl | rfl, h⟩
        · exact Or.inl h.symm
        · exact Or.inr h.symm)
    b.bp d.bp ⟨rfl, hpa, hcb, by rw [hcp, hf], by show b.bp + b.sz + c.sz = d.bp; omega, hca⟩ hda
    (by
      intro y hy hyf
      rcases hy with hy | hy
      · have := hpre y hy
        exact hmid.noadj y (hAm y hy) (fun h => by rcases h with h | h <;> omega) hyf
      · have := hpost y hy
        exact hmid.noadj y (hBm y hy) (fun h => by rcases h with h | h <;> omega) hyf)
    m (by rw [← hm]; congr 1; omega) hp1
    (by rw [show d.bp - 8 = b.bp + (b.sz + c.sz) - 8 by omega]; exact hp2)
    (fun a h1 h2 => hp3 a (by omega) (by omega))
  have hmm : m ∈ A ++ m :: d :: B' := by simp
  obtain ⟨s4, L4, hadd, hmid4, hc4, hU4⟩ := add_step D hmid3 hmm hmf.2.2.1
    (fun p => by rw [hmf.1])
  rw [hmf.1] at hadd
  have hc13 := SameConsts_trans hc1 hcs
  have hMC : ∀ a, MayChange s.mem_heap s.mem_brk (A ++ m :: d :: B') D a →
      MayChange s.mem_heap s.mem_brk bl D a := by
    intro a ha
    rw [hbl']
    exact @MayChange_merge _ _ _ [b, c] _ _ _ b.bp d.bp
      ⟨rfl, hpa, hcb, by rw [hcp, hf], by show b.bp + b.sz + c.sz = d.bp; omega, hca⟩
      (by intro y hy; simp at hy; rcases hy with rfl | rfl; exact hf; exact hca)
      (by simp) hmf.1 (by rw [hmf.2.1]; omega) a ha
  refine ⟨b.bp, s4, by rw [heq, hadd]; rfl, A ++ m :: d :: B', L4, m, hmid4,
    SameConsts_trans hc13 hc4, ?_, hmm, hmf.2.2.1, hmf.1, le_refl _, by omega, Or.inl rfl, ?_,
    hMC⟩
  · rw [hbl, allocs_append, allocs_append, allocs_cons_free m _ hmf.2.2.1,
      allocs_cons_free b _ hf, allocs_cons_free c _ hca]
  · rw [hc1.2.2.1, hc1.2.2.2.1, ← hbl'] at hU3
    rw [hc13.2.2.1, hc13.2.2.2.1] at hU4
    exact Unchanged_trans (Unchanged_trans hU1 hU3) (Unchanged_mono hU4 hMC)

theorem Shape.not_first {lo brk : Nat} {A R : List Blk} {b : Blk}
    (h : Shape lo brk (A ++ b :: R)) (hb : b.bp ≠ lo + 56) : ∃ A' a, A = A' ++ [a] := by
  rcases List.eq_nil_or_concat A with h0 | ⟨A', a, h0⟩
  · exfalso
    subst h0
    exact hb h.contig.1
  · exact ⟨A', a, by rw [h0, List.concat_eq_append]⟩

theorem ftr_read {s : State} {bl : List Blk} {L : Nat → List Nat} {ex exa : Nat → Prop}
    (h : Mid s bl L ex exa) {a : Blk} (ha : a ∈ bl) (hf : a.al = false) :
    GET_SIZE s.mem (a.bp + a.sz - 8) = a.sz := by
  have hz := h.sz_lt ha
  unfold GET_SIZE
  rw [(h.hdrs a ha).2 hf]
  exact (hdr_read a hz.1 hz.2.1).1

theorem mk_blk_eq (p z p' z' : Nat) (al pa : Bool) (hp : p = p') (hz : z = z') :
    (⟨p, z, al, pa⟩ : Blk) = ⟨p', z', al, pa⟩ := by rw [hp, hz]

theorem coalesce_case3 {s : State} {bl : List Blk} {L : Nat → List Nat} {b : Blk} (D : Nat)
    (hmid : Mid s bl L (fun p => p = b.bp) (fun p => p = b.bp ∨ p = b.bp + b.sz))
    (hb : b ∈ bl) (hf : b.al = false) {A B : List Blk} {c : Blk}
    (hbl : bl = A ++ b :: c :: B) (hcb : c.bp = b.bp + b.sz) (hcm : c ∈ bl)
    (hpa : b.pa = false) (hca : c.al = true)
    (h1 : GET_PREV_ALLOC s.mem (HDRP b.bp) = flag b.pa 2)
    (h2 : GET_ALLOC s.mem (HDRP (NEXT_BLKP s.mem b.bp)) = flag c.al 1) :
    ∃ p s', coalesce s b.bp = some (p, s') ∧ Coalesced s bl b D p s' := by
  have hs := hmid.shape
  have hg := hmid.geo
  have hbf := hs.free_facts hb hf
  have hbz := hmid.sz_lt hb
  obtain ⟨A', a, hA⟩ := Shape.not_first (A := A) (b := b) (R := c :: B)
    (by rw [← hbl]; exact hs) (by omega)
  subst hA
  have hbl' : bl = A' ++ [a, b] ++ c :: B := by rw [hbl]; simp
  have ham : a ∈ bl := by rw [hbl]; simp
  have hba : b.bp = a.bp + a.sz ∧ b.pa = a.al := by
    have := hs.contig
    rw [hbl, show (A' ++ [a]) ++ b :: c :: B = A' ++ a :: b :: c :: B by simp] at this
    exact Contig_mid this
  have haf : a.al = false := by rw [← hba.2, hpa]
  have haf' := hs.free_facts ham haf
  have hapa : a.pa = true := hmid.noadj a ham (fun h => by rcases h with h | h <;> omega) haf
  have hcbrk : c.bp ≤ s.mem_brk := by have := (hs.ok c hcm).2.2.2.1; omega
  have hlt : a.sz + b.sz < 4294967288 := by
    have := hg.brk_le; have := hg.max_le; have := hg.max_lt
    unfold MINUS_ONE at *; omega
  obtain ⟨L1, hmid1, hU1⟩ := del_step D hmid ham haf (by show ¬ (a.bp = b.bp); omega)
  have hc1 := del_consts s a.bp
  have hr1b := hmid1.read hb
  have hr1a := hmid1.read ham
  have hf1a := ftr_read hmid1 ham haf
  have hfa := ftr_read hmid ham haf
  have hab : a.bp = b.bp - a.sz := by omega
  have hab8 : a.bp + a.sz - 8 = b.bp - 8 := by omega
  rw [hab8] at hf1a hfa
  have heq := coalesce_eq3 s b.bp a.sz b.sz (by rw [h1, hpa]; rfl) (by rw [h2, hca]; decide)
    (hmid.read hb).1 hfa (by rw [← hab]; exact hf1a) (by rw [← hab]; exact hr1a.1)
    (by rw [← hab, hr1a.2.1, hapa]; rfl) (by rw [← hab]; exact hr1b.1)
    (by omega) hlt (by omega) (by omega) (by omega)
  rw [← hab] at heq
  generalize del_free_list s a.bp = s1 at hmid1 hU1 hc1 hr1b hr1a hf1a heq
  generalize hm : (⟨a.bp, a.sz + b.sz, false, true⟩ : Blk) = m at heq
  have hmf : m.bp = a.bp ∧ m.sz = a.sz + b.sz ∧ m.al = false ∧ m.pa = true := by
    rw [← hm]; exact ⟨rfl, rfl, rfl, rfl⟩
  have hW : hdr_word m < 4294967296 := hdr_word_lt m (by rw [hmf.2.1]; exact hlt)
  obtain ⟨hp1, hp2, hp3⟩ := two_puts s1.mem (b.bp + b.sz - 8) (a.bp - 4) (hdr_word m) hW
    (by omega)
  have hpre := Shape.pre_facts (A := A') (b := a) (R := b :: c :: B)
    (by rw [hbl] at hs; simpa using hs)
  have hpost := Shape.post_facts (A := A' ++ [a, b]) (b := c) (R := B)
    (by rw [hbl'] at hs; exact hs)
  have hAm : ∀ y, y ∈ A' → y ∈ bl := fun y hy => by rw [hbl]; simp [hy]
  have hBm : ∀ y, y ∈ B → y ∈ bl := fun y hy => by rw [hbl]; simp [hy]
  have hcs := SameConsts_trans (SameConsts_put s1 (b.bp + b.sz - 8) (hdr_word m))
    (SameConsts_put _ (a.bp - 4) (hdr_word m))
  generalize hs3 : (s1.put (b.bp + b.sz - 8) (hdr_word m)).put (a.bp - 4) (hdr_word m)
    = s3 at heq hcs
  have hs3m : s3.mem = PUT (PUT s1.mem (b.bp + b.sz - 8) (hdr_word m)) (a.bp - 4)
      (hdr_word m) := by rw [← hs3]; rfl
  rw [← hs3m] at hp1 hp2 hp3
  have hcont : Contig a.bp true [a, b] c.bp false :=
    ⟨rfl, hapa, hba.1.trans rfl, by rw [hba.2], by show a.bp + a.sz + b.sz = c.bp; omega, hf⟩
  have hfree : ∀ y ∈ [a, b], y.al = false := by
    intro y hy; simp at hy; rcases hy with rfl | rfl; exact haf; exact hf
  rw [hbl'] at hmid1
  obtain ⟨hmid3, hU3⟩ := @merge_step _ _ _ [a, b] _ _ _ _ _ D hmid1 hcs (by simp) hfree
    (by
      intro p; simp only [List.mem_cons, List.mem_singleton, List.not_mem_nil, or_false]
      constructor
      · rintro (h | h)
        · exact ⟨b, Or.inr rfl, h.symm⟩
        · exact ⟨a, Or.inl rfl, h.symm⟩
      · rintro ⟨y, rfl | rfl, h⟩
        · exact Or.inr h.symm
        · exact Or.inl h.symm)
    a.bp c.bp hcont hca
    (by
      intro y hy hyf
      rcases hy with hy | hy
      · have := hpre y hy
        exact hmid.noadj y (hAm y hy) (fun h => by rcases h with h | h <;> omega) hyf
      · have := hpost y hy
        exact hmid.noadj y (hBm y hy) (fun h => by rcases h with h | h <;> omega) hyf)
    m (by rw [← hm]; exact mk_blk_eq _ _ _ _ _ _ rfl (by omega)) hp2
    (by rw [show c.bp - 8 = b.bp + b.sz - 8 by omega]; exact hp1)
    (fun a h1 h2 => hp3 a (by omega) (by omega))
  have hmm : m ∈ A' ++ m :: c :: B := by simp
  obtain ⟨s4, L4, hadd, hmid4, hc4, hU4⟩ := add_step D hmid3 hmm hmf.2.2.1
    (fun p => by rw [hmf.1])
  rw [hmf.1] at hadd
  have hc13 := SameConsts_trans hc1 hcs
  have hMC : ∀ x, MayChange s.mem_heap s.mem_brk (A' ++ m :: c :: B) D x →
      MayChange s.mem_heap s.mem_brk bl D x := by
    intro x hx
    rw [hbl']
    exact @MayChange_merge _ _ _ [a, b] _ _ _ a.bp c.bp hcont hfree
      (by simp) hmf.1 (by rw [hmf.2.1]; omega) x hx
  refine ⟨a.bp, s4, by rw [heq, hadd]; rfl, A' ++ m :: c :: B, L4, m, hmid4,
    SameConsts_trans hc13 hc4, ?_, hmm, hmf.2.2.1, hmf.1, by omega, by omega,
    Or.inr ⟨a, ham, haf, rfl, hba.1.symm⟩, ?_, hMC⟩
  · rw [hbl', allocs_append, allocs_append, allocs_cons_free m _ hmf.2.2.1, allocs_append,
      allocs_cons_free a _ haf, allocs_cons_free b _ hf]
    simp [allocs]
  · rw [hc1.2.2.1, hc1.2.2.2.1, ← hbl'] at hU3
    rw [hc13.2.2.1, hc13.2.2.2.1] at hU4
    exact Unchanged_trans (Unchanged_trans hU1 hU3) (Unchanged_mono hU4 hMC)

theorem coalesce_case4 {s : State} {bl : List Blk} {L : Nat → List Nat} {b : Blk} (D : Nat)
    (hmid : Mid s bl L (fun p => p = b.bp) (fun p => p = b.bp ∨ p = b.bp + b.sz))
    (hb : b ∈ bl) (hf : b.al = false) {A B : List Blk} {c : Blk}
    (hbl : bl = A ++ b :: c :: B) (hcb : c.bp = b.bp + b.sz) (hcp : c.pa = false) (hcm : c ∈ bl)
    (hpa : b.pa = false) (hca : c.al = false)
    (h1 : GET_PREV_ALLOC s.mem (HDRP b.bp) = flag b.pa 2)
    (h2 : GET_ALLOC s.mem (HDRP (NEXT_BLKP s.mem b.bp)) = flag c.al 1) :
    ∃ p s', coalesce s b.bp = some (p, s') ∧ Coalesced s bl b D p s' := by
  have hs := hmid.shape
  have hg := hmid.geo
  have hbf := hs.free_facts hb hf
  have hcf := hs.free_facts hcm hca
  have hbz := hmid.sz_lt hb
  obtain ⟨A', a, hA⟩ := Shape.not_first (A := A) (b := b) (R := c :: B)
    (by rw [← hbl]; exact hs) (by omega)
  subst hA
  obtain ⟨d, B', hB⟩ := Shape.not_last (X := A' ++ [a, b]) (c := c) (B := B)
    (by rw [hbl] at hs; simpa using hs) (by omega)
  subst hB
  have hbl' : bl = A' ++ [a, b, c] ++ d :: B' := by rw [hbl]; simp
  have ham : a ∈ bl := by rw [hbl]; simp
  have hdm : d ∈ bl := by rw [hbl]; simp
  have hba : b.bp = a.bp + a.sz ∧ b.pa = a.al := by
    have := hs.contig
    rw [hbl, show (A' ++ [a]) ++ b :: c :: d :: B' = A' ++ a :: b :: c :: d :: B' by simp] at this
    exact Contig_mid this
  have hdc : d.bp = c.bp + c.sz ∧ d.pa = c.al := by
    have := hs.contig
    rw [hbl, show (A' ++ [a]) ++ b :: c :: d :: B' = (A' ++ [a, b]) ++ c :: d :: B' by simp]
      at this
    exact Contig_mid this
  have hda : d.al = true := by
    by_contra h
    have h' : d.al = false := by simpa using h
    have := hmid.noadj d hdm (fun h => by rcases h with h | h <;> omega) h'
    rw [hdc.2, hca] at this; exact absurd this (by simp)
  have haf : a.al = false := by rw [← hba.2, hpa]
  have haf' := hs.free_facts ham haf
  have hapa : a.pa = true := hmid.noadj a ham (fun h => by rcases h with h | h <;> omega) haf
  have hdbrk : d.bp ≤ s.mem_brk := by have := (hs.ok d hdm).2.2.2.1; omega
  have hlt : a.sz + b.sz + c.sz < 4294967288 := by
    have := hg.brk_le; have := hg.max_le; have := hg.max_lt
    unfold MINUS_ONE at *; omega
  obtain ⟨L1, hmid1, hU1⟩ := del_step D hmid ham haf (by show ¬ (a.bp = b.bp); omega)
  have hc1 := del_consts s a.bp
  have hr1b := hmid1.read hb
  obtain ⟨L2, hmid2, hU2⟩ := del_step D hmid1 hcm hca
    (by show ¬ (c.bp = b.bp ∨ c.bp = a.bp); omega)
  have hc2 := del_consts (del_free_list s a.bp) c.bp
  have hr2a := hmid2.read ham
  have hr2b := hmid2.read hb
  have hr2c := hmid2.read hcm
  have hf2a := ftr_read hmid2 ham haf
  have hfa := ftr_read hmid ham haf
  have hab : a.bp = b.bp - a.sz := by omega
  have hab8 : a.bp + a.sz - 8 = b.bp - 8 := by omega
  rw [hab8] at hf2a hfa
  have heq := coalesce_eq4 s b.bp a.sz b.sz c.sz (by rw [h1, hpa]; rfl) (by rw [h2, hca]; rfl)
    hfa (by rw [← hab]; exact hr1b.1) (by rw [← hab, ← hcb]; exact hf2a)
    (by rw [← hab, ← hcb]; exact hr2a.1)
    (by rw [← hab, ← hcb, hr2a.2.1, hapa]; rfl) (by rw [← hab, ← hcb]; exact hr2b.1)
    (by rw [← hab, ← hcb]; exact hr2c.1) (hmid.read hb).1
    (by omega) hlt (by omega) (by omega) (by omega) (by omega)
  rw [← hab, ← hcb] at heq
  have hc12 := SameConsts_trans hc1 hc2
  have hU12 : Unchanged s.mem (del_free_list (del_free_list s a.bp) c.bp).mem
      (MayChange s.mem_heap s.mem_brk bl D) := by
    rw [hc1.2.2.1, hc1.2.2.2.1] at hU2
    exact Unchanged_trans hU1 hU2
  generalize hs2 : del_free_list (del_free_list s a.bp) c.bp = s2 at *
  generalize hm : (⟨a.bp, a.sz + b.sz + c.sz, false, true⟩ : Blk) = m at heq
  have hmf : m.bp = a.bp ∧ m.sz = a.sz + b.sz + c.sz ∧ m.al = false ∧ m.pa = true := by
    rw [← hm]; exact ⟨rfl, rfl, rfl, rfl⟩
  have hW : hdr_word m < 4294967296 := hdr_word_lt m (by rw [hmf.2.1]; exact hlt)
  obtain ⟨hp1, hp2, hp3⟩ := two_puts s2.mem (a.bp - 4) (c.bp + c.sz - 8) (hdr_word m) hW
    (by omega)
  have hpre := Shape.pre_facts (A := A') (b := a) (R := b :: c :: d :: B')
    (by rw [hbl] at hs; simpa using hs)
  have hpost := Shape.post_facts (A := A' ++ [a, b, c]) (b := d) (R := B')
    (by rw [hbl'] at hs; exact hs)
  have hAm : ∀ y, y ∈ A' → y ∈ bl := fun y hy => by rw [hbl]; simp [hy]
  have hBm : ∀ y, y ∈ B' → y ∈ bl := fun y hy => by rw [hbl]; simp [hy]
  have hcs := SameConsts_trans (SameConsts_put s2 (a.bp - 4) (hdr_word m))
    (SameConsts_put _ (c.bp + c.sz - 8) (hdr_word m))
  generalize hs3 : (s2.put (a.bp - 4) (hdr_word m)).put (c.bp + c.sz - 8) (hdr_word m)
    = s3 at heq hcs
  have hs3m : s3.mem = PUT (PUT s2.mem (a.bp - 4) (hdr_word m)) (c.bp + c.sz - 8)
      (hdr_word m) := by rw [← hs3]; rfl
  rw [← hs3m] at hp1 hp2 hp3
  have hcont : Contig a.bp true [a, b, c] d.bp false :=
    ⟨rfl, hapa, hba.1.trans rfl, by rw [hba.2], by show c.bp = a.bp + a.sz + b.sz; omega,
      by rw [hcp, hf], by show a.bp + a.sz + b.sz + c.sz = d.bp; omega, hca⟩
  have hfree : ∀ y ∈ [a, b, c], y.al = false := by
    intro y hy; simp at hy; rcases hy with rfl | rfl | rfl
    · exact haf
    · exact hf
    · exact hca
  rw [hbl'] at hmid2
  obtain ⟨hmid3, hU3⟩ := @merge_step _ _ _ [a, b, c] _ _ _ _ _ D hmid2 hcs (by simp) hfree
    (by
      intro p; simp only [List.mem_cons, List.mem_singleton, List.not_mem_nil, or_false]
      constructor
      · rintro ((h | h) | h)
        · exact ⟨b, Or.inr (Or.inl rfl), h.symm⟩
        · exact ⟨a, Or.inl rfl, h.symm⟩
        · exact ⟨c, Or.inr (Or.inr rfl), h.symm⟩
      · rintro ⟨y, rfl | rfl | rfl, h⟩
        · exact Or.inl (Or.inr h.symm)
        · exact Or.inl (Or.inl h.symm)
        · exact Or.inr h.symm)
    a.bp d.bp hcont hda
    (by
      intro y hy hyf
      rcases hy with hy | hy
      · have := hpre y hy
        exact hmid.noadj y (hAm y hy) (fun h => by rcases h with h | h <;> omega) hyf
      · have := hpost y hy
        exact hmid.noadj y (hBm y hy) (fun h => by rcases h with h | h <;> omega) hyf)
    m (by rw [← hm]; exact mk_blk_eq _ _ _ _ _ _ rfl (by omega)) hp1
    (by rw [show d.bp - 8 = c.bp + c.sz - 8 by omega]; exact hp2)
    (fun a h1 h2 => hp3 a (by omega) (by omega))
  have hmm : m ∈ A' ++ m :: d :: B' := by simp
  obtain ⟨s4, L4, hadd, hmid4, hc4, hU4⟩ := add_step D hmid3 hmm hmf.2.2.1
    (fun p => by rw [hmf.1])
  rw [hmf.1] at hadd
  have hc13 := SameConsts_trans hc12 hcs
  have hMC : ∀ x, MayChange s.mem_heap s.mem_brk (A' ++ m :: d :: B') D x →
      MayChange s.mem_heap s.mem_brk bl D x := by
    intro x hx
    rw [hbl']
    exact @MayChange_merge _ _ _ [a, b, c] _ _ _ a.bp d.bp hcont hfree
      (by simp) hmf.1 (by rw [hmf.2.1]; omega) x hx
  refine ⟨a.bp, s4, by rw [heq, hadd]; rfl, A' ++ m :: d :: B', L4, m, hmid4,
    SameConsts_trans hc13 hc4, ?_, hmm, hmf.2.2.1, hmf.1, by omega, by omega,
    Or.inr ⟨a, ham, haf, rfl, hba.1.symm⟩, ?_, hMC⟩
  · rw [hbl', allocs_append, allocs_append, allocs_cons_free m _ hmf.2.2.1, allocs_append,
      allocs_cons_free a _ haf, allocs_cons_free b _ hf, allocs_cons_free c _ hca]
    simp [allocs]
  · rw [hc12.2.2.1, hc12.2.2.2.1, ← hbl'] at hU3
    rw [hc13.2.2.1, hc13.2.2.2.1] at hU4
    exact Unchanged_trans (Unchanged_trans hU12 hU3) (Unchanged_mono hU4 hMC)

/-- `coalesce` at a pending free block returns and restores the invariant. -/
theorem coalesce_spec {s : State} {bl : List Blk} {L : Nat → List Nat} {b : Blk} (D : Nat)
    (hmid : Mid s bl L (fun p => p = b.bp) (fun p => p = b.bp ∨ p = b.bp + b.sz))
    (hb : b ∈ bl) (hf : b.al = false) :
    ∃ p s', coalesce s b.bp = some (p, s') ∧ Coalesced s bl b D p s' := by
  obtain ⟨A, c, B, hbl, hcb, hcp, hcm, h1, h2⟩ := coalesce_setup hmid hb hf
  cases hpa : b.pa <;> cases hca : c.al
  · exact coalesce_case4 D hmid hb hf hbl hcb hcp hcm hpa hca h1 h2
  · exact coalesce_case3 D hmid hb hf hbl hcb hcm hpa hca h1 h2
  · exact coalesce_case2 D hmid hb hf hbl hcb hcp hcm hpa hca h1 h2
  · exact coalesce_case1 D hmid hb hf hbl hcb hcm hpa hca h1 h2

/-! ## `extend_heap` -/

theorem extend_refused (s : State) (esz : Nat) (h8 : esz % 8 = 0) (hlt : esz < SIZE_MOD)
    (hr : s.mem_max_addr < s.mem_brk + esz) : extend_heap s (esz / 4) = some (0, s) := by
  unfold extend_heap
  have hsz : (if esz / 4 % 2 ≠ 0 then (esz / 4 + 1) * WSIZE else esz / 4 * WSIZE) % SIZE_MOD
      = esz := by
    rw [if_neg (by omega)]; unfold WSIZE SIZE_MOD at *; omega
  simp only [hsz]
  have hm : mem_sbrk s esz = (MINUS_ONE, s) := by
    unfold mem_sbrk; rw [if_pos (by omega)]
  rw [hm]
  simp

theorem extend_eq (s : State) (esz : Nat) (pa : Bool) (h8 : esz % 8 = 0)
    (hlt : esz < 4294967288) (hr : s.mem_brk + esz ≤ s.mem_max_addr)
    (hmax : s.mem_max_addr < MINUS_ONE) (h16 : 16 ≤ esz) (hb : 4 ≤ s.mem_brk)
    (hpa : GET_PREV_ALLOC s.mem (HDRP s.mem_brk) = flag pa 2) :
    extend_heap s (esz / 4) = coalesce
      (((({ s with mem_brk := s.mem_brk + esz } : State).put (s.mem_brk - 4)
        (hdr_word ⟨s.mem_brk, esz, false, pa⟩)).put (s.mem_brk + esz - 8)
        (hdr_word ⟨s.mem_brk, esz, false, pa⟩)).put (s.mem_brk + esz - 4) 1) s.mem_brk := by
  unfold extend_heap
  have hsz : (if esz / 4 % 2 ≠ 0 then (esz / 4 + 1) * WSIZE else esz / 4 * WSIZE) % SIZE_MOD
      = esz := by
    rw [if_neg (by omega)]; unfold WSIZE SIZE_MOD at *; omega
  simp only [hsz]
  have hm : mem_sbrk s esz = (s.mem_brk, { s with mem_brk := s.mem_brk + esz }) := by
    unfold mem_sbrk; rw [if_neg (by omega)]
  rw [hm]
  simp only []
  rw [if_neg (by unfold MINUS_ONE at *; omega)]
  have hP : PACK esz (GET_PREV_ALLOC s.mem (HDRP s.mem_brk)) FREE
      = hdr_word ⟨s.mem_brk, esz, false, pa⟩ := by
    rw [hpa]; exact PACK_hdr esz false pa s.mem_brk h8
  simp only [put_mem]
  rw [hP]
  have hf : FTRP (PUT s.mem (HDRP s.mem_brk) (hdr_word ⟨s.mem_brk, esz, false, pa⟩)) s.mem_brk
      = s.mem_brk + esz - 8 := by
    apply FTRP_eq
    exact GET_SIZE_put _ _ ⟨s.mem_brk, esz, false, pa⟩ h8 hlt
  rw [hf]
  have hn : NEXT_BLKP (PUT (PUT s.mem (HDRP s.mem_brk) (hdr_word ⟨s.mem_brk, esz, false, pa⟩))
      (s.mem_brk + esz - 8) (hdr_word ⟨s.mem_brk, esz, false, pa⟩)) s.mem_brk
      = s.mem_brk + esz := by
    apply NEXT_BLKP_eq
    rw [GET_SIZE_other _ _ _ _ (by unfold HDRP WSIZE; omega)]
    exact GET_SIZE_put _ _ ⟨s.mem_brk, esz, false, pa⟩ h8 hlt
  rw [hn]
  have hP1 : PACK 0 PREV_FREE ALLOCATED = 1 := by decide
  rw [hP1]
  rfl

theorem three_puts (m : Mem) (w1 w2 w3 v1 v2 v3 : Nat) (a : Nat)
    (h1 : a < w1 ∨ w1 + 4 ≤ a) (h2 : a < w2 ∨ w2 + 4 ≤ a) (h3 : a < w3 ∨ w3 + 4 ≤ a) :
    PUT (PUT (PUT m w1 v1) w2 v2) w3 v3 a = m a := by
  rw [PUT_other _ _ _ _ h3, PUT_other _ _ _ _ h2, PUT_other _ _ _ _ h1]

/-- The layout after the heap has grown by `esz` bytes: the old epilogue header
becomes the header of a free block, a new epilogue header ends the heap. -/
theorem extend_shape {lo brk : Nat} {body : List Blk} {e : Blk} (esz : Nat)
    (hs : Shape lo brk (body ++ [e])) (hez : e.sz = 0) (hbody : ∀ y ∈ body, y.sz ≠ 0)
    (h8 : esz % 8 = 0) (h16 : 16 ≤ esz) :
    e.bp = brk ∧ e.al = true ∧
    Shape lo (brk + esz) (body ++ [⟨brk, esz, false, e.pa⟩, ⟨brk + esz, 0, true, false⟩]) := by
  have hc := hs.contig
  rw [Contig_append] at hc
  obtain ⟨q, qa, hc1, hc2, hc3, hc4, hc5⟩ := hc
  have hem : e ∈ body ++ [e] := by simp
  obtain ⟨ho1, ho2, ho3, ho4, ho5, ho6, ho7⟩ := hs.ok e hem
  have hq : q = brk := by omega
  have hebp : e.bp = brk := by omega
  refine ⟨hebp, ho6 hez, ?_, ?_, ?_⟩
  · rw [Contig_append]
    refine ⟨q, qa, hc1, by show brk = q; omega, hc3, ?_, rfl, ?_, rfl⟩
    · show brk + esz = q + esz; omega
    · show q + esz + 0 = brk + esz; omega
  · intro y hy
    simp only [List.mem_append, List.mem_cons, List.mem_singleton, List.not_mem_nil,
      or_false] at hy
    rcases hy with hy | rfl | rfl
    · obtain ⟨h1, h2, h3, h4, h5, h6, h7⟩ := hs.ok y (by simp [hy])
      exact ⟨h1, h2, h3, by omega, h5, h6, h7⟩
    · refine ⟨by show brk % 8 = 0; omega, h8, by show lo + 56 ≤ brk; omega,
        le_refl _, fun h => ?_, fun h => ?_, fun _ => Or.inr h16⟩
      · exfalso
        have h' : brk = lo + 56 := h
        have := ho5 (by omega)
        omega
      · have h' : esz = 0 := h
        omega
    · refine ⟨by show (brk + esz) % 8 = 0; omega, rfl, by show lo + 56 ≤ brk + esz; omega,
        le_refl _, fun h => ?_, fun _ => rfl, fun _ => Or.inl rfl⟩
      exfalso
      have h' : brk + esz = lo + 56 := h
      omega
  · refine ⟨body ++ [⟨brk, esz, false, e.pa⟩], ⟨brk + esz, 0, true, false⟩, by simp, rfl, ?_⟩
    intro y hy
    simp only [List.mem_append, List.mem_singleton] at hy
    rcases hy with hy | rfl
    · exact hbody y hy
    · show esz ≠ 0; omega

/-- Growing the heap: `extend_heap` returns a free block of at least the
requested size at the end of the heap and restores the invariant. -/
theorem extend_spec {s : State} {bl : List Blk} {L : Nat → List Nat} (D : Nat)
    (hrep : Rep s bl L) (esz : Nat) (h8 : esz % 8 = 0) (h16 : 16 ≤ esz)
    (hr : s.mem_brk + esz ≤ s.mem_max_addr) :
    ∃ p s' bl' L' f, extend_heap s (esz / 4) = some (p, s') ∧ Rep s' bl' L' ∧
      s'.heap_listp = s.heap_listp ∧ s'.class_head = s.class_head ∧ s'.mem_heap = s.mem_heap ∧
      s'.mem_brk = s.mem_brk + esz ∧ s'.mem_max_addr = s.mem_max_addr ∧
      allocs bl' = allocs bl ∧ f ∈ bl' ∧ f.al = false ∧ f.bp = p ∧ esz ≤ f.sz ∧
      f.bp + f.sz = s.mem_brk + esz ∧
      (p = s.mem_brk ∨ ∃ a ∈ bl, a.al = false ∧ a.bp = p ∧ a.bp + a.sz = s.mem_brk) ∧
      Unchanged s.mem s'.mem (MayChange s.mem_heap s.mem_brk bl D) ∧
      ∀ a, MayChange s.mem_heap (s.mem_brk + esz) bl' D a →
        MayChange s.mem_heap s.mem_brk bl D a := by
  have hg := hrep.geo
  have hs := hrep.shape
  obtain ⟨body, e, hbl, hez, hbody⟩ := hs.last
  subst hbl
  obtain ⟨hebp, heal, hs3⟩ := extend_shape esz hs hez hbody h8 h16
  have hem : e ∈ body ++ [e] := by simp
  have hre := hrep.read hem
  have hbrk64 : s.mem_heap + 64 ≤ s.mem_brk := by
    obtain ⟨ho1, ho2, ho3, ho4, ho5, ho6, ho7⟩ := hs.ok e hem
    have := hg.al
    have : e.bp ≠ s.mem_heap + 56 := fun h => by have := ho5 h; omega
    omega
  have hlt : esz < 4294967288 := by have := hg.max_le; omega
  have heq := extend_eq s esz e.pa h8 hlt hr hg.max_lt h16 (by omega)
    (by rw [← hebp]; exact hre.2.1)
  generalize hn : (⟨s.mem_brk, esz, false, e.pa⟩ : Blk) = n at heq hs3
  have hnf : n.bp = s.mem_brk ∧ n.sz = esz ∧ n.al = false ∧ n.pa = e.pa := by
    rw [← hn]; exact ⟨rfl, rfl, rfl, rfl⟩
  generalize he' : (⟨s.mem_brk + esz, 0, true, false⟩ : Blk) = e' at hs3
  have hef : e'.bp = s.mem_brk + esz ∧ e'.sz = 0 ∧ e'.al = true ∧ e'.pa = false := by
    rw [← he']; exact ⟨rfl, rfl, rfl, rfl⟩
  generalize hs3d : ((({ s with mem_brk := s.mem_brk + esz } : State).put (s.mem_brk - 4)
    (hdr_word n)).put (s.mem_brk + esz - 8) (hdr_word n)).put (s.mem_brk + esz - 4) 1 = s3 at heq
  have h3m : s3.mem = PUT (PUT (PUT s.mem (s.mem_brk - 4) (hdr_word n)) (s.mem_brk + esz - 8)
      (hdr_word n)) (s.mem_brk + esz - 4) 1 := by rw [← hs3d]; rfl
  have h3c : s3.heap_listp = s.heap_listp ∧ s3.class_head = s.class_head ∧
      s3.mem_heap = s.mem_heap ∧ s3.mem_brk = s.mem_brk + esz ∧
      s3.mem_max_addr = s.mem_max_addr := by rw [← hs3d]; exact ⟨rfl, rfl, rfl, rfl, rfl⟩
  have hW : hdr_word n < 4294967296 := hdr_word_lt n (by rw [hnf.2.1]; exact hlt)
  have hbyte : ∀ w, w + 4 ≤ s.mem_brk - 4 → GET s3.mem w = GET s.mem w := by
    intro w hw
    apply GET_congr
    intro a h1 h2
    rw [h3m]
    exact three_puts _ _ _ _ _ _ _ a (by omega) (by omega) (by omega)
  have hrd1 : GET s3.mem (s.mem_brk - 4) = hdr_word n := by
    rw [h3m, GET_PUT_other _ _ _ _ (by omega), GET_PUT_other _ _ _ _ (by omega)]
    exact GET_PUT_same _ _ _ hW
  have hrd2 : GET s3.mem (s.mem_brk + esz - 8) = hdr_word n := by
    rw [h3m, GET_PUT_other _ _ _ _ (by omega)]
    exact GET_PUT_same _ _ _ hW
  have hrd3 : GET s3.mem (s.mem_brk + esz - 4) = hdr_word e' := by
    rw [h3m, GET_PUT_same _ _ _ (by omega), ← he']; rfl
  have hpre := Shape.pre_facts (A := body) (b := e) (R := []) hs
  have hmid3 : Mid s3 (body ++ [n, e']) L (fun p => p = n.bp)
      (fun p => p = n.bp ∨ p = n.bp + n.sz) := by
    refine ⟨⟨by rw [h3c.2.1, h3c.2.2.1]; exact hg.ch, by rw [h3c.1, h3c.2.2.1]; exact hg.hl,
      by rw [h3c.2.2.1]; exact hg.al, by rw [h3c.2.2.2.1, h3c.2.2.2.2]; exact hr,
      by rw [h3c.2.2.2.2, h3c.2.2.1]; exact hg.max_le,
      by rw [h3c.2.2.2.2]; exact hg.max_lt⟩, by rw [h3c.2.2.1, h3c.2.2.2.1]; exact hs3,
      ?_, ?_, ?_, ?_⟩
    · intro y hy
      simp only [List.mem_append, List.mem_cons, List.mem_singleton, List.not_mem_nil,
        or_false] at hy
      rcases hy with hy | rfl | rfl
      · have h4 := hrep.hdrs y (by simp [hy])
        have := hpre y hy
        refine ⟨by rw [hbyte _ (by omega)]; exact h4.1, fun hyf => ?_⟩
        rw [hbyte _ (by omega)]; exact h4.2 hyf
      · rw [hnf.1, hnf.2.1]
        exact ⟨hrd1, fun _ => hrd2⟩
      · rw [hef.1, hef.2.1]
        refine ⟨hrd3, fun h => ?_⟩
        rw [hef.2.2.1] at h; exact absurd h (by simp)
    · rw [h3c.2.2.1]
      apply Lists_frame hrep.lists
      · intro i hi
        exact hbyte _ (by omega)
      · intro i y hy
        obtain ⟨z, hz, h1, h2, h3, h4⟩ := (hrep.nodes.2 i y).1 hy
        have hzf := hs.free_facts hz h1
        simp only [List.mem_append, List.mem_singleton] at hz
        rcases hz with hz | rfl
        · have := hpre z hz
          exact ⟨hbyte _ (by omega), hbyte _ (by omega)⟩
        · rw [heal] at h1; exact absurd h1 (by simp)
    · rw [h3c.2.2.1]
      apply Nodes_relayout hrep.nodes
      intro p sz
      constructor
      · rintro ⟨y, hy, h1, h2, h3, h4⟩
        simp only [List.mem_append, List.mem_singleton] at hy
        rcases hy with hy | rfl
        · have := hpre y hy
          exact ⟨y, by simp [hy], h1, h2, h3, by rw [hnf.1]; omega⟩
        · rw [heal] at h1; exact absurd h1 (by simp)
      · rintro ⟨y, hy, h1, h2, h3, h4⟩
        simp only [List.mem_append, List.mem_cons, List.mem_singleton, List.not_mem_nil,
          or_false] at hy
        rcases hy with hy | rfl | rfl
        · exact ⟨y, by simp [hy], h1, h2, h3, fun h => h⟩
        · exact absurd h2.symm h4
        · rw [hef.2.2.1] at h1; exact absurd h1 (by simp)
    · intro y hy hex hyf
      simp only [List.mem_append, List.mem_cons, List.mem_singleton, List.not_mem_nil,
        or_false] at hy
      rcases hy with hy | rfl | rfl
      · exact hrep.noadj y (by simp [hy]) (fun h => h) hyf
      · exact absurd (Or.inl rfl) hex
      · rw [hef.2.2.1] at hyf; exact absurd hyf (by simp)
  have hnm : n ∈ body ++ [n, e'] := by simp
  obtain ⟨p, s', hco, bl', L', f, hrep', hc', hal, hfm, hff, hfp, hpb, hcov, hor, hU, hMC'⟩ :=
    coalesce_spec D hmid3 hnm hnf.2.2.1
  rw [hnf.1] at hco
  rw [h3c.2.2.1, h3c.2.2.2.1] at hMC'
  have hMC3 : ∀ a, MayChange s.mem_heap (s.mem_brk + esz) (body ++ [n, e']) D a →
      MayChange s.mem_heap s.mem_brk (body ++ [e]) D a := by
    rintro a (h | h | ⟨x, hx, h1, h2⟩)
    · exact Or.inl h
    · exact Or.inr (Or.inl (by omega))
    · simp only [List.mem_append, List.mem_cons, List.mem_singleton, List.not_mem_nil,
        or_false] at hx
      rcases hx with hx | rfl | rfl
      · exact Or.inr (Or.inr ⟨x, by simp [hx], h1, h2⟩)
      · exact Or.inr (Or.inl (by omega))
      · exact Or.inr (Or.inl (by omega))
  refine ⟨p, s', bl', L', f, by rw [heq, hco], hrep', hc'.1.trans h3c.1,
    hc'.2.1.trans h3c.2.1, hc'.2.2.1.trans h3c.2.2.1, hc'.2.2.2.1.trans h3c.2.2.2.1,
    hc'.2.2.2.2.trans h3c.2.2.2.2, ?_, hfm, hff, hfp, by omega, ?_, ?_, ?_,
    fun a ha => hMC3 a (hMC' a ha)⟩
  · rw [hal, allocs_append, allocs_append, allocs_cons_free n _ hnf.2.2.1,
      allocs_cons_zero e' _ hef.2.1, allocs_cons_zero e _ hez]
  · have h1 := (hrep'.shape.ok f hfm).2.2.2.1
    rw [hc'.2.2.2.1, h3c.2.2.2.1] at h1
    omega
  · rcases hor with h | ⟨a, ha, h1, h2, h3⟩
    · exact Or.inl (by omega)
    · right
      simp only [List.mem_append, List.mem_cons, List.mem_singleton, List.not_mem_nil,
        or_false] at ha
      rcases ha with ha | rfl | rfl
      · exact ⟨a, by simp [ha], h1, h2, by omega⟩
      · omega
      · rw [hef.2.2.1] at h1; exact absurd h1 (by simp)
  · have hU0 : Unchanged s.mem s3.mem (MayChange s.mem_heap s.mem_brk (body ++ [e]) D) := by
      intro a ha
      rw [h3m]
      apply three_puts
      · by_contra h; exact ha (Or.inr (Or.inl (by omega)))
      · by_contra h; exact ha (Or.inr (Or.inl (by omega)))
      · by_contra h; exact ha (Or.inr (Or.inl (by omega)))
    rw [h3c.2.2.1, h3c.2.2.2.1] at hU
    exact Unchanged_trans hU0 (Unchanged_mono hU hMC3)

/-! ## `find_fit` -/

theorem class_loop_ge (k : Nat) : ∀ (size i : Nat), i ≤ class_loop k size i := by
  induction k with
  | zero => intro size i; exact le_refl _
  | succ k ih =>
    intro size i
    unfold class_loop
    split
    · exact le_trans (Nat.le_succ i) (ih _ _)
    · exact le_refl _

theorem class_loop_mono (k : Nat) : ∀ (a b i : Nat), a ≤ b →
    class_loop k a i ≤ class_loop k b i := by
  induction k with
  | zero => intro a b i _; exact le_refl _
  | succ k ih =>
    intro a b i hab
    unfold class_loop
    by_cases ha : a ≠ 0 ∧ i < CLASS_NUM - 1
    · rw [if_pos ha, if_pos ⟨by omega, ha.2⟩]
      apply ih
      rw [Nat.shiftRight_eq_div_pow, Nat.shiftRight_eq_div_pow]
      exact Nat.div_le_div_right hab
    · rw [if_neg ha]
      split
      · exact le_trans (Nat.le_succ i) (class_loop_ge _ _ _)
      · exact le_refl _

theorem class_index_mono (a b : Nat) (h : a ≤ b) : class_index a ≤ class_index b := by
  unfold class_index
  apply class_loop_mono
  rw [Nat.shiftRight_eq_div_pow, Nat.shiftRight_eq_div_pow]
  exact Nat.div_le_div_right h

/-- `find_fit` returns, and it answers `NULL` only if no free block is large
enough; any other answer is a free block that is large enough. -/
theorem find_fit_spec {s : State} {bl : List Blk} {L : Nat → List Nat} (hrep : Rep s bl L)
    (asize : Nat) :
    (find_fit s asize = some 0 ∧ ∀ b ∈ bl, b.al = false → b.sz < asize) ∨
    (∃ b ∈ bl, b.al = false ∧ asize ≤ b.sz ∧ find_fit s asize = some b.bp) := by
  have hg := hrep.geo
  rcases class_scan_spec s L asize hg.ch hg.hl hrep.lists hrep.wf hrep.len 12
    (class_index asize) (by omega) with ⟨h1, h2⟩ | ⟨j, X, r, Y, h1, h2, h3, h4, h5, h6, h7⟩
  · left
    refine ⟨h1, fun b hb hf => ?_⟩
    by_contra hge
    have hbf := hrep.shape.free_facts hb hf
    obtain ⟨x, hx⟩ : ∃ x, b.bp = s.mem_heap + 56 + x := ⟨b.bp - (s.mem_heap + 56), by omega⟩
    have hxL : x ∈ L (class_index b.sz) :=
      (hrep.nodes.2 _ x).2 ⟨b, hb, hf, hx, rfl, fun h => h⟩
    have := h2 _ (class_index_mono _ _ (by omega)) (class_index_lt _) x hxL
    rw [Nat.add_comm x, ← hx, (hrep.read hb).1] at this
    omega
  · right
    have hr : r ∈ L j := by rw [h3]; simp
    obtain ⟨b, hb, hf, hbp, _⟩ := (hrep.nodes.2 j r).1 hr
    rw [Nat.add_comm r, ← hbp] at h5 h7
    rw [(hrep.read hb).1] at h5
    exact ⟨b, hb, hf, h5, h7⟩

/-! ## `place` and `malloc` -/

theorem allocs_cons_congr (c c' : Blk) (Y : List Blk) (h1 : c'.bp = c.bp) (h2 : c'.sz = c.sz)
    (h3 : c'.al = c.al) : allocs (c' :: Y) = allocs (c :: Y) := by
  unfold allocs
  simp only [List.filter_cons, h2, h3]
  split <;> simp [h1, h2]

/-- `place` in a free block that is large enough: the block (or its first
`asize` bytes, if at least 16 bytes remain) becomes allocated. -/
theorem place_spec {s : State} {bl : List Blk} {L : Nat → List Nat} (hrep : Rep s bl L)
    {b : Blk} (hb : b ∈ bl) (hf : b.al = false) (asize : Nat) (hle : asize ≤ b.sz)
    (ha8 : asize % 8 = 0) (ha16 : 16 ≤ asize) :
    ∃ s' bl' L' z, place s b.bp asize = some s' ∧ Rep s' bl' L' ∧ SameConsts s s' ∧
      InsAt (b.bp, z) (allocs bl) (allocs bl') ∧ asize ≤ z ∧ z ≤ asize + 8 ∧ z ≤ b.sz ∧
      (asize + 16 ≤ b.sz → z = asize) ∧ (b.sz < asize + 16 → z = b.sz) ∧
      Unchanged s.mem s'.mem (MayChange s.mem_heap s.mem_brk bl 0) := by
  have hbf := hrep.shape.free_facts hb hf
  by_cases hsp : asize + 16 ≤ b.sz
  · obtain ⟨s', A, c, B, L', hpl, hbl, hrep', hU⟩ := place_split s bl L b asize hrep hb hf hsp
      ha8 ha16
    refine ⟨s', _, L', asize, hpl, hrep', place_consts _ _ _ _ hpl, ?_, le_refl _, by omega,
      hle, fun _ => rfl, fun h => by omega, hU⟩
    refine ⟨allocs A, allocs (c :: B), ?_, ?_⟩
    · rw [hbl, allocs_append, allocs_cons_free b _ hf]
    · rw [allocs_append, allocs_cons_alloc _ _ rfl (by show asize ≠ 0; omega),
        allocs_cons_free _ _ rfl]
  · obtain ⟨s', A, c, B, L', hpl, hbl, hca, hrep', hU⟩ := place_nosplit s bl L b asize hrep hb hf
      hle (by omega)
    refine ⟨s', _, L', b.sz, hpl, hrep', place_consts _ _ _ _ hpl, ?_, hle, by omega,
      le_refl _, fun h => absurd h hsp, fun _ => rfl, hU⟩
    refine ⟨allocs A, allocs (c :: B), ?_, ?_⟩
    · rw [hbl, allocs_append, allocs_cons_free b _ hf]
    · rw [allocs_append, allocs_cons_alloc _ _ rfl (by show b.sz ≠ 0; omega)]
      rw [allocs_cons_congr c ⟨c.bp, c.sz, true, true⟩ B rfl rfl hca.symm]

theorem adjust_facts (n : Nat) (hn : n + 12 ≤ SIZE_MOD) :
    adjust n % 8 = 0 ∧ 16 ≤ adjust n ∧ n + 4 ≤ adjust n ∧ adjust n ≤ n + 16 ∧
      adjust n = max 16 ((n + 4 + 7) / 8 * 8) := by
  unfold adjust WSIZE DSIZE SIZE_MOD at *
  split <;> omega

theorem adjust_mod8 (n : Nat) : adjust n % 8 = 0 ∧ adjust n < SIZE_MOD := by
  unfold adjust WSIZE DSIZE SIZE_MOD
  split <;> omega

theorem ensure_init_id {s : State} (hg : Geo s) : ensure_init s = some s := by
  unfold ensure_init
  rw [if_neg (by rw [hg.hl]; omega)]

/-- In a well formed heap `class_head` is the start of the heap, not the
answer `(void *)-1` of a refused `mem_sbrk`. -/
theorem rep_class_head {s : State} {bl : List Blk} {L : Nat → List Nat} {ex exa : Nat → Prop}
    (h : Mid s bl L ex exa) : s.class_head ≠ MINUS_ONE := by
  have h1 := h.geo.ch
  have h2 := h.geo.brk_le
  have h3 := h.geo.max_lt
  obtain ⟨body, e, hbl, _, _⟩ := h.shape.last
  have he : e ∈ bl := by rw [hbl]; simp
  obtain ⟨_, _, h5, h6, _⟩ := h.shape.ok e he
  intro hc
  rw [hc] at h1
  omega

/-- The extension `malloc` asks for. -/
theorem extendsize_facts (asize : Nat) (h8 : asize % 8 = 0) :
    max asize CHUNKSIZE % 8 = 0 ∧ 16 ≤ max asize CHUNKSIZE ∧ asize ≤ max asize CHUNKSIZE ∧
      CHUNKSIZE ≤ max asize CHUNKSIZE := by
  unfold CHUNKSIZE; omega

/-- The body of `malloc` after the size adjustment, on a state that satisfies
the invariant. -/
theorem malloc_core {s : State} {bl : List Blk} {L : Nat → List Nat} (hrep : Rep s bl L)
    (n : Nat) (h0 : n ≠ 0) (ha8 : adjust n % 8 = 0) (ha16 : 16 ≤ adjust n)
    (halt : adjust n < SIZE_MOD) :
    ∃ p s', malloc s n = some (p, s') ∧
      ((p = 0 ∧ s' = s ∧ (∀ b ∈ bl, b.al = false → b.sz < adjust n) ∧
          s.mem_max_addr < s.mem_brk + max (adjust n) CHUNKSIZE) ∨
        (p ≠ 0 ∧ MallocOk s bl (adjust n) p s')) := by
  have hg := hrep.geo
  unfold malloc
  rw [ensure_init_id hg]
  simp only []
  rw [if_neg h0, if_neg (rep_class_head hrep)]
  generalize adjust n = asize at *
  rcases find_fit_spec hrep asize with ⟨hfit, hno⟩ | ⟨b, hb, hf, hle, hfit⟩
  · rw [hfit]
    simp only []
    rw [if_neg (by simp)]
    obtain ⟨he8, he16, hea, hec⟩ := extendsize_facts asize ha8
    by_cases hr : s.mem_brk + max asize CHUNKSIZE ≤ s.mem_max_addr
    · obtain ⟨p, s1, bl1, L1, f, hext, hrep1, hc1, hc2, hc3, hc4, hc5, hal1, hfm, hff, hfp,
        hfz, hfe, hor, hU1, hMC⟩ := extend_spec 0 hrep (max asize CHUNKSIZE) he8 he16 hr
      have hff' := hrep1.shape.free_facts hfm hff
      have hp0 : p ≠ 0 := by omega
      obtain ⟨s', bl', L', z, hpl, hrep', hc', hins, hz1, hz2, hz3, hz4, hz5, hU2⟩ :=
        place_spec hrep1 hfm hff asize (by omega) ha8 ha16
      rw [hfp] at hpl hins
      rw [hext]
      simp only []
      rw [if_neg hp0, hpl]
      refine ⟨p, s', rfl, Or.inr ⟨hp0, bl', L', z, hrep', hc'.1.trans hc1, hc'.2.1.trans hc2,
        hc'.2.2.1.trans hc3, hc'.2.2.2.2.trans hc5, ?_, ?_, hz1, hz2, ?_, ?_, Or.inr hr, ?_⟩⟩
      · rw [hc'.2.2.2.1, hc4]; omega
      · rw [← hal1]; exact hins
      · rw [hc3, hc4] at hU2
        exact Unchanged_trans hU1 (Unchanged_mono hU2 hMC)
      · rcases hor with h | ⟨a, ha, h1, h2, h3⟩
        · exact Or.inr h
        · exact Or.inl ⟨a, ha, h1, h2, Or.inr h3⟩
      · intro _ h16
        exact hz4 (by unfold CHUNKSIZE at *; omega)
    · rw [extend_refused s (max asize CHUNKSIZE) he8
        (by unfold CHUNKSIZE SIZE_MOD at *; omega) (by omega)]
      simp only [if_true]
      exact ⟨0, s, rfl, Or.inl ⟨rfl, rfl, hno, by omega⟩⟩
  · have hbf := hrep.shape.free_facts hb hf
    have hp0 : b.bp ≠ 0 := by omega
    obtain ⟨s', bl', L', z, hpl, hrep', hc', hins, hz1, hz2, hz3, hz4, hz5, hU2⟩ :=
      place_spec hrep hb hf asize hle ha8 ha16
    rw [hfit]
    simp only []
    rw [if_pos hp0, hpl]
    refine ⟨b.bp, s', rfl, Or.inr ⟨hp0, bl', L', z, hrep', hc'.1, hc'.2.1, hc'.2.2.1,
      hc'.2.2.2.2, by rw [hc'.2.2.2.1], hins, hz1, hz2, hU2,
      Or.inl ⟨b, hb, hf, rfl, Or.inl hz3⟩, Or.inl ⟨b, hb, hf, hle⟩, ?_⟩⟩
    intro h _
    exact hz4 (h b hb hf)

/-- `malloc` returns; it answers `NULL` and changes nothing, or allocates a block. -/
theorem malloc_spec {s : State} {bl : List Blk} {L : Nat → List Nat} (hrep : Rep s bl L)
    (n : Nat) (h0 : n ≠ 0) (hn : n + 12 ≤ SIZE_MOD) :
    ∃ p s', malloc s n = some (p, s') ∧
      ((p = 0 ∧ s' = s ∧ (∀ b ∈ bl, b.al = false → b.sz < adjust n) ∧
          s.mem_max_addr < s.mem_brk + max (adjust n) CHUNKSIZE) ∨
        (p ≠ 0 ∧ MallocOk s bl (adjust n) p s')) :=
  malloc_core hrep n h0 (adjust_facts n hn).1 (adjust_facts n hn).2.1 (adjust_mod8 n).2

/-! ## Rewriting a window of the block list -/

theorem BlkOK_congr {lo brk : Nat} {c c' : Blk} (h1 : c'.bp = c.bp) (h2 : c'.sz = c.sz)
    (h3 : c'.al = c.al) (h : BlkOK lo brk c) : BlkOK lo brk c' := by
  unfold BlkOK at *
  rw [h1, h2, h3]; exact h

theorem Shape.sz_ne_zero {lo brk : Nat} {X B : List Blk} {c d : Blk}
    (h : Shape lo brk (X ++ c :: d :: B)) : c.sz ≠ 0 := by
  obtain ⟨body, e, h1, h2, h3⟩ := h.last
  have h4 : (X ++ [c]) ++ d :: B = body ++ [e] := by rw [← h1]; simp
  exact h3 c (prefix_mem_body h4 (by simp))

/-- Replacing the blocks `W0` of a window by the blocks `W0'` that tile the
same range, by stores to the headers and footers inside the window and to the
header (and footer) of the block `nxt` behind it. -/
theorem relayout_step {s s' : State} {A W0 W0' B : List Blk} {nxt nxt' : Blk}
    {L : Nat → List Nat} {ex exa ex' exa' : Nat → Prop}
    (hmid : Mid s (A ++ W0 ++ nxt :: B) L ex exa) (hc : SameConsts s s')
    (hW0 : W0 ≠ []) (q r : Nat) (qa la la' : Bool)
    (hcont : Contig q qa W0 r la) (hcont' : Contig q qa W0' r la')
    (hn1 : nxt'.bp = nxt.bp) (hn2 : nxt'.sz = nxt.sz) (hn3 : nxt'.al = nxt.al)
    (hn4 : nxt'.pa = la')
    (hok : ∀ y ∈ W0', BlkOK s.mem_heap s.mem_brk y ∧ y.sz ≠ 0)
    (hh : ∀ y ∈ W0' ++ [nxt'], GET s'.mem (y.bp - 4) = hdr_word y ∧
      (y.al = false → GET s'.mem (y.bp + y.sz - 8) = hdr_word y))
    (hrest : ∀ a, (a < q - 4 ∨ r ≤ a) →
      (nxt.al = false → a < r + nxt.sz - 8 ∨ r + nxt.sz - 4 ≤ a) → s'.mem a = s.mem a)
    (hexW : ∀ y ∈ W0, y.al = false → ex y.bp) (hexW' : ∀ y ∈ W0', y.al = false → ex' y.bp)
    (hexo : ∀ p, (p < q ∨ r ≤ p) → (ex p ↔ ex' p))
    (hna : NoAdj (A ++ W0' ++ nxt' :: B) exa') :
    Mid s' (A ++ W0' ++ nxt' :: B) L ex' exa' := by
  have hg := hmid.geo
  have hs := hmid.shape
  obtain ⟨f, W1, hW⟩ : ∃ f W1, W0 = f :: W1 := by
    cases W0 with
    | nil => exact absurd rfl hW0
    | cons f W1 => exact ⟨f, W1, rfl⟩
  have hfm : f ∈ A ++ W0 ++ nxt :: B := by rw [hW]; simp
  have hfq : f.bp = q := by rw [hW] at hcont; exact hcont.1
  have hfqa : f.pa = qa := by rw [hW] at hcont; exact hcont.2.1
  have hnm : nxt ∈ A ++ W0 ++ nxt :: B := by simp
  have hwin : Contig q qa (W0 ++ [nxt]) (r + nxt.sz) nxt.al := by
    have h0 : Contig (s.mem_heap + 56) true (A ++ (W0 ++ [nxt]) ++ B) s.mem_brk true := by
      have := hs.contig; simpa using this
    obtain ⟨q', qa', r', ra', h1, h2, h3⟩ := Contig_window h0
    rw [Contig_append] at h2
    obtain ⟨q2, qa2, h4, h5⟩ := h2
    have hq' : q' = q ∧ qa' = qa := by
      rw [hW] at h4
      exact ⟨h4.1.symm.trans hfq, h4.2.1.symm.trans hfqa⟩
    rw [hq'.1, hq'.2] at h4
    have h6 := Contig_fun _ _ _ _ _ _ _ h4 hcont
    rw [h6.1, h6.2] at h5
    rw [Contig_append]
    exact ⟨r, la, hcont, h5.1, h5.2.1, rfl, rfl⟩
  have hnr : nxt.bp = r ∧ nxt.pa = la := by
    rw [Contig_append] at hwin
    obtain ⟨q2, qa2, h4, h5⟩ := hwin
    have h6 := Contig_fun _ _ _ _ _ _ _ h4 hcont
    rw [h6.1, h6.2] at h5
    exact ⟨h5.1, h5.2.1⟩
  have hfz : f.sz ≠ 0 := by
    have h0 : Shape s.mem_heap s.mem_brk (A ++ f :: (W1 ++ nxt :: B)) := by
      have := hs; rw [hW] at this; simpa using this
    cases W1 with
    | nil => exact Shape.sz_ne_zero (X := A) (c := f) (d := nxt) (B := B) h0
    | cons w W2 => exact Shape.sz_ne_zero (X := A) (c := f) (d := w) (B := W2 ++ nxt :: B) h0
  have hq56 : s.mem_heap + 56 ≤ q := by have := (hs.ok f hfm).2.2.1; omega
  have hqr : q + 8 ≤ r := by
    have h1 := hs.bp_lt hfm hfz
    have h2 := Contig_le _ _ _ _ _ (show Contig (q + f.sz) f.al W1 r la by
      rw [hW] at hcont; exact hcont.2.2)
    omega
  have hpre := Shape.pre_facts (A := A) (b := f) (R := W1 ++ nxt :: B)
    (by have := hs; rw [hW] at this; simpa using this)
  have hpost := Shape.post_facts (A := A ++ W0) (b := nxt) (R := B) hs
  have hAm : ∀ y, y ∈ A → y ∈ A ++ W0 ++ nxt :: B := fun y hy => by simp [hy]
  have hBm : ∀ y, y ∈ B → y ∈ A ++ W0 ++ nxt :: B := fun y hy => by simp [hy]
  have hWb : ∀ y, y ∈ W0 → q ≤ y.bp ∧ y.bp + y.sz ≤ r := Contig_bounds _ _ _ _ _ hcont
  have hshape' : Shape s.mem_heap s.mem_brk (A ++ W0' ++ nxt' :: B) := by
    have h0 : Shape s.mem_heap s.mem_brk (A ++ (W0 ++ [nxt]) ++ B) := by simpa using hs
    have := @Shape.replace _ _ _ _ W0' _ _ nxt' h0
      (by
        intro q1 qa1 r1 ra1 h
        have h' := h
        rw [Contig_append] at h
        obtain ⟨q2, qa2, h1, h2⟩ := h
        have hq' : q1 = q ∧ qa1 = qa := by
          rw [hW] at h1
          exact ⟨h1.1.symm.trans hfq, h1.2.1.symm.trans hfqa⟩
        rw [hq'.1, hq'.2] at h1 h'
        have h3 := Contig_fun _ _ _ _ _ _ _ h' hwin
        rw [hq'.1, hq'.2, Contig_append]
        refine ⟨r, la', hcont', by rw [hn1]; exact hnr.1, hn4, ?_, ?_⟩
        · show r + nxt'.sz = r1; rw [hn2, h3.1]
        · show nxt'.al = ra1; rw [hn3, h3.2])
      hok
      ⟨BlkOK_congr hn1 hn2 hn3 (hs.ok nxt hnm), hn2⟩
    simpa using this
  have hbyte : ∀ w, (w + 4 ≤ q - 4 ∨ r ≤ w) →
      (nxt.al = false → w + 4 ≤ r + nxt.sz - 8 ∨ r + nxt.sz - 4 ≤ w) →
      GET s'.mem w = GET s.mem w := by
    intro w h1 h2
    apply GET_congr
    intro a h3 h4
    exact hrest a (by omega) (fun hf => by have := h2 hf; omega)
  have hold : ∀ y, (y ∈ A ∨ y ∈ B) →
      GET s'.mem (y.bp - 4) = hdr_word y ∧
      (y.al = false → GET s'.mem (y.bp + y.sz - 8) = hdr_word y) := by
    intro y hy
    have hym : y ∈ A ++ W0 ++ nxt :: B := by
      rcases hy with hy | hy
      · exact hAm y hy
      · exact hBm y hy
    have hh4 := hmid.hdrs y hym
    rcases hy with hy | hy
    · have := hpre y hy
      refine ⟨by rw [hbyte _ (by omega) (fun _ => by omega)]; exact hh4.1, fun hyf => ?_⟩
      rw [hbyte _ (by omega) (fun _ => by omega)]; exact hh4.2 hyf
    · have := hpost y hy
      refine ⟨by rw [hbyte _ (by omega) (fun _ => by omega)]; exact hh4.1, fun hyf => ?_⟩
      have := hs.free_facts hym hyf
      rw [hbyte _ (by omega) (fun _ => by omega)]; exact hh4.2 hyf
  apply Mid_of hc hg hshape'
  · intro y hy
    simp only [List.mem_append, List.mem_cons] at hy
    rcases hy with (hy | hy) | rfl | hy
    · exact hold y (Or.inl hy)
    · exact hh y (by simp [hy])
    · exact hh y (by simp)
    · exact hold y (Or.inr hy)
  · apply Lists_frame hmid.lists
    · intro i hi
      exact hbyte _ (by omega) (fun _ => by omega)
    · intro i y hy
      obtain ⟨z, hz, h1, h2, h3, h4⟩ := (hmid.nodes.2 i y).1 hy
      have hzf := hs.free_facts hz h1
      simp only [List.mem_append, List.mem_cons] at hz
      rcases hz with (hz | hz) | rfl | hz
      · have := hpre z hz
        exact ⟨hbyte _ (by omega) (fun _ => by omega), hbyte _ (by omega) (fun _ => by omega)⟩
      · exact absurd (hexW z hz h1) h4
      · exact ⟨hbyte _ (by omega) (fun _ => by omega), hbyte _ (by omega) (fun _ => by omega)⟩
      · have := hpost z hz
        exact ⟨hbyte _ (by omega) (fun _ => by omega), hbyte _ (by omega) (fun _ => by omega)⟩
  · apply Nodes_relayout hmid.nodes
    intro p sz
    constructor
    · rintro ⟨y, hy, h1, h2, h3, h4⟩
      simp only [List.mem_append, List.mem_cons] at hy
      rcases hy with (hy | hy) | rfl | hy
      · have := hpre y hy
        exact ⟨y, by simp [hy], h1, h2, h3, fun h => h4 ((hexo p (by omega)).2 h)⟩
      · rw [← h2] at h4; exact absurd (hexW y hy h1) h4
      · exact ⟨nxt', by simp, by rw [hn3]; exact h1, by rw [hn1]; exact h2,
          by rw [hn2]; exact h3, fun h => h4 ((hexo p (by omega)).2 h)⟩
      · have := hpost y hy
        exact ⟨y, by simp [hy], h1, h2, h3, fun h => h4 ((hexo p (by omega)).2 h)⟩
    · rintro ⟨y, hy, h1, h2, h3, h4⟩
      simp only [List.mem_append, List.mem_cons] at hy
      rcases hy with (hy | hy) | rfl | hy
      · have := hpre y hy
        exact ⟨y, hAm y hy, h1, h2, h3, fun h => h4 ((hexo p (by omega)).1 h)⟩
      · rw [← h2] at h4; exact absurd (hexW' y hy h1) h4
      · exact ⟨nxt, hnm, by rw [← hn3]; exact h1, by rw [← hn1]; exact h2,
          by rw [← hn2]; exact h3, fun h => h4 ((hexo p (by omega)).1 h)⟩
      · have := hpost y hy
        exact ⟨y, hBm y hy, h1, h2, h3, fun h => h4 ((hexo p (by omega)).1 h)⟩
  · exact hna

/-! ## `free` -/

theorem free_eq (s : State) (b c : Blk) (hg : Geo s) (hb0 : b.bp ≠ 0)
    (h1 : GET_SIZE s.mem (HDRP b.bp) = b.sz)
    (h2 : GET_PREV_ALLOC s.mem (HDRP b.bp) = flag b.pa 2)
    (h3 : GET_SIZE s.mem (HDRP c.bp) = c.sz)
    (h4 : GET_ALLOC s.mem (HDRP c.bp) = flag c.al 1)
    (hcb : c.bp = b.bp + b.sz) (hb8 : b.sz % 8 = 0) (hbl : b.sz < 4294967288)
    (hc8 : c.sz % 8 = 0) (hcl : c.sz < 4294967288) (hb16 : 16 ≤ b.sz) (hb4 : 8 ≤ b.bp) :
    free s b.bp = (coalesce
      (if c.al = true then
        ((s.put (b.bp - 4) (hdr_word ⟨b.bp, b.sz, false, b.pa⟩)).put (b.bp + b.sz - 8)
          (hdr_word ⟨b.bp, b.sz, false, b.pa⟩)).put (c.bp - 4)
          (hdr_word ⟨c.bp, c.sz, c.al, false⟩)
      else
        (((s.put (b.bp - 4) (hdr_word ⟨b.bp, b.sz, false, b.pa⟩)).put (b.bp + b.sz - 8)
          (hdr_word ⟨b.bp, b.sz, false, b.pa⟩)).put (c.bp - 4)
          (hdr_word ⟨c.bp, c.sz, c.al, false⟩)).put (c.bp + c.sz - 8)
          (hdr_word ⟨c.bp, c.sz, c.al, false⟩)) b.bp).map Prod.snd := by
  unfold free
  rw [if_neg hb0, ensure_init_id hg]
  simp only []
  rw [h1, h2]
  have hP : PACK b.sz (flag b.pa 2) FREE = hdr_word ⟨b.bp, b.sz, false, b.pa⟩ :=
    PACK_hdr b.sz false b.pa b.bp hb8
  rw [hP]
  generalize hWb : hdr_word ⟨b.bp, b.sz, false, b.pa⟩ = Wb
  have hs1 : GET_SIZE (s.put (HDRP b.bp) Wb).mem (HDRP b.bp) = b.sz := by
    rw [put_mem, ← hWb]; exact GET_SIZE_put _ _ ⟨b.bp, b.sz, false, b.pa⟩ hb8 hbl
  rw [FTRP_eq _ _ _ hs1]
  have hs2 : GET_SIZE ((s.put (HDRP b.bp) Wb).put (b.bp + b.sz - 8) Wb).mem (HDRP b.bp)
      = b.sz := by
    rw [put_mem, GET_SIZE_other _ _ _ _ (by unfold HDRP WSIZE; omega)]; exact hs1
  have hn2 : NEXT_BLKP ((s.put (HDRP b.bp) Wb).put (b.bp + b.sz - 8) Wb).mem b.bp = c.bp := by
    rw [NEXT_BLKP_eq _ _ _ hs2, hcb]
  rw [hn2]
  have hs2c : GET_SIZE ((s.put (HDRP b.bp) Wb).put (b.bp + b.sz - 8) Wb).mem (HDRP c.bp)
      = c.sz := by
    rw [put_mem, put_mem, GET_SIZE_other _ _ _ _ (by unfold HDRP WSIZE; omega),
      GET_SIZE_other _ _ _ _ (by unfold HDRP WSIZE; omega)]; exact h3
  have ha2c : GET_ALLOC ((s.put (HDRP b.bp) Wb).put (b.bp + b.sz - 8) Wb).mem (HDRP c.bp)
      = flag c.al 1 := by
    rw [put_mem, put_mem, GET_ALLOC_other _ _ _ _ (by unfold HDRP WSIZE; omega),
      GET_ALLOC_other _ _ _ _ (by unfold HDRP WSIZE; omega)]; exact h4
  rw [hs2c, ha2c]
  have hPc : PACK c.sz PREV_FREE (flag c.al 1) = hdr_word ⟨c.bp, c.sz, c.al, false⟩ :=
    PACK_hdr c.sz c.al false c.bp hc8
  rw [hPc]
  generalize hWc : hdr_word ⟨c.bp, c.sz, c.al, false⟩ = Wc
  have hs3 : GET_SIZE (((s.put (HDRP b.bp) Wb).put (b.bp + b.sz - 8) Wb).put (HDRP c.bp) Wc).mem
      (HDRP b.bp) = b.sz := by
    rw [put_mem, GET_SIZE_other _ _ _ _ (by unfold HDRP WSIZE; omega)]; exact hs2
  have hs3c : GET_SIZE (((s.put (HDRP b.bp) Wb).put (b.bp + b.sz - 8) Wb).put (HDRP c.bp)
      Wc).mem (HDRP c.bp) = c.sz := by
    rw [put_mem, ← hWc]; exact GET_SIZE_put _ _ ⟨c.bp, c.sz, c.al, false⟩ hc8 hcl
  have hn3 : NEXT_BLKP (((s.put (HDRP b.bp) Wb).put (b.bp + b.sz - 8) Wb).put (HDRP c.bp)
      Wc).mem b.bp = c.bp := by
    rw [NEXT_BLKP_eq _ _ _ hs3, hcb]
  rw [hn3, FTRP_eq _ _ _ hs3c]
  cases hca : c.al
  · rw [if_pos (by simp [flag]), if_neg (by simp)]; rfl
  · rw [if_neg (by simp [flag]), if_pos rfl]; rfl

/-- The four stores of `free` before it calls `coalesce`. -/
theorem free_mem (m : Mem) (bp bsz csz Wb Wc : Nat) (fc : Bool) (hWb : Wb < 4294967296)
    (hWc : Wc < 4294967296) (hb16 : 16 ≤ bsz) (hb4 : 8 ≤ bp) (hc16 : fc = false → 16 ≤ csz)
    (m4 : Mem)
    (hm4 : m4 = if fc = true then
        PUT (PUT (PUT m (bp - 4) Wb) (bp + bsz - 8) Wb) (bp + bsz - 4) Wc
      else PUT (PUT (PUT (PUT m (bp - 4) Wb) (bp + bsz - 8) Wb) (bp + bsz - 4) Wc)
        (bp + bsz + csz - 8) Wc) :
    GET m4 (bp - 4) = Wb ∧ GET m4 (bp + bsz - 8) = Wb ∧ GET m4 (bp + bsz - 4) = Wc ∧
      (fc = false → GET m4 (bp + bsz + csz - 8) = Wc) ∧
      ∀ a, (a < bp - 4 ∨ bp + bsz ≤ a) →
        (fc = false → a < bp + bsz + csz - 8 ∨ bp + bsz + csz - 4 ≤ a) → m4 a = m a := by
  cases fc
  · have h16 := hc16 rfl
    rw [if_neg (by simp)] at hm4
    subst hm4
    refine ⟨?_, ?_, ?_, fun _ => GET_PUT_same _ _ _ hWc, ?_⟩
    · rw [GET_PUT_other _ _ _ _ (by omega), GET_PUT_other _ _ _ _ (by omega),
        GET_PUT_other _ _ _ _ (by omega)]
      exact GET_PUT_same _ _ _ hWb
    · rw [GET_PUT_other _ _ _ _ (by omega), GET_PUT_other _ _ _ _ (by omega)]
      exact GET_PUT_same _ _ _ hWb
    · rw [GET_PUT_other _ _ _ _ (by omega)]
      exact GET_PUT_same _ _ _ hWc
    · intro a h1 h2
      have := h2 rfl
      rw [PUT_other _ _ _ _ (by omega), PUT_other _ _ _ _ (by omega),
        PUT_other _ _ _ _ (by omega), PUT_other _ _ _ _ (by omega)]
  · rw [if_pos rfl] at hm4
    subst hm4
    refine ⟨?_, ?_, GET_PUT_same _ _ _ hWc, fun h => absurd h (by simp), ?_⟩
    · rw [GET_PUT_other _ _ _ _ (by omega), GET_PUT_other _ _ _ _ (by omega)]
      exact GET_PUT_same _ _ _ hWb
    · rw [GET_PUT_other _ _ _ _ (by omega)]
      exact GET_PUT_same _ _ _ hWb
    · intro a h1 h2
      rw [PUT_other _ _ _ _ (by omega), PUT_other _ _ _ _ (by omega),
        PUT_other _ _ _ _ (by omega)]

theorem NoAdj_window {A W0 W0' B : List Blk} {nxt nxt' : Blk} {exa exa' : Nat → Prop}
    (h : NoAdj (A ++ W0 ++ nxt :: B) exa)
    (hA : ∀ y, (y ∈ A ∨ y ∈ B) → ¬ exa' y.bp → ¬ exa y.bp)
    (hW : ∀ y, (y ∈ W0' ∨ y = nxt') → ¬ exa' y.bp → y.al = false → y.pa = true) :
    NoAdj (A ++ W0' ++ nxt' :: B) exa' := by
  intro y hy hex hyf
  simp only [List.mem_append, List.mem_cons] at hy
  rcases hy with (hy | hy) | hy | hy
  · exact h y (by simp [hy]) (hA y (Or.inl hy) hex) hyf
  · exact hW y (Or.inl hy) hex hyf
  · exact hW y (Or.inr hy) hex hyf
  · exact h y (by simp [hy]) (hA y (Or.inr hy) hex) hyf

/-- `free` of an allocated block returns and restores the invariant. -/
theorem free_spec {s : State} {bl : List Blk} {L : Nat → List Nat} (hrep : Rep s bl L)
    {b : Blk} (hb : b ∈ bl) (hba : b.al = true) (hbz : b.sz ≠ 0)
    (hbp : b.bp ≠ s.mem_heap + 56) : ∃ s', free s b.bp = some s' ∧ Freed s bl b s' := by
  have hg := hrep.geo
  have hs := hrep.shape
  obtain ⟨ho1, ho2, ho3, ho4, ho5, ho6, ho7⟩ := hs.ok b hb
  have hb16 : 16 ≤ b.sz := by rcases ho7 hbp with h | h; exact absurd h hbz; exact h
  obtain ⟨A, c, B, hbl⟩ := hs.next hb hbz
  subst hbl
  have hcm : c ∈ A ++ b :: c :: B := by simp
  have hcb : c.bp = b.bp + b.sz ∧ c.pa = b.al := Contig_mid hs.contig
  have hrb := hrep.read hb
  have hrc := hrep.read hcm
  have hzb := hrep.sz_lt hb
  have hzc := hrep.sz_lt hcm
  have hc16 : c.al = false → 16 ≤ c.sz := fun h => (hs.free_facts hcm h).1
  have heq := free_eq s b c hg (by omega) hrb.1 hrb.2.1 hrc.1 hrc.2.2 hcb.1 hzb.1 hzb.2.1
    hzc.1 hzc.2.1 hb16 (by omega)
  generalize hbm : (⟨b.bp, b.sz, false, b.pa⟩ : Blk) = bm at heq
  generalize hcm' : (⟨c.bp, c.sz, c.al, false⟩ : Blk) = cm at heq
  have hbmf : bm.bp = b.bp ∧ bm.sz = b.sz ∧ bm.al = false ∧ bm.pa = b.pa := by
    rw [← hbm]; exact ⟨rfl, rfl, rfl, rfl⟩
  have hcmf : cm.bp = c.bp ∧ cm.sz = c.sz ∧ cm.al = c.al ∧ cm.pa = false := by
    rw [← hcm']; exact ⟨rfl, rfl, rfl, rfl⟩
  have hWb : hdr_word bm < 4294967296 := hdr_word_lt bm (by rw [hbmf.2.1]; exact hzb.2.1)
  have hWc : hdr_word cm < 4294967296 := hdr_word_lt cm (by rw [hcmf.2.1]; exact hzc.2.1)
  generalize hs4 : (if c.al = true then
      ((s.put (b.bp - 4) (hdr_word bm)).put (b.bp + b.sz - 8) (hdr_word bm)).put (c.bp - 4)
        (hdr_word cm)
    else (((s.put (b.bp - 4) (hdr_word bm)).put (b.bp + b.sz - 8) (hdr_word bm)).put (c.bp - 4)
        (hdr_word cm)).put (c.bp + c.sz - 8) (hdr_word cm)) = s4 at heq
  have hc4 : SameConsts s s4 := by
    rw [← hs4]; split <;> exact ⟨rfl, rfl, rfl, rfl, rfl⟩
  have hs4m : s4.mem = if c.al = true then
        PUT (PUT (PUT s.mem (b.bp - 4) (hdr_word bm)) (b.bp + b.sz - 8) (hdr_word bm))
          (b.bp + b.sz - 4) (hdr_word cm)
      else PUT (PUT (PUT (PUT s.mem (b.bp - 4) (hdr_word bm)) (b.bp + b.sz - 8) (hdr_word bm))
        (b.bp + b.sz - 4) (hdr_word cm)) (b.bp + b.sz + c.sz - 8) (hdr_word cm) := by
    rw [← hs4, hcb.1]; split <;> rfl
  obtain ⟨hm1, hm2, hm3, hm4, hm5⟩ := free_mem s.mem b.bp b.sz c.sz (hdr_word bm) (hdr_word cm)
    c.al hWb hWc hb16 (by omega) hc16 s4.mem hs4m
  have hrep' : Mid s (A ++ [b] ++ c :: B) L (fun _ => False) (fun _ => False) := by
    rw [show A ++ [b] ++ c :: B = A ++ b :: c :: B by simp]; exact hrep
  have hpre := Shape.pre_facts (A := A) (b := b) (R := c :: B) hs
  have hpost := Shape.post_facts (A := A ++ [b]) (b := c) (R := B) hrep'.shape
  have hmid4 : Mid s4 (A ++ [bm] ++ cm :: B) L (fun p => p = bm.bp)
      (fun p => p = bm.bp ∨ p = bm.bp + bm.sz) := by
    refine relayout_step hrep' hc4 (by simp) b.bp c.bp b.pa true false
      ⟨rfl, rfl, hcb.1.symm, hba⟩ ⟨hbmf.1, hbmf.2.2.2, by rw [hbmf.2.1]; exact hcb.1.symm,
        hbmf.2.2.1⟩ hcmf.1 hcmf.2.1 hcmf.2.2.1 hcmf.2.2.2 ?_ ?_ ?_ ?_ ?_ ?_ ?_
    · intro y hy
      have hy' : y = bm := by simpa using hy
      subst hy'
      rw [← hbm]
      exact ⟨⟨ho1, ho2, ho3, ho4, fun h => absurd h hbp, fun h => absurd h hbz, ho7⟩, hbz⟩
    · intro y hy
      simp only [List.mem_append, List.mem_singleton] at hy
      rcases hy with rfl | rfl
      · rw [hbmf.1, hbmf.2.1]; exact ⟨hm1, fun _ => hm2⟩
      · rw [hcmf.1, hcmf.2.1, hcmf.2.2.1, hcb.1]
        exact ⟨by rw [show b.bp + b.sz - 4 = b.bp + b.sz - 4 from rfl]; exact hm3, hm4⟩
    · intro a h1 h2
      exact hm5 a (by omega) (fun h => by have := h2 h; omega)
    · intro y hy hyf
      have hy' : y = b := by simpa using hy
      rw [hy', hba] at hyf; exact absurd hyf (by simp)
    · intro y hy _
      have hy' : y = bm := by simpa using hy
      rw [hy']
    · intro p hp
      constructor
      · intro h; exact h.elim
      · intro h; rw [hbmf.1] at h; omega
    · apply NoAdj_window hrep'.noadj
      · intro y _ _ h; exact h
      · intro y hy hex hyf
        rcases hy with hy | rfl
        · have hy' : y = bm := by simpa using hy
          rw [hy'] at hex; exact absurd (Or.inl rfl) hex
        · exact absurd (Or.inr (by rw [hcmf.1, hbmf.1, hbmf.2.1]; exact hcb.1)) hex
  have hbmm : bm ∈ A ++ [bm] ++ cm :: B := by simp
  obtain ⟨p, s', hco, bl', L', f, hrep1, hc', hal, hfm, hff, hfp, hpb, hcov, hor, hU, hMC⟩ :=
    coalesce_spec b.bp hmid4 hbmm hbmf.2.2.1
  rw [hbmf.1] at hco
  have hc4h := hc4.2.2.1
  have hc4b := hc4.2.2.2.1
  rw [hc4h, hc4b] at hU
  refine ⟨s', by rw [heq, hco]; rfl, bl', L', f, hrep1, SameConsts_trans hc4 hc', ?_, hfm, hff,
    by rw [hfp]; rw [hbmf.1] at hpb; exact hpb, by rw [hbmf.1, hbmf.2.1] at hcov; exact hcov,
    ?_⟩
  · refine ⟨allocs A, allocs (c :: B), ?_, ?_⟩
    · rw [hal, List.append_assoc, allocs_append, List.singleton_append,
        allocs_cons_free bm _ hbmf.2.2.1, allocs_cons_congr c cm B hcmf.1 hcmf.2.1 hcmf.2.2.1]
    · rw [allocs_append, allocs_cons_alloc b _ hba hbz]
  · have hU0 : Unchanged s.mem s4.mem (MayChange s.mem_heap s.mem_brk (A ++ b :: c :: B) b.bp) := by
      intro a ha
      apply hm5
      · by_contra h
        by_cases h4 : a < b.bp
        · exact ha (hdr_may hb (by omega) a (by omega) (by omega))
        · by_cases h5 : a + 4 < b.bp + b.sz
          · exact ha (Or.inr (Or.inr ⟨b, hb, by omega, Or.inr ⟨Or.inr rfl, h5⟩⟩))
          · exact ha (hdr_may hcm (by omega) a (by omega) (by omega))
      · intro hcf
        by_contra h
        exact ha (in_may hcm (Or.inl hcf) (c.bp + c.sz - 8) (by have := hc16 hcf; omega)
          (by have := hc16 hcf; omega) a (by omega) (by omega))
    refine Unchanged_trans hU0 (Unchanged_mono hU ?_)
    intro a ha
    rcases ha with h | h | ⟨x, hx, h1, h2⟩
    · exact Or.inl h
    · exact Or.inr (Or.inl h)
    · simp only [List.mem_append, List.mem_cons, List.not_mem_nil, or_false] at hx
      rcases hx with (hx | rfl) | rfl | hx
      · exact Or.inr (Or.inr ⟨x, by simp [hx], h1, h2⟩)
      · rw [hbmf.1] at h1
        rw [hbmf.1, hbmf.2.1] at h2
        exact Or.inr (Or.inr ⟨b, hb, h1, h2.imp id (fun h => ⟨Or.inr rfl, h.2⟩)⟩)
      · rw [hcmf.1] at h1
        rw [hcmf.1, hcmf.2.1, hcmf.2.2.1] at h2
        exact Or.inr (Or.inr ⟨c, hcm, h1, h2⟩)
      · exact Or.inr (Or.inr ⟨x, by simp [hx], h1, h2⟩)

/-! ## Linking a block without knowing every header -/

/-- Linking the one free block that is in no class list; no header is read
but the one of that block. -/
theorem add_core {s : State} {bl : List Blk} {L : Nat → List Nat} {ex : Nat → Prop} (D : Nat)
    (hg : Geo s) (hs : Shape s.mem_heap s.mem_brk bl)
    (hl : Lists s.mem s.mem_heap (s.mem_heap + 56) L)
    (hn : Nodes (s.mem_heap + 56) bl L ex) {m : Blk} (hm : m ∈ bl) (hmf : m.al = false)
    (hex : ∀ p, ex p ↔ p = m.bp) (hrd : GET_SIZE s.mem (HDRP m.bp) = m.sz) :
    ∃ s' L', add_free_list s m.bp = some s' ∧
      Lists s'.mem s.mem_heap (s.mem_heap + 56) L' ∧
      Nodes (s.mem_heap + 56) bl L' (fun _ => False) ∧ SameConsts s s' ∧
      (∀ x ∈ bl, GET s'.mem (x.bp - 4) = GET s.mem (x.bp - 4) ∧
        (16 ≤ x.sz → GET s'.mem (x.bp + x.sz - 8) = GET s.mem (x.bp + x.sz - 8))) ∧
      Unchanged s.mem s'.mem (MayChange s.mem_heap s.mem_brk bl D) := by
  have hmf' := hs.free_facts hm hmf
  have hal := hg.al
  have hb1 := hg.brk_le
  have hb2 := hg.max_le
  have hNi : ∀ i y, y ∈ L i → ∃ b ∈ bl, b.al = false ∧ b.bp = s.mem_heap + 56 + y ∧
      class_index b.sz = i := by
    intro i y hy
    obtain ⟨b, hb, h1, h2, h3, _⟩ := (hn.2 i y).1 hy
    exact ⟨b, hb, h1, h2, h3⟩
  have hwf := wf_of hs (le_trans hg.brk_le hg.max_le) hNi hn.1
  have hlen := fun j => len_of hs hNi hn.1 j
  obtain ⟨x, hx⟩ : ∃ x, m.bp = s.mem_heap + 56 + x := ⟨m.bp - (s.mem_heap + 56), by omega⟩
  have hxn : ∀ j, x ∉ L j := by
    intro j hj
    obtain ⟨y, _, _, h2, _, h4⟩ := (hn.2 j _).1 hj
    exact h4 ((hex _).2 (by rw [h2, hx]))
  obtain ⟨s5, P, S, hadd, hPS, hL5, hE5⟩ := add_spec s L (class_index m.sz) x
    hg.ch hg.hl hl hwf (class_index_lt _) hxn (by omega) (by omega)
    (by omega) (by rw [← hx, hrd]) (le_of_lt (hlen _))
  rw [← hx] at hadd
  have hc5 := add_consts _ _ _ hadd
  have hN : ∀ z, (z ∈ L (class_index m.sz) ∨ z = x) →
      ∃ b' ∈ bl, b'.al = false ∧ b'.bp = s.mem_heap + 56 + z := by
    intro z hz
    rcases hz with hz | hz
    · obtain ⟨b, hb, h1, h2, _⟩ := hNi _ z hz
      exact ⟨b, hb, h1, h2⟩
    · exact ⟨m, hm, hmf, by rw [hz, hx]⟩
  refine ⟨s5, _, hadd, hL5, ?_, hc5, ?_, ?_⟩
  · have := Nodes_insert hn (class_index m.sz) x P S hPS
      ((hex _).2 hx.symm) hm hmf hx rfl (fun y hy h => hs.uniq hy hm h)
    exact Nodes_ex_congr this
      (fun p => ⟨fun h => h.2 (by rw [(hex p).1 h.1, hx]), fun h => h.elim⟩)
  · intro z hz
    exact Hdrs_touched hs hN hE5 hz
  · apply Unchanged_of_EqOutside hE5
    apply touched_may
    intro z hz
    obtain ⟨b', hb', h1, h2⟩ := hN z hz
    have := hs.free_facts hb' h1
    exact ⟨b', hb', Or.inl h1, by omega, by omega⟩

/-! ## `realloc` in place: what the code computes -/

theorem PACK_al (sz bp : Nat) (pa : Bool) (h8 : sz % 8 = 0) :
    PACK sz (flag pa 2) ALLOCATED = hdr_word ⟨bp, sz, true, pa⟩ :=
  PACK_hdr sz true pa bp h8

theorem realloc_N0 (s : State) (p n asize bsz csz : Nat) (pa : Bool)
    (hn0 : n ≠ 0) (hp0 : p ≠ 0) (hadj : adjust n = asize)
    (h1 : GET_PREV_ALLOC s.mem (HDRP p) = flag pa 2)
    (h2 : GET_SIZE s.mem (HDRP p) = bsz)
    (h3 : GET_ALLOC s.mem (HDRP (p + bsz)) = 1)
    (hle : asize ≤ bsz) (hns : bsz < asize + 16) (hb8 : bsz % 8 = 0)
    (hlt : bsz < 4294967288) :
    realloc s p n = some (p, s.put (p - 4) (hdr_word ⟨p, bsz, true, pa⟩)) := by
  have hfs : (if GET_ALLOC s.mem (HDRP (NEXT_BLKP s.mem p)) = 0 then
      GET_SIZE s.mem (HDRP (NEXT_BLKP s.mem p)) else 0) = 0 := by
    rw [NEXT_BLKP_eq _ _ _ h2, h3]; simp
  unfold realloc
  rw [if_neg hn0, if_neg hp0]
  simp only []
  rw [hfs, h1, h2, hadj]
  have hm : (asize + 2 * DSIZE) % SIZE_MOD = asize + 16 := by
    unfold DSIZE SIZE_MOD; omega
  rw [hm, if_pos (by omega), if_neg (by omega)]
  simp only [ne_eq, not_true_eq_false, if_false, Nat.add_zero]
  rw [PACK_al bsz p pa hb8]
  rfl

theorem realloc_N1 (s : State) (p n asize bsz csz dsz : Nat) (pa dal : Bool)
    (hn0 : n ≠ 0) (hp0 : p ≠ 0) (hadj : adjust n = asize)
    (h1 : GET_PREV_ALLOC s.mem (HDRP p) = flag pa 2)
    (h2 : GET_SIZE s.mem (HDRP p) = bsz)
    (h3 : GET_ALLOC s.mem (HDRP (p + bsz)) = 0)
    (h4 : GET_SIZE s.mem (HDRP (p + bsz)) = csz) (hcz : csz ≠ 0)
    (hle : asize ≤ bsz + csz) (hns : bsz + csz < asize + 16) (hb8 : (bsz + csz) % 8 = 0)
    (hlt : bsz + csz < 4294967288) (hd8 : dsz % 8 = 0)
    (h5 : GET_SIZE ((del_free_list s (p + bsz)).put (p - 4)
      (hdr_word ⟨p, bsz + csz, true, pa⟩)).mem (HDRP (p + (bsz + csz))) = dsz)
    (h6 : GET_ALLOC ((del_free_list s (p + bsz)).put (p - 4)
      (hdr_word ⟨p, bsz + csz, true, pa⟩)).mem (HDRP (p + (bsz + csz))) = flag dal 1) :
    realloc s p n = some (p, ((del_free_list s (p + bsz)).put (p - 4)
      (hdr_word ⟨p, bsz + csz, true, pa⟩)).put (p + (bsz + csz) - 4)
      (hdr_word ⟨p + (bsz + csz), dsz, dal, true⟩)) := by
  have hfs : (if GET_ALLOC s.mem (HDRP (NEXT_BLKP s.mem p)) = 0 then
      GET_SIZE s.mem (HDRP (NEXT_BLKP s.mem p)) else 0) = csz := by
    rw [NEXT_BLKP_eq _ _ _ h2, h3, h4]; simp
  unfold realloc
  rw [if_neg hn0, if_neg hp0]
  simp only []
  rw [hfs, h1, h2, hadj, NEXT_BLKP_eq _ _ _ h2]
  have hm : (asize + 2 * DSIZE) % SIZE_MOD = asize + 16 := by
    unfold DSIZE SIZE_MOD; omega
  rw [hm, if_pos (by omega), if_neg (by omega)]
  simp only [if_pos hcz]
  rw [PACK_al (bsz + csz) p pa hb8]
  have hs2 : GET_SIZE ((del_free_list s (p + bsz)).put (HDRP p)
      (hdr_word ⟨p, bsz + csz, true, pa⟩)).mem (HDRP p) = bsz + csz := by
    rw [put_mem]; exact GET_SIZE_put _ _ ⟨p, bsz + csz, true, pa⟩ hb8 hlt
  rw [NEXT_BLKP_eq _ _ _ hs2]
  have e : HDRP p = p - 4 := rfl
  rw [e, h5, h6]
  have hP : PACK dsz PREV_ALLOCATED (flag dal 1) = hdr_word ⟨p + (bsz + csz), dsz, dal, true⟩ :=
    PACK_hdr dsz dal true _ hd8
  rw [hP]
  rfl

theorem realloc_S1 (s : State) (p n asize bsz csz : Nat) (pa : Bool) (s5 : State)
    (hn0 : n ≠ 0) (hp0 : p ≠ 0) (hadj : adjust n = asize)
    (h1 : GET_PREV_ALLOC s.mem (HDRP p) = flag pa 2)
    (h2 : GET_SIZE s.mem (HDRP p) = bsz)
    (h3 : GET_ALLOC s.mem (HDRP (p + bsz)) = 0)
    (h4 : GET_SIZE s.mem (HDRP (p + bsz)) = csz) (hcz : csz ≠ 0)
    (hsp : asize + 16 ≤ bsz + csz) (ha8 : asize % 8 = 0) (hb8 : (bsz + csz) % 8 = 0)
    (hlt : bsz + csz < 4294967288)
    (hadd : add_free_list ((((del_free_list s (p + bsz)).put (p - 4)
      (hdr_word ⟨p, asize, true, pa⟩)).put (p + asize - 4)
      (hdr_word ⟨p + asize, bsz + csz - asize, false, true⟩)).put
      (p + asize + (bsz + csz - asize) - 8)
      (hdr_word ⟨p + asize, bsz + csz - asize, false, true⟩)) (p + asize) = some s5) :
    realloc s p n = some (p, s5) := by
  have hfs : (if GET_ALLOC s.mem (HDRP (NEXT_BLKP s.mem p)) = 0 then
      GET_SIZE s.mem (HDRP (NEXT_BLKP s.mem p)) else 0) = csz := by
    rw [NEXT_BLKP_eq _ _ _ h2, h3, h4]; simp
  unfold realloc
  rw [if_neg hn0, if_neg hp0]
  simp only []
  rw [hfs, h1, h2, hadj, NEXT_BLKP_eq _ _ _ h2]
  have hm : (asize + 2 * DSIZE) % SIZE_MOD = asize + 16 := by
    unfold DSIZE SIZE_MOD; omega
  rw [hm, if_pos (by omega), if_pos (by omega)]
  simp only [if_pos hcz, if_neg hcz]
  rw [PACK_al asize p pa ha8]
  have hs2 : GET_SIZE ((del_free_list s (p + bsz)).put (HDRP p)
      (hdr_word ⟨p, asize, true, pa⟩)).mem (HDRP p) = asize := by
    rw [put_mem]; exact GET_SIZE_put _ _ ⟨p, asize, true, pa⟩ ha8 (by show asize < 4294967288; omega)
  rw [NEXT_BLKP_eq _ _ _ hs2]
  rw [PACK_af (bsz + csz - asize) (p + asize) (by omega)]
  have hs3 : GET_SIZE (((del_free_list s (p + bsz)).put (HDRP p)
      (hdr_word ⟨p, asize, true, pa⟩)).put (HDRP (p + asize))
      (hdr_word ⟨p + asize, bsz + csz - asize, false, true⟩)).mem (HDRP (p + asize))
      = bsz + csz - asize := by
    rw [put_mem]
    exact GET_SIZE_put _ _ ⟨p + asize, bsz + csz - asize, false, true⟩
      (by show (bsz + csz - asize) % 8 = 0; omega)
      (by show bsz + csz - asize < 4294967288; omega)
  rw [FTRP_eq _ _ _ hs3]
  have e1 : HDRP p = p - 4 := rfl
  have e2 : HDRP (p + asize) = p + asize - 4 := rfl
  rw [e1, e2, hadd]

theorem realloc_S0 (s : State) (p n asize bsz csz : Nat) (pa : Bool) (s5 : State)
    (hn0 : n ≠ 0) (hp0 : p ≠ 0) (hadj : adjust n = asize)
    (h1 : GET_PREV_ALLOC s.mem (HDRP p) = flag pa 2)
    (h2 : GET_SIZE s.mem (HDRP p) = bsz)
    (h3 : GET_ALLOC s.mem (HDRP (p + bsz)) = 1)
    (hsp : asize + 16 ≤ bsz) (ha8 : asize % 8 = 0) (hb8 : bsz % 8 = 0)
    (hlt : bsz < 4294967288) (hc8 : csz % 8 = 0)
    (hadd : add_free_list (((s.put (p - 4)
      (hdr_word ⟨p, asize, true, pa⟩)).put (p + asize - 4)
      (hdr_word ⟨p + asize, bsz - asize, false, true⟩)).put
      (p + asize + (bsz - asize) - 8)
      (hdr_word ⟨p + asize, bsz - asize, false, true⟩)) (p + asize) = some s5)
    (h5 : GET_SIZE s5.mem (HDRP (p + asize)) = bsz - asize)
    (h6 : GET_SIZE s5.mem (HDRP (p + bsz)) = csz)
    (h7 : GET_ALLOC s5.mem (HDRP (p + bsz)) = 1) :
    realloc s p n = some (p, s5.put (p + bsz - 4) (hdr_word ⟨p + bsz, csz, true, false⟩)) := by
  have hfs : (if GET_ALLOC s.mem (HDRP (NEXT_BLKP s.mem p)) = 0 then
      GET_SIZE s.mem (HDRP (NEXT_BLKP s.mem p)) else 0) = 0 := by
    rw [NEXT_BLKP_eq _ _ _ h2, h3]; simp
  unfold realloc
  rw [if_neg hn0, if_neg hp0]
  simp only []
  rw [hfs, h1, h2, hadj]
  have hm : (asize + 2 * DSIZE) % SIZE_MOD = asize + 16 := by
    unfold DSIZE SIZE_MOD; omega
  rw [hm, if_pos (by omega), if_pos (by omega)]
  simp only [ne_eq, not_true_eq_false, if_false, if_true, Nat.add_zero]
  rw [PACK_al asize p pa ha8]
  have hs2 : GET_SIZE (s.put (HDRP p) (hdr_word ⟨p, asize, true, pa⟩)).mem (HDRP p)
      = asize := by
    rw [put_mem]; exact GET_SIZE_put _ _ ⟨p, asize, true, pa⟩ ha8 (by show asize < 4294967288; omega)
  rw [NEXT_BLKP_eq _ _ _ hs2]
  rw [PACK_af (bsz - asize) (p + asize) (by omega)]
  have hs3 : GET_SIZE ((s.put (HDRP p)
      (hdr_word ⟨p, asize, true, pa⟩)).put (HDRP (p + asize))
      (hdr_word ⟨p + asize, bsz - asize, false, true⟩)).mem (HDRP (p + asize))
      = bsz - asize := by
    rw [put_mem]
    exact GET_SIZE_put _ _ ⟨p + asize, bsz - asize, false, true⟩
      (by show (bsz - asize) % 8 = 0; omega)
      (by show bsz - asize < 4294967288; omega)
  rw [FTRP_eq _ _ _ hs3]
  have e1 : HDRP p = p - 4 := rfl
  have e2 : HDRP (p + asize) = p + asize - 4 := rfl
  rw [e1, e2, hadd]
  simp only []
  rw [NEXT_BLKP_eq _ _ _ h5]
  have e3 : p + asize + (bsz - asize) = p + bsz := by omega
  rw [e3, h6, h7]
  have hP : PACK csz PREV_FREE 1 = hdr_word ⟨p + bsz, csz, true, false⟩ :=
    PACK_hdr csz true false _ hc8
  rw [hP]
  rfl

/-! ## `realloc` in place, without a split -/

theorem MayChange_zero {lo brk : Nat} {bl : List Blk} (hs : Shape lo brk bl) (D a : Nat)
    (h : MayChange lo brk bl 0 a) : MayChange lo brk bl D a := by
  rcases h with h | h | ⟨x, hx, h1, h2⟩
  · exact Or.inl h
  · exact Or.inr (Or.inl h)
  · refine Or.inr (Or.inr ⟨x, hx, h1, h2.imp id (fun h => ⟨?_, h.2⟩)⟩)
    rcases h.1 with h3 | h3
    · exact Or.inl h3
    · have := (hs.ok x hx).2.2.1; omega

theorem blk_eta (b : Blk) (h : b.al = true) : (⟨b.bp, b.sz, true, b.pa⟩ : Blk) = b := by
  cases b; simp at h; subst h; rfl

theorem realloc_in_N0 {s : State} {bl : List Blk} {L : Nat → List Nat} (hrep : Rep s bl L)
    {b : Blk} (hb : b ∈ bl) (hba : b.al = true) (hb16 : 16 ≤ b.sz)
    {A B : List Blk} {c : Blk} (hbl : bl = A ++ b :: c :: B) (hca : c.al = true)
    (n asize : Nat) (hn0 : n ≠ 0) (hadj : adjust n = asize) (hle : asize ≤ b.sz)
    (hns : b.sz < asize + 16) :
    ∃ s', realloc s b.bp n = some (b.bp, s') ∧ Resized s bl b asize 0 s' := by
  have hg := hrep.geo
  have hs := hrep.shape
  subst hbl
  have hcm : c ∈ A ++ b :: c :: B := by simp
  have hcb : c.bp = b.bp + b.sz ∧ c.pa = b.al := Contig_mid hs.contig
  have hrb := hrep.read hb
  have hrc := hrep.read hcm
  have hzb := hrep.sz_lt hb
  obtain ⟨ho1, ho2, ho3, ho4, ho5, ho6, ho7⟩ := hs.ok b hb
  have heq := realloc_N0 s b.bp n asize b.sz c.sz b.pa hn0 (by omega) hadj hrb.2.1 hrb.1
    (by rw [← hcb.1, hrc.2.2, hca]; rfl) hle hns hzb.1 hzb.2.1
  rw [blk_eta b hba] at heq
  have hW : hdr_word b < 4294967296 := hdr_word_lt b hzb.2.1
  have hrep' : Mid s (A ++ [b] ++ c :: B) L (fun _ => False) (fun _ => False) := by
    rw [show A ++ [b] ++ c :: B = A ++ b :: c :: B by simp]; exact hrep
  have hmid : Mid (s.put (b.bp - 4) (hdr_word b)) (A ++ [b] ++ c :: B) L (fun _ => False)
      (fun _ => False) := by
    refine relayout_step hrep' (SameConsts_put _ _ _) (by simp) b.bp c.bp b.pa true true
      ⟨rfl, rfl, hcb.1.symm, hba⟩ ⟨rfl, rfl, hcb.1.symm, hba⟩ rfl rfl rfl (by rw [hcb.2, hba])
      ?_ ?_ ?_ ?_ ?_ (fun _ _ => Iff.rfl) hrep'.noadj
    · intro y hy
      have hy' : y = b := by simpa using hy
      rw [hy']
      exact ⟨hs.ok b hb, by omega⟩
    · intro y hy
      simp only [List.mem_append, List.mem_singleton] at hy
      rcases hy with rfl | rfl
      · refine ⟨GET_PUT_same _ _ _ hW, fun h => ?_⟩
        rw [hba] at h; exact absurd h (by simp)
      · refine ⟨?_, fun h => ?_⟩
        · rw [put_mem, GET_PUT_other _ _ _ _ (by omega)]; exact (hrep.hdrs _ hcm).1
        · rw [hca] at h; exact absurd h (by simp)
    · intro a h1 _
      exact PUT_other _ _ _ _ (by omega)
    · intro y hy hyf
      have hy' : y = b := by simpa using hy
      rw [hy', hba] at hyf; exact absurd hyf (by simp)
    · intro y hy hyf
      have hy' : y = b := by simpa using hy
      rw [hy', hba] at hyf; exact absurd hyf (by simp)
  rw [show A ++ [b] ++ c :: B = A ++ b :: c :: B by simp] at hmid
  refine ⟨_, heq, A ++ b :: c :: B, L, b.sz, hmid, SameConsts_put _ _ _,
    ⟨allocs A, allocs (c :: B), ?_, ?_⟩, by rw [blk_eta b hba]; exact hb,
    fun h => by omega, fun _ => rfl, ?_, ?_⟩
  · rw [allocs_append, allocs_cons_alloc b _ hba (by omega)]
  · rw [allocs_append, allocs_cons_alloc b _ hba (by omega)]
  · intro a h1 h2 h3
    exact PUT_other _ _ _ _ (by omega)
  · apply Unchanged_PUT (Unchanged_refl _ _)
    intro a h1 h2
    exact hdr_may hb (by omega) a h1 h2

theorem realloc_in_N1 {s : State} {bl : List Blk} {L : Nat → List Nat} (hrep : Rep s bl L)
    {b : Blk} (hb : b ∈ bl) (hba : b.al = true) (hb16 : 16 ≤ b.sz)
    {A B : List Blk} {c : Blk} (hbl : bl = A ++ b :: c :: B) (hca : c.al = false)
    (n asize : Nat) (hn0 : n ≠ 0) (hadj : adjust n = asize) (hle : asize ≤ b.sz + c.sz)
    (hns : b.sz + c.sz < asize + 16) :
    ∃ s', realloc s b.bp n = some (b.bp, s') ∧ Resized s bl b asize c.sz s' := by
  have hg := hrep.geo
  have hs := hrep.shape
  have hcm : c ∈ bl := by rw [hbl]; simp
  have hcf := hs.free_facts hcm hca
  obtain ⟨d, B', hB⟩ := Shape.not_last (X := A ++ [b]) (c := c) (B := B)
    (by rw [hbl] at hs; simpa using hs) (by omega)
  subst hB
  have hbl' : bl = A ++ [b, c] ++ d :: B' := by rw [hbl]; simp
  have hdm : d ∈ bl := by rw [hbl]; simp
  have hcb : c.bp = b.bp + b.sz ∧ c.pa = b.al := by
    have := hs.contig; rw [hbl] at this; exact Contig_mid this
  have hdc : d.bp = c.bp + c.sz ∧ d.pa = c.al := by
    have := hs.contig
    rw [hbl, show A ++ b :: c :: d :: B' = (A ++ [b]) ++ c :: d :: B' by simp] at this
    exact Contig_mid this
  have hda : d.al = true := by
    by_contra h
    have h' : d.al = false := by simpa using h
    have := hrep.noadj d hdm (fun h => h) h'
    rw [hdc.2, hca] at this; exact absurd this (by simp)
  have hrb := hrep.read hb
  have hrc := hrep.read hcm
  have hzb := hrep.sz_lt hb
  have hzd := hrep.sz_lt hdm
  obtain ⟨ho1, ho2, ho3, ho4, ho5, ho6, ho7⟩ := hs.ok b hb
  have hdbrk : d.bp ≤ s.mem_brk := by have := (hs.ok d hdm).2.2.2.1; omega
  have hlt : b.sz + c.sz < 4294967288 := by
    have := hg.brk_le; have := hg.max_le; have := hg.max_lt
    unfold MINUS_ONE at *; omega
  obtain ⟨L1, hmid1, hU1⟩ := del_step 0 hrep hcm hca (fun h => h)
  have hc1 := del_consts s c.bp
  have hr1d := hmid1.read hdm
  generalize hbp : (⟨b.bp, b.sz + c.sz, true, b.pa⟩ : Blk) = bp
  have hbpf : bp.bp = b.bp ∧ bp.sz = b.sz + c.sz ∧ bp.al = true ∧ bp.pa = b.pa := by
    rw [← hbp]; exact ⟨rfl, rfl, rfl, rfl⟩
  generalize hdp : (⟨d.bp, d.sz, d.al, true⟩ : Blk) = dp
  have hdpf : dp.bp = d.bp ∧ dp.sz = d.sz ∧ dp.al = d.al ∧ dp.pa = true := by
    rw [← hdp]; exact ⟨rfl, rfl, rfl, rfl⟩
  have hWb : hdr_word bp < 4294967296 := hdr_word_lt bp (by rw [hbpf.2.1]; exact hlt)
  have hWd : hdr_word dp < 4294967296 := hdr_word_lt dp (by rw [hdpf.2.1]; exact hzd.2.1)
  have hdeq : b.bp + (b.sz + c.sz) = d.bp := by omega
  have heq := realloc_N1 s b.bp n asize b.sz c.sz d.sz b.pa d.al hn0 (by omega) hadj hrb.2.1
    hrb.1 (by rw [← hcb.1, hrc.2.2, hca]; rfl) (by rw [← hcb.1]; exact hrc.1) (by omega)
    hle hns (by omega) hlt hzd.1
    (by rw [put_mem, GET_SIZE_other _ _ _ _ (by unfold HDRP WSIZE; omega), ← hcb.1, hdeq]
        exact hr1d.1)
    (by rw [put_mem, GET_ALLOC_other _ _ _ _ (by unfold HDRP WSIZE; omega), ← hcb.1, hdeq]
        exact hr1d.2.2)
  rw [← hcb.1, hdeq, hbp, hdp] at heq
  generalize del_free_list s c.bp = s1 at hmid1 hU1 hc1 hr1d heq
  rw [hbl'] at hmid1
  have hcs := SameConsts_trans (SameConsts_put s1 (b.bp - 4) (hdr_word bp))
    (SameConsts_put _ (d.bp - 4) (hdr_word dp))
  have hmid3 : Mid ((s1.put (b.bp - 4) (hdr_word bp)).put (d.bp - 4) (hdr_word dp))
      (A ++ [bp] ++ dp :: B') L1 (fun _ => False) (fun _ => False) := by
    refine relayout_step hmid1 hcs (by simp) b.bp d.bp b.pa false true
      ⟨rfl, rfl, hcb.1, hcb.2, by show b.bp + b.sz + c.sz = d.bp; omega, hca⟩
      ⟨hbpf.1, hbpf.2.2.2, by rw [hbpf.2.1]; exact hdeq, hbpf.2.2.1⟩
      hdpf.1 hdpf.2.1 hdpf.2.2.1 hdpf.2.2.2 ?_ ?_ ?_ ?_ ?_ ?_ ?_
    · intro y hy
      have hy' : y = bp := by simpa using hy
      subst hy'
      rw [← hbp, hc1.2.2.1, hc1.2.2.2.1]
      exact ⟨⟨ho1, by show (b.sz + c.sz) % 8 = 0; omega, ho3, by show b.bp + (b.sz + c.sz) ≤ _; omega,
        fun h => by exfalso; have := ho5 h; omega, fun _ => rfl,
        fun _ => Or.inr (by show 16 ≤ b.sz + c.sz; omega)⟩, by show b.sz + c.sz ≠ 0; omega⟩
    · intro y hy
      simp only [List.mem_append, List.mem_singleton] at hy
      rcases hy with rfl | rfl
      · refine ⟨?_, fun h => ?_⟩
        · rw [hbpf.1, put_mem, put_mem, GET_PUT_other _ _ _ _ (by omega)]
          exact GET_PUT_same _ _ _ hWb
        · rw [hbpf.2.2.1] at h; exact absurd h (by simp)
      · refine ⟨?_, fun h => ?_⟩
        · rw [hdpf.1, put_mem]; exact GET_PUT_same _ _ _ hWd
        · rw [hdpf.2.2.1, hda] at h; exact absurd h (by simp)
    · intro a h1 _
      rw [put_mem, put_mem, PUT_other _ _ _ _ (by omega), PUT_other _ _ _ _ (by omega)]
    · intro y hy hyf
      simp only [List.mem_cons, List.mem_singleton, List.not_mem_nil, or_false] at hy
      rcases hy with rfl | rfl
      · rw [hba] at hyf; exact absurd hyf (by simp)
      · exact Or.inr rfl
    · intro y hy hyf
      have hy' : y = bp := by simpa using hy
      rw [hy', hbpf.2.2.1] at hyf; exact absurd hyf (by simp)
    · intro p hp
      constructor
      · rintro (h | h)
        · exact h
        · omega
      · intro h; exact h.elim
    · apply NoAdj_window hmid1.noadj
      · intro y _ _ h; exact h
      · intro y hy _ hyf
        rcases hy with hy | rfl
        · have hy' : y = bp := by simpa using hy
          rw [hy', hbpf.2.2.1] at hyf; exact absurd hyf (by simp)
        · exact hdpf.2.2.2
  have hU1' : Unchanged s.mem s1.mem (MayChange s.mem_heap s.mem_brk bl b.bp) :=
    Unchanged_mono hU1 (MayChange_zero hs _)
  refine ⟨_, heq, A ++ [bp] ++ dp :: B', L1, b.sz + c.sz, hmid3, SameConsts_trans hc1 hcs,
    ⟨allocs A, allocs (d :: B'), ?_, ?_⟩, by rw [hbp]; simp, fun h => by omega, fun _ => rfl,
    ?_, ?_⟩
  · rw [hbl, allocs_append, allocs_cons_alloc b _ hba (by omega), allocs_cons_free c _ hca]
  · rw [List.append_assoc, allocs_append, List.singleton_append,
      allocs_cons_alloc bp _ hbpf.2.2.1 (by rw [hbpf.2.1]; omega), hbpf.1, hbpf.2.1,
      allocs_cons_congr d dp B' hdpf.1 hdpf.2.1 hdpf.2.2.1]
  · intro a h1 h2 h3
    rw [put_mem, put_mem, PUT_other _ _ _ _ (by omega), PUT_other _ _ _ _ (by omega)]
    exact hU1 a (pay_not_may hs hb hba (by omega) a h1 h3)
  · apply Unchanged_PUT (Unchanged_PUT hU1' _ _ _)
    · intro a h1 h2
      exact hdr_may hdm (by omega) a h1 h2
    · intro a h1 h2
      exact hdr_may hb (by omega) a h1 h2

/-! ## `realloc` in place, with a split -/

/-- Every byte of a window of free blocks (and of the block `D`), from the
header of its first block up to the header of the block behind it, may change. -/
theorem window_in {lo brk : Nat} {A W0 B : List Blk} {nxt : Blk} {D q r : Nat} {qa la : Bool}
    (hcont : Contig q qa W0 r la) (hW0 : W0 ≠ [])
    (hfree : ∀ y ∈ W0, y.al = false ∨ y.bp = D) (hnr : nxt.bp = r) (a : Nat)
    (h1 : q ≤ a + 4) (h2 : a < r) : MayChange lo brk (A ++ W0 ++ nxt :: B) D a := by
  by_cases h3 : a + 4 < r
  · obtain ⟨y, hy, h4, h5⟩ := Contig_cover _ _ _ _ _ hcont (a + 4) h1 h3
    exact Or.inr (Or.inr ⟨y, by simp [hy], h4, Or.inr ⟨hfree y hy, h5⟩⟩)
  · exact Or.inr (Or.inr ⟨nxt, by simp, by omega, Or.inl (by omega)⟩)

/-- What may change in the new layout of a window may change in the old one. -/
theorem window_sub {lo brk : Nat} {A W0 W0' B : List Blk} {nxt nxt' : Blk} {D q r : Nat}
    {qa la la' : Bool} (hcont : Contig q qa W0 r la) (hcont' : Contig q qa W0' r la')
    (hW0 : W0 ≠ []) (hfree : ∀ y ∈ W0, y.al = false ∨ y.bp = D) (hnr : nxt.bp = r)
    (hn1 : nxt'.bp = nxt.bp) (hn2 : nxt'.sz = nxt.sz) (hn3 : nxt'.al = nxt.al) (a : Nat)
    (h : MayChange lo brk (A ++ W0' ++ nxt' :: B) D a) :
    MayChange lo brk (A ++ W0 ++ nxt :: B) D a := by
  rcases h with h | h | ⟨x, hx, h1, h2⟩
  · exact Or.inl h
  · exact Or.inr (Or.inl h)
  · simp only [List.mem_append, List.mem_cons] at hx
    rcases hx with (hx | hx) | rfl | hx
    · exact Or.inr (Or.inr ⟨x, by simp [hx], h1, h2⟩)
    · have hb := Contig_bounds _ _ _ _ _ hcont' x hx
      exact window_in hcont hW0 hfree hnr a (by omega) (by omega)
    · rw [hn1] at h1
      rw [hn1, hn2, hn3] at h2
      exact Or.inr (Or.inr ⟨nxt, by simp, h1, h2⟩)
    · exact Or.inr (Or.inr ⟨x, by simp [hx], h1, h2⟩)

theorem blkok_of {lo brk : Nat} {x : Blk} {p z : Nat} (h1 : x.bp = p) (h2 : x.sz = z)
    (h3 : True) (hp8 : p % 8 = 0) (hz8 : z % 8 = 0) (hlo : lo + 56 ≤ p) (hbrk : p + z ≤ brk)
    (hne : p ≠ lo + 56) (h16 : 16 ≤ z) : BlkOK lo brk x ∧ x.sz ≠ 0 := by
  unfold BlkOK
  rw [h1, h2]
  exact ⟨⟨hp8, hz8, hlo, hbrk, fun h => absurd h hne, fun h => by omega, fun _ => Or.inr h16⟩,
    by omega⟩

/-- The layout after `realloc` has split the block `b` and its free successor
`c` into the allocated block `b1` and the free block `t`. -/
theorem split_layout {s1 : State} {A B' : List Blk} {b c d b1 t : Blk} {L1 : Nat → List Nat}
    {asize : Nat}
    (hmid1 : Mid s1 (A ++ [b, c] ++ d :: B') L1 (fun p => False ∨ p = c.bp) (fun _ => False))
    (hba : b.al = true) (hca : c.al = false) (hda : d.al = true) (hb16 : 16 ≤ b.sz)
    (ha8 : asize % 8 = 0) (ha16 : 16 ≤ asize) (hsp : asize + 16 ≤ b.sz + c.sz)
    (hlt : b.sz + c.sz < 4294967288)
    (hb1f : b1.bp = b.bp ∧ b1.sz = asize ∧ b1.al = true ∧ b1.pa = b.pa)
    (htf : t.bp = b.bp + asize ∧ t.sz = b.sz + c.sz - asize ∧ t.al = false ∧ t.pa = true) :
    Mid (((s1.put (b.bp - 4) (hdr_word b1)).put
      (b.bp + asize - 4) (hdr_word t)).put (d.bp - 8) (hdr_word t))
      (A ++ [b1, t] ++ d :: B') L1 (fun p => p = t.bp) (fun _ => False) := by
  have hs := hmid1.shape
  have hb : b ∈ A ++ [b, c] ++ d :: B' := by simp
  have hcm : c ∈ A ++ [b, c] ++ d :: B' := by simp
  have hdm : d ∈ A ++ [b, c] ++ d :: B' := by simp
  have hcf := hs.free_facts hcm hca
  have hcb : c.bp = b.bp + b.sz ∧ c.pa = b.al := by
    have := hs.contig
    rw [show A ++ [b, c] ++ d :: B' = A ++ b :: c :: d :: B' by simp] at this
    exact Contig_mid this
  have hdc : d.bp = c.bp + c.sz ∧ d.pa = c.al := by
    have := hs.contig
    rw [show A ++ [b, c] ++ d :: B' = (A ++ [b]) ++ c :: d :: B' by simp] at this
    exact Contig_mid this
  obtain ⟨ho1, ho2, ho3, ho4, ho5, ho6, ho7⟩ := hs.ok b hb
  have hbne : b.bp ≠ s1.mem_heap + 56 := fun h => by have := ho5 h; omega
  have hdbrk : d.bp ≤ s1.mem_brk := by have := (hs.ok d hdm).2.2.2.1; omega
  have hd1 := hmid1.hdrs d hdm
  have hW1 : hdr_word b1 < 4294967296 := hdr_word_lt b1 (by rw [hb1f.2.1]; omega)
  have hWt : hdr_word t < 4294967296 := hdr_word_lt t (by rw [htf.2.1]; omega)
  have hdeq : b.bp + asize + (b.sz + c.sz - asize) = d.bp := by omega
  have hcs := SameConsts_trans (SameConsts_trans (SameConsts_put s1
    (b.bp - 4) (hdr_word b1)) (SameConsts_put _ (b.bp + asize - 4) (hdr_word t)))
    (SameConsts_put _ (d.bp - 8) (hdr_word t))
  have hcont : Contig b.bp b.pa [b, c] d.bp false :=
    ⟨rfl, rfl, hcb.1, hcb.2, by show b.bp + b.sz + c.sz = d.bp; omega, hca⟩
  have hcont' : Contig b.bp b.pa [b1, t] d.bp false :=
    ⟨hb1f.1, hb1f.2.2.2, by rw [hb1f.2.1]; exact htf.1, by rw [hb1f.2.2.1]; exact htf.2.2.2,
      by show b.bp + b1.sz + t.sz = d.bp; rw [hb1f.2.1, htf.2.1]; exact hdeq, htf.2.2.1⟩
  refine relayout_step hmid1 hcs (by simp) b.bp d.bp b.pa false false hcont hcont'
    rfl rfl rfl (by rw [hdc.2, hca]) ?_ ?_ ?_ ?_ ?_ ?_ ?_
  · intro y hy
    simp only [List.mem_cons, List.mem_singleton, List.not_mem_nil, or_false] at hy
    rcases hy with rfl | rfl
    · exact blkok_of hb1f.1 hb1f.2.1 trivial ho1 ha8 ho3 (by omega) hbne ha16
    · exact blkok_of htf.1 htf.2.1 trivial
        (by omega) (by omega) (by omega) (by omega) (by omega) (by omega)
  · intro y hy
    simp only [List.mem_append, List.mem_cons, List.mem_singleton, List.not_mem_nil,
      or_false] at hy
    simp only [put_mem]
    rcases hy with (rfl | rfl) | rfl
    · refine ⟨?_, fun h => ?_⟩
      · rw [hb1f.1, GET_PUT_other _ _ _ _ (by omega), GET_PUT_other _ _ _ _ (by omega)]
        exact GET_PUT_same _ _ _ hW1
      · rw [hb1f.2.2.1] at h; exact absurd h (by simp)
    · refine ⟨?_, fun _ => ?_⟩
      · rw [htf.1, GET_PUT_other _ _ _ _ (by omega)]
        exact GET_PUT_same _ _ _ hWt
      · rw [htf.1, htf.2.1, show b.bp + asize + (b.sz + c.sz - asize) - 8 = d.bp - 8 by omega]
        exact GET_PUT_same _ _ _ hWt
    · refine ⟨?_, fun h => ?_⟩
      · rw [GET_PUT_other _ _ _ _ (by omega), GET_PUT_other _ _ _ _ (by omega),
          GET_PUT_other _ _ _ _ (by omega)]
        exact hd1.1
      · rw [hda] at h; exact absurd h (by simp)
  · intro a h1 _
    simp only [put_mem]
    rw [PUT_other _ _ _ _ (by omega), PUT_other _ _ _ _ (by omega),
      PUT_other _ _ _ _ (by omega)]
  · intro y hy hyf
    simp only [List.mem_cons, List.mem_singleton, List.not_mem_nil, or_false] at hy
    rcases hy with rfl | rfl
    · rw [hba] at hyf; exact absurd hyf (by simp)
    · exact Or.inr rfl
  · intro y hy hyf
    simp only [List.mem_cons, List.mem_singleton, List.not_mem_nil, or_false] at hy
    rcases hy with rfl | rfl
    · rw [hb1f.2.2.1] at hyf; exact absurd hyf (by simp)
    · rfl
  · intro p hp
    constructor
    · rintro (h | h)
      · exact h.elim
      · omega
    · intro h; rw [htf.1] at h; omega
  · apply NoAdj_window hmid1.noadj
    · intro y _ _ h; exact h
    · intro y hy _ hyf
      rcases hy with hy | rfl
      · simp only [List.mem_cons, List.mem_singleton, List.not_mem_nil, or_false] at hy
        rcases hy with rfl | rfl
        · rw [hb1f.2.2.1] at hyf; exact absurd hyf (by simp)
        · exact htf.2.2.2
      · rw [hda] at hyf; exact absurd hyf (by simp)

theorem realloc_in_S1 {s : State} {bl : List Blk} {L : Nat → List Nat} (hrep : Rep s bl L)
    {b : Blk} (hb : b ∈ bl) (hba : b.al = true) (hb16 : 16 ≤ b.sz)
    {A B : List Blk} {c : Blk} (hbl : bl = A ++ b :: c :: B) (hca : c.al = false)
    (n asize : Nat) (hn0 : n ≠ 0) (hadj : adjust n = asize) (ha8 : asize % 8 = 0)
    (ha16 : 16 ≤ asize) (hsp : asize + 16 ≤ b.sz + c.sz) :
    ∃ s', realloc s b.bp n = some (b.bp, s') ∧ Resized s bl b asize c.sz s' := by
  have hg := hrep.geo
  have hs := hrep.shape
  have hcm : c ∈ bl := by rw [hbl]; simp
  have hcf := hs.free_facts hcm hca
  obtain ⟨d, B', hB⟩ := Shape.not_last (X := A ++ [b]) (c := c) (B := B)
    (by rw [hbl] at hs; simpa using hs) (by omega)
  subst hB
  have hbl' : bl = A ++ [b, c] ++ d :: B' := by rw [hbl]; simp
  have hdm : d ∈ bl := by rw [hbl]; simp
  have hcb : c.bp = b.bp + b.sz ∧ c.pa = b.al := by
    have := hs.contig; rw [hbl] at this; exact Contig_mid this
  have hdc : d.bp = c.bp + c.sz ∧ d.pa = c.al := by
    have := hs.contig
    rw [hbl, show A ++ b :: c :: d :: B' = (A ++ [b]) ++ c :: d :: B' by simp] at this
    exact Contig_mid this
  have hda : d.al = true := by
    by_contra h
    have h' : d.al = false := by simpa using h
    have := hrep.noadj d hdm (fun h => h) h'
    rw [hdc.2, hca] at this; exact absurd this (by simp)
  have hrb := hrep.read hb
  have hrc := hrep.read hcm
  have hzb := hrep.sz_lt hb
  obtain ⟨ho1, ho2, ho3, ho4, ho5, ho6, ho7⟩ := hs.ok b hb
  have hbne : b.bp ≠ s.mem_heap + 56 := fun h => by have := ho5 h; omega
  have hdbrk : d.bp ≤ s.mem_brk := by have := (hs.ok d hdm).2.2.2.1; omega
  have hlt : b.sz + c.sz < 4294967288 := by
    have := hg.brk_le; have := hg.max_le; have := hg.max_lt
    unfold MINUS_ONE at *; omega
  obtain ⟨L1, hmid1, hU1⟩ := del_step 0 hrep hcm hca (fun h => h)
  have hc1 := del_consts s c.bp
  have hd1 := hmid1.hdrs d hdm
  generalize hb1 : (⟨b.bp, asize, true, b.pa⟩ : Blk) = b1
  have hb1f : b1.bp = b.bp ∧ b1.sz = asize ∧ b1.al = true ∧ b1.pa = b.pa := by
    rw [← hb1]; exact ⟨rfl, rfl, rfl, rfl⟩
  generalize ht : (⟨b.bp + asize, b.sz + c.sz - asize, false, true⟩ : Blk) = t
  have htf : t.bp = b.bp + asize ∧ t.sz = b.sz + c.sz - asize ∧ t.al = false ∧ t.pa = true := by
    rw [← ht]; exact ⟨rfl, rfl, rfl, rfl⟩
  have hW1 : hdr_word b1 < 4294967296 := hdr_word_lt b1 (by rw [hb1f.2.1]; omega)
  have hWt : hdr_word t < 4294967296 := hdr_word_lt t (by rw [htf.2.1]; omega)
  have hdeq : b.bp + asize + (b.sz + c.sz - asize) = d.bp := by omega
  have hcs := SameConsts_trans (SameConsts_trans (SameConsts_put (del_free_list s c.bp)
    (b.bp - 4) (hdr_word b1)) (SameConsts_put _ (b.bp + asize - 4) (hdr_word t)))
    (SameConsts_put _ (d.bp - 8) (hdr_word t))
  have hcont : Contig b.bp b.pa [b, c] d.bp false :=
    ⟨rfl, rfl, hcb.1, hcb.2, by show b.bp + b.sz + c.sz = d.bp; omega, hca⟩
  have hcont' : Contig b.bp b.pa [b1, t] d.bp false :=
    ⟨hb1f.1, hb1f.2.2.2, by rw [hb1f.2.1]; exact htf.1, by rw [hb1f.2.2.1]; exact htf.2.2.2,
      by show b.bp + b1.sz + t.sz = d.bp; rw [hb1f.2.1, htf.2.1]; exact hdeq, htf.2.2.1⟩
  have hfree : ∀ y ∈ [b, c], y.al = false ∨ y.bp = b.bp := by
    intro y hy
    simp only [List.mem_cons, List.mem_singleton, List.not_mem_nil, or_false] at hy
    rcases hy with rfl | rfl
    · exact Or.inr rfl
    · exact Or.inl hca
  rw [hbl'] at hmid1
  have hmid4 := split_layout hmid1 hba hca hda hb16 ha8 ha16 hsp hlt hb1f htf
  have htm : t ∈ A ++ [b1, t] ++ d :: B' := by simp
  have hb1m : b1 ∈ A ++ [b1, t] ++ d :: B' := by simp
  obtain ⟨s5, L5, hadd, hmid5, hc5, hU5⟩ := add_step 0 hmid4 htm htf.2.2.1 (fun p => Iff.rfl)
  have hc14 := SameConsts_trans hc1 hcs
  have hs4 := hmid4.shape
  rw [hc14.2.2.1, hc14.2.2.2.1] at hU5 hs4
  have heq := realloc_S1 s b.bp n asize b.sz c.sz b.pa s5 hn0 (by omega) hadj hrb.2.1
    hrb.1 (by rw [← hcb.1, hrc.2.2, hca]; rfl) (by rw [← hcb.1]; exact hrc.1) (by omega)
    hsp ha8 (by omega) hlt
    (by rw [← hcb.1, hdeq, hb1, ht]; rw [htf.1] at hadd; exact hadd)
  have hU14 : ∀ a, ¬ MayChange s.mem_heap s.mem_brk bl b.bp a →
      (((del_free_list s c.bp).put (b.bp - 4) (hdr_word b1)).put
        (b.bp + asize - 4) (hdr_word t) |>.put (d.bp - 8) (hdr_word t)).mem a
        = (del_free_list s c.bp).mem a := by
    intro a ha
    have hw : ¬ (b.bp ≤ a + 4 ∧ a < d.bp) := fun h => ha (by
      rw [hbl']; exact window_in hcont (by simp) hfree rfl a h.1 h.2)
    simp only [put_mem]
    rw [PUT_other _ _ _ _ (by omega), PUT_other _ _ _ _ (by omega),
      PUT_other _ _ _ _ (by omega)]
  have hsub : ∀ a, MayChange s.mem_heap s.mem_brk (A ++ [b1, t] ++ d :: B') b.bp a →
      MayChange s.mem_heap s.mem_brk bl b.bp a := by
    intro a ha
    rw [hbl']
    exact window_sub hcont hcont' (by simp) hfree rfl rfl rfl rfl a ha
  refine ⟨s5, heq, A ++ [b1, t] ++ d :: B', L5, asize, hmid5, SameConsts_trans hc14 hc5,
    ⟨allocs A, allocs (d :: B'), ?_, ?_⟩, by rw [hb1]; exact hb1m,
    fun _ => ⟨rfl, by rw [ht]; exact htm⟩, fun h => by omega, ?_, ?_⟩
  · rw [hbl, allocs_append, allocs_cons_alloc b _ hba (by omega), allocs_cons_free c _ hca]
  · rw [List.append_assoc, allocs_append]
    show allocs A ++ allocs (b1 :: t :: d :: B') = _
    rw [allocs_cons_alloc b1 _ hb1f.2.2.1 (by rw [hb1f.2.1]; omega), hb1f.1, hb1f.2.1,
      allocs_cons_free t _ htf.2.2.1]
  · intro a h1 h2 h3
    rw [hU5 a (pay_not_may hs4 hb1m hb1f.2.2.1 (by rw [hb1f.1]; omega) a
      (by rw [hb1f.1]; exact h1) (by rw [hb1f.1, hb1f.2.1]; exact h2))]
    simp only [put_mem]
    rw [PUT_other _ _ _ _ (by omega), PUT_other _ _ _ _ (by omega),
      PUT_other _ _ _ _ (by omega)]
    exact hU1 a (pay_not_may hs hb hba (by omega) a h1 h3)
  · intro a ha
    rw [hU5 a (fun h => ha (hsub a (MayChange_zero hs4 _ a h))), hU14 a ha]
    exact hU1 a (fun h => ha (MayChange_zero hs _ a h))

/-- The layout after `realloc` has split the block `b`, whose successor `c` is
allocated, into the allocated block `b1` and the free block `t`; the header of
`c` records that its predecessor is free. -/
theorem split0_layout {s : State} {A B : List Blk} {b c b1 t cm : Blk} {L : Nat → List Nat}
    {asize : Nat}
    (hmid : Mid s (A ++ [b] ++ c :: B) L (fun _ => False) (fun _ => False))
    (hba : b.al = true) (hca : c.al = true)
    (ha8 : asize % 8 = 0) (ha16 : 16 ≤ asize) (hsp : asize + 16 ≤ b.sz)
    (hb1f : b1.bp = b.bp ∧ b1.sz = asize ∧ b1.al = true ∧ b1.pa = b.pa)
    (htf : t.bp = b.bp + asize ∧ t.sz = b.sz - asize ∧ t.al = false ∧ t.pa = true)
    (hcmf : cm.bp = c.bp ∧ cm.sz = c.sz ∧ cm.al = c.al ∧ cm.pa = false) :
    Mid ((((s.put (b.bp - 4) (hdr_word b1)).put
      (b.bp + asize - 4) (hdr_word t)).put (c.bp - 8) (hdr_word t)).put (c.bp - 4)
      (hdr_word cm))
      (A ++ [b1, t] ++ cm :: B) L (fun p => p = t.bp) (fun _ => False) := by
  have hs := hmid.shape
  have hb : b ∈ A ++ [b] ++ c :: B := by simp
  have hcm : c ∈ A ++ [b] ++ c :: B := by simp
  have hcb : c.bp = b.bp + b.sz ∧ c.pa = b.al := by
    have := hs.contig
    rw [show A ++ [b] ++ c :: B = A ++ b :: c :: B by simp] at this
    exact Contig_mid this
  obtain ⟨ho1, ho2, ho3, ho4, ho5, ho6, ho7⟩ := hs.ok b hb
  have hbne : b.bp ≠ s.mem_heap + 56 := fun h => by have := ho5 h; omega
  have hzb := hmid.sz_lt hb
  have hzc := hmid.sz_lt hcm
  have hW1 : hdr_word b1 < 4294967296 := hdr_word_lt b1 (by rw [hb1f.2.1]; omega)
  have hWt : hdr_word t < 4294967296 := hdr_word_lt t (by rw [htf.2.1]; omega)
  have hWc : hdr_word cm < 4294967296 := hdr_word_lt cm (by rw [hcmf.2.1]; exact hzc.2.1)
  have hcs := SameConsts_trans (SameConsts_trans (SameConsts_trans (SameConsts_put s
    (b.bp - 4) (hdr_word b1)) (SameConsts_put _ (b.bp + asize - 4) (hdr_word t)))
    (SameConsts_put _ (c.bp - 8) (hdr_word t))) (SameConsts_put _ (c.bp - 4) (hdr_word cm))
  have hcont : Contig b.bp b.pa [b] c.bp true := ⟨rfl, rfl, hcb.1.symm, hba⟩
  have hcont' : Contig b.bp b.pa [b1, t] c.bp false :=
    ⟨hb1f.1, hb1f.2.2.2, by rw [hb1f.2.1]; exact htf.1, by rw [hb1f.2.2.1]; exact htf.2.2.2,
      by show b.bp + b1.sz + t.sz = c.bp; rw [hb1f.2.1, htf.2.1]; omega, htf.2.2.1⟩
  refine relayout_step hmid hcs (by simp) b.bp c.bp b.pa true false hcont hcont'
    hcmf.1 hcmf.2.1 hcmf.2.2.1 hcmf.2.2.2 ?_ ?_ ?_ ?_ ?_ ?_ ?_
  · intro y hy
    simp only [List.mem_cons, List.mem_singleton, List.not_mem_nil, or_false] at hy
    rcases hy with rfl | rfl
    · exact blkok_of hb1f.1 hb1f.2.1 trivial ho1 ha8 ho3 (by omega) hbne ha16
    · exact blkok_of htf.1 htf.2.1 trivial
        (by omega) (by omega) (by omega) (by omega) (by omega) (by omega)
  · intro y hy
    simp only [List.mem_append, List.mem_cons, List.mem_singleton, List.not_mem_nil,
      or_false] at hy
    simp only [put_mem]
    rcases hy with (rfl | rfl) | rfl
    · refine ⟨?_, fun h => ?_⟩
      · rw [hb1f.1, GET_PUT_other _ _ _ _ (by omega), GET_PUT_other _ _ _ _ (by omega),
          GET_PUT_other _ _ _ _ (by omega)]
        exact GET_PUT_same _ _ _ hW1
      · rw [hb1f.2.2.1] at h; exact absurd h (by simp)
    · refine ⟨?_, fun _ => ?_⟩
      · rw [htf.1, GET_PUT_other _ _ _ _ (by omega), GET_PUT_other _ _ _ _ (by omega)]
        exact GET_PUT_same _ _ _ hWt
      · rw [htf.1, htf.2.1, show b.bp + asize + (b.sz - asize) - 8 = c.bp - 8 by omega,
          GET_PUT_other _ _ _ _ (by omega)]
        exact GET_PUT_same _ _ _ hWt
    · refine ⟨?_, fun h => ?_⟩
      · rw [hcmf.1]; exact GET_PUT_same _ _ _ hWc
      · rw [hcmf.2.2.1, hca] at h; exact absurd h (by simp)
  · intro a h1 _
    simp only [put_mem]
    rw [PUT_other _ _ _ _ (by omega), PUT_other _ _ _ _ (by omega),
      PUT_other _ _ _ _ (by omega), PUT_other _ _ _ _ (by omega)]
  · intro y hy hyf
    have hy' : y = b := by simpa using hy
    rw [hy', hba] at hyf; exact absurd hyf (by simp)
  · intro y hy hyf
    simp only [List.mem_cons, List.mem_singleton, List.not_mem_nil, or_false] at hy
    rcases hy with rfl | rfl
    · rw [hb1f.2.2.1] at hyf; exact absurd hyf (by simp)
    · rfl
  · intro p hp
    constructor
    · intro h; exact h.elim
    · intro h; rw [htf.1] at h; omega
  · apply NoAdj_window hmid.noadj
    · intro y _ _ h; exact h
    · intro y hy _ hyf
      rcases hy with hy | rfl
      · simp only [List.mem_cons, List.mem_singleton, List.not_mem_nil, or_false] at hy
        rcases hy with rfl | rfl
        · rw [hb1f.2.2.1] at hyf; exact absurd hyf (by simp)
        · exact htf.2.2.2
      · rw [hcmf.2.2.1, hca] at hyf; exact absurd hyf (by simp)

/-- A state that differs from a represented one in the header word of one
allocated block still has the class lists and the header of any other block. -/
theorem minus_hdr {s : State} {bl : List Blk} {L : Nat → List Nat} {ex exa : Nat → Prop}
    {m : Mem} {x : Blk} {v : Nat} (hmid : Mid s bl L ex exa) (hx : x ∈ bl) (hxa : x.al = true)
    (hm : s.mem = PUT m (x.bp - 4) v) :
    Lists m s.mem_heap (s.mem_heap + 56) L ∧
      ∀ y ∈ bl, y.bp ≠ x.bp → GET m (y.bp - 4) = hdr_word y ∧
        (y.al = false → GET m (y.bp + y.sz - 8) = hdr_word y) := by
  have hs := hmid.shape
  have hx56 := (hs.ok x hx).2.2.1
  constructor
  · apply Lists_frame hmid.lists
    · intro i hi
      rw [hm, GET_PUT_other _ _ _ _ (by omega)]
    · intro i y hy
      obtain ⟨z, hz, h1, h2⟩ := hmid.nodes_in i y hy
      have hzf := hs.free_facts hz h1
      have hne : z ≠ x := fun h => by rw [h, hxa] at h1; exact absurd h1 (by simp)
      have := hs.sep hz hx hne
      rw [hm, GET_PUT_other _ _ _ _ (by omega), GET_PUT_other _ _ _ _ (by omega)]
      exact ⟨rfl, rfl⟩
  · intro y hy hne
    have hne' : y ≠ x := fun h => hne (by rw [h])
    have hsep := hs.sep hy hx hne'
    have hy56 := (hs.ok y hy).2.2.1
    have h4 := hmid.hdrs y hy
    rw [hm] at h4
    refine ⟨?_, fun hyf => ?_⟩
    · rw [← h4.1, GET_PUT_other _ _ _ _ (by omega)]
    · have hzf := hs.free_facts hy hyf
      rw [← h4.2 hyf, GET_PUT_other _ _ _ _ (by omega)]

theorem GET_SIZE_of {m : Mem} {w : Nat} {x : Blk} (h : GET m w = hdr_word x)
    (h8 : x.sz % 8 = 0) (hlt : x.sz < 4294967288) :
    GET_SIZE m w = x.sz ∧ GET_ALLOC m w = flag x.al 1 ∧ GET_PREV_ALLOC m w = flag x.pa 2 := by
  unfold GET_SIZE GET_ALLOC GET_PREV_ALLOC
  rw [h]
  have := hdr_read x h8 hlt
  exact ⟨this.1, this.2.2, this.2.1⟩

theorem realloc_in_S0 {s : State} {bl : List Blk} {L : Nat → List Nat} (hrep : Rep s bl L)
    {b : Blk} (hb : b ∈ bl) (hba : b.al = true) (hb16 : 16 ≤ b.sz)
    {A B : List Blk} {c : Blk} (hbl : bl = A ++ b :: c :: B) (hca : c.al = true)
    (n asize : Nat) (hn0 : n ≠ 0) (hadj : adjust n = asize) (ha8 : asize % 8 = 0)
    (ha16 : 16 ≤ asize) (hsp : asize + 16 ≤ b.sz) :
    ∃ s', realloc s b.bp n = some (b.bp, s') ∧ Resized s bl b asize 0 s' := by
  have hg := hrep.geo
  have hs := hrep.shape
  have hcm : c ∈ bl := by rw [hbl]; simp
  have hbl' : bl = A ++ [b] ++ c :: B := by rw [hbl]; simp
  have hcb : c.bp = b.bp + b.sz ∧ c.pa = b.al := by
    have := hs.contig; rw [hbl] at this; exact Contig_mid this
  have hrb := hrep.read hb
  have hrc := hrep.read hcm
  have hzb := hrep.sz_lt hb
  have hzc := hrep.sz_lt hcm
  have hb56 := (hs.ok b hb).2.2.1
  have hcbrk := (hs.ok c hcm).2.2.2.1
  have hchd := (hrep.hdrs c hcm).1
  generalize hb1 : (⟨b.bp, asize, true, b.pa⟩ : Blk) = b1
  have hb1f : b1.bp = b.bp ∧ b1.sz = asize ∧ b1.al = true ∧ b1.pa = b.pa := by
    rw [← hb1]; exact ⟨rfl, rfl, rfl, rfl⟩
  generalize ht : (⟨b.bp + asize, b.sz - asize, false, true⟩ : Blk) = t
  have htf : t.bp = b.bp + asize ∧ t.sz = b.sz - asize ∧ t.al = false ∧ t.pa = true := by
    rw [← ht]; exact ⟨rfl, rfl, rfl, rfl⟩
  generalize hcmd : (⟨c.bp, c.sz, true, false⟩ : Blk) = cm
  have hcmf : cm.bp = c.bp ∧ cm.sz = c.sz ∧ cm.al = c.al ∧ cm.pa = false := by
    rw [← hcmd]; exact ⟨rfl, rfl, hca.symm, rfl⟩
  have hrep' : Mid s (A ++ [b] ++ c :: B) L (fun _ => False) (fun _ => False) := by
    rw [← hbl']; exact hrep
  have hmid4x := split0_layout hrep' hba hca ha8 ha16 hsp hb1f htf hcmf
  have heq := fun s5 hadd h5 h6 h7 => realloc_S0 s b.bp n asize b.sz c.sz b.pa s5 hn0
    (by omega) hadj hrb.2.1 hrb.1 (by rw [← hcb.1, hrc.2.2, hca]; rfl) hsp ha8 hzb.1 hzb.2.1
    hzc.1 hadd h5 h6 h7
  rw [hb1, ht, show b.bp + asize + (b.sz - asize) - 8 = c.bp - 8 by omega,
    show b.bp + b.sz - 4 = c.bp - 4 by omega, ← hcb.1, hcmd] at heq
  have hc4 : SameConsts s (((s.put (b.bp - 4) (hdr_word b1)).put (b.bp + asize - 4)
      (hdr_word t)).put (c.bp - 8) (hdr_word t)) := ⟨rfl, rfl, rfl, rfl, rfl⟩
  have h4m : ∀ a, (a < b.bp - 4 ∨ c.bp - 4 ≤ a ∨ (b.bp ≤ a ∧ a + 4 < b.bp + asize)) →
      (((s.put (b.bp - 4) (hdr_word b1)).put (b.bp + asize - 4)
        (hdr_word t)).put (c.bp - 8) (hdr_word t)).mem a = s.mem a := by
    intro a h
    simp only [put_mem]
    rw [PUT_other _ _ _ _ (by omega), PUT_other _ _ _ _ (by omega),
      PUT_other _ _ _ _ (by omega)]
  generalize ((s.put (b.bp - 4) (hdr_word b1)).put (b.bp + asize - 4) (hdr_word t)).put
    (c.bp - 8) (hdr_word t) = s4 at hmid4x heq hc4 h4m
  have hcmm : cm ∈ A ++ [b1, t] ++ cm :: B := by simp
  have htm : t ∈ A ++ [b1, t] ++ cm :: B := by simp
  have hb1m : b1 ∈ A ++ [b1, t] ++ cm :: B := by simp
  have hs4 : Shape s.mem_heap s.mem_brk (A ++ [b1, t] ++ cm :: B) := by
    have := hmid4x.shape
    rw [put_mem_heap, put_mem_brk, hc4.2.2.1, hc4.2.2.2.1] at this
    exact this
  obtain ⟨hl4, hh4⟩ := minus_hdr (m := s4.mem) (x := cm) (v := hdr_word cm) hmid4x hcmm
    (by rw [hcmf.2.2.1]; exact hca) (by rw [hcmf.1]; rfl)
  rw [put_mem_heap] at hl4
  have hg4 := Geo_of_consts hc4 hg
  have hn4 := hmid4x.nodes
  rw [put_mem_heap] at hn4
  have htne : t.bp ≠ cm.bp := by rw [htf.1, hcmf.1]; omega
  have hzt : t.sz % 8 = 0 ∧ t.sz < 4294967288 := by rw [htf.2.1]; omega
  have hrt := GET_SIZE_of (hh4 t htm htne).1 hzt.1 hzt.2
  have hs4' : Shape s4.mem_heap s4.mem_brk (A ++ [b1, t] ++ cm :: B) := by
    rw [hc4.2.2.1, hc4.2.2.2.1]; exact hs4
  obtain ⟨s5, L5, hadd, hl5, hn5, hc5, htr, hU5⟩ := add_core 0 hg4 hs4' hl4 hn4 htm htf.2.2.1
    (fun p => Iff.rfl) hrt.1
  rw [hc4.2.2.1] at hl5 hn5
  rw [hc4.2.2.1, hc4.2.2.2.1] at hU5
  have hc45 := SameConsts_trans hc4 hc5
  have hc6 := SameConsts_trans hc45 (SameConsts_put s5 (c.bp - 4) (hdr_word cm))
  have h5t : GET s5.mem (t.bp - 4) = hdr_word t := by
    rw [(htr t htm).1]; exact (hh4 t htm htne).1
  have h5c : GET s5.mem (c.bp - 4) = hdr_word c := by
    have := (htr cm hcmm).1
    rw [hcmf.1] at this
    rw [this, GET_congr _ _ _ (fun a h1 h2 => h4m a (by omega))]
    exact hchd
  have hr5t := GET_SIZE_of h5t hzt.1 hzt.2
  have hr5c := GET_SIZE_of h5c hzc.1 hzc.2.1
  rw [htf.1] at hadd
  have heq' := heq s5 hadd (by rw [← htf.2.1, ← htf.1]; exact hr5t.1)
    hr5c.1 (hr5c.2.1.trans (by rw [hca]; rfl))
  have hWc : hdr_word cm < 4294967296 := hdr_word_lt cm (by rw [hcmf.2.1]; exact hzc.2.1)
  have hN5 : ∀ i y, y ∈ L5 i → ∃ z ∈ A ++ [b1, t] ++ cm :: B, z.al = false ∧
      z.bp = s.mem_heap + 56 + y := by
    intro i y hy
    obtain ⟨z, hz, h1, h2, _⟩ := (hn5.2 i y).1 hy
    exact ⟨z, hz, h1, h2⟩
  have hrep6 : Rep (s5.put (c.bp - 4) (hdr_word cm)) (A ++ [b1, t] ++ cm :: B) L5 := by
    refine Mid_of hc6 hg hs4 ?_ ?_ hn5 hmid4x.noadj
    · intro y hy
      rw [put_mem]
      by_cases hyc : y.bp = cm.bp
      · have := hs4.uniq hy hcmm hyc
        subst this
        refine ⟨by rw [hcmf.1]; exact GET_PUT_same _ _ _ hWc, fun h => ?_⟩
        rw [hcmf.2.2.1, hca] at h; exact absurd h (by simp)
      · have hne : y ≠ cm := fun h => hyc (by rw [h])
        have hsep := hs4.sep hy hcmm hne
        have hy56 := (hs4.ok y hy).2.2.1
        rw [hcmf.1] at hsep
        have h4 := hh4 y hy hyc
        have h5 := htr y hy
        refine ⟨?_, fun hyf => ?_⟩
        · rw [GET_PUT_other _ _ _ _ (by omega), h5.1]; exact h4.1
        · have hzf := hs4.free_facts hy hyf
          rw [GET_PUT_other _ _ _ _ (by omega), h5.2 hzf.1]; exact h4.2 hyf
    · have := Lists_put_hdr hl5 hs4 hN5 hcmm (hdr_word cm)
      rw [hcmf.1] at this
      exact this
  have hcont : Contig b.bp b.pa [b] c.bp true := ⟨rfl, rfl, hcb.1.symm, hba⟩
  have hcont' : Contig b.bp b.pa [b1, t] c.bp false :=
    ⟨hb1f.1, hb1f.2.2.2, by rw [hb1f.2.1]; exact htf.1, by rw [hb1f.2.2.1]; exact htf.2.2.2,
      by show b.bp + b1.sz + t.sz = c.bp; rw [hb1f.2.1, htf.2.1]; omega, htf.2.2.1⟩
  have hfree : ∀ y ∈ [b], y.al = false ∨ y.bp = b.bp := by
    intro y hy
    have hy' : y = b := by simpa using hy
    rw [hy']; exact Or.inr rfl
  have hsub : ∀ a, MayChange s.mem_heap s.mem_brk (A ++ [b1, t] ++ cm :: B) b.bp a →
      MayChange s.mem_heap s.mem_brk bl b.bp a := by
    intro a ha
    rw [hbl']
    exact window_sub hcont hcont' (by simp) hfree rfl hcmf.1 hcmf.2.1 hcmf.2.2.1 a ha
  refine ⟨_, heq', A ++ [b1, t] ++ cm :: B, L5, asize, hrep6, hc6,
    ⟨allocs A, allocs (c :: B), ?_, ?_⟩, by rw [hb1]; exact hb1m,
    fun _ => ⟨rfl, by rw [Nat.add_zero, ht]; exact htm⟩, fun h => by omega, ?_, ?_⟩
  · rw [hbl, allocs_append, allocs_cons_alloc b _ hba (by omega)]
  · rw [List.append_assoc, allocs_append]
    show allocs A ++ allocs (b1 :: t :: cm :: B) = _
    rw [allocs_cons_alloc b1 _ hb1f.2.2.1 (by rw [hb1f.2.1]; omega), hb1f.1, hb1f.2.1,
      allocs_cons_free t _ htf.2.2.1, allocs_cons_congr c cm B hcmf.1 hcmf.2.1 hcmf.2.2.1]
  · intro a h1 h2 h3
    rw [put_mem, PUT_other _ _ _ _ (by omega),
      hU5 a (pay_not_may hs4 hb1m hb1f.2.2.1 (by rw [hb1f.1]; omega) a
        (by rw [hb1f.1]; exact h1) (by rw [hb1f.1, hb1f.2.1]; exact h2))]
    exact h4m a (by omega)
  · intro a ha
    have hw : ¬ (b.bp ≤ a + 4 ∧ a < c.bp) := fun h => ha (by
      rw [hbl']; exact window_in hcont (by simp) hfree rfl a h.1 h.2)
    rw [put_mem, PUT_other _ _ _ _ (by omega),
      hU5 a (fun h => ha (hsub a (MayChange_zero hs4 _ a h)))]
    exact h4m a (by omega)

/-! ## Stores into the payload of an allocated block -/

/-- The invariant does not depend on the payload bytes of allocated blocks. -/
theorem Rep_write {s : State} {bl : List Blk} {L : Nat → List Nat} (hrep : Rep s bl L)
    {x : Blk} (hx : x ∈ bl) (hxa : x.al = true) (m' : Mem)
    (hm : ∀ a, ¬ (x.bp ≤ a ∧ a + 4 < x.bp + x.sz) → m' a = s.mem a) :
    Rep { s with mem := m' } bl L := by
  have hs := hrep.shape
  have hx56 := (hs.ok x hx).2.2.1
  have hword : ∀ w, (w + 4 ≤ x.bp ∨ x.bp + x.sz ≤ w + 4) → GET m' w = GET s.mem w := by
    intro w hw
    apply GET_congr
    intro a h1 h2
    exact hm a (by omega)
  refine Mid_of (s := s) ⟨rfl, rfl, rfl, rfl, rfl⟩ hrep.geo hs ?_ ?_ hrep.nodes hrep.noadj
  · intro y hy
    have h4 := hrep.hdrs y hy
    have hy56 := (hs.ok y hy).2.2.1
    by_cases hyx : y = x
    · subst hyx
      refine ⟨by rw [← h4.1]; exact hword _ (by omega), fun h => ?_⟩
      rw [hxa] at h; exact absurd h (by simp)
    · have hsep := hs.sep hy hx hyx
      refine ⟨by rw [← h4.1]; exact hword _ (by omega), fun hyf => ?_⟩
      have hzf := hs.free_facts hy hyf
      rw [← h4.2 hyf]; exact hword _ (by omega)
  · apply Lists_frame hrep.lists
    · intro i hi
      exact hword _ (by omega)
    · intro i y hy
      obtain ⟨z, hz, h1, h2⟩ := hrep.nodes_in i y hy
      have hzf := hs.free_facts hz h1
      have hne : z ≠ x := fun h => by rw [h, hxa] at h1; exact absurd h1 (by simp)
      have := hs.sep hz hx hne
      exact ⟨hword _ (by omega), hword _ (by omega)⟩

theorem mem_allocs {bl : List Blk} {p z : Nat} :
    (p, z) ∈ allocs bl ↔ ∃ x ∈ bl, x.al = true ∧ x.sz ≠ 0 ∧ x.bp = p ∧ x.sz = z := by
  unfold allocs
  simp only [List.mem_map, List.mem_filter, Bool.and_eq_true, decide_eq_true_eq, Prod.mk.injEq]
  constructor
  · rintro ⟨x, ⟨hx, h1, h2⟩, h3, h4⟩; exact ⟨x, hx, h1, h2, h3, h4⟩
  · rintro ⟨x, hx, h1, h2, h3, h4⟩; exact ⟨x, ⟨hx, h1, h2⟩, h3, h4⟩

theorem InsAt.mem {e : Nat × Nat} {X Y : List (Nat × Nat)} (h : InsAt e X Y) (y : Nat × Nat) :
    y ∈ Y ↔ y = e ∨ y ∈ X := by
  obtain ⟨X1, X2, h1, h2⟩ := h
  rw [h1, h2]
  simp only [List.mem_append, List.mem_cons]
  tauto

theorem InsAt.length {e : Nat × Nat} {X Y : List (Nat × Nat)} (h : InsAt e X Y) :
    Y.length = X.length + 1 := by
  obtain ⟨X1, X2, h1, h2⟩ := h
  rw [h1, h2]
  simp only [List.length_append, List.length_cons]
  omega

/-! ## `realloc` by copying -/

theorem realloc_copy_eq (s : State) (p n asize bsz : Nat) (hn0 : n ≠ 0) (hp0 : p ≠ 0)
    (hadj : adjust n = asize) (h2 : GET_SIZE s.mem (HDRP p) = bsz)
    (hlt : bsz + freesize s p < asize) :
    realloc s p n =
      match malloc s asize with
      | none => none
      | some (newbp, s1) =>
        if newbp = 0 then some (0, s1)
        else (free { s1 with mem := memcpy s1.mem newbp p (if n < bsz then n else bsz) } p).map
          (fun s3 => (newbp, s3)) := by
  unfold realloc
  rw [if_neg hn0, if_neg hp0]
  simp only []
  unfold freesize at hlt
  rw [h2, hadj, if_neg (by omega)]
  all_goals (rcases malloc s asize with _ | ⟨newbp, s1⟩ <;> rfl)

theorem realloc_copy {s : State} {bl : List Blk} {L : Nat → List Nat} (hrep : Rep s bl L)
    {b : Blk} (hb : b ∈ bl) (hba : b.al = true) (hb16 : 16 ≤ b.sz)
    (n : Nat) (hn0 : n ≠ 0) (hn : n + 20 ≤ SIZE_MOD)
    (hlt : b.sz + freesize s b.bp < adjust n) :
    ∃ q s', realloc s b.bp n = some (q, s') ∧
      ((q = 0 ∧ s' = s ∧ (∀ x ∈ bl, x.al = false → x.sz < adjust (adjust n)) ∧
          s.mem_max_addr < s.mem_brk + max (adjust (adjust n)) CHUNKSIZE) ∨
        (q ≠ 0 ∧ Moved s bl b n q s')) := by
  have hg := hrep.geo
  have hs := hrep.shape
  have hb56 := (hs.ok b hb).2.2.1
  have hbbrk := (hs.ok b hb).2.2.2.1
  have hbne : b.bp ≠ s.mem_heap + 56 := fun h => by have := (hs.ok b hb).2.2.2.2.1 h; omega
  have hrb := hrep.read hb
  obtain ⟨ha8, ha16, han, hale, _⟩ := adjust_facts n (by omega)
  have heq := realloc_copy_eq s b.bp n (adjust n) b.sz hn0 (by omega) rfl hrb.1 hlt
  have haa := adjust_facts (adjust n) (by unfold SIZE_MOD at *; omega)
  obtain ⟨q, s1, hmal, hcase⟩ := malloc_core hrep (adjust n) (by omega) haa.1 haa.2.1
    (adjust_mod8 _).2
  rw [hmal] at heq
  simp only [] at heq
  rcases hcase with ⟨hq0, hs1, hno, href⟩ | ⟨hq0, bl1, L1, z, hrep1, hc1, hc2, hc3, hc4, hc5,
    hins, hz1, hz2, hU1, hcov, _, _⟩
  · rw [if_pos hq0] at heq
    exact ⟨0, s1, heq, Or.inl ⟨rfl, hs1, hno, href⟩⟩
  · rw [if_neg hq0] at heq
    have hs1 := hrep1.shape
    obtain ⟨x, hx, hxa, hxz, hxq, hxs⟩ := mem_allocs.1 ((hins.mem _).2 (Or.inl rfl))
    obtain ⟨b', hb', hb'a, hb'z, hb'p, hb's⟩ := mem_allocs.1
      ((hins.mem (b.bp, b.sz)).2 (Or.inr (mem_allocs.2 ⟨b, hb, hba, by omega, rfl, rfl⟩)))
    have hqb : q ≠ b.bp := by
      rcases hcov with ⟨b0, hb0, hb0f, hb0q, _⟩ | h
      · intro h
        have := hs.uniq hb0 hb (hb0q.trans h)
        rw [this, hba] at hb0f; exact absurd hb0f (by simp)
      · omega
    generalize hk : (if n < b.sz then n else b.sz) = k at heq
    have hkn : k ≤ n ∧ k ≤ b.sz ∧ (n < b.sz → k = n) ∧ (b.sz ≤ n → k = b.sz) := by
      rw [← hk]; split <;> omega
    have hrep2 : Rep { s1 with mem := memcpy s1.mem q b.bp k } bl1 L1 := by
      apply Rep_write hrep1 hx hxa
      intro a ha
      unfold memcpy
      rw [if_neg (by omega)]
    have hb'ne : b'.bp ≠ s1.mem_heap + 56 := by rw [hb'p, hc3]; exact hbne
    obtain ⟨s3, hfree, bl3, L3, f, hrep3, hcs3, hins3, hfm, hff, hf1, hf2, hU3⟩ :=
      free_spec hrep2 hb' hb'a hb'z hb'ne
    rw [hb'p] at hfree
    rw [hfree] at heq
    refine ⟨q, s3, heq, Or.inr ⟨hq0, bl3, L3, z, allocs bl1, hrep3, hcs3.1.trans hc1,
      hcs3.2.1.trans hc2, hcs3.2.2.1.trans hc3, hcs3.2.2.2.2.trans hc4,
      by rw [hcs3.2.2.2.1]; exact hc5, hins, by rw [← hb'p, ← hb's]; exact hins3, hqb,
      by omega, ?_, f, hfm, hff, by rw [← hb'p]; exact hf1, by rw [← hb'p, ← hb's]; exact hf2⟩⟩
    intro i hi1 hi2
    have h3 : s3.mem (q + i) = memcpy s1.mem q b.bp k (q + i) :=
      hU3 (q + i) (pay_not_may hs1 hx hxa (by rw [hxq, hb'p]; exact hqb) (q + i)
        (by omega) (by omega))
    rw [h3]
    unfold memcpy
    rw [if_pos ⟨by omega, by omega⟩, show b.bp + (q + i - q) = b.bp + i by omega]
    exact hU1 (b.bp + i) (pay_not_may hs hb hba (by omega) (b.bp + i) (by omega) (by omega))

/-- The value `freesize` in terms of the block list. -/
theorem freesize_eq {s : State} {bl : List Blk} {L : Nat → List Nat} (hrep : Rep s bl L)
    {A B : List Blk} {b c : Blk} (hbl : bl = A ++ b :: c :: B) :
    freesize s b.bp = if c.al = true then 0 else c.sz := by
  have hs := hrep.shape
  have hb : b ∈ bl := by rw [hbl]; simp
  have hcm : c ∈ bl := by rw [hbl]; simp
  have hcb : c.bp = b.bp + b.sz ∧ c.pa = b.al := by
    have := hs.contig; rw [hbl] at this; exact Contig_mid this
  have hrb := hrep.read hb
  have hrc := hrep.read hcm
  unfold freesize
  rw [NEXT_BLKP_eq _ _ _ hrb.1, ← hcb.1, hrc.1, hrc.2.2]
  cases c.al <;> simp [flag]

/-- `realloc` of an allocated block that can be resized in place. -/
theorem realloc_in_place {s : State} {bl : List Blk} {L : Nat → List Nat} (hrep : Rep s bl L)
    {b : Blk} (hb : b ∈ bl) (hba : b.al = true) (hb16 : 16 ≤ b.sz)
    (n : Nat) (hn0 : n ≠ 0) (hn : n + 20 ≤ SIZE_MOD)
    (hle : adjust n ≤ b.sz + freesize s b.bp) :
    ∃ s', realloc s b.bp n = some (b.bp, s') ∧
      Resized s bl b (adjust n) (freesize s b.bp) s' := by
  obtain ⟨A, c, B, hbl⟩ := hrep.shape.next hb (by omega)
  obtain ⟨ha8, ha16, _, _, _⟩ := adjust_facts n (by omega)
  have hfs := freesize_eq hrep hbl
  rw [hfs] at hle ⊢
  cases hca : c.al
  · rw [hca] at hle
    simp only [Bool.false_eq_true, if_false] at hle ⊢
    by_cases hsp : adjust n + 16 ≤ b.sz + c.sz
    · exact realloc_in_S1 hrep hb hba hb16 hbl hca n (adjust n) hn0 rfl ha8 ha16 hsp
    · exact realloc_in_N1 hrep hb hba hb16 hbl hca n (adjust n) hn0 rfl hle (by omega)
  · rw [hca] at hle
    simp only [if_true, Nat.add_zero] at hle ⊢
    by_cases hsp : adjust n + 16 ≤ b.sz
    · exact realloc_in_S0 hrep hb hba hb16 hbl hca n (adjust n) hn0 rfl ha8 ha16 hsp
    · exact realloc_in_N0 hrep hb hba hb16 hbl hca n (adjust n) hn0 rfl hle (by omega)

/-! ## `calloc` and stores by the user -/

theorem memset_zero_len (m : Mem) (p c : Nat) : memset m p c 0 = m := by
  funext a
  unfold memset
  rw [if_neg (by omega)]

/-- `calloc`, when it returns, allocates like `malloc` and clears the bytes. -/
theorem calloc_spec {s : State} {bl : List Blk} {L : Nat → List Nat} (hrep : Rep s bl L)
    (k z : Nat) (hn : (k * z) % SIZE_MOD + 12 ≤ SIZE_MOD) (p : Nat) (s' : State)
    (h : calloc s k z = some (p, s')) :
    ∃ s1, malloc s ((k * z) % SIZE_MOD) = some (p, s1) ∧
      s' = { s1 with mem := memset s1.mem p 0 ((k * z) % SIZE_MOD) } ∧
      ((p = 0 ∧ (k * z) % SIZE_MOD = 0 ∧ s' = s) ∨
        (p ≠ 0 ∧ (k * z) % SIZE_MOD ≠ 0 ∧
          MallocOk s bl (adjust ((k * z) % SIZE_MOD)) p s1 ∧
          ∃ bl' L' x, Rep s1 bl' L' ∧ Rep s' bl' L' ∧ x ∈ bl' ∧ x.al = true ∧ x.bp = p ∧
            (k * z) % SIZE_MOD + 4 ≤ x.sz)) := by
  unfold calloc at h
  simp only [] at h
  generalize (k * z) % SIZE_MOD = bytes at *
  by_cases hb0 : bytes = 0
  · subst hb0
    have hm : malloc s 0 = some (0, s) := by
      unfold malloc; rw [ensure_init_id hrep.geo]; simp
    rw [hm] at h
    simp only [ne_eq, not_true_eq_false, and_false, if_false, Option.some.injEq,
      Prod.mk.injEq] at h
    obtain ⟨h1, h2⟩ := h
    subst h1
    refine ⟨s, hm, h2.symm, Or.inl ⟨rfl, rfl, ?_⟩⟩
    rw [← h2, memset_zero_len]
  · obtain ⟨q, s1, hmal, hcase⟩ := malloc_spec hrep bytes hb0 hn
    rw [hmal] at h
    simp only [] at h
    rcases hcase with ⟨hq0, _⟩ | ⟨hq0, hok⟩
    · rw [if_pos ⟨hq0, hb0⟩] at h; exact absurd h (by simp)
    · rw [if_neg (fun hh => hq0 hh.1)] at h
      simp only [Option.some.injEq, Prod.mk.injEq] at h
      obtain ⟨h1, h2⟩ := h
      subst h1
      refine ⟨s1, hmal, h2.symm, Or.inr ⟨hq0, hb0, hok, ?_⟩⟩
      obtain ⟨bl', L', zz, hrep1, _, _, _, _, _, hins, hz1, _⟩ := hok
      obtain ⟨x, hx, hxa, hxz, hxq, hxs⟩ := mem_allocs.1 ((hins.mem _).2 (Or.inl rfl))
      have := (adjust_facts bytes hn).2.2.1
      refine ⟨bl', L', x, hrep1, ?_, hx, hxa, hxq, by omega⟩
      rw [← h2]
      apply Rep_write hrep1 hx hxa
      intro a ha
      unfold memset
      rw [if_neg (by omega)]

/-- A store by the user into the payload of an allocated block. -/
theorem store_spec {s : State} {bl : List Blk} {L : Nat → List Nat} (hrep : Rep s bl L)
    {x : Blk} (hx : x ∈ bl) (hxa : x.al = true) (a : Nat) (v : Fin 256)
    (h1 : x.bp ≤ a) (h2 : a + 4 < x.bp + x.sz) : Rep (store_byte s a v) bl L := by
  apply Rep_write hrep hx hxa
  intro a' ha'
  show (if a' = a then v else s.mem a') = s.mem a'
  rw [if_neg (fun h => ha' (by rw [h]; exact ⟨h1, h2⟩))]

/-! ## `mm_init` -/

theorem GET_memset_zero (m : Mem) (p n w : Nat) (h1 : p ≤ w) (h2 : w + 4 ≤ p + n) :
    GET (memset m p 0 n) w = 0 := by
  unfold GET memset
  rw [if_pos ⟨by omega, by omega⟩, if_pos ⟨by omega, by omega⟩, if_pos ⟨by omega, by omega⟩,
    if_pos ⟨by omega, by omega⟩]
  rfl

theorem init_eq (s : State) (hf : FreshHeap s) :
    mm_init s =
      if s.mem_max_addr < s.mem_heap + 64 then
        some (-1, { s with heap_listp := 0, class_head := MINUS_ONE })
      else
        match extend_heap (init_state s) (INITSIZE / WSIZE) with
        | none => none
        | some (bp, s8) => if bp = 0 then some (-1, s8) else some (0, s8) := by
  obtain ⟨h1, h2, h3, h4⟩ := hf
  unfold mm_init
  simp only []
  have hpad : (if CLASS_NUM % 2 ≠ 0 then 0 else 1) = 1 := by decide
  rw [hpad]
  have h64 : (CLASS_NUM + 1 + 3) * WSIZE = 64 := by decide
  rw [h64]
  by_cases hr : s.mem_max_addr < s.mem_heap + 64
  · have hm : mem_sbrk { s with heap_listp := 0, class_head := 0 } 64
        = (MINUS_ONE, { s with heap_listp := 0, class_head := 0 }) := by
      unfold mem_sbrk
      rw [if_pos (by show s.mem_brk + 64 > s.mem_max_addr; omega)]
    rw [hm, if_pos hr]
    simp
  · have hm : mem_sbrk { s with heap_listp := 0, class_head := 0 } 64
        = (s.mem_brk, { s with heap_listp := 0, class_head := 0, mem_brk := s.mem_brk + 64 }) := by
      unfold mem_sbrk
      rw [if_neg (by show ¬ s.mem_brk + 64 > s.mem_max_addr; omega)]
    rw [hm, if_neg hr]
    simp only []
    rw [if_neg (by unfold MINUS_ONE at *; omega)]
    have hs7 : ∀ x : State, x = init_state s → (match extend_heap x (INITSIZE / WSIZE) with
        | none => none
        | some (bp, s8) => if bp = 0 then some ((-1 : Int), s8) else some (0, s8)) =
        (match extend_heap (init_state s) (INITSIZE / WSIZE) with
        | none => none
        | some (bp, s8) => if bp = 0 then some (-1, s8) else some (0, s8)) := by
      intro x hx; rw [hx]
    apply hs7
    unfold init_state State.put
    simp only [h1]
    have e1 : PACK DSIZE PREV_ALLOCATED ALLOCATED = 11 := by decide
    have e2 : PACK 0 PREV_ALLOCATED ALLOCATED = 3 := by decide
    have e3 : (CLASS_NUM + 1) * WSIZE = 52 := by decide
    have e4 : CLASS_NUM * WSIZE = 48 := by decide
    rw [e1, e2, e3, e4]
    simp only [WSIZE, Nat.one_mul, Nat.add_assoc]

theorem init_rep (s : State) (hf : FreshHeap s) (hr : s.mem_heap + 64 ≤ s.mem_max_addr) :
    Rep (init_state s) [⟨s.mem_heap + 56, 8, true, true⟩, ⟨s.mem_heap + 64, 0, true, true⟩]
      (fun _ => []) := by
  obtain ⟨h1, h2, h3, h4⟩ := hf
  refine ⟨⟨rfl, rfl, h2, hr, h3, h4⟩, ⟨⟨rfl, rfl, rfl, rfl, rfl, rfl⟩, ?_, ?_⟩, ?_, ?_, ?_, ?_⟩
  · intro y hy
    simp only [List.mem_cons, List.mem_singleton, List.not_mem_nil, or_false] at hy
    show BlkOK s.mem_heap (s.mem_heap + 64) y
    rcases hy with rfl | rfl
    · exact ⟨by show (s.mem_heap + 56) % 8 = 0; omega, by show 8 % 8 = 0; rfl, le_refl _,
        le_refl _, fun _ => ⟨rfl, rfl⟩, fun _ => rfl, fun h => absurd rfl h⟩
    · exact ⟨by show (s.mem_heap + 64) % 8 = 0; omega, by show 0 % 8 = 0; rfl,
        by show _ ≤ s.mem_heap + 64; omega,
        le_refl _, fun h => by exfalso; have h' : s.mem_heap + 64 = s.mem_heap + 56 := h; omega,
        fun _ => rfl, fun _ => Or.inl rfl⟩
  · exact ⟨[⟨s.mem_heap + 56, 8, true, true⟩], ⟨s.mem_heap + 64, 0, true, true⟩, rfl, rfl,
      fun y hy => by
        have hy' : y = ⟨s.mem_heap + 56, 8, true, true⟩ := by simpa using hy
        rw [hy']; show (8 : Nat) ≠ 0; omega⟩
  · intro y hy
    simp only [List.mem_cons, List.mem_singleton, List.not_mem_nil, or_false] at hy
    show GET (PUT (PUT (PUT (memset s.mem s.mem_heap 0 48) (s.mem_heap + 52) 11)
      (s.mem_heap + 56) 0) (s.mem_heap + 60) 3) (y.bp - 4) = hdr_word y ∧ _
    rcases hy with rfl | rfl
    · refine ⟨?_, fun h => absurd h (by simp)⟩
      show GET _ (s.mem_heap + 56 - 4) = _
      rw [GET_PUT_other _ _ _ _ (by omega), GET_PUT_other _ _ _ _ (by omega),
        show s.mem_heap + 56 - 4 = s.mem_heap + 52 by omega, GET_PUT_same _ _ _ (by omega)]
      rfl
    · refine ⟨?_, fun h => absurd h (by simp)⟩
      show GET _ (s.mem_heap + 64 - 4) = _
      rw [show s.mem_heap + 64 - 4 = s.mem_heap + 60 by omega, GET_PUT_same _ _ _ (by omega)]
      rfl
  · intro i hi
    show SC _ _ (GET (PUT (PUT (PUT (memset s.mem s.mem_heap 0 48) (s.mem_heap + 52) 11)
      (s.mem_heap + 56) 0) (s.mem_heap + 60) 3) (s.mem_heap + 4 * i)) [] 0 ∧ True
    refine ⟨?_, trivial⟩
    show GET _ _ = 0
    rw [GET_PUT_other _ _ _ _ (by omega), GET_PUT_other _ _ _ _ (by omega),
      GET_PUT_other _ _ _ _ (by omega)]
    exact GET_memset_zero _ _ _ _ (by omega) (by omega)
  · refine ⟨fun _ => List.nodup_nil, fun i x => ?_⟩
    constructor
    · intro h; exact absurd h (List.not_mem_nil _)
    · rintro ⟨y, hy, hyf, _⟩
      simp only [List.mem_cons, List.mem_singleton, List.not_mem_nil, or_false] at hy
      rcases hy with rfl | rfl <;> exact absurd hyf (by simp)
  · intro y hy _ hyf
    simp only [List.mem_cons, List.mem_singleton, List.not_mem_nil, or_false] at hy
    rcases hy with rfl | rfl <;> exact absurd hyf (by simp)

/-- A successful `mm_init` on a fresh heap establishes the invariant, with one
free block of `INITSIZE` bytes behind the prologue. -/
theorem mm_init_spec {s0 s : State} (hf : FreshHeap s0) (h : mm_init s0 = some (0, s)) :
    ∃ bl L f, Rep s bl L ∧ s.mem_heap = s0.mem_heap ∧ s.mem_max_addr = s0.mem_max_addr ∧
      allocs bl = [(s0.mem_heap + 56, 8)] ∧ f ∈ bl ∧ f.al = false ∧ f.bp = s0.mem_heap + 64 ∧
      f.sz = 2048 ∧ ∀ g ∈ bl, g.al = false → g = f := by
  rw [init_eq s0 hf] at h
  by_cases hr : s0.mem_max_addr < s0.mem_heap + 64
  · rw [if_pos hr] at h
    simp at h
  · rw [if_neg hr] at h
    have hrep7 := init_rep s0 hf (by omega)
    by_cases hr2 : (init_state s0).mem_brk + 2048 ≤ (init_state s0).mem_max_addr
    · obtain ⟨p, s8, bl8, L8, f, hext, hrep8, hc1, hc2, hc3, hc4, hc5, hal, hfm, hff, hfp,
        hfz, hfe, hor, hU, _⟩ := extend_spec 0 hrep7 2048 (by omega) (by omega) hr2
      have hff' := hrep8.shape.free_facts hfm hff
      have e : INITSIZE / WSIZE = 2048 / 4 := rfl
      rw [e, hext] at h
      simp only [] at h
      rw [if_neg (by omega)] at h
      simp only [Option.some.injEq, Prod.mk.injEq, true_and] at h
      subst h
      have hp : p = s0.mem_heap + 64 := by
        rcases hor with h | ⟨a, ha, haf, _⟩
        · exact h
        · simp only [List.mem_cons, List.mem_singleton, List.not_mem_nil, or_false] at ha
          rcases ha with rfl | rfl <;> exact absurd haf (by simp)
      have hbrk : (init_state s0).mem_brk = s0.mem_heap + 64 := rfl
      have hheap : (init_state s0).mem_heap = s0.mem_heap := rfl
      rw [hbrk] at hfe hc4
      rw [hheap] at hc3
      refine ⟨bl8, L8, f, hrep8, hc3, hc5, ?_, hfm, hff, by omega, by omega, ?_⟩
      · rw [hal]; rfl
      · intro g hg hgf
        by_contra hne
        have hgf' := hrep8.shape.free_facts hg hgf
        have := hrep8.shape.sep hg hfm hne
        rw [hc3] at hgf'
        omega
    · have e : INITSIZE / WSIZE = 2048 / 4 := rfl
      rw [e, extend_refused (init_state s0) 2048 (by omega) (by decide) (by omega)] at h
      simp at h

/-! ## The heap walk -/

theorem walk_spec (s : State) (e : Blk) (he : e.sz = 0) (W : List Blk) :
    ∀ (k p : Nat) (pa : Bool), Contig p pa (W ++ [e]) s.mem_brk true →
      (∀ y ∈ W, 8 ≤ y.sz ∧ blk_at s.mem y.bp = y) → s.mem_brk - p < k →
      walk k s p = some W := by
  induction W with
  | nil =>
    intro k p pa hc _ hk
    obtain ⟨k', rfl⟩ : ∃ k', k = k' + 1 := ⟨k - 1, by omega⟩
    have h1 : e.bp = p := hc.1
    have h2 : p + e.sz = s.mem_brk := hc.2.2.1
    unfold walk mem_heap_hi
    rw [if_neg (by omega)]
  | cons b W ih =>
    intro k p pa hc hW hk
    obtain ⟨k', rfl⟩ : ∃ k', k = k' + 1 := ⟨k - 1, by omega⟩
    have h1 : b.bp = p := hc.1
    have h2 : Contig (p + b.sz) b.al (W ++ [e]) s.mem_brk true := hc.2.2
    have h3 := Contig_le _ _ _ _ _ h2
    obtain ⟨h4, h5⟩ := hW b (by simp)
    have h6 : GET_SIZE s.mem (HDRP p) = b.sz := by
      have := congrArg Blk.sz h5
      rw [h1] at this
      exact this
    unfold walk mem_heap_hi
    rw [if_pos (by omega), NEXT_BLKP_eq _ _ _ h6,
      ih k' (p + b.sz) b.al h2 (fun y hy => hW y (by simp [hy])) (by omega), ← h1, h5]
    rfl

/-- Reading the header of a block when the headers are those of the block list. -/
theorem read_of {s : State} {bl : List Blk} (hg : Geo s) (hs : Shape s.mem_heap s.mem_brk bl)
    (hh : Hdrs s.mem bl) {b : Blk} (hb : b ∈ bl) :
    GET_SIZE s.mem (HDRP b.bp) = b.sz ∧ GET_PREV_ALLOC s.mem (HDRP b.bp) = flag b.pa 2 ∧
      GET_ALLOC s.mem (HDRP b.bp) = flag b.al 1 := by
  obtain ⟨h1, h2, h3, h4, _⟩ := hs.ok b hb
  have := hg.brk_le
  have := hg.max_le
  have hr := hdr_read b h2 (by omega)
  unfold GET_SIZE GET_PREV_ALLOC GET_ALLOC HDRP WSIZE
  rw [(hh b hb).1]
  exact hr

/-- The heap walk visits the blocks of the block list, the epilogue header
excepted; it reads the headers only. -/
theorem heap_blocks_of {s : State} {bl : List Blk} (hg : Geo s)
    (hs : Shape s.mem_heap s.mem_brk bl) (hh : Hdrs s.mem bl) :
    ∃ body e, bl = body ++ [e] ∧ e.sz = 0 ∧ (∀ y ∈ body, y.sz ≠ 0) ∧
      heap_blocks s = some body := by
  obtain ⟨body, e, hbl, hez, hbody⟩ := hs.last
  refine ⟨body, e, hbl, hez, hbody, ?_⟩
  unfold heap_blocks fuel
  rw [hg.hl]
  apply walk_spec s e hez body _ _ true
  · rw [← hbl]; exact hs.contig
  · intro y hy
    have hym : y ∈ bl := by rw [hbl]; simp [hy]
    refine ⟨(hs.bp_lt hym (hbody y hy)).2, ?_⟩
    obtain ⟨h1, h2, h3⟩ := read_of hg hs hh hym
    unfold blk_at
    rw [h1, h2, h3]
    cases y with
    | mk bp sz al pa => cases al <;> cases pa <;> rfl
  · have := (hs.ok e (by rw [hbl]; simp)).2.2
    omega

/-- The heap walk visits the blocks of the block list, the epilogue header excepted. -/
theorem heap_blocks_spec {s : State} {bl : List Blk} {L : Nat → List Nat} (hrep : Rep s bl L) :
    ∃ body e, bl = body ++ [e] ∧ e.sz = 0 ∧ (∀ y ∈ body, y.sz ≠ 0) ∧
      heap_blocks s = some body :=
  heap_blocks_of hrep.geo hrep.shape hrep.hdrs

theorem is_allocated_iff {s : State} {bl : List Blk} {L : Nat → List Nat} (hrep : Rep s bl L)
    (p : Nat) : is_allocated s p = true ↔
      ∃ b ∈ bl, b.al = true ∧ b.sz ≠ 0 ∧ b.bp = p ∧ p ≠ s.mem_heap + 56 := by
  obtain ⟨body, e, hbl, hez, hbody, hwalk⟩ := heap_blocks_spec hrep
  unfold is_allocated
  rw [hwalk, hrep.geo.hl]
  simp only [List.any_eq_true, Bool.and_eq_true, decide_eq_true_eq]
  constructor
  · rintro ⟨b, hb, ⟨h1, h2⟩, h3⟩
    exact ⟨b, by rw [hbl]; simp [hb], h2, hbody b hb, h1, h3⟩
  · rintro ⟨b, hb, h1, h2, h3, h4⟩
    rw [hbl] at hb
    simp only [List.mem_append, List.mem_singleton] at hb
    rcases hb with hb | rfl
    · exact ⟨b, hb, ⟨h3, h1⟩, h4⟩
    · exact absurd hez h2

/-- An allocated pointer is the block pointer of an allocated block of at least
16 bytes. -/
theorem allocated_block {s : State} {bl : List Blk} {L : Nat → List Nat} (hrep : Rep s bl L)
    {p : Nat} (h : is_allocated s p = true) :
    ∃ b ∈ bl, b.al = true ∧ 16 ≤ b.sz ∧ b.bp = p ∧ b.bp ≠ s.mem_heap + 56 := by
  obtain ⟨b, hb, h1, h2, h3, h4⟩ := (is_allocated_iff hrep p).1 h
  have h7 := (hrep.shape.ok b hb).2.2.2.2.2.2 (by rw [h3]; exact h4)
  exact ⟨b, hb, h1, by omega, h3, by rw [h3]; exact h4⟩

/-! ## The invariant holds in every reachable state -/

theorem free_null (s : State) : free s 0 = some s := by
  unfold free; rw [if_pos rfl]

theorem reachable_inv {s : State} (h : Reachable s) : Inv s := by
  induction h with
  | init s0 s hf hi =>
    obtain ⟨bl, L, _, hrep, _⟩ := mm_init_spec hf hi
    exact ⟨bl, L, hrep⟩
  | malloc s n p s' _ hn hm ih =>
    obtain ⟨bl, L, hrep⟩ := ih
    by_cases h0 : n = 0
    · subst h0
      have : malloc s 0 = some (0, s) := by
        unfold malloc; rw [ensure_init_id hrep.geo]; simp
      rw [this] at hm
      simp only [Option.some.injEq, Prod.mk.injEq] at hm
      rw [← hm.2]; exact ⟨bl, L, hrep⟩
    · obtain ⟨q, s1, hmal, hcase⟩ := malloc_spec hrep n h0 hn
      rw [hmal] at hm
      simp only [Option.some.injEq, Prod.mk.injEq] at hm
      rw [← hm.2]
      rcases hcase with ⟨_, hs1, _⟩ | ⟨_, bl', L', _, hrep', _⟩
      · rw [hs1]; exact ⟨bl, L, hrep⟩
      · exact ⟨bl', L', hrep'⟩
  | free s p s' _ hp hf ih =>
    obtain ⟨bl, L, hrep⟩ := ih
    rcases hp with hp | hp
    · subst hp
      rw [free_null] at hf
      simp only [Option.some.injEq] at hf
      rw [← hf]; exact ⟨bl, L, hrep⟩
    · obtain ⟨b, hb, h1, h2, h3, h4⟩ := allocated_block hrep hp
      obtain ⟨s1, hfr, bl', L', _, hrep', _⟩ := free_spec hrep hb h1 (by omega) h4
      rw [h3, hf] at hfr
      simp only [Option.some.injEq] at hfr
      rw [hfr]; exact ⟨bl', L', hrep'⟩
  | realloc s p n q s' _ hp hn hr ih =>
    obtain ⟨bl, L, hrep⟩ := ih
    by_cases h0 : n = 0
    · subst h0
      have hre : realloc s p 0 = (free s p).map (fun s1 => (0, s1)) := by
        unfold realloc; rw [if_pos rfl]
      rw [hre] at hr
      rcases hp with hp | hp
      · subst hp
        rw [free_null] at hr
        simp only [Option.map_some', Option.some.injEq, Prod.mk.injEq] at hr
        rw [← hr.2]; exact ⟨bl, L, hrep⟩
      · obtain ⟨b, hb, h1, h2, h3, h4⟩ := allocated_block hrep hp
        obtain ⟨s1, hfr, bl', L', _, hrep', _⟩ := free_spec hrep hb h1 (by omega) h4
        rw [h3] at hfr
        rw [hfr] at hr
        simp only [Option.map_some', Option.some.injEq, Prod.mk.injEq] at hr
        rw [← hr.2]; exact ⟨bl', L', hrep'⟩
    · rcases hp with hp | hp
      · subst hp
        have hre : realloc s 0 n = malloc s n := by
          unfold realloc; rw [if_neg h0, if_pos rfl]
        rw [hre] at hr
        obtain ⟨q', s1, hmal, hcase⟩ := malloc_spec hrep n h0 (by omega)
        rw [hmal] at hr
        simp only [Option.some.injEq, Prod.mk.injEq] at hr
        rw [← hr.2]
        rcases hcase with ⟨_, hs1, _⟩ | ⟨_, bl', L', _, hrep', _⟩
        · rw [hs1]; exact ⟨bl, L, hrep⟩
        · exact ⟨bl', L', hrep'⟩
      · obtain ⟨b, hb, h1, h2, h3, h4⟩ := allocated_block hrep hp
        subst h3
        by_cases hle : adjust n ≤ b.sz + freesize s b.bp
        · obtain ⟨s1, hre, bl', L', _, hrep', _⟩ := realloc_in_place hrep hb h1 h2 n h0 hn hle
          rw [hre] at hr
          simp only [Option.some.injEq, Prod.mk.injEq] at hr
          rw [← hr.2]; exact ⟨bl', L', hrep'⟩
        · obtain ⟨q', s1, hre, hcase⟩ := realloc_copy hrep hb h1 h2 n h0 hn (by omega)
          rw [hre] at hr
          simp only [Option.some.injEq, Prod.mk.injEq] at hr
          rw [← hr.2]
          rcases hcase with ⟨_, hs1, _⟩ | ⟨_, bl', L', _, _, hrep', _⟩
          · rw [hs1]; exact ⟨bl, L, hrep⟩
          · exact ⟨bl', L', hrep'⟩
  | calloc s k z p s' _ hn hc ih =>
    obtain ⟨bl, L, hrep⟩ := ih
    obtain ⟨s1, _, _, hcase⟩ := calloc_spec hrep k z hn p s' hc
    rcases hcase with ⟨_, _, hs'⟩ | ⟨_, _, _, bl', L', _, _, hrep', _⟩
    · rw [hs']; exact ⟨bl, L, hrep⟩
    · exact ⟨bl', L', hrep'⟩
  | write s p a v _ hp h1 h2 ih =>
    obtain ⟨bl, L, hrep⟩ := ih
    obtain ⟨b, hb, hba, hb16, hbp, _⟩ := allocated_block hrep hp
    subst hbp
    rw [(hrep.read hb).1] at h2
    exact ⟨bl, L, store_spec hrep hb hba a v h1 (by omega)⟩

/-! ## The class lists and the count of allocated blocks -/

theorem list_walk_spec (s : State) (hl : Nat) (hhl : s.heap_listp = hl) (xs : List Nat) :
    ∀ (k c : Nat), SC s.mem hl c xs 0 → (∀ y ∈ xs, y ≠ 0 ∧ y < 4294967296) → xs.length < k →
      list_walk k s (c + hl) = some (xs.map (fun y => y + hl)) := by
  induction xs with
  | nil =>
    intro k c hsc _ hk
    obtain ⟨k', rfl⟩ : ∃ k', k = k' + 1 := ⟨k - 1, by simp at hk; omega⟩
    have hc : c = 0 := hsc
    unfold list_walk
    rw [hc, A2O_off s hl 0 hhl (by omega)]
    simp
  | cons x xs ih =>
    intro k c hsc hx hk
    obtain ⟨k', rfl⟩ : ∃ k', k = k' + 1 := ⟨k - 1, by simp at hk; omega⟩
    obtain ⟨hcx, hsc'⟩ := hsc
    have hx0 := hx x (by simp)
    unfold list_walk
    rw [hcx, A2O_off s hl x hhl hx0.2, if_pos hx0.1]
    have hsucc : SUCC_BLKP s (x + hl) = GET s.mem (hl + x + 4) + hl := by
      unfold SUCC_BLKP SUCCP WSIZE
      rw [hhl, Nat.add_comm x hl]
    rw [hsucc, ih k' _ hsc' (fun y hy => hx y (by simp [hy])) (by simp at hk; omega)]
    rfl

theorem class_list_spec {s : State} {bl : List Blk} {L : Nat → List Nat} (hrep : Rep s bl L)
    (i : Nat) (hi : i < 12) :
    class_list s i = some ((L i).map (fun y => y + (s.mem_heap + 56))) := by
  have hg := hrep.geo
  have hwf := hrep.wf
  obtain ⟨hsc, _⟩ := hrep.lists i hi
  unfold class_list O2A
  rw [hg.ch, hg.hl, show i * WSIZE = 4 * i by unfold WSIZE; omega]
  exact list_walk_spec s _ hg.hl (L i) _ _ hsc
    (fun y hy => by have := hwf.ok i y hy; omega) (hrep.len i)

theorem index_upto_spec {s : State} {bl : List Blk} {L : Nat → List Nat} (hrep : Rep s bl L) :
    ∀ k, k ≤ 12 → ∃ l, index_upto k s = some l ∧
      ∀ a, a ∈ l ↔ ∃ i, i < k ∧ ∃ y ∈ L i, a = y + (s.mem_heap + 56) := by
  intro k
  induction k with
  | zero =>
    intro _
    exact ⟨[], rfl, fun a => ⟨fun h => absurd h (List.not_mem_nil _),
      fun ⟨i, hi, _⟩ => absurd hi (by omega)⟩⟩
  | succ k ih =>
    intro hk
    obtain ⟨l, hl, hmem⟩ := ih (by omega)
    refine ⟨l ++ (L k).map (fun y => y + (s.mem_heap + 56)), ?_, fun a => ?_⟩
    · unfold index_upto
      rw [hl, class_list_spec hrep k (by omega)]
    · rw [List.mem_append, hmem, List.mem_map]
      constructor
      · rintro (⟨i, hi, y, hy, ha⟩ | ⟨y, hy, ha⟩)
        · exact ⟨i, by omega, y, hy, ha⟩
        · exact ⟨k, by omega, y, hy, ha.symm⟩
      · rintro ⟨i, hi, y, hy, ha⟩
        by_cases hik : i < k
        · exact Or.inl ⟨i, hik, y, hy, ha⟩
        · have : i = k := by omega
          subst this
          exact Or.inr ⟨y, hy, ha.symm⟩

/-- The free-list index holds exactly the free blocks of the heap. -/
theorem free_index_spec {s : State} {bl : List Blk} {L : Nat → List Nat} (hrep : Rep s bl L) :
    ∃ l, free_index s = some l ∧ ∀ a, a ∈ l ↔ ∃ b ∈ bl, b.al = false ∧ b.bp = a := by
  obtain ⟨l, hl, hmem⟩ := index_upto_spec hrep 12 (le_refl _)
  refine ⟨l, hl, fun a => ?_⟩
  rw [hmem]
  constructor
  · rintro ⟨i, hi, y, hy, ha⟩
    obtain ⟨b, hb, h1, h2⟩ := hrep.nodes_in i y hy
    exact ⟨b, hb, h1, by rw [h2, ha, Nat.add_comm]⟩
  · rintro ⟨b, hb, h1, h2⟩
    have hbf := hrep.shape.free_facts hb h1
    refine ⟨class_index b.sz, class_index_lt _, b.bp - (s.mem_heap + 56), ?_, by omega⟩
    exact (hrep.nodes.2 _ _).2 ⟨b, hb, h1, by omega, rfl, fun h => h⟩

/-- `malloc` answers `NULL` and changes nothing when no free block is large
enough and the heap primitive refuses to grow the heap. -/
theorem malloc_null {s : State} {bl : List Blk} {L : Nat → List Nat} (hrep : Rep s bl L)
    (n : Nat) (h0 : n ≠ 0) (hno : ∀ b ∈ bl, b.al = false → b.sz < adjust n)
    (href : s.mem_max_addr < s.mem_brk + max (adjust n) CHUNKSIZE) :
    malloc s n = some (0, s) := by
  unfold malloc
  rw [ensure_init_id hrep.geo]
  simp only []
  rw [if_neg h0, if_neg (rep_class_head hrep)]
  rcases find_fit_spec hrep (adjust n) with ⟨hfit, _⟩ | ⟨b, hb, hf, hle, _⟩
  · rw [hfit]
    simp only []
    rw [if_neg (by simp)]
    have h8 := (adjust_mod8 n)
    obtain ⟨he8, _, _, _⟩ := extendsize_facts (adjust n) h8.1
    rw [extend_refused s (max (adjust n) CHUNKSIZE) he8
      (by unfold CHUNKSIZE SIZE_MOD at *; omega) href]
    simp
  · have := hno b hb hf; omega

theorem sbrk_refuses {s : State} (hg : Geo s) (incr : Nat) :
    (mem_sbrk s incr).1 = MINUS_ONE ↔ s.mem_max_addr < s.mem_brk + incr := by
  unfold mem_sbrk
  have h1 := hg.brk_le
  have h2 := hg.max_lt
  constructor
  · intro h
    by_contra hn
    rw [if_neg (by omega)] at h
    simp only [] at h
    omega
  · intro h
    rw [if_pos (by omega)]

/-- Free blocks of the block list are blocks of the heap walk. -/
theorem free_in_walk {s : State} {bl : List Blk} {L : Nat → List Nat} (hrep : Rep s bl L) :
    ∃ bs, heap_blocks s = some bs ∧ (∀ b ∈ bs, b ∈ bl) ∧
      ∀ b ∈ bl, b.al = false → b ∈ bs := by
  obtain ⟨body, e, hbl, hez, hbody, hwalk⟩ := heap_blocks_spec hrep
  refine ⟨body, hwalk, fun b hb => by rw [hbl]; simp [hb], fun b hb hf => ?_⟩
  rw [hbl] at hb
  simp only [List.mem_append, List.mem_singleton] at hb
  rcases hb with hb | rfl
  · exact hb
  · have := hrep.shape.free_facts (show b ∈ bl by rw [hbl]; simp) hf
    omega

set_option maxRecDepth 1000000

/-! ## Concrete runs -/

theorem fresh_big_ok : FreshHeap fresh_big := by
  unfold FreshHeap fresh_big MINUS_ONE; decide

theorem fresh_small_ok : FreshHeap fresh_small := by
  unfold FreshHeap fresh_small MINUS_ONE; decide

theorem big1_init : mm_init fresh_big = some (0, big1) := rfl

theorem big2_malloc : malloc big1 24 = some (4160, big2) := rfl

theorem small1_init : mm_init fresh_small = some (0, small1) := rfl

theorem small2_malloc : malloc small1 24 = some (4160, small2) := rfl

theorem big1_reach : Reachable big1 := Reachable.init fresh_big big1 fresh_big_ok big1_init

theorem big2_reach : Reachable big2 :=
  Reachable.malloc big1 24 4160 big2 big1_reach (by decide) big2_malloc

theorem small1_reach : Reachable small1 :=
  Reachable.init fresh_small small1 fresh_small_ok small1_init

theorem small2_reach : Reachable small2 :=
  Reachable.malloc small1 24 4160 small2 small1_reach (by decide) small2_malloc

theorem big2_alloc : is_allocated big2 4160 = true := by decide!

theorem small2_alloc : is_allocated small2 4160 = true := by decide!

theorem fits_iff {s : State} {bl : List Blk} {L : Nat → List Nat} (hrep : Rep s bl L)
    (asize : Nat) : fits s asize = true ↔ ∃ b ∈ bl, b.al = false ∧ asize ≤ b.sz := by
  obtain ⟨bs, hwalk, h1, h2⟩ := free_in_walk hrep
  unfold fits
  rw [hwalk]
  simp only [List.any_eq_true, Bool.and_eq_true, Bool.not_eq_true', decide_eq_true_eq]
  constructor
  · rintro ⟨b, hb, hf, hle⟩; exact ⟨b, h1 b hb, hf, hle⟩
  · rintro ⟨b, hb, hf, hle⟩; exact ⟨b, h2 b hb hf, hf, hle⟩

theorem fits_false {s : State} {bl : List Blk} {L : Nat → List Nat} (hrep : Rep s bl L)
    (asize : Nat) (h : fits s asize = false) : ∀ b ∈ bl, b.al = false → b.sz < asize := by
  intro b hb hf
  by_contra hn
  have := (fits_iff hrep asize).2 ⟨b, hb, hf, by omega⟩
  rw [h] at this; exact absurd this (by simp)

/-- An address strictly inside a block is in no class list. -/
theorem inner_not_indexed {s : State} {bl : List Blk} {L : Nat → List Nat} (hrep : Rep s bl L)
    {x : Blk} (hx : x ∈ bl) (a : Nat) (h1 : x.bp < a) (h2 : a < x.bp + x.sz) :
    ∃ l, free_index s = some l ∧ a ∉ l := by
  obtain ⟨l, hl, hmem⟩ := free_index_spec hrep
  refine ⟨l, hl, fun h => ?_⟩
  obtain ⟨g, hg, hgf, hga⟩ := (hmem a).1 h
  have hne : g ≠ x := fun e => by rw [e] at hga; omega
  have := hrep.shape.sep hg hx hne
  omega

theorem malloc_ok_block {s s' : State} {bl : List Blk} {asize p : Nat}
    (h : MallocOk s bl asize p s') (ha16 : 16 ≤ asize) :
    ∃ bl' L' x, Rep s' bl' L' ∧ x ∈ bl' ∧ x.al = true ∧ x.bp = p ∧ asize ≤ x.sz ∧
      x.sz ≤ asize + 8 ∧
      ((∀ b ∈ bl, b.al = false → asize + 16 ≤ b.sz) → asize + 16 ≤ CHUNKSIZE → x.sz = asize) := by
  obtain ⟨bl', L', z, hrep', _, _, _, _, _, hins, hz1, hz2, _, _, _, hex⟩ := h
  obtain ⟨x, hx, hxa, hxz, hxq, hxs⟩ := mem_allocs.1 ((hins.mem _).2 (Or.inl rfl))
  exact ⟨bl', L', x, hrep', hx, hxa, hxq, by omega, by omega,
    fun h1 h2 => by rw [hxs]; exact hex h1 h2⟩

theorem realloc_zero (s : State) (p : Nat) :
    realloc s p 0 = (free s p).map (fun s1 => (0, s1)) := by
  unfold realloc; rw [if_pos rfl]

theorem realloc_null (s : State) (n : Nat) (h0 : n ≠ 0) : realloc s 0 n = malloc s n := by
  unfold realloc; rw [if_neg h0, if_pos rfl]

/-- `place` with the adjusted size 0 takes the free block out of its class list
and puts it back: the block stays free. -/
theorem place_zero {s : State} {bl : List Blk} {L : Nat → List Nat} (hrep : Rep s bl L)
    {f : Blk} (hfm : f ∈ bl) (hff : f.al = false) :
    ∃ s' L', place s f.bp 0 = some s' ∧ Rep s' bl L' ∧ SameConsts s s' ∧
      Unchanged s.mem s'.mem (MayChange s.mem_heap s.mem_brk bl 0) := by
  have hs := hrep.shape
  have hfz := hrep.sz_lt hfm
  have hfa := hs.free_facts hfm hff
  have hrd := hrep.read hfm
  have hpa : f.pa = true := hrep.noadj f hfm (fun h => h) hff
  have hplace := place_split_eq s f 0 hrd.1 (by omega) hfz.1 hfz.2.1 rfl (by omega)
  simp only [Nat.add_zero, Nat.sub_zero] at hplace
  obtain ⟨L1, hmid1, hU1⟩ := del_step 0 hrep hfm hff (fun h => h)
  have hc1 := del_consts s f.bp
  generalize del_free_list s f.bp = s1 at hplace hmid1 hU1 hc1
  have hfe : (⟨f.bp, f.sz, false, true⟩ : Blk) = f := by
    cases f with
    | mk bp sz al pa =>
      simp only at hff hpa
      rw [hff, hpa]
  rw [hfe] at hplace
  have hN : ∀ i y, y ∈ L1 i → ∃ b ∈ bl, b.al = false ∧ b.bp = s.mem_heap + 56 + y := by
    intro i y hy
    have := hmid1.nodes_in i y hy
    rw [hc1.2.2.1] at this
    exact this
  have hs1 : Shape s.mem_heap s.mem_brk bl := hs
  have hlt : hdr_word f < 4294967296 := hdr_word_lt f hfz.2.1
  generalize hs4 : ((s1.put (f.bp - 4) (hdr_word ⟨f.bp, 0, true, true⟩)).put (f.bp - 4)
    (hdr_word f)).put (f.bp + f.sz - 8) (hdr_word f) = s4 at hplace
  have hm4 : s4.mem = PUT (PUT (PUT s1.mem (f.bp - 4) (hdr_word ⟨f.bp, 0, true, true⟩))
      (f.bp - 4) (hdr_word f)) (f.bp + f.sz - 8) (hdr_word f) := by rw [← hs4]; rfl
  have hc4 : SameConsts s1 s4 := by
    rw [← hs4]
    exact SameConsts_trans (SameConsts_trans (SameConsts_put _ _ _) (SameConsts_put _ _ _))
      (SameConsts_put _ _ _)
  have hmid4 : Mid s4 bl L1 (fun p => False ∨ p = f.bp) (fun _ => False) := by
    have hl1 := hmid1.lists
    rw [hc1.2.2.1] at hl1
    refine Mid_of hc4 hmid1.geo hmid1.shape ?_ ?_ hmid1.nodes hmid1.noadj
    · intro y hy
      rw [hm4]
      by_cases hyf : y = f
      · rw [hyf]
        refine ⟨?_, fun _ => GET_PUT_same _ _ _ hlt⟩
        rw [GET_PUT_other _ _ _ _ (by omega)]
        exact GET_PUT_same _ _ _ hlt
      · have hyo := (hs.ok y hy).2.2.1
        have hsep := hs.sep hy hfm hyf
        have h0 := hmid1.hdrs y hy
        constructor
        · rw [GET_PUT_other _ _ _ _ (by omega), GET_PUT_other _ _ _ _ (by omega),
            GET_PUT_other _ _ _ _ (by omega)]
          exact h0.1
        · intro hyfr
          have := hs.free_facts hy hyfr
          rw [GET_PUT_other _ _ _ _ (by omega), GET_PUT_other _ _ _ _ (by omega),
            GET_PUT_other _ _ _ _ (by omega)]
          exact h0.2 hyfr
    · rw [hm4, hc1.2.2.1]
      exact Lists_put_ftr (Lists_put_hdr (Lists_put_hdr hl1 hs1 hN hfm _) hs1 hN hfm _)
        hs1 hN hfm (by omega) _
  obtain ⟨s', L', hadd, hmid', hc', hU'⟩ := add_step 0 hmid4 hfm hff
    (fun p => ⟨fun h => h.elim (fun h => h.elim) id, fun h => Or.inr h⟩)
  have hcs : SameConsts s s' := SameConsts_trans (SameConsts_trans hc1 hc4) hc'
  refine ⟨s', L', by rw [hplace, hadd], hmid', hcs, ?_⟩
  have hU4 : Unchanged s.mem s4.mem (MayChange s.mem_heap s.mem_brk bl 0) := by
    rw [hm4]
    refine Unchanged_PUT (Unchanged_PUT (Unchanged_PUT hU1 _ _ ?_) _ _ ?_) _ _ ?_
    · exact fun a h1 h2 => hdr_may hfm (by omega) a h1 h2
    · exact fun a h1 h2 => hdr_may hfm (by omega) a h1 h2
    · exact fun a h1 h2 => in_may hfm (Or.inl hff) _ (by omega) (by omega) a h1 h2
  have e1 := (SameConsts_trans hc1 hc4).2.2.1
  have e2 := (SameConsts_trans hc1 hc4).2.2.2.1
  rw [e1, e2] at hU'
  exact Unchanged_trans hU4 hU'

/-- A word stored to by a list operation is apart from every header and footer,
also when a node lies inside a free block rather than at its start. -/
theorem touched_sep_in {lo brk : Nat} {bl : List Blk} {N : Nat → Prop} (hs : Shape lo brk bl)
    (hN : ∀ y, N y → ∃ b ∈ bl, b.al = false ∧ b.bp ≤ lo + 56 + y ∧
      lo + 56 + y + 16 ≤ b.bp + b.sz)
    {x : Blk} (hx : x ∈ bl) {w : Nat} (hw : Touched lo (lo + 56) N w) :
    (x.bp - 4 + 4 ≤ w ∨ w + 4 ≤ x.bp - 4) ∧
      (16 ≤ x.sz → x.bp + x.sz - 8 + 4 ≤ w ∨ w + 4 ≤ x.bp + x.sz - 8) := by
  have hxo := (hs.ok x hx).2.2.1
  rcases hw with ⟨i, hi, rfl⟩ | ⟨y, hy, hw⟩
  · constructor
    · right; omega
    · intro _; right; omega
  · obtain ⟨b, hb, hf, hb1, hb2⟩ := hN y hy
    have hbf := hs.free_facts hb hf
    by_cases hbx : b = x
    · subst hbx
      constructor
      · left; omega
      · intro _; right; omega
    · have hsep := hs.sep hb hx hbx
      constructor
      · rcases hsep with e | e
        · right; omega
        · left; omega
      · intro h16
        rcases hsep with e | e
        · right; omega
        · left; omega

/-- `place` with the adjusted size 8 in a free block of at least 24 bytes. -/
theorem place_eight {s : State} {bl : List Blk} {L : Nat → List Nat} (hrep : Rep s bl L)
    {f : Blk} (hfm : f ∈ bl) (hff : f.al = false) (h24 : 24 ≤ f.sz) :
    ∃ s' L1, place s f.bp 8 = some s' ∧ Split8 s' bl L1 f ∧ SameConsts s s' ∧
      Unchanged s.mem s'.mem (MayChange s.mem_heap s.mem_brk bl 0) := by
  have hs := hrep.shape
  have hg := hrep.geo
  have hfz := hrep.sz_lt hfm
  have hfa := hs.free_facts hfm hff
  have hrd := hrep.read hfm
  have hplace := place_split_eq s f 8 hrd.1 (by omega) hfz.1 hfz.2.1 rfl (by omega)
  have ea : f.bp + 8 - 4 = f.bp + 4 := by omega
  have eb : f.bp + 8 + (f.sz - 8) - 8 = f.bp + f.sz - 8 := by omega
  rw [ea, eb] at hplace
  obtain ⟨L1, hmid1, hU1⟩ := del_step 0 hrep hfm hff (fun h => h)
  have hc1 := del_consts s f.bp
  generalize del_free_list s f.bp = s1 at hplace hmid1 hU1 hc1
  have hnodes1 : Nodes (s.mem_heap + 56) bl L1 (fun p => p = f.bp) := by
    have := hmid1.nodes
    rw [hc1.2.2.1] at this
    exact Nodes_ex_congr this (fun p => ⟨fun h => h.elim (fun h => h.elim) id, fun h => Or.inr h⟩)
  have hNb : ∀ i y, y ∈ L1 i → ∃ b ∈ bl, b.al = false ∧ b.bp = s.mem_heap + 56 + y ∧ b ≠ f := by
    intro i y hy
    obtain ⟨b, hb, h1, h2, _, h4⟩ := (hnodes1.2 i y).1 hy
    exact ⟨b, hb, h1, h2, fun e => h4 (by rw [e])⟩
  have hN : ∀ i y, y ∈ L1 i → ∃ b ∈ bl, b.al = false ∧ b.bp = s.mem_heap + 56 + y := by
    intro i y hy
    obtain ⟨b, hb, h1, h2, _⟩ := hNb i y hy
    exact ⟨b, hb, h1, h2⟩
  generalize hX : (⟨f.bp, 8, true, true⟩ : Blk) = X at hplace
  generalize hT : (⟨f.bp + 8, f.sz - 8, false, true⟩ : Blk) = T at hplace
  have hXw : hdr_word X = 11 := by rw [← hX]; rfl
  have hTw : hdr_word T = f.sz - 8 + 2 := by rw [← hT]; simp [hdr_word, flag]
  have hTlt : hdr_word T < 4294967296 := by rw [hTw]; omega
  generalize hs4 : ((s1.put (f.bp - 4) (hdr_word X)).put (f.bp + 4) (hdr_word T)).put
    (f.bp + f.sz - 8) (hdr_word T) = s4 at hplace
  have hm4 : s4.mem = PUT (PUT (PUT s1.mem (f.bp - 4) (hdr_word X)) (f.bp + 4) (hdr_word T))
      (f.bp + f.sz - 8) (hdr_word T) := by rw [← hs4]; rfl
  have hc4 : SameConsts s s4 := by
    rw [← hs4]
    exact SameConsts_trans (SameConsts_trans (SameConsts_trans hc1 (SameConsts_put _ _ _))
      (SameConsts_put _ _ _)) (SameConsts_put _ _ _)
  have hl4 : Lists s4.mem s.mem_heap (s.mem_heap + 56) L1 := by
    have hl1 := hmid1.lists
    rw [hc1.2.2.1] at hl1
    rw [hm4]
    refine Lists_put_ftr (Lists_put (Lists_put_hdr hl1 hs hN hfm _) _ _ (by omega) ?_)
      hs hN hfm (by omega) _
    intro i y hy
    obtain ⟨b, hb, h1, h2, h3⟩ := hNb i y hy
    have := hs.free_facts hb h1
    rcases hs.sep hb hfm h3 with e | e <;> omega
  have hold4 : ∀ y ∈ bl, y ≠ f → GET s4.mem (y.bp - 4) = hdr_word y ∧
      (y.al = false → GET s4.mem (y.bp + y.sz - 8) = hdr_word y) := by
    intro y hy hyf
    have hyo := (hs.ok y hy).2.2.1
    have hsep := hs.sep hy hfm hyf
    have h0 := hmid1.hdrs y hy
    rw [hm4]
    constructor
    · rw [GET_PUT_other _ _ _ _ (by omega), GET_PUT_other _ _ _ _ (by omega),
        GET_PUT_other _ _ _ _ (by omega)]
      exact h0.1
    · intro hyfr
      have := hs.free_facts hy hyfr
      rw [GET_PUT_other _ _ _ _ (by omega), GET_PUT_other _ _ _ _ (by omega),
        GET_PUT_other _ _ _ _ (by omega)]
      exact h0.2 hyfr
  have hh4 : GET s4.mem (f.bp - 4) = 11 := by
    rw [hm4, GET_PUT_other _ _ _ _ (by omega), GET_PUT_other _ _ _ _ (by omega),
      GET_PUT_same _ _ _ (by rw [hXw]; omega), hXw]
  have hr4 : GET s4.mem (f.bp + 4) = f.sz - 8 + 2 := by
    rw [hm4, GET_PUT_other _ _ _ _ (by omega), GET_PUT_same _ _ _ hTlt, hTw]
  have hU4 : Unchanged s.mem s4.mem (MayChange s.mem_heap s.mem_brk bl 0) := by
    rw [hm4]
    refine Unchanged_PUT (Unchanged_PUT (Unchanged_PUT hU1 _ _ ?_) _ _ ?_) _ _ ?_
    · exact fun a h1 h2 => hdr_may hfm (by omega) a h1 h2
    · exact fun a h1 h2 => in_may hfm (Or.inl hff) _ (by omega) (by omega) a h1 h2
    · exact fun a h1 h2 => in_may hfm (Or.inl hff) _ (by omega) (by omega) a h1 h2
  -- the remainder goes into its class list
  obtain ⟨x, hx⟩ : ∃ x, f.bp + 8 = s.mem_heap + 56 + x := ⟨f.bp + 8 - (s.mem_heap + 56), by omega⟩
  have hxe : f.bp + 8 - (s.mem_heap + 56) = x := by omega
  have hxn : ∀ j, x ∉ L1 j := by
    intro j hj
    obtain ⟨b, hb, h1, h2, h3⟩ := hNb j x hj
    have := hs.free_facts hb h1
    rcases hs.sep hb hfm h3 with e | e <;> omega
  have hal := hg.al
  have hb1 := hg.brk_le
  have hb2 := hg.max_le
  have hsz4 : GET_SIZE s4.mem (HDRP (s4.mem_heap + 56 + x)) = f.sz - 8 := by
    rw [hc4.2.2.1, ← hx]
    unfold GET_SIZE HDRP WSIZE
    rw [ea, hr4]
    have := word_size (f.sz - 8) 2 0 (by omega) (Or.inr rfl) (Or.inl rfl) (by omega)
    simpa using this
  have hlen : (L1 (class_index (f.sz - 8))).length ≤ fuel s4 := by
    have := hmid1.len (class_index (f.sz - 8))
    unfold fuel at *
    rw [hc4.2.2.1, hc4.2.2.2.1]
    rw [hc1.2.2.1, hc1.2.2.2.1] at this
    omega
  have hwf1 : NodesWF L1 := hmid1.wf
  obtain ⟨s', P, S, hadd, hPS, hL', hE'⟩ := add_spec s4 L1 (class_index (f.sz - 8)) x
    (by rw [hc4.2.1, hc4.2.2.1]; exact hg.ch) (by rw [hc4.1, hc4.2.2.1]; exact hg.hl)
    (by rw [hc4.2.2.1]; exact hl4) hwf1 (class_index_lt _) hxn (by omega) (by omega) (by omega)
    (by rw [hsz4]) hlen
  rw [hc4.2.2.1, ← hx] at hadd
  rw [hc4.2.2.1] at hL' hE'
  have hc' := add_consts _ _ _ hadd
  have hcs := SameConsts_trans hc4 hc'
  have hNt : ∀ y, (y ∈ L1 (class_index (f.sz - 8)) ∨ y = x) → ∃ b ∈ bl, b.al = false ∧
      b.bp ≤ s.mem_heap + 56 + y ∧ s.mem_heap + 56 + y + 16 ≤ b.bp + b.sz := by
    intro y hy
    rcases hy with hy | hy
    · obtain ⟨b, hb, h1, h2, _⟩ := hNb _ y hy
      have := hs.free_facts hb h1
      exact ⟨b, hb, h1, by omega, by omega⟩
    · exact ⟨f, hfm, hff, by omega, by omega⟩
  refine ⟨s', L1, by rw [hplace, hadd], ?_, hcs, ?_⟩
  · refine ⟨Geo_of_consts hcs hg, by rw [hcs.2.2.1, hcs.2.2.2.1]; exact hs, hfm, hff, h24,
      ?_, ?_, ?_, ⟨P, S, hPS, ?_⟩, by rw [hcs.2.2.1]; exact hnodes1, hrep.noadj⟩
    · intro y hy hyf
      have h0 := hold4 y hy hyf
      constructor
      · rw [GET_frame _ _ _ _ hE' (fun w hw => (touched_sep_in hs hNt hy hw).1)]
        exact h0.1
      · intro hyfr
        have := hs.free_facts hy hyfr
        rw [GET_frame _ _ _ _ hE' (fun w hw => (touched_sep_in hs hNt hy hw).2 (by omega))]
        exact h0.2 hyfr
    · rw [GET_frame _ _ _ _ hE' (fun w hw => (touched_sep_in hs hNt hfm hw).1)]
      exact hh4
    · rw [GET_frame _ _ _ _ hE' ?_]
      · exact hr4
      · intro w hw
        rcases hw with ⟨i, hi, rfl⟩ | ⟨y, hy, hw⟩
        · right; omega
        · rcases hy with hy | hy
          · obtain ⟨b, hb, h1, h2, h3⟩ := hNb _ y hy
            have := hs.free_facts hb h1
            rcases hs.sep hb hfm h3 with e | e <;> omega
          · omega
    · rw [hcs.2.2.1, hxe]
      exact hL'
  · refine Unchanged_trans hU4 (Unchanged_of_EqOutside hE' ?_)
    apply touched_may
    intro y hy
    obtain ⟨b, hb, h1, h2, h3⟩ := hNt y hy
    exact ⟨b, hb, Or.inl h1, h2, by omega⟩

/-- `place` in a free block that has fewer than 16 bytes more than asked for:
the whole block becomes allocated. -/
theorem place_whole {s : State} {bl : List Blk} {L : Nat → List Nat} (hrep : Rep s bl L)
    {b : Blk} (hb : b ∈ bl) (hf : b.al = false) (asize : Nat) (hle : asize ≤ b.sz)
    (hlt : b.sz < asize + 16) :
    ∃ s' bl' L', place s b.bp asize = some s' ∧ Rep s' bl' L' ∧ SameConsts s s' ∧
      InsAt (b.bp, b.sz) (allocs bl) (allocs bl') ∧
      Unchanged s.mem s'.mem (MayChange s.mem_heap s.mem_brk bl 0) := by
  have hbf := hrep.shape.free_facts hb hf
  obtain ⟨s', A, c, B, L', hpl, hbl, hca, hrep', hU⟩ := place_nosplit s bl L b asize hrep hb hf
    hle hlt
  refine ⟨s', _, L', hpl, hrep', place_consts _ _ _ _ hpl, ?_, hU⟩
  refine ⟨allocs A, allocs (c :: B), ?_, ?_⟩
  · rw [hbl, allocs_append, allocs_cons_free b _ hf]
  · rw [allocs_append, allocs_cons_alloc _ _ rfl (by show b.sz ≠ 0; omega)]
    rw [allocs_cons_congr c ⟨c.bp, c.sz, true, true⟩ B rfl rfl hca.symm]

/-- `malloc` with a request size whose adjustment wrapped around to 0 or 8. -/
theorem malloc_small {s : State} {bl : List Blk} {L : Nat → List Nat} (hrep : Rep s bl L)
    (n : Nat) (h0 : n ≠ 0) (ha : adjust n = 0 ∨ adjust n = 8) :
    ∃ p s', malloc s n = some (p, s') ∧
      ((p = 0 ∧ s' = s ∧ (∀ b ∈ bl, b.al = false → b.sz < adjust n) ∧
          s.mem_max_addr < s.mem_brk + max (adjust n) CHUNKSIZE) ∨
        (p ≠ 0 ∧ (MallocOk s bl (adjust n) p s' ∨ MallocFree s bl p s' ∨
          MallocTiny s bl p s'))) := by
  have hg := hrep.geo
  unfold malloc
  rw [ensure_init_id hg]
  simp only []
  rw [if_neg h0, if_neg (rep_class_head hrep)]
  generalize adjust n = asize at *
  have ha8 : asize % 8 = 0 := by rcases ha with h | h <;> omega
  rcases find_fit_spec hrep asize with ⟨hfit, hno⟩ | ⟨b, hb, hf, hle, hfit⟩
  · rw [hfit]
    simp only []
    rw [if_neg (by simp)]
    obtain ⟨he8, he16, hea, hec⟩ := extendsize_facts asize ha8
    by_cases hr : s.mem_brk + max asize CHUNKSIZE ≤ s.mem_max_addr
    · obtain ⟨p, s1, bl1, L1, f, hext, hrep1, hc1, hc2, hc3, hc4, hc5, hal1, hfm, hff, hfp,
        hfz, hfe, hor, hU1, hMC⟩ := extend_spec 0 hrep (max asize CHUNKSIZE) he8 he16 hr
      have hff' := hrep1.shape.free_facts hfm hff
      have hp0 : p ≠ 0 := by omega
      have hcov : f ∈ bl ∨ p = s.mem_brk := by
        rcases hor with h | ⟨a, ha', h1, h2, h3⟩
        · exact Or.inr h
        · have := hno a ha' h1
          have := hrep.shape.free_facts ha' h1
          omega
      rw [hext]
      simp only []
      rw [if_neg hp0]
      rcases ha with ha | ha
      · subst ha
        obtain ⟨s', L', hpl, hrep', hc', hU2⟩ := place_zero hrep1 hfm hff
        rw [hfp] at hpl
        rw [hpl]
        refine ⟨p, s', rfl, Or.inr ⟨hp0, Or.inr (Or.inl ⟨bl1, L', f, hrep', ?_, ?_, hal1, hfm,
          hff, hfp, ?_, hcov⟩)⟩⟩
        · rw [hc'.2.2.1, hc3]
        · rw [hc'.2.2.2.1, hc4]; omega
        · rw [hc3, hc4] at hU2
          exact Unchanged_trans hU1 (Unchanged_mono hU2 hMC)
      · subst ha
        obtain ⟨s', L', hpl, hsp, hc', hU2⟩ := place_eight hrep1 hfm hff
          (by unfold CHUNKSIZE at *; omega)
        rw [hfp] at hpl
        rw [hpl]
        refine ⟨p, s', rfl, Or.inr ⟨hp0, Or.inr (Or.inr ⟨bl1, L', f, hsp, ?_, ?_, hal1, hfp, ?_,
          hcov⟩)⟩⟩
        · rw [hc'.2.2.1, hc3]
        · rw [hc'.2.2.2.1, hc4]; omega
        · rw [hc3, hc4] at hU2
          exact Unchanged_trans hU1 (Unchanged_mono hU2 hMC)
    · rw [extend_refused s (max asize CHUNKSIZE) he8
        (by unfold CHUNKSIZE SIZE_MOD at *; omega) (by omega)]
      simp only [if_true]
      exact ⟨0, s, rfl, Or.inl ⟨rfl, rfl, hno, by omega⟩⟩
  · have hbf := hrep.shape.free_facts hb hf
    have hp0 : b.bp ≠ 0 := by omega
    rw [hfit]
    simp only []
    rw [if_pos hp0]
    rcases ha with ha | ha
    · subst ha
      obtain ⟨s', L', hpl, hrep', hc', hU2⟩ := place_zero hrep hb hf
      rw [hpl]
      exact ⟨b.bp, s', rfl, Or.inr ⟨hp0, Or.inr (Or.inl ⟨bl, L', b, hrep', hc'.2.2.1,
        by rw [hc'.2.2.2.1], rfl, hb, hf, rfl, hU2, Or.inl hb⟩)⟩⟩
    · subst ha
      by_cases h24 : 24 ≤ b.sz
      · obtain ⟨s', L', hpl, hsp, hc', hU2⟩ := place_eight hrep hb hf h24
        rw [hpl]
        exact ⟨b.bp, s', rfl, Or.inr ⟨hp0, Or.inr (Or.inr ⟨bl, L', b, hsp, hc'.2.2.1,
          by rw [hc'.2.2.2.1], rfl, rfl, hU2, Or.inl hb⟩)⟩⟩
      · obtain ⟨s', bl', L', hpl, hrep', hc', hins, hU2⟩ := place_whole hrep hb hf 8 hle
          (by omega)
        rw [hpl]
        refine ⟨b.bp, s', rfl, Or.inr ⟨hp0, Or.inl ⟨bl', L', b.sz, hrep', hc'.1, hc'.2.1,
          hc'.2.2.1, hc'.2.2.2.2, by rw [hc'.2.2.2.1], hins, hle, by omega, hU2,
          Or.inl ⟨b, hb, hf, rfl, Or.inl (le_refl _)⟩, Or.inl ⟨b, hb, hf, hle⟩, ?_⟩⟩⟩
        intro h _
        have := h b hb hf
        omega

/-- `malloc` returns for every request size. -/
theorem malloc_total {s : State} {bl : List Blk} {L : Nat → List Nat} (hrep : Rep s bl L)
    (n : Nat) (h0 : n ≠ 0) :
    ∃ p s', malloc s n = some (p, s') ∧
      ((p = 0 ∧ s' = s ∧ (∀ b ∈ bl, b.al = false → b.sz < adjust n) ∧
          s.mem_max_addr < s.mem_brk + max (adjust n) CHUNKSIZE) ∨
        (p ≠ 0 ∧ (MallocOk s bl (adjust n) p s' ∨ MallocFree s bl p s' ∨
          MallocTiny s bl p s'))) := by
  obtain ⟨h8, hlt⟩ := adjust_mod8 n
  by_cases h16 : 16 ≤ adjust n
  · obtain ⟨p, s', h1, h2⟩ := malloc_core hrep n h0 h8 h16 hlt
    refine ⟨p, s', h1, ?_⟩
    rcases h2 with h | ⟨h, h'⟩
    · exact Or.inl h
    · exact Or.inr ⟨h, Or.inl h'⟩
  · exact malloc_small hrep n h0 (by omega)

theorem malloc_zero {s : State} (hg : Geo s) : malloc s 0 = some (0, s) := by
  unfold malloc
  rw [ensure_init_id hg]
  simp

/-- C8: in a reachable state, for a currently allocated pointer `p` and `n > 0`
that take the copy path (`oldsize + freesize < asize`): if no free block has the
size that the inner `malloc` looks for and `mem_sbrk` refuses the extension it
asks for, then `realloc(p, n)` returns `NULL` and leaves the state, the whole
memory included, as it was; the block at `p` is still allocated. -/
theorem realloc_refused (s : State) (p n : Nat) (hr : Reachable s)
    (hp : is_allocated s p = true) (h0 : 0 < n)
    (hcopy : GET_SIZE s.mem (HDRP p) + freesize s p < adjust n)
    (hnofit : fits s (adjust (adjust n)) = false)
    (href : (mem_sbrk s (max (adjust (adjust n)) CHUNKSIZE)).1 = MINUS_ONE) :
    realloc s p n = some (0, s) ∧ is_allocated s p = true := by
  obtain ⟨bl, L, hrep⟩ := reachable_inv hr
  obtain ⟨b, hb, hba, hb16, hbp, hne⟩ := allocated_block hrep hp
  have hp0 : p ≠ 0 := by have := (hrep.shape.ok b hb).2.2.1; omega
  refine ⟨?_, hp⟩
  rw [realloc_copy_eq s p n (adjust n) (GET_SIZE s.mem (HDRP p)) (by omega) hp0 rfl rfl hcopy,
    malloc_null hrep (adjust n) (by omega) (fits_false hrep _ hnofit)
      ((sbrk_refuses hrep.geo _).1 href)]
  rfl

theorem realloc_refused_witness :
    realloc small2 4160 3000 = some (0, small2) ∧ is_allocated small2 4160 = true :=
  realloc_refused small2 4160 3000 small2_reach small2_alloc (by decide) (by decide!)
    (by decide!) (by decide!)

/-- C9: in a reachable state, for a currently allocated pointer `p`, `free(p)`
returns, and `realloc(p, 0)` returns `NULL` and leaves exactly the state that
`free(p)` leaves. -/
theorem realloc_zero_is_free (s : State) (p : Nat) (hr : Reachable s)
    (hp : is_allocated s p = true) :
    ∃ s', free s p = some s' ∧ realloc s p 0 = some (0, s') := by
  obtain ⟨bl, L, hrep⟩ := reachable_inv hr
  obtain ⟨b, hb, hba, hb16, hbp, hne⟩ := allocated_block hrep hp
  obtain ⟨s', hfree, _⟩ := free_spec hrep hb hba (by omega) hne
  rw [hbp] at hfree
  exact ⟨s', hfree, by rw [realloc_zero, hfree]; rfl⟩

theorem realloc_zero_is_free_witness :
    ∃ s', free big2 4160 = some s' ∧ realloc big2 4160 0 = some (0, s') :=
  realloc_zero_is_free big2 4160 big2_reach big2_alloc

/-- C10: in a reachable state, `realloc(NULL, n)` is `malloc(n)` for every `n`:
the same pointer and the same state; and `malloc(n)` returns. -/
theorem realloc_null_is_malloc (s : State) (n : Nat) (hr : Reachable s) :
    realloc s 0 n = malloc s n ∧ ∃ p s', malloc s n = some (p, s') := by
  obtain ⟨bl, L, hrep⟩ := reachable_inv hr
  by_cases h0 : n = 0
  · subst h0
    rw [realloc_zero, free_null, malloc_zero hrep.geo]
    exact ⟨rfl, 0, s, rfl⟩
  · refine ⟨realloc_null s n h0, ?_⟩
    obtain ⟨p, s', h, _⟩ := malloc_total hrep n h0
    exact ⟨p, s', h⟩

theorem realloc_null_is_malloc_witness :
    realloc big1 0 24 = malloc big1 24 ∧ ∃ p s', malloc big1 24 = some (p, s') :=
  realloc_null_is_malloc big1 24 big1_reach

/-! ## A run that leaves a class list out of order -/

theorem ord1_malloc : malloc big1 40 = some (4160, ord1) := rfl

theorem ord2_malloc : malloc ord1 24 = some (4208, ord2) := rfl

theorem ord3_malloc : malloc ord2 24 = some (4240, ord3) := rfl

theorem ord4_malloc : malloc ord3 24 = some (4272, ord4) := rfl

theorem ord4_alloc : is_allocated ord4 4160 = true := by decide!

theorem ord5_free : free ord4 4160 = some ord5 := rfl

theorem ord5_alloc : is_allocated ord5 4240 = true := by decide!

theorem ord6_free : free ord5 4240 = some ord6 := rfl

theorem ord4_reach : Reachable ord4 :=
  Reachable.malloc ord3 24 4272 ord4
    (Reachable.malloc ord2 24 4240 ord3
      (Reachable.malloc ord1 24 4208 ord2
        (Reachable.malloc big1 40 4160 ord1 big1_reach (by decide) ord1_malloc)
        (by decide) ord2_malloc)
      (by decide) ord3_malloc)
    (by decide) ord4_malloc

theorem ord5_reach : Reachable ord5 :=
  Reachable.free ord4 4160 ord5 ord4_reach (Or.inr ord4_alloc) ord5_free

theorem ord6_reach : Reachable ord6 :=
  Reachable.free ord5 4240 ord6 ord5_reach (Or.inr ord5_alloc) ord6_free

theorem ord6_list : class_list ord6 1 = some [4160, 4240] := by decide!

theorem ord6_fit : find_fit ord6 32 = some 4160 := by decide!

theorem ord6_sizes : GET_SIZE ord6.mem (HDRP 4160) = 48 ∧ GET_SIZE ord6.mem (HDRP 4240) = 32 := by
  decide!

/-! ## `calloc` -/

/-- What `calloc(k, z)` does in terms of `malloc` of the product in `size_t`. -/
theorem calloc_of_malloc (s : State) (k z q : Nat) (s1 : State)
    (hm : malloc s ((k * z) % SIZE_MOD) = some (q, s1)) :
    (q ≠ 0 → calloc s k z =
      some (q, { s1 with mem := memset s1.mem q 0 ((k * z) % SIZE_MOD) })) ∧
    ((k * z) % SIZE_MOD = 0 → calloc s k z = some (q, s1)) ∧
    (q = 0 → (k * z) % SIZE_MOD ≠ 0 → calloc s k z = none) := by
  unfold calloc
  simp only []
  rw [hm]
  simp only []
  refine ⟨fun hq => ?_, fun hb => ?_, fun hq hb => ?_⟩
  · rw [if_neg (fun h => hq h.1)]
  · rw [if_neg (fun h => h.2 hb), hb, memset_zero_len]
  · rw [if_pos ⟨hq, hb⟩]

/-- C11: in a reachable state, for a count `k` and an element size `z` with
`0 < k * z < 2^31`, `malloc(k * z)` returns some `q`; if `q` is not `NULL` then
`calloc(k, z)` returns; and whenever `calloc(k, z)` returns `p`, then `p` is
the pointer `q` that `malloc(k * z)` returns from the same state, `p` is not
`NULL`, and every byte `p[0]`, ..., `p[k * z - 1]` is zero after the call. -/
theorem calloc_zeroes (s : State) (k z : Nat) (hr : Reachable s) (h0 : 0 < k * z)
    (hn : k * z < 2147483648) :
    ∃ q s1, malloc s (k * z) = some (q, s1) ∧
      (q ≠ 0 → ∃ s', calloc s k z = some (q, s')) ∧
      ∀ p s', calloc s k z = some (p, s') →
        p = q ∧ p ≠ 0 ∧ ∀ i, i < k * z → s'.mem (p + i) = 0 := by
  obtain ⟨bl, L, hrep⟩ := reachable_inv hr
  obtain ⟨q, s1, hm, _⟩ := malloc_total hrep (k * z) (by omega)
  have hmod : (k * z) % SIZE_MOD = k * z := Nat.mod_eq_of_lt (by unfold SIZE_MOD; omega)
  have hm' : malloc s ((k * z) % SIZE_MOD) = some (q, s1) := by rw [hmod]; exact hm
  obtain ⟨h1, _, h3⟩ := calloc_of_malloc s k z q s1 hm'
  refine ⟨q, s1, hm, fun hq => ⟨_, h1 hq⟩, fun p s' hc => ?_⟩
  by_cases hq : q = 0
  · rw [h3 hq (by rw [hmod]; omega)] at hc
    exact absurd hc (by simp)
  · rw [h1 hq] at hc
    simp only [Option.some.injEq, Prod.mk.injEq] at hc
    obtain ⟨hc1, hc2⟩ := hc
    refine ⟨hc1.symm, by rw [← hc1]; exact hq, fun i hi => ?_⟩
    rw [← hc2, ← hc1, hmod]
    show memset s1.mem q 0 (k * z) (q + i) = 0
    unfold memset
    rw [if_pos ⟨by omega, by omega⟩]
    rfl

theorem calloc_zeroes_witness :
    ∃ q s1, malloc big1 (3 * 8) = some (q, s1) ∧
      (q ≠ 0 → ∃ s', calloc big1 3 8 = some (q, s')) ∧
      ∀ p s', calloc big1 3 8 = some (p, s') →
        p = q ∧ p ≠ 0 ∧ ∀ i, i < 3 * 8 → s'.mem (p + i) = 0 :=
  calloc_zeroes big1 3 8 big1_reach (by decide) (by decide)

theorem calloc_overflow_counterexample :
    Reachable big1 ∧ 9223372036854775820 < 18446744073709551616 ∧
      18446744073709551615 < 9223372036854775820 * 2 ∧
      (calloc big1 9223372036854775820 2).map Prod.fst = some 4160 :=
  ⟨big1_reach, by decide, by decide, by decide!⟩

/-- C12 (amended): `calloc` does not detect that the product wraps.  In a
reachable state, for 64-bit `k` and `z` whose product is larger than
`2^64 - 1`, `calloc(k, z)` works with the wrapped product `k * z mod 2^64`: it
returns `NULL`, leaving the state as it is, if the wrapped product is 0;
otherwise `malloc` of the wrapped product returns some `q`, and `calloc`
returns `q` if `q` is not `NULL`. -/
theorem calloc_overflow (s : State) (k z : Nat) (hr : Reachable s)
    (hk : k < 18446744073709551616) (hz : z < 18446744073709551616)
    (hov : 18446744073709551615 < k * z) :
    ((k * z) % SIZE_MOD = 0 → calloc s k z = some (0, s)) ∧
    ∃ q s1, malloc s ((k * z) % SIZE_MOD) = some (q, s1) ∧
      (q ≠ 0 → ∃ s', calloc s k z = some (q, s')) := by
  obtain ⟨bl, L, hrep⟩ := reachable_inv hr
  have hmz := malloc_zero hrep.geo
  have htot : ∃ q s1, malloc s ((k * z) % SIZE_MOD) = some (q, s1) := by
    by_cases hb : (k * z) % SIZE_MOD = 0
    · rw [hb]; exact ⟨0, s, hmz⟩
    · obtain ⟨q, s1, hm, _⟩ := malloc_total hrep _ hb
      exact ⟨q, s1, hm⟩
  obtain ⟨q, s1, hm⟩ := htot
  obtain ⟨h1, h2, h3⟩ := calloc_of_malloc s k z q s1 hm
  refine ⟨fun hb => ?_, q, s1, hm, fun hq => ⟨_, h1 hq⟩⟩
  rw [hb] at hm
  rw [hmz] at hm
  simp only [Option.some.injEq, Prod.mk.injEq] at hm
  rw [h2 hb, ← hm.1, ← hm.2]

theorem calloc_overflow_witness :
    ((9223372036854775808 * 2) % SIZE_MOD = 0 →
      calloc big1 9223372036854775808 2 = some (0, big1)) ∧
    ∃ q s1, malloc big1 ((9223372036854775808 * 2) % SIZE_MOD) = some (q, s1) ∧
      (q ≠ 0 → ∃ s', calloc big1 9223372036854775808 2 = some (q, s')) :=
  calloc_overflow big1 9223372036854775808 2 big1_reach (by decide) (by decide) (by decide)

/-! ## The block list behind the heap walk -/

/-- The epilogue header is at the break. -/
theorem Shape.zero_bp {lo brk : Nat} {bl : List Blk} (h : Shape lo brk bl) {b : Blk}
    (hb : b ∈ bl) (hz : b.sz = 0) : b.bp = brk := by
  obtain ⟨body, hbl, _⟩ := h.zero_last hb hz
  have hc := h.contig
  rw [hbl, Contig_append] at hc
  obtain ⟨q, qa, _, h1, _, h2, _⟩ := hc
  omega

/-- A block that the walk reads at its own address. -/
theorem blk_at_of {s : State} {bl : List Blk} {L : Nat → List Nat} (hrep : Rep s bl L)
    {b : Blk} (hb : b ∈ bl) : blk_at s.mem b.bp = b := by
  obtain ⟨h1, h2, h3⟩ := hrep.read hb
  unfold blk_at
  rw [h1, h2, h3]
  cases b with
  | mk bp sz al pa => cases al <;> cases pa <;> rfl

/-- The heap walk visits the blocks of the block list; the block that it would
read at the break is the epilogue header, the last block of the list. -/
theorem walk_epilogue {s : State} {bl : List Blk} {L : Nat → List Nat} (hrep : Rep s bl L) :
    ∃ body, bl = body ++ [blk_at s.mem s.mem_brk] ∧ (blk_at s.mem s.mem_brk).sz = 0 ∧
      (∀ y ∈ body, y.sz ≠ 0) ∧ heap_blocks s = some body := by
  obtain ⟨body, e, hbl, hez, hbody, hwalk⟩ := heap_blocks_spec hrep
  have hem : e ∈ bl := by rw [hbl]; simp
  have he : blk_at s.mem s.mem_brk = e := by
    rw [← hrep.shape.zero_bp hem hez]
    exact blk_at_of hrep hem
  rw [he]
  exact ⟨body, hbl, hez, hbody, hwalk⟩

/-- Of two blocks that follow each other, one is allocated. -/
theorem no_adj_pair {s : State} {bl : List Blk} {L : Nat → List Nat} (hrep : Rep s bl L)
    {A B : List Blk} {a b : Blk} (hbl : bl = A ++ a :: b :: B) : a.al = true ∨ b.al = true := by
  have hc := hrep.shape.contig
  rw [hbl] at hc
  have hpa := (Contig_mid hc).2
  cases hb : b.al with
  | true => exact Or.inr rfl
  | false =>
    have := hrep.noadj b (by rw [hbl]; simp) (fun h => h) hb
    rw [this] at hpa
    exact Or.inl hpa.symm

/-- A free block reaches over every range that touches it and that no
allocated block meets. -/
theorem free_span {s : State} {bl : List Blk} {L : Nat → List Nat} (hrep : Rep s bl L)
    {f : Blk} (hf : f ∈ bl) (hfa : f.al = false) (u v : Nat) (hv : v ≤ s.mem_brk)
    (hno : ∀ h ∈ bl, h.al = true → h.sz ≠ 0 → h.bp + h.sz ≤ u ∨ v ≤ h.bp)
    (h1 : u ≤ f.bp + f.sz) (h2 : f.bp ≤ v) : f.bp ≤ u ∧ v ≤ f.bp + f.sz := by
  have hs := hrep.shape
  have hff := hs.free_facts hf hfa
  constructor
  · by_contra hlt
    obtain ⟨A, h, B, hbl⟩ := hs.prev hf (by omega)
    have hc := hs.contig
    rw [hbl] at hc
    obtain ⟨hc1, hc2⟩ := Contig_mid hc
    have hhm : h ∈ bl := by rw [hbl]; simp
    have hpa := hrep.noadj f hf (fun x => x) hfa
    have hha : h.al = true := by rw [← hc2]; exact hpa
    have hhz : h.sz ≠ 0 := by
      intro hz
      have : h = f := hs.uniq hhm hf (by omega)
      rw [this, hfa] at hha
      exact absurd hha (by simp)
    rcases hno h hhm hha hhz with e | e <;> omega
  · by_contra hlt
    obtain ⟨A, g, B, hbl⟩ := hs.next hf (by omega)
    have hc := hs.contig
    rw [hbl] at hc
    obtain ⟨hc1, hc2⟩ := Contig_mid hc
    have hgm : g ∈ bl := by rw [hbl]; simp
    have hga : g.al = true := by
      rcases no_adj_pair hrep hbl with e | e
      · rw [hfa] at e; exact absurd e (by simp)
      · exact e
    by_cases hgz : g.sz = 0
    · have := hs.zero_bp hgm hgz
      omega
    · rcases hno g hgm hga hgz with e | e <;> omega

/-- In a state reached by calls whose size adjustment does not wrap
(`Reachable`), of two blocks that follow each other in the
heap walk one is allocated.  For an allocated pointer `p`, `free(p)` returns,
the same holds in the state it leaves, and a single free block `f` of the heap
walk of that state contains the freed block and every block that was free and
next to it (before or behind it) in the heap walk before the call, and meets
no other block that was allocated before the call. -/
theorem no_adjacent_free (s : State) (hr : Reachable s) :
    ∃ bs, heap_blocks s = some bs ∧
      (∀ A a b B, bs = A ++ a :: b :: B → a.al = true ∨ b.al = true) ∧
      ∀ p, is_allocated s p = true →
        ∃ s' bs', free s p = some s' ∧ heap_blocks s' = some bs' ∧
          (∀ A a b B, bs' = A ++ a :: b :: B → a.al = true ∨ b.al = true) ∧
          ∃ f ∈ bs', f.al = false ∧ f.bp ≤ p ∧
            p + GET_SIZE s.mem (HDRP p) ≤ f.bp + f.sz ∧
            (∀ c ∈ bs, c.al = false →
              c.bp + c.sz = p ∨ c.bp = p + GET_SIZE s.mem (HDRP p) →
              f.bp ≤ c.bp ∧ c.bp + c.sz ≤ f.bp + f.sz) ∧
            ∀ a ∈ bs, a.al = true → a.bp ≠ p →
              a.bp + a.sz ≤ f.bp ∨ f.bp + f.sz ≤ a.bp := by
  obtain ⟨bl, L, hrep⟩ := reachable_inv hr
  obtain ⟨body, e, hbl, hez, hbody, hwalk⟩ := heap_blocks_spec hrep
  have hsub : ∀ y ∈ body, y ∈ bl := fun y hy => by rw [hbl]; simp [hy]
  refine ⟨body, hwalk, fun A a b B h => ?_, fun p hp => ?_⟩
  · exact no_adj_pair hrep (show bl = A ++ a :: b :: (B ++ [e]) by rw [hbl, h]; simp)
  obtain ⟨b, hb, hba, hb16, rfl, hbne⟩ := allocated_block hrep hp
  obtain ⟨s', hfree, bl', L', f, hrep', hsc, hins, hf, hfa, hf1, hf2, _⟩ :=
    free_spec hrep hb hba (by omega) hbne
  obtain ⟨body', e', hbl', hez', hbody', hwalk'⟩ := heap_blocks_spec hrep'
  have hsz : GET_SIZE s.mem (HDRP b.bp) = b.sz := (hrep.read hb).1
  have hff := hrep'.shape.free_facts hf hfa
  have hfb : f ∈ body' := by
    rw [hbl'] at hf
    rcases List.mem_append.1 hf with h | h
    · exact h
    · have : f = e' := by simpa using h
      rw [this] at hff
      omega
  rw [hsz]
  refine ⟨s', body', hfree, hwalk', fun A a b B h => ?_, f, hfb, hfa, hf1, hf2,
    fun c hc hca hadj => ?_, fun a ha haa hne => ?_⟩
  · exact no_adj_pair hrep' (show bl' = A ++ a :: b :: (B ++ [e']) by rw [hbl', h]; simp)
  · have hcm := hsub c hc
    have hcf := hrep.shape.free_facts hcm hca
    apply free_span hrep' hf hfa c.bp (c.bp + c.sz)
    · rw [hsc.2.2.2.1]; exact hcf.2.2.2.2
    · intro h hh hha hhz
      have h1 : (h.bp, h.sz) ∈ allocs bl := (hins.mem _).2 (Or.inr (mem_allocs.2 ⟨h, hh, hha, hhz, rfl, rfl⟩))
      obtain ⟨x, hx, hxa, hxz, hxb, hxs⟩ := mem_allocs.1 h1
      have hne : x ≠ c := fun e => by rw [e, hca] at hxa; exact absurd hxa (by simp)
      rcases hrep.shape.sep hx hcm hne with e | e <;> omega
    · rcases hadj with e | e <;> omega
    · rcases hadj with e | e <;> omega
  · have ham := hsub a ha
    have h1 : (a.bp, a.sz) ∈ allocs bl := mem_allocs.2 ⟨a, ham, haa, hbody a ha, rfl, rfl⟩
    rcases (hins.mem _).1 h1 with e | e
    · simp only [Prod.mk.injEq] at e
      exact absurd e.1 hne
    · obtain ⟨x, hx, hxa, hxz, hxb, hxs⟩ := mem_allocs.1 e
      have hne' : x ≠ f := fun e => by rw [e, hfa] at hxa; exact absurd hxa (by simp)
      rcases hrep'.shape.sep hx hf hne' with e | e <;> omega

theorem no_adjacent_free_witness :
    ∃ bs, heap_blocks ord5 = some bs ∧
      (∀ A a b B, bs = A ++ a :: b :: B → a.al = true ∨ b.al = true) ∧
      ∀ p, is_allocated ord5 p = true →
        ∃ s' bs', free ord5 p = some s' ∧ heap_blocks s' = some bs' ∧
          (∀ A a b B, bs' = A ++ a :: b :: B → a.al = true ∨ b.al = true) ∧
          ∃ f ∈ bs', f.al = false ∧ f.bp ≤ p ∧
            p + GET_SIZE ord5.mem (HDRP p) ≤ f.bp + f.sz ∧
            (∀ c ∈ bs, c.al = false →
              c.bp + c.sz = p ∨ c.bp = p + GET_SIZE ord5.mem (HDRP p) →
              f.bp ≤ c.bp ∧ c.bp + c.sz ≤ f.bp + f.sz) ∧
            ∀ a ∈ bs, a.al = true → a.bp ≠ p →
              a.bp + a.sz ≤ f.bp ∨ f.bp + f.sz ≤ a.bp :=
  no_adjacent_free ord5 ord5_reach

/-! ## Headers and footers along the heap walk -/

/-- The heap walk starts with the prologue block; the blocks behind it have at
least 16 bytes. -/
theorem walk_prologue {s : State} {bl : List Blk} {L : Nat → List Nat} (hrep : Rep s bl L) :
    ∃ pro rest, heap_blocks s = some (pro :: rest) ∧
      bl = pro :: rest ++ [blk_at s.mem s.mem_brk] ∧ pro.bp = s.heap_listp ∧ pro.sz = 8 ∧
      pro.al = true ∧ ∀ b ∈ rest, b.sz % 8 = 0 ∧ 16 ≤ b.sz ∧ s.heap_listp + 8 ≤ b.bp := by
  obtain ⟨body, hbl, hez, hbody, hwalk⟩ := walk_epilogue hrep
  have hs := hrep.shape
  have hc := hs.contig
  cases body with
  | nil =>
    rw [hbl] at hc
    have h1 : (blk_at s.mem s.mem_brk).bp = s.mem_heap + 56 := hc.1
    have := ((hs.ok _ (by rw [hbl]; simp)).2.2.2.2.1 h1).1
    omega
  | cons pro rest =>
    rw [hbl] at hc
    have h1 : pro.bp = s.mem_heap + 56 := hc.1
    have hpm : pro ∈ bl := by rw [hbl]; simp
    have h2 := (hs.ok _ hpm).2.2.2.2.1 h1
    have h3 : Contig (s.mem_heap + 56 + pro.sz) pro.al (rest ++ [blk_at s.mem s.mem_brk])
      s.mem_brk true := hc.2.2
    refine ⟨pro, rest, hwalk, hbl, by rw [hrep.geo.hl]; exact h1, h2.1, h2.2, fun b hb => ?_⟩
    have hb1 := (Contig_bounds _ _ _ _ _ h3 b (by simp [hb])).1
    have hbm : b ∈ bl := by rw [hbl]; simp [hb]
    obtain ⟨_, o2, _, _, _, _, o7⟩ := hs.ok b hbm
    have hbz := hbody b (by simp [hb])
    have := o7 (by omega)
    rw [hrep.geo.hl]
    exact ⟨o2, by omega, by omega⟩

/-- In a state reached by calls whose size adjustment does not wrap
(`Reachable`), for every two blocks `a`, `b` that follow each
other in the heap walk with the epilogue header (the block read at the break)
appended, so for every block `b` behind the prologue, `b` is the block that
`NEXT_BLKP` gives for `a`, and bit 1 (prev_alloc) of the header of `b` is set
if and only if the alloc bit of the header of `a` is set. -/
theorem prev_alloc_bit (s : State) (hr : Reachable s) :
    ∃ pro rest, heap_blocks s = some (pro :: rest) ∧ pro.bp = s.heap_listp ∧
      ∀ A a b B, pro :: rest ++ [blk_at s.mem s.mem_brk] = A ++ a :: b :: B →
        b.bp = NEXT_BLKP s.mem a.bp ∧
        (GET_PREV_ALLOC s.mem (HDRP b.bp) = 2 ↔ GET_ALLOC s.mem (HDRP a.bp) = 1) ∧
        (GET_PREV_ALLOC s.mem (HDRP b.bp) = 0 ↔ GET_ALLOC s.mem (HDRP a.bp) = 0) ∧
        b.pa = a.al := by
  obtain ⟨bl, L, hrep⟩ := reachable_inv hr
  obtain ⟨pro, rest, hwalk, hbl, hp, _⟩ := walk_prologue hrep
  refine ⟨pro, rest, hwalk, hp, fun A a b B h => ?_⟩
  rw [← hbl] at h
  have hc := hrep.shape.contig
  rw [h] at hc
  obtain ⟨h1, h2⟩ := Contig_mid hc
  obtain ⟨ra1, _, ra3⟩ := hrep.read (show a ∈ bl by rw [h]; simp)
  obtain ⟨_, rb2, _⟩ := hrep.read (show b ∈ bl by rw [h]; simp)
  refine ⟨by rw [NEXT_BLKP_eq _ _ _ ra1]; exact h1, ?_, ?_, h2⟩
  · rw [rb2, ra3, h2]; cases a.al <;> simp [flag]
  · rw [rb2, ra3, h2]; cases a.al <;> simp [flag]

theorem prev_alloc_bit_witness :
    ∃ pro rest, heap_blocks ord6 = some (pro :: rest) ∧ pro.bp = ord6.heap_listp ∧
      ∀ A a b B, pro :: rest ++ [blk_at ord6.mem ord6.mem_brk] = A ++ a :: b :: B →
        b.bp = NEXT_BLKP ord6.mem a.bp ∧
        (GET_PREV_ALLOC ord6.mem (HDRP b.bp) = 2 ↔ GET_ALLOC ord6.mem (HDRP a.bp) = 1) ∧
        (GET_PREV_ALLOC ord6.mem (HDRP b.bp) = 0 ↔ GET_ALLOC ord6.mem (HDRP a.bp) = 0) ∧
        b.pa = a.al :=
  prev_alloc_bit ord6 ord6_reach

/-- In a state reached by calls whose size adjustment does not wrap
(`Reachable`), for every free block of the heap walk, the word
in the last 4 bytes of the block (the footer, at `FTRP`) equals the header
word; so the footer gives the same size, prev_alloc bit and alloc bit as the
header. -/
theorem free_footer_is_header (s : State) (hr : Reachable s) :
    ∃ bs, heap_blocks s = some bs ∧
      ∀ b ∈ bs, b.al = false →
        GET_ALLOC s.mem (HDRP b.bp) = 0 ∧
        FTRP s.mem b.bp + 4 = HDRP b.bp + GET_SIZE s.mem (HDRP b.bp) ∧
        HDRP b.bp + 4 ≤ FTRP s.mem b.bp ∧
        GET s.mem (FTRP s.mem b.bp) = GET s.mem (HDRP b.bp) ∧
        GET_SIZE s.mem (FTRP s.mem b.bp) = GET_SIZE s.mem (HDRP b.bp) ∧
        GET_PREV_ALLOC s.mem (FTRP s.mem b.bp) = GET_PREV_ALLOC s.mem (HDRP b.bp) ∧
        GET_ALLOC s.mem (FTRP s.mem b.bp) = GET_ALLOC s.mem (HDRP b.bp) := by
  obtain ⟨bl, L, hrep⟩ := reachable_inv hr
  obtain ⟨body, e, hbl, hez, hbody, hwalk⟩ := heap_blocks_spec hrep
  refine ⟨body, hwalk, fun b hb hf => ?_⟩
  have hbm : b ∈ bl := by rw [hbl]; simp [hb]
  obtain ⟨r1, _, r3⟩ := hrep.read hbm
  obtain ⟨h1, h2⟩ := hrep.hdrs b hbm
  have hff := hrep.shape.free_facts hbm hf
  have hw : GET s.mem (FTRP s.mem b.bp) = GET s.mem (HDRP b.bp) := by
    rw [FTRP_eq _ _ _ r1]
    unfold HDRP WSIZE
    rw [h1, h2 hf]
  refine ⟨by rw [r3, hf]; rfl, ?_, ?_, hw, ?_, ?_, ?_⟩
  · rw [FTRP_eq _ _ _ r1, r1]; unfold HDRP WSIZE; omega
  · rw [FTRP_eq _ _ _ r1]; unfold HDRP WSIZE; omega
  · unfold GET_SIZE; rw [hw]
  · unfold GET_PREV_ALLOC; rw [hw]
  · unfold GET_ALLOC; rw [hw]

theorem free_footer_is_header_witness :
    ∃ bs, heap_blocks ord6 = some bs ∧
      ∀ b ∈ bs, b.al = false →
        GET_ALLOC ord6.mem (HDRP b.bp) = 0 ∧
        FTRP ord6.mem b.bp + 4 = HDRP b.bp + GET_SIZE ord6.mem (HDRP b.bp) ∧
        HDRP b.bp + 4 ≤ FTRP ord6.mem b.bp ∧
        GET ord6.mem (FTRP ord6.mem b.bp) = GET ord6.mem (HDRP b.bp) ∧
        GET_SIZE ord6.mem (FTRP ord6.mem b.bp) = GET_SIZE ord6.mem (HDRP b.bp) ∧
        GET_PREV_ALLOC ord6.mem (FTRP ord6.mem b.bp) = GET_PREV_ALLOC ord6.mem (HDRP b.bp) ∧
        GET_ALLOC ord6.mem (FTRP ord6.mem b.bp) = GET_ALLOC ord6.mem (HDRP b.bp) :=
  free_footer_is_header ord6 ord6_reach

/-- In a state reached by calls whose size adjustment does not wrap
(`Reachable`), the heap walk is the prologue block followed by
blocks whose size, the size stored in their header, is a multiple of 8 and at
least 16; each block behind the prologue starts where advancing from the block
before it by the size stored in that block's header leads, and advancing from
the last block leads to the break, where the header has size 0 and alloc bit 1
(the epilogue header) and occupies the last 4 bytes of the heap. -/
theorem walk_ends_at_epilogue (s : State) (hr : Reachable s) :
    ∃ pro rest, heap_blocks s = some (pro :: rest) ∧ pro.bp = s.heap_listp ∧
      (∀ b ∈ rest, b.sz = GET_SIZE s.mem (HDRP b.bp) ∧ b.sz % 8 = 0 ∧ 16 ≤ b.sz) ∧
      (∀ A a b B, pro :: rest ++ [blk_at s.mem s.mem_brk] = A ++ a :: b :: B →
        b.bp = a.bp + GET_SIZE s.mem (HDRP a.bp) ∧ b.bp = NEXT_BLKP s.mem a.bp) ∧
      GET_SIZE s.mem (HDRP s.mem_brk) = 0 ∧ GET_ALLOC s.mem (HDRP s.mem_brk) = 1 ∧
      HDRP s.mem_brk + 3 = mem_heap_hi s ∧ mem_heap_lo s ≤ HDRP s.mem_brk := by
  obtain ⟨bl, L, hrep⟩ := reachable_inv hr
  obtain ⟨pro, rest, hwalk, hbl, hp, _, _, hrest⟩ := walk_prologue hrep
  have hs := hrep.shape
  have hem : blk_at s.mem s.mem_brk ∈ bl := by rw [hbl]; simp
  obtain ⟨body, _, hez, _, _⟩ := walk_epilogue hrep
  have hea := (hs.ok _ hem).2.2.2.2.2.1 hez
  obtain ⟨re1, _, re3⟩ := hrep.read hem
  have hbp : (blk_at s.mem s.mem_brk).bp = s.mem_brk := rfl
  rw [hbp] at re1 re3
  have hlo := (hs.ok _ hem).2.2.1
  rw [hbp] at hlo
  refine ⟨pro, rest, hwalk, hp, fun b hb => ?_, fun A a b B h => ?_, ?_, ?_, ?_, ?_⟩
  · have hbm : b ∈ bl := by rw [hbl]; simp [hb]
    obtain ⟨h1, h2, _⟩ := hrest b hb
    exact ⟨(hrep.read hbm).1.symm, h1, h2⟩
  · rw [← hbl] at h
    have hc := hs.contig
    rw [h] at hc
    obtain ⟨h1, _⟩ := Contig_mid hc
    have ra1 := (hrep.read (show a ∈ bl by rw [h]; simp)).1
    exact ⟨by rw [ra1]; exact h1, by rw [NEXT_BLKP_eq _ _ _ ra1]; exact h1⟩
  · rw [re1]; exact hez
  · rw [re3, hea]; rfl
  · unfold HDRP WSIZE mem_heap_hi; omega
  · unfold HDRP WSIZE mem_heap_lo; omega

theorem walk_ends_at_epilogue_witness :
    ∃ pro rest, heap_blocks ord6 = some (pro :: rest) ∧ pro.bp = ord6.heap_listp ∧
      (∀ b ∈ rest, b.sz = GET_SIZE ord6.mem (HDRP b.bp) ∧ b.sz % 8 = 0 ∧ 16 ≤ b.sz) ∧
      (∀ A a b B, pro :: rest ++ [blk_at ord6.mem ord6.mem_brk] = A ++ a :: b :: B →
        b.bp = a.bp + GET_SIZE ord6.mem (HDRP a.bp) ∧ b.bp = NEXT_BLKP ord6.mem a.bp) ∧
      GET_SIZE ord6.mem (HDRP ord6.mem_brk) = 0 ∧ GET_ALLOC ord6.mem (HDRP ord6.mem_brk) = 1 ∧
      HDRP ord6.mem_brk + 3 = mem_heap_hi ord6 ∧ mem_heap_lo ord6 ≤ HDRP ord6.mem_brk :=
  walk_ends_at_epilogue ord6 ord6_reach

/-! ## The class lists and the free blocks -/

/-- The nodes of class list `i` are the free blocks of the block list whose
size is of class `i`, each once. -/
theorem class_list_members {s : State} {bl : List Blk} {L : Nat → List Nat} (hrep : Rep s bl L)
    (i : Nat) (hi : i < 12) :
    ∃ l, class_list s i = some l ∧ l.Nodup ∧
      ∀ p, p ∈ l ↔ ∃ b ∈ bl, b.al = false ∧ b.bp = p ∧ class_index b.sz = i := by
  refine ⟨_, class_list_spec hrep i hi, ?_, fun p => ?_⟩
  · exact (hrep.nodes.1 i).map (fun a b h => by simpa using h)
  · rw [List.mem_map]
    constructor
    · rintro ⟨y, hy, rfl⟩
      obtain ⟨b, hb, h1, h2, h3, _⟩ := (hrep.nodes.2 i y).1 hy
      exact ⟨b, hb, h1, by rw [h2, Nat.add_comm], h3⟩
    · rintro ⟨b, hb, h1, rfl, h3⟩
      have hbf := hrep.shape.free_facts hb h1
      refine ⟨b.bp - (s.mem_heap + 56), ?_, by omega⟩
      exact (hrep.nodes.2 _ _).2 ⟨b, hb, h1, by omega, h3, fun h => h⟩

/-- The class lists `0`, ..., `k - 1` share no node. -/
theorem index_upto_nodup {s : State} {bl : List Blk} {L : Nat → List Nat} (hrep : Rep s bl L) :
    ∀ k, k ≤ 12 → ∃ l, index_upto k s = some l ∧ l.Nodup ∧
      ∀ a, a ∈ l ↔ ∃ i, i < k ∧ ∃ y ∈ L i, a = y + (s.mem_heap + 56) := by
  intro k
  induction k with
  | zero =>
    intro _
    exact ⟨[], rfl, List.nodup_nil, fun a => ⟨fun h => absurd h (List.not_mem_nil _),
      fun ⟨i, hi, _⟩ => absurd hi (by omega)⟩⟩
  | succ k ih =>
    intro hk
    obtain ⟨l, hl, hnd, hmem⟩ := ih (by omega)
    refine ⟨l ++ (L k).map (fun y => y + (s.mem_heap + 56)), ?_, ?_, fun a => ?_⟩
    · unfold index_upto
      rw [hl, class_list_spec hrep k (by omega)]
    · refine List.Nodup.append hnd
        ((hrep.nodes.1 k).map (fun a b h => by simpa using h)) ?_
      intro a ha hb
      obtain ⟨i, hik, y, hy, hay⟩ := (hmem a).1 ha
      obtain ⟨y', hy', hay'⟩ := List.mem_map.1 hb
      have hyy : y = y' := by omega
      rw [← hyy] at hy'
      have := hrep.wf.disj i k y hy hy'
      omega
    · rw [List.mem_append, hmem, List.mem_map]
      constructor
      · rintro (⟨i, hi, y, hy, ha⟩ | ⟨y, hy, ha⟩)
        · exact ⟨i, by omega, y, hy, ha⟩
        · exact ⟨k, by omega, y, hy, ha.symm⟩
      · rintro ⟨i, hi, y, hy, ha⟩
        by_cases hik : i < k
        · exact Or.inl ⟨i, hik, y, hy, ha⟩
        · have : i = k := by omega
          subst this
          exact Or.inr ⟨y, hy, ha.symm⟩

/-- The free-list index holds every free block of the heap walk once, so it
has as many nodes as the heap walk has free blocks. -/
theorem free_index_count {s : State} {bl : List Blk} {L : Nat → List Nat} (hrep : Rep s bl L)
    {body : List Blk} {e : Blk} (hbl : bl = body ++ [e]) (hbody : ∀ y ∈ body, y.sz ≠ 0) :
    ∃ idx, free_index s = some idx ∧ idx.Nodup ∧
      (∀ p, p ∈ idx ↔ ∃ b ∈ bl, b.al = false ∧ b.bp = p) ∧
      idx.length = (body.filter (fun b => !b.al)).length := by
  obtain ⟨idx, hidx, hnd, _⟩ := index_upto_nodup hrep 12 (le_refl _)
  obtain ⟨idx', hidx', hmem⟩ := free_index_spec hrep
  have he : idx' = idx := by
    have h := hidx'
    unfold free_index at h
    rw [show CLASS_NUM = 12 from rfl, hidx] at h
    exact (Option.some.inj h).symm
  subst he
  refine ⟨idx', hidx', hnd, hmem, ?_⟩
  have hc := hrep.shape.contig
  rw [hbl] at hc
  have hp : body.Pairwise (fun b c => b.bp + b.sz ≤ c.bp) :=
    (Contig_pairwise _ _ _ _ _ hc).sublist (List.sublist_append_left body [e])
  have hfn : ((body.filter (fun b => !b.al)).map Blk.bp).Nodup := by
    unfold List.Nodup
    rw [List.pairwise_map]
    refine (hp.sublist (List.filter_sublist _)).imp_of_mem ?_
    intro a b ha _ h
    have := hbody a (List.mem_filter.1 ha).1
    omega
  have hperm : idx'.Perm ((body.filter (fun b => !b.al)).map Blk.bp) := by
    rw [List.perm_ext_iff_of_nodup hnd hfn]
    intro a
    rw [hmem, List.mem_map]
    constructor
    · rintro ⟨b, hb, hf, rfl⟩
      have hbz := (hrep.shape.free_facts hb hf).1
      rw [hbl] at hb
      rcases List.mem_append.1 hb with h | h
      · exact ⟨b, List.mem_filter.2 ⟨h, by simp [hf]⟩, rfl⟩
      · have hbe : b = e := by simpa using h
        have hez := (hrep.shape.ok e (by rw [hbl]; simp)).2.2.2.2.2.1
        rw [hbe] at hf
        by_cases hz : e.sz = 0
        · rw [hez hz] at hf; exact absurd hf (by simp)
        · exfalso
          obtain ⟨body', e', hbl', he', _⟩ := hrep.shape.last
          rw [hbl] at hbl'
          have := List.append_inj_right' hbl' rfl
          simp only [List.cons.injEq, and_true] at this
          rw [this] at hz
          exact hz he'
    · rintro ⟨b, hb, rfl⟩
      obtain ⟨h1, h2⟩ := List.mem_filter.1 hb
      exact ⟨b, by rw [hbl]; simp [h1], by simpa using h2, rfl⟩
  rw [hperm.length_eq, List.length_map]

theorem eq_singleton_of_nodup {l : List Nat} {a : Nat} (hnd : l.Nodup)
    (h : ∀ p, p ∈ l ↔ p = a) : l = [a] := by
  have hp : l.Perm [a] :=
    (List.perm_ext_iff_of_nodup hnd (List.nodup_singleton a)).2 (fun p => by rw [h]; simp)
  exact List.perm_singleton.1 hp

/-- The heap after `mm_init` on a fresh heap and `malloc(24)`: the block handed
out is the first 32 bytes of the initial chunk, and the rest of the chunk, up
to the epilogue header, is the only free block. -/
theorem init_malloc24 {s0 s1 s : State} {p : Nat} (hf : FreshHeap s0)
    (hi : mm_init s0 = some (0, s1)) (hm : malloc s1 24 = some (p, s)) :
    ∃ bl L, Rep s bl L ∧ p = s0.mem_heap + 64 ∧
      (⟨p + 32, 2016, false, true⟩ : Blk) ∈ bl ∧
      (∀ g ∈ bl, g.al = false → g = ⟨p + 32, 2016, false, true⟩) ∧
      p + 32 + 2016 = s.mem_brk := by
  obtain ⟨bl1, L1, f, hrep1, _, _, hal, hfm, hff, hfp, hfz, hfu⟩ := mm_init_spec hf hi
  unfold malloc at hm
  rw [ensure_init_id hrep1.geo] at hm
  simp only [] at hm
  rw [if_neg (by decide), if_neg (rep_class_head hrep1), show adjust 24 = 32 from rfl] at hm
  rcases find_fit_spec hrep1 32 with ⟨_, hno⟩ | ⟨b, hb, hbf, hle, hfit⟩
  · have := hno f hfm hff
    omega
  · have hbe : b = f := hfu b hb hbf
    subst hbe
    rw [hfit] at hm
    simp only [] at hm
    rw [if_pos (by omega)] at hm
    obtain ⟨s', A, c, B, L', hpl, hbl, hrep', _⟩ :=
      place_split s1 bl1 L1 b 32 hrep1 hfm hff (by omega) (by decide) (by decide)
    rw [hpl] at hm
    simp only [Option.map_some', Option.some.injEq, Prod.mk.injEq] at hm
    obtain ⟨hp, hs⟩ := hm
    subst hs
    subst hp
    rw [hfz] at hrep'
    have hxm : (⟨b.bp, 32, true, true⟩ : Blk) ∈
        A ++ ⟨b.bp, 32, true, true⟩ :: ⟨b.bp + 32, 2048 - 32, false, true⟩ :: c :: B := by simp
    have hold : ∀ g ∈ bl1, g ∈ A ++ ⟨b.bp, 32, true, true⟩ ::
        ⟨b.bp + 32, 2048 - 32, false, true⟩ :: c :: B → g.al = true := by
      intro g hg hg'
      cases hga : g.al with
      | true => rfl
      | false =>
        have hgb : g = b := hfu g hg hga
        have := hrep'.shape.uniq hg' hxm (by rw [hgb])
        rw [this] at hga
        exact absurd hga (by simp)
    have hcm : c ∈ bl1 := by rw [hbl]; simp
    have hc1 := hrep1.shape.contig
    rw [hbl] at hc1
    have hcb := (Contig_mid hc1).1
    have hca := hold c hcm (by simp)
    have hcz : c.sz = 0 := by
      by_contra hz
      have h1 : (c.bp, c.sz) ∈ allocs bl1 := mem_allocs.2 ⟨c, hcm, hca, hz, rfl, rfl⟩
      rw [hal] at h1
      simp only [List.mem_singleton, Prod.mk.injEq] at h1
      omega
    have hbrk := hrep'.shape.zero_bp (show c ∈ _ by simp) hcz
    refine ⟨_, L', hrep', hfp, by simp, fun g hg hga => ?_, by omega⟩
    simp only [List.mem_append, List.mem_cons] at hg
    rcases hg with h | h | h | h | h
    · have := hold g (by rw [hbl]; simp [h]) (by simp [h])
      rw [this] at hga; exact absurd hga (by simp)
    · rw [h] at hga; exact absurd hga (by simp)
    · exact h
    · have := hold g (by rw [hbl]; simp [h]) (by simp [h])
      rw [this] at hga; exact absurd hga (by simp)
    · have := hold g (by rw [hbl]; simp [h]) (by simp [h])
      rw [this] at hga; exact absurd hga (by simp)

/-- In a state reached by calls whose size adjustment does not wrap
(`Reachable`), for each of the 12 class heads the nodes found
by following the succ links are, each once, the free blocks of the heap walk
whose header size is of that class; the free-list index, the 12 lists
together, holds every free block of the heap walk once and nothing else, and
has as many nodes as the heap walk has free blocks.  If the state is the one
after `mm_init` on a fresh heap and `malloc(24)`, which returned `p`, then
class list 6 is the only non-empty one and holds one node, the free block of
2016 bytes behind the block at `p`, which ends at the epilogue header and is
the only free block of the heap walk. -/
theorem class_lists_hold_free_blocks (s : State) (hr : Reachable s) :
    ∃ bs idx, heap_blocks s = some bs ∧ free_index s = some idx ∧
      (∀ i, i < CLASS_NUM → ∃ l, class_list s i = some l ∧ l.Nodup ∧
        ∀ p, p ∈ l ↔ ∃ b ∈ bs, b.al = false ∧ b.bp = p ∧ class_index b.sz = i) ∧
      idx.Nodup ∧ (∀ p, p ∈ idx ↔ ∃ b ∈ bs, b.al = false ∧ b.bp = p) ∧
      idx.length = (bs.filter (fun b => !b.al)).length ∧
      ∀ s0 s1 p, FreshHeap s0 → mm_init s0 = some (0, s1) → malloc s1 24 = some (p, s) →
        class_list s 6 = some [p + 32] ∧
        (∀ j, j < CLASS_NUM → j ≠ 6 → class_list s j = some []) ∧
        (⟨p + 32, 2016, false, true⟩ : Blk) ∈ bs ∧
        (∀ g ∈ bs, g.al = false → g = ⟨p + 32, 2016, false, true⟩) ∧
        p + 32 + 2016 = s.mem_brk := by
  obtain ⟨bl, L, hrep⟩ := reachable_inv hr
  obtain ⟨body, e, hbl, hez, hbody, hwalk⟩ := heap_blocks_spec hrep
  have hsub : ∀ y ∈ body, y ∈ bl := fun y hy => by rw [hbl]; simp [hy]
  have hfree : ∀ y ∈ bl, y.al = false → y ∈ body := by
    intro y hy hf
    have hsz := (hrep.shape.free_facts hy hf).1
    rw [hbl] at hy
    rcases List.mem_append.1 hy with h | h
    · exact h
    · have hye : y = e := by simpa using h
      rw [hye] at hsz
      omega
  obtain ⟨idx, hidx, hnd, hmem, hlen⟩ := free_index_count hrep hbl hbody
  refine ⟨body, idx, hwalk, hidx, fun i hi => ?_, hnd, fun p => ?_, hlen, ?_⟩
  · obtain ⟨l, hl, hlnd, hlm⟩ := class_list_members hrep i hi
    refine ⟨l, hl, hlnd, fun p => ?_⟩
    rw [hlm]
    constructor
    · rintro ⟨b, hb, h1, h2, h3⟩; exact ⟨b, hfree b hb h1, h1, h2, h3⟩
    · rintro ⟨b, hb, h1, h2, h3⟩; exact ⟨b, hsub b hb, h1, h2, h3⟩
  · rw [hmem]
    constructor
    · rintro ⟨b, hb, h1, h2⟩; exact ⟨b, hfree b hb h1, h1, h2⟩
    · rintro ⟨b, hb, h1, h2⟩; exact ⟨b, hsub b hb, h1, h2⟩
  · intro s0 s1 p hf hi hm
    obtain ⟨bl', L', hrep', _, htm, htu, hbrk⟩ := init_malloc24 hf hi hm
    obtain ⟨body', e', hbl', _, _, hwalk'⟩ := heap_blocks_spec hrep'
    have hbb : body' = body := by
      rw [hwalk] at hwalk'
      exact (Option.some.inj hwalk').symm
    subst hbb
    have hsub' : ∀ y ∈ body', y ∈ bl' := fun y hy => by rw [hbl']; simp [hy]
    have htb : (⟨p + 32, 2016, false, true⟩ : Blk) ∈ body' := by
      have h := htm
      rw [hbl'] at h
      rcases List.mem_append.1 h with h | h
      · exact h
      · have he : (⟨p + 32, 2016, false, true⟩ : Blk) = e' := by simpa using h
        have := (hrep'.shape.ok e' (by rw [hbl']; simp)).2.2.2.2.2.1
        have hz : e'.sz = 2016 := by rw [← he]
        obtain ⟨_, e2, hb2, he2, _⟩ := hrep'.shape.last
        rw [hbl'] at hb2
        have := List.append_inj_right' hb2 rfl
        simp only [List.cons.injEq, and_true] at this
        rw [this] at hz
        omega
    refine ⟨?_, fun j hj hne => ?_, htb, fun g hg hga => htu g (hsub' g hg) hga, hbrk⟩
    · obtain ⟨l, hl, hlnd, hlm⟩ := class_list_members hrep' 6 (by decide)
      rw [hl, eq_singleton_of_nodup hlnd (fun q => ?_)]
      rw [hlm]
      constructor
      · rintro ⟨b, hb, h1, h2, _⟩
        rw [htu b hb h1] at h2
        exact h2.symm
      · intro hq
        exact ⟨_, htm, rfl, hq.symm, show class_index 2016 = 6 by decide⟩
    · obtain ⟨l, hl, hlnd, hlm⟩ := class_list_members hrep' j hj
      have hnil : l = [] := by
        refine List.eq_nil_iff_forall_not_mem.2 (fun q hq => ?_)
        obtain ⟨b, hb, h1, h2, h3⟩ := (hlm q).1 hq
        rw [htu b hb h1] at h3
        have h6 : class_index 2016 = 6 := by decide
        exact hne (h3.symm.trans h6)
      rw [hl, hnil]

theorem class_lists_hold_free_blocks_witness :
    ∃ bs idx, heap_blocks big2 = some bs ∧ free_index big2 = some idx ∧
      (∀ i, i < CLASS_NUM → ∃ l, class_list big2 i = some l ∧ l.Nodup ∧
        ∀ p, p ∈ l ↔ ∃ b ∈ bs, b.al = false ∧ b.bp = p ∧ class_index b.sz = i) ∧
      idx.Nodup ∧ (∀ p, p ∈ idx ↔ ∃ b ∈ bs, b.al = false ∧ b.bp = p) ∧
      idx.length = (bs.filter (fun b => !b.al)).length ∧
      ∀ s0 s1 p, FreshHeap s0 → mm_init s0 = some (0, s1) → malloc s1 24 = some (p, big2) →
        class_list big2 6 = some [p + 32] ∧
        (∀ j, j < CLASS_NUM → j ≠ 6 → class_list big2 j = some []) ∧
        (⟨p + 32, 2016, false, true⟩ : Blk) ∈ bs ∧
        (∀ g ∈ bs, g.al = false → g = ⟨p + 32, 2016, false, true⟩) ∧
        p + 32 + 2016 = big2.mem_brk :=
  class_lists_hold_free_blocks big2 big2_reach

/-! ## The links of the class lists -/

theorem SC_pair (m : Mem) (hl : Nat) (A B : List Nat) (x y c e : Nat)
    (h : SC m hl c (A ++ x :: y :: B) e) : GET m (hl + x + 4) = y := by
  rw [SC_append] at h
  obtain ⟨q, _, _, h2⟩ := h
  exact h2.1

theorem PC_pair (m : Mem) (hl : Nat) (A B : List Nat) (x y p : Nat)
    (h : PC m hl p (A ++ x :: y :: B)) : GET m (hl + y) = x := by
  rw [PC_append] at h
  exact h.2.2.1

/-- The links of class list `i`, for the list of block addresses that the
traversal of the list yields. -/
theorem class_list_links {s : State} {bl : List Blk} {L : Nat → List Nat} (hrep : Rep s bl L)
    (i : Nat) (hi : i < 12) :
    ∃ l, class_list s i = some l ∧
      (∀ A X Y B, l = A ++ X :: Y :: B →
        GET s.mem (SUCCP X) = A2O s Y ∧ GET s.mem (SUCCP X) ≠ 0 ∧ SUCC_BLKP s X = Y ∧
        GET s.mem (PREDP Y) = A2O s X ∧ GET s.mem (PREDP Y) ≠ 0 ∧ PRED_BLKP s Y = X) ∧
      (∀ X T, l = X :: T →
        GET s.mem (PREDP X) = 0 ∧ GET s.mem (s.class_head + i * WSIZE) = A2O s X ∧
        GET s.mem (s.class_head + i * WSIZE) ≠ 0) ∧
      (∀ T X, l = T ++ [X] → GET s.mem (SUCCP X) = 0) ∧
      (l = [] → GET s.mem (s.class_head + i * WSIZE) = 0) := by
  have hg := hrep.geo
  have hwf := hrep.wf
  obtain ⟨hsc, hpc⟩ := hrep.lists i hi
  have hback : ((L i).map (fun y => y + (s.mem_heap + 56))).map (fun a => a - (s.mem_heap + 56))
      = L i := by
    rw [List.map_map]
    conv => rhs; rw [← List.map_id (L i)]
    apply List.map_congr_left
    intro a _
    simp
  have hoff : ∀ X ∈ (L i).map (fun y => y + (s.mem_heap + 56)),
      X - (s.mem_heap + 56) ∈ L i ∧ X = (X - (s.mem_heap + 56)) + (s.mem_heap + 56) := by
    intro X hX
    obtain ⟨y, hy, rfl⟩ := List.mem_map.1 hX
    simp only [Nat.add_sub_cancel]
    exact ⟨hy, trivial⟩
  have hslot : s.class_head + i * WSIZE = s.mem_heap + 4 * i := by
    rw [hg.ch]; unfold WSIZE; omega
  refine ⟨_, class_list_spec hrep i hi, fun A X Y B h => ?_, fun X T h => ?_, fun T X h => ?_,
    fun h => ?_⟩
  · have hXm := hoff X (by rw [h]; simp)
    have hYm := hoff Y (by rw [h]; simp)
    obtain ⟨hx, hXe⟩ := hXm
    obtain ⟨hy, hYe⟩ := hYm
    have hxo := hwf.ok i _ hx
    have hyo := hwf.ok i _ hy
    have hL := congrArg (List.map (fun a => a - (s.mem_heap + 56))) h
    rw [hback] at hL
    simp only [List.map_append, List.map_cons] at hL
    rw [hL] at hsc hpc
    have h1 := SC_pair _ _ _ _ _ _ _ _ hsc
    have h2 := PC_pair _ _ _ _ _ _ _ hpc
    have e1 : SUCCP X = s.mem_heap + 56 + (X - (s.mem_heap + 56)) + 4 := by
      unfold SUCCP WSIZE; omega
    have e2 : PREDP Y = s.mem_heap + 56 + (Y - (s.mem_heap + 56)) := by
      unfold PREDP; omega
    have a1 : A2O s Y = Y - (s.mem_heap + 56) := by
      conv => lhs; rw [hYe]
      exact A2O_off s _ _ hg.hl (by omega)
    have a2 : A2O s X = X - (s.mem_heap + 56) := by
      conv => lhs; rw [hXe]
      exact A2O_off s _ _ hg.hl (by omega)
    refine ⟨by rw [e1, h1, a1], by rw [e1, h1]; omega, ?_, by rw [e2, h2, a2],
      by rw [e2, h2]; omega, ?_⟩
    · unfold SUCC_BLKP; rw [e1, h1, hg.hl]; omega
    · unfold PRED_BLKP; rw [e2, h2, hg.hl]; omega
  · obtain ⟨hx, hXe⟩ := hoff X (by rw [h]; simp)
    have hxo := hwf.ok i _ hx
    have hL := congrArg (List.map (fun a => a - (s.mem_heap + 56))) h
    rw [hback] at hL
    simp only [List.map_cons] at hL
    rw [hL] at hsc hpc
    have h1 : GET s.mem (s.mem_heap + 4 * i) = X - (s.mem_heap + 56) := hsc.1
    have h2 : GET s.mem (s.mem_heap + 56 + (X - (s.mem_heap + 56))) = 0 := hpc.1
    have e2 : PREDP X = s.mem_heap + 56 + (X - (s.mem_heap + 56)) := by
      unfold PREDP; omega
    have a2 : A2O s X = X - (s.mem_heap + 56) := by
      conv => lhs; rw [hXe]
      exact A2O_off s _ _ hg.hl (by omega)
    exact ⟨by rw [e2, h2], by rw [hslot, h1, a2], by rw [hslot, h1]; omega⟩
  · obtain ⟨hx, hXe⟩ := hoff X (by rw [h]; simp)
    have hL := congrArg (List.map (fun a => a - (s.mem_heap + 56))) h
    rw [hback] at hL
    simp only [List.map_append, List.map_cons, List.map_nil] at hL
    rw [hL, SC_snoc] at hsc
    have e1 : SUCCP X = s.mem_heap + 56 + (X - (s.mem_heap + 56)) + 4 := by
      unfold SUCCP WSIZE; omega
    rw [e1]
    exact hsc.2
  · have hL : L i = [] := by
      rw [← hback, h]; rfl
    rw [hL] at hsc
    rw [hslot]
    exact hsc

/-- In a state reached by calls whose size adjustment does not wrap
(`Reachable`), for each of the 12 class lists: for every node
`X` of the list whose succ offset is not 0, the block `Y` that the offset
designates is a node of the list and the pred offset of `Y` designates `X`;
nodes that follow each other in the traversal are linked in both directions;
the pred offset of the first node is 0, the succ offset of the last node is 0,
and the head slot holds the offset of the first node, or 0 if the list is
empty. -/
theorem class_lists_doubly_linked (s : State) (hr : Reachable s) :
    ∀ i, i < CLASS_NUM → ∃ l, class_list s i = some l ∧
      (∀ X ∈ l, GET s.mem (SUCCP X) ≠ 0 →
        SUCC_BLKP s X ∈ l ∧ GET s.mem (PREDP (SUCC_BLKP s X)) = A2O s X ∧
        PRED_BLKP s (SUCC_BLKP s X) = X) ∧
      (∀ A X Y B, l = A ++ X :: Y :: B →
        GET s.mem (SUCCP X) = A2O s Y ∧ SUCC_BLKP s X = Y ∧
        GET s.mem (PREDP Y) = A2O s X ∧ PRED_BLKP s Y = X) ∧
      (∀ X T, l = X :: T →
        GET s.mem (PREDP X) = 0 ∧ GET s.mem (s.class_head + i * WSIZE) = A2O s X) ∧
      (∀ T X, l = T ++ [X] → GET s.mem (SUCCP X) = 0) ∧
      (l = [] → GET s.mem (s.class_head + i * WSIZE) = 0) := by
  intro i hi
  obtain ⟨bl, L, hrep⟩ := reachable_inv hr
  obtain ⟨l, hl, h1, h2, h3, h4⟩ := class_list_links hrep i hi
  refine ⟨l, hl, fun X hX hne => ?_, fun A X Y B h => ?_, fun X T h => ?_, h3, h4⟩
  · obtain ⟨A, R, hAR⟩ := List.append_of_mem hX
    cases R with
    | nil => exact absurd (h3 A X hAR) hne
    | cons Y B =>
      obtain ⟨_, _, e3, e4, _, e6⟩ := h1 A X Y B hAR
      rw [e3]
      exact ⟨by rw [hAR]; simp, e4, e6⟩
  · obtain ⟨e1, _, e3, e4, _, e6⟩ := h1 A X Y B h
    exact ⟨e1, e3, e4, e6⟩
  · obtain ⟨e1, e2, _⟩ := h2 X T h
    exact ⟨e1, e2⟩

theorem class_lists_doubly_linked_witness :
    ∃ l, class_list ord6 1 = some l ∧
      (∀ X ∈ l, GET ord6.mem (SUCCP X) ≠ 0 →
        SUCC_BLKP ord6 X ∈ l ∧ GET ord6.mem (PREDP (SUCC_BLKP ord6 X)) = A2O ord6 X ∧
        PRED_BLKP ord6 (SUCC_BLKP ord6 X) = X) ∧
      (∀ A X Y B, l = A ++ X :: Y :: B →
        GET ord6.mem (SUCCP X) = A2O ord6 Y ∧ SUCC_BLKP ord6 X = Y ∧
        GET ord6.mem (PREDP Y) = A2O ord6 X ∧ PRED_BLKP ord6 Y = X) ∧
      (∀ X T, l = X :: T →
        GET ord6.mem (PREDP X) = 0 ∧ GET ord6.mem (ord6.class_head + 1 * WSIZE) = A2O ord6 X) ∧
      (∀ T X, l = T ++ [X] → GET ord6.mem (SUCCP X) = 0) ∧
      (l = [] → GET ord6.mem (ord6.class_head + 1 * WSIZE) = 0) :=
  class_lists_doubly_linked ord6 ord6_reach 1 (by decide)

/-! ## The order of the class lists -/

/-- C14, what the code does instead: after `mm_init`, `malloc(40)` (the
block of 48 bytes at `4160`), three times `malloc(24)` (blocks of 32 bytes at
`4208`, `4240`, `4272`), `free(4160)` and `free(4240)`, a reachable state,
`find_fit(32)` returns the block at `4160`, of 48 bytes, although its class
list, list 1, also holds the block at `4240`, of 32 bytes: the block returned
is not one of minimum size among the blocks of the list that are large enough. -/
theorem find_fit_not_best :
    Reachable ord6 ∧ find_fit ord6 32 = some 4160 ∧
      class_list ord6 (class_index 32) = some [4160, 4240] ∧
      GET_SIZE ord6.mem (HDRP 4160) = 48 ∧ GET_SIZE ord6.mem (HDRP 4240) = 32 ∧
      GET_ALLOC ord6.mem (HDRP 4240) = 0 :=
  ⟨ord6_reach, ord6_fit, ord6_list, ord6_sizes.1, ord6_sizes.2, by decide!⟩

/-- C17, what the code does instead: after `mm_init`, `malloc(40)` (the
block of 48 bytes at `4160`), three times `malloc(24)` (blocks of 32 bytes at
`4208`, `4240`, `4272`), `free(4160)` and `free(4240)`, a reachable state,
class list 1 is the block at `4160`, of 48 bytes, followed by its successor,
the block at `4240`, of 32 bytes: `add_free_list` has put the smaller block
behind the larger one, and the list is not sorted by size. -/
theorem class_list_out_of_order :
    Reachable ord6 ∧ free ord5 4240 = some ord6 ∧
      class_list ord5 1 = some [4160] ∧ class_list ord6 1 = some [4160, 4240] ∧
      SUCC_BLKP ord6 4160 = 4240 ∧
      GET_SIZE ord6.mem (HDRP 4160) = 48 ∧ GET_SIZE ord6.mem (HDRP 4240) = 32 :=
  ⟨ord6_reach, ord6_free, by decide!, ord6_list, by decide!, ord6_sizes.1, ord6_sizes.2⟩

/-! ## `place` -/

/-- The free blocks after a split: those of before without the block that was
split, and the remainder. -/
theorem split_free {lo brk : Nat} {A B' : List Blk} {b c X T : Blk}
    (hsh : Shape lo brk (A ++ X :: T :: c :: B')) (hX : X.bp = b.bp) (hXa : X.al = true)
    (g : Blk) (hg : g.al = false) :
    g ∈ A ++ X :: T :: c :: B' ↔ (g ∈ A ++ b :: c :: B' ∧ g ≠ b) ∨ g = T := by
  have hxm : X ∈ A ++ X :: T :: c :: B' := by simp
  have hne : ∀ g', g' ∈ A ++ X :: T :: c :: B' → g'.al = false → g' ≠ b := by
    intro g' hg' hf e
    have := hsh.uniq hg' hxm (by rw [e, hX])
    rw [this, hXa] at hf
    exact absurd hf (by simp)
  constructor
  · intro h
    have hn := hne g h hg
    simp only [List.mem_append, List.mem_cons] at h
    rcases h with h | h | h | h | h
    · exact Or.inl ⟨by simp [h], hn⟩
    · rw [h, hXa] at hg; exact absurd hg (by simp)
    · exact Or.inr h
    · exact Or.inl ⟨by simp [h], hn⟩
    · exact Or.inl ⟨by simp [h], hn⟩
  · rintro (⟨h, hn⟩ | h)
    · simp only [List.mem_append, List.mem_cons] at h
      rcases h with h | h | h | h
      · simp [h]
      · exact absurd h hn
      · simp [h]
      · simp [h]
    · simp [h]

/-- The free blocks after a placement without a split: those of before without
the block that was placed. -/
theorem nosplit_free {lo brk : Nat} {A B' : List Blk} {b c X C : Blk}
    (hsh : Shape lo brk (A ++ X :: C :: B')) (hX : X.bp = b.bp) (hXa : X.al = true)
    (hca : c.al = true) (hCa : C.al = true) (g : Blk) (hg : g.al = false) :
    g ∈ A ++ X :: C :: B' ↔ g ∈ A ++ b :: c :: B' ∧ g ≠ b := by
  have hxm : X ∈ A ++ X :: C :: B' := by simp
  have hne : ∀ g', g' ∈ A ++ X :: C :: B' → g'.al = false → g' ≠ b := by
    intro g' hg' hf e
    have := hsh.uniq hg' hxm (by rw [e, hX])
    rw [this, hXa] at hf
    exact absurd hf (by simp)
  constructor
  · intro h
    have hn := hne g h hg
    simp only [List.mem_append, List.mem_cons] at h
    rcases h with h | h | h | h
    · exact ⟨by simp [h], hn⟩
    · rw [h, hXa] at hg; exact absurd hg (by simp)
    · rw [h, hCa] at hg; exact absurd hg (by simp)
    · exact ⟨by simp [h], hn⟩
  · rintro ⟨h, hn⟩
    simp only [List.mem_append, List.mem_cons] at h
    rcases h with h | h | h | h
    · simp [h]
    · exact absurd h hn
    · rw [h, hca] at hg; exact absurd hg (by simp)
    · simp [h]

/-- What `place` does to a free block of a represented heap, in terms of the
block lists before and after. -/
theorem place_blocks {s : State} {bl : List Blk} {L : Nat → List Nat} (hrep : Rep s bl L)
    {b : Blk} (hb : b ∈ bl) (hf : b.al = false) (asize : Nat) (ha8 : asize % 8 = 0)
    (ha16 : 16 ≤ asize) (hle : asize ≤ b.sz) :
    ∃ s' bl' L', place s b.bp asize = some s' ∧ Rep s' bl' L' ∧
      (∀ g, g.al = false → (g ∈ bl' ↔ (g ∈ bl ∧ g ≠ b) ∨
        (asize + 16 ≤ b.sz ∧ g = ⟨b.bp + asize, b.sz - asize, false, true⟩))) ∧
      (asize + 16 ≤ b.sz → (⟨b.bp, asize, true, true⟩ : Blk) ∈ bl' ∧
        (⟨b.bp + asize, b.sz - asize, false, true⟩ : Blk) ∈ bl') ∧
      (b.sz < asize + 16 → (⟨b.bp, b.sz, true, true⟩ : Blk) ∈ bl' ∧
        ∃ c ∈ bl, c.bp = b.bp + b.sz ∧ (⟨c.bp, c.sz, true, true⟩ : Blk) ∈ bl') := by
  by_cases hsp : asize + 16 ≤ b.sz
  · obtain ⟨s', A, c, B', L', hpl, hbl, hrep', _⟩ :=
      place_split s bl L b asize hrep hb hf hsp ha8 ha16
    refine ⟨s', _, L', hpl, hrep', fun g hg => ?_, fun _ => ⟨by simp, by simp⟩,
      fun h => absurd hsp (by omega)⟩
    rw [split_free hrep'.shape (show (⟨b.bp, asize, true, true⟩ : Blk).bp = b.bp from rfl) rfl g hg,
      ← hbl]
    constructor
    · rintro (h | h)
      · exact Or.inl h
      · exact Or.inr ⟨hsp, h⟩
    · rintro (h | ⟨_, h⟩)
      · exact Or.inl h
      · exact Or.inr h
  · obtain ⟨s', A, c, B', L', hpl, hbl, hca, hrep', _⟩ :=
      place_nosplit s bl L b asize hrep hb hf hle (by omega)
    have hcm : c ∈ bl := by rw [hbl]; simp
    have hc := hrep.shape.contig
    rw [hbl] at hc
    refine ⟨s', _, L', hpl, hrep', fun g hg => ?_, fun h => absurd h hsp,
      fun _ => ⟨by simp, c, hcm, (Contig_mid hc).1, by simp⟩⟩
    rw [nosplit_free hrep'.shape (show (⟨b.bp, b.sz, true, true⟩ : Blk).bp = b.bp from rfl) rfl
      hca (show (⟨c.bp, c.sz, true, true⟩ : Blk).al = true from rfl) g hg, ← hbl]
    constructor
    · intro h; exact Or.inl h
    · rintro (h | ⟨h, _⟩)
      · exact h
      · exact absurd h hsp

theorem big300_malloc : malloc big1 300 = some (4160, big300) := rfl

theorem split_low_counterexample :
    Reachable big1 ∧ adjust 300 = 304 ∧ find_fit big1 304 = some 4160 ∧
      GET_SIZE big1.mem (HDRP 4160) = 2048 ∧ malloc big1 300 = some (4160, big300) ∧
      GET_SIZE big300.mem (HDRP 4160) = 304 ∧ GET_ALLOC big300.mem (HDRP 4160) = 1 ∧
      GET_SIZE big300.mem (HDRP (4160 + 304)) = 1744 ∧
      GET_ALLOC big300.mem (HDRP (4160 + 304)) = 0 :=
  ⟨big1_reach, by decide, by decide!, by decide!, big300_malloc, by decide!, by decide!,
    by decide!, by decide!⟩

/-- C22 (amended): `place` in `mm.c` has no split threshold.  In a reachable
state, whenever `place(B, asize)` splits a free block `B` of the index, of size
`c` with `c - asize >= 16`, also when `asize >= 256`, the allocated block, of
size `asize`, is put at the low address `B` and the free remainder, of size
`c - asize`, at the high address `B + asize`; so a `malloc` whose adjusted size
is `asize` and for which `find_fit` answers `B` returns `B`. -/
theorem split_keeps_low (s : State) (B asize c : Nat) (hr : Reachable s)
    (hB : ∃ l, free_index s = some l ∧ B ∈ l) (hc : GET_SIZE s.mem (HDRP B) = c)
    (ha8 : asize % 8 = 0) (hT : 256 ≤ asize) (hsp : asize + 16 ≤ c) :
    ∃ s', place s B asize = some s' ∧
      GET_SIZE s'.mem (HDRP B) = asize ∧ GET_ALLOC s'.mem (HDRP B) = 1 ∧
      GET_SIZE s'.mem (HDRP (B + asize)) = c - asize ∧
      GET_ALLOC s'.mem (HDRP (B + asize)) = 0 ∧
      ∀ n, n ≠ 0 → adjust n = asize → find_fit s asize = some B → malloc s n = some (B, s') := by
  obtain ⟨bl, L, hrep⟩ := reachable_inv hr
  obtain ⟨l, hl, hmem⟩ := free_index_spec hrep
  obtain ⟨l0, hl0, hBl⟩ := hB
  have hll : l0 = l := by rw [hl] at hl0; exact (Option.some.inj hl0).symm
  subst hll
  obtain ⟨b, hb, hf, rfl⟩ := (hmem B).1 hBl
  have hrb := hrep.read hb
  have hcb : b.sz = c := by rw [← hc]; exact hrb.1.symm
  subst hcb
  have hbf := hrep.shape.free_facts hb hf
  obtain ⟨s', bl', L', hpl, hrep', _, hsplit, _⟩ :=
    place_blocks hrep hb hf asize ha8 (by omega) (by omega)
  obtain ⟨hx, ht⟩ := hsplit hsp
  obtain ⟨x1, _, x3⟩ := hrep'.read hx
  obtain ⟨t1, _, t3⟩ := hrep'.read ht
  refine ⟨s', hpl, x1, by rw [x3]; rfl, t1, by rw [t3]; rfl, fun n hn0 hadj hfit => ?_⟩
  unfold malloc
  rw [ensure_init_id hrep.geo]
  simp only []
  rw [if_neg hn0, if_neg (rep_class_head hrep), hadj, hfit]
  simp only []
  rw [if_pos (by omega), hpl]
  rfl

theorem split_keeps_low_witness :
    ∃ s', place big1 4160 304 = some s' ∧
      GET_SIZE s'.mem (HDRP 4160) = 304 ∧ GET_ALLOC s'.mem (HDRP 4160) = 1 ∧
      GET_SIZE s'.mem (HDRP (4160 + 304)) = 2048 - 304 ∧
      GET_ALLOC s'.mem (HDRP (4160 + 304)) = 0 ∧
      ∀ n, n ≠ 0 → adjust n = 304 → find_fit big1 304 = some 4160 →
        malloc big1 n = some (4160, s') :=
  split_keeps_low big1 4160 304 2048 big1_reach ⟨[4160], by decide!, by simp⟩ (by decide!)
    (by decide) (by decide) (by decide)

/-! ## `find_fit` and the size classes -/

/-- The loop of `get_class_ptr` counts the binary digits of its argument. -/
theorem class_loop_digits (k : Nat) : ∀ (size i : Nat), 11 ≤ i + k →
    class_loop k size i < 11 →
    ∃ d, class_loop k size i = i + d ∧ size < 2 ^ d ∧ (d ≠ 0 → 2 ^ (d - 1) ≤ size) := by
  induction k with
  | zero =>
    intro size i h1 h2
    unfold class_loop at h2
    omega
  | succ k ih =>
    intro size i h1 h2
    unfold class_loop at h2 ⊢
    by_cases hc : size ≠ 0 ∧ i < CLASS_NUM - 1
    · rw [if_pos hc] at h2 ⊢
      obtain ⟨d, hd, hlt, hge⟩ := ih (size >>> 1) (i + 1) (by omega) h2
      rw [Nat.shiftRight_eq_div_pow, pow_one] at hlt hge
      refine ⟨d + 1, by rw [hd]; omega, ?_, fun _ => ?_⟩
      · rw [pow_succ]; omega
      · rw [Nat.add_sub_cancel]
        by_cases hd0 : d = 0
        · rw [hd0, pow_zero]; omega
        · have := hge hd0
          obtain ⟨e, rfl⟩ : ∃ e, d = e + 1 := ⟨d - 1, by omega⟩
          rw [Nat.add_sub_cancel] at this
          rw [pow_succ]
          omega
    · rw [if_neg hc] at h2 ⊢
      have hi : i < CLASS_NUM - 1 := h2
      have hz : size = 0 := by
        by_contra hne
        exact hc ⟨hne, hi⟩
      exact ⟨0, rfl, by rw [hz]; simp, fun h => absurd rfl h⟩

theorem class_bounds_counterexample :
    32 % 8 = 0 ∧ 16 ≤ 32 ∧ class_index 32 = 1 ∧ 1 < 11 ∧ ¬ (2 ^ (1 + 4) < 32) := by
  decide

/-- C26 (amended): for every block size `s` that is a multiple of 8 and at
least 16, the class index `i` that `get_class_ptr` selects (`find_fit` starts
with the same computation), when `i` is not the last class (`i < 11`),
satisfies `2^(i+4) <= s < 2^(i+5)`: the lower bound belongs to the class, the
upper bound does not. -/
theorem class_bounds (s : Nat) (h8 : s % 8 = 0) (h16 : 16 ≤ s) (hi : class_index s < 11) :
    2 ^ (class_index s + 4) ≤ s ∧ s < 2 ^ (class_index s + 5) ∧
      (∀ st bp, GET_SIZE st.mem (HDRP bp) = s →
        get_class_ptr st bp = st.class_head + class_index s * WSIZE) ∧
      ∀ st, find_fit st s = class_scan CLASS_NUM st (class_index s) s := by
  refine ⟨?_, ?_, fun st bp h => by unfold get_class_ptr; rw [h], fun st => rfl⟩
  all_goals
    obtain ⟨d, hd, hlt, hge⟩ := class_loop_digits (CLASS_NUM - 1) (s >>> 5) 0 (by decide) hi
    rw [Nat.shiftRight_eq_div_pow] at hlt hge
    have e5 : (2 : Nat) ^ 5 = 32 := by decide
    rw [e5] at hlt hge
    have hci : class_index s = d := by unfold class_index; rw [hd]; omega
    rw [hci]
  · by_cases hd0 : d = 0
    · rw [hd0]; exact h16
    · have := hge hd0
      obtain ⟨e, rfl⟩ : ∃ e, d = e + 1 := ⟨d - 1, by omega⟩
      rw [Nat.add_sub_cancel] at this
      have e2 : (2 : Nat) ^ (e + 1 + 4) = 2 ^ e * 32 := by
        rw [show e + 1 + 4 = e + 5 by omega, pow_add, e5]
      rw [e2]
      omega
  · have e2 : (2 : Nat) ^ (d + 5) = 2 ^ d * 32 := by rw [pow_add, e5]
    rw [e2]
    omega

theorem class_bounds_witness :
    2 ^ (class_index 48 + 4) ≤ 48 ∧ 48 < 2 ^ (class_index 48 + 5) ∧
      (∀ st bp, GET_SIZE st.mem (HDRP bp) = 48 →
        get_class_ptr st bp = st.class_head + class_index 48 * WSIZE) ∧
      ∀ st, find_fit st 48 = class_scan CLASS_NUM st (class_index 48) 48 :=
  class_bounds 48 (by decide) (by decide) (by decide)

/-! ## Request sizes next to `2^64` -/

theorem wrap8_malloc : malloc big1 18446744073709551613 = some (4160, wrap8) := rfl

/-- C28, what the code does instead: after `mm_init`, for the request size
`n = 2^64 - 3`, which is positive and below `2^64`, the sum `n + 4 + 7` wraps
and the adjusted size is 8; `malloc(n)` returns the non-null pointer 4160 to an
allocated block of 8 bytes, less than `n + 4`, and the heap walk then holds a
block of less than 16 bytes. -/
theorem malloc_wrapped_carves_eight :
    mm_init fresh_big = some (0, big1) ∧ Reachable big1 ∧ 0 < 18446744073709551613 ∧
      18446744073709551613 < 18446744073709551616 ∧ adjust 18446744073709551613 = 8 ∧
      malloc big1 18446744073709551613 = some (4160, wrap8) ∧
      GET_SIZE wrap8.mem (HDRP 4160) = 8 ∧ GET_ALLOC wrap8.mem (HDRP 4160) = 1 ∧
      GET_SIZE wrap8.mem (HDRP 4160) < 18446744073709551613 + 4 ∧
      heap_blocks wrap8 = some [⟨4152, 8, true, true⟩, ⟨4160, 8, true, true⟩,
        ⟨4168, 2040, false, true⟩] :=
  ⟨big1_init, big1_reach, by decide, by decide, by decide, wrap8_malloc, by decide!,
    by decide!, by decide!, by decide!⟩

/-- The request sizes of `malloc` whose adjustment does not wrap: in a reachable
state, `malloc(n)` with `n > 0` and `n + 11 < 2^64` returns, either `NULL` or a
block of at least `n + 4` bytes, and afterwards every block of the heap walk
behind the prologue has at least 16 bytes. -/
theorem malloc_room (s : State) (n : Nat) (hr : Reachable s) (h0 : 0 < n)
    (hnw : n + 11 < 18446744073709551616) :
    ∃ p s', malloc s n = some (p, s') ∧ (p = 0 ∨ n + 4 ≤ GET_SIZE s'.mem (HDRP p)) ∧
      ∃ pro rest, heap_blocks s' = some (pro :: rest) ∧
        ∀ b ∈ rest, 16 ≤ b.sz ∧ b.sz % 8 = 0 := by
  obtain ⟨bl, L, hrep⟩ := reachable_inv hr
  obtain ⟨p, s', hm, hcase⟩ := malloc_total hrep n (by omega)
  have hn12 : n + 12 ≤ SIZE_MOD := by unfold SIZE_MOD; omega
  have hr' : Reachable s' := Reachable.malloc s n p s' hr hn12 hm
  obtain ⟨bl', L', hrep'⟩ := reachable_inv hr'
  obtain ⟨pro, rest, hwalk, _, _, _, _, hrest⟩ := walk_prologue hrep'
  refine ⟨p, s', hm, ?_, pro, rest, hwalk, fun b hb => ⟨(hrest b hb).2.1, (hrest b hb).1⟩⟩
  by_cases hp : p = 0
  · exact Or.inl hp
  · right
    obtain ⟨q, s1, hm1, hc1⟩ := malloc_spec hrep n (by omega) hn12
    rw [hm] at hm1
    simp only [Option.some.injEq, Prod.mk.injEq] at hm1
    obtain ⟨e1, e2⟩ := hm1
    subst e1; subst e2
    rcases hc1 with ⟨h, _⟩ | ⟨_, hok⟩
    · exact absurd h hp
    · have haf := adjust_facts n hn12
      obtain ⟨bl1, L1, x, hrep1, hx, hxa, hxp, hxs, _⟩ := malloc_ok_block hok haf.2.1
      rw [← hxp, (hrep1.read hx).1]
      omega

theorem malloc_room_witness :
    ∃ p s', malloc big1 24 = some (p, s') ∧ (p = 0 ∨ 24 + 4 ≤ GET_SIZE s'.mem (HDRP p)) ∧
      ∃ pro rest, heap_blocks s' = some (pro :: rest) ∧
        ∀ b ∈ rest, 16 ≤ b.sz ∧ b.sz % 8 = 0 :=
  malloc_room big1 24 big1_reach (by decide) (by decide)

/-! ## `coalesce` -/

/-- The block that `coalesce` leaves: it starts at the free predecessor of the
pending block `b`, if there is one, and at `b` otherwise, and it ends with the
free successor of `b`, if there is one, and with `b` otherwise. -/
theorem coalesced_extent {s s' : State} {bl : List Blk} {L : Nat → List Nat} {b : Blk}
    {D p : Nat}
    (hmid : Mid s bl L (fun p => p = b.bp) (fun p => p = b.bp ∨ p = b.bp + b.sz))
    (hb : b ∈ bl) (hf : b.al = false) (hco : Coalesced s bl b D p s') :
    ∃ a0 c bl' L' f, a0 ∈ bl ∧ c ∈ bl ∧ a0.bp + a0.sz = b.bp ∧ a0.al = b.pa ∧
      c.bp = b.bp + b.sz ∧ Rep s' bl' L' ∧ f ∈ bl' ∧ f.al = false ∧ f.bp = p ∧
      (b.pa = true → f.bp = b.bp) ∧ (b.pa = false → f.bp = a0.bp) ∧
      (c.al = true → f.bp + f.sz = b.bp + b.sz) ∧
      (c.al = false → f.bp + f.sz = c.bp + c.sz) := by
  obtain ⟨A, c, B', hbl, hcb, hcp, hcm, _, _⟩ := coalesce_setup hmid hb hf
  obtain ⟨bl', L', f, hrep', hsc, hal, hfm, hfa, hfp, hple, hcov, hor, _, _⟩ := hco
  have hs := hmid.shape
  have hs' := hrep'.shape
  have hbf := hs.free_facts hb hf
  have hff := hs'.free_facts hfm hfa
  have hlo : s'.mem_heap = s.mem_heap := hsc.2.2.1
  have hbrk : s'.mem_brk = s.mem_brk := hsc.2.2.2.1
  have hto : ∀ h ∈ bl', h.al = true → h.sz ≠ 0 →
      ∃ h' ∈ bl, h'.al = true ∧ h'.bp = h.bp ∧ h'.sz = h.sz := by
    intro h hh ha hz
    have h1 : (h.bp, h.sz) ∈ allocs bl := by
      rw [← hal]; exact mem_allocs.2 ⟨h, hh, ha, hz, rfl, rfl⟩
    obtain ⟨x, hx, hxa, _, hxb, hxs⟩ := mem_allocs.1 h1
    exact ⟨x, hx, hxa, hxb, hxs⟩
  have hfrom : ∀ h ∈ bl, h.al = true → h.sz ≠ 0 →
      ∃ h' ∈ bl', h'.al = true ∧ h'.bp = h.bp ∧ h'.sz = h.sz := by
    intro h hh ha hz
    have h1 : (h.bp, h.sz) ∈ allocs bl' := by
      rw [hal]; exact mem_allocs.2 ⟨h, hh, ha, hz, rfl, rfl⟩
    obtain ⟨x, hx, hxa, _, hxb, hxs⟩ := mem_allocs.1 h1
    exact ⟨x, hx, hxa, hxb, hxs⟩
  -- an allocated block of before is apart from `f`
  have hapart : ∀ h ∈ bl, h.al = true → b.bp < h.bp → f.bp + f.sz ≤ h.bp := by
    intro h hh ha hlt
    by_cases hz : h.sz = 0
    · have := hs.zero_bp hh hz
      omega
    · obtain ⟨h', hh', ha', hb', hz'⟩ := hfrom h hh ha hz
      have hne : f ≠ h' := fun e => by rw [e, ha'] at hfa; exact absurd hfa (by simp)
      rcases hs'.sep hfm hh' hne with e | e <;> omega
  obtain ⟨A0, a0, B0, hbl0⟩ := hs.prev hb (by omega)
  have ha0m : a0 ∈ bl := by rw [hbl0]; simp
  have hc0 := hs.contig
  rw [hbl0] at hc0
  obtain ⟨ha0e, ha0a⟩ := Contig_mid hc0
  refine ⟨a0, c, bl', L', f, ha0m, hcm, by omega, ha0a.symm, hcb, hrep', hfm, hfa, hfp,
    fun hpa => ?_, fun hpa => ?_, fun hca => ?_, fun hca => ?_⟩
  · rcases hor with h | ⟨a, ha, haf, hap, hae⟩
    · rw [hfp, h]
    · exfalso
      have haff := hs.free_facts ha haf
      have hne : a ≠ a0 := fun e => by
        rw [e, ← ha0a, hpa] at haf; exact absurd haf (by simp)
      rcases hs.sep ha ha0m hne with e | e
      · have : a0 = b := hs.uniq ha0m hb (by omega)
        rw [this, hf] at ha0a
        rw [hpa] at ha0a
        exact absurd ha0a (by simp)
      · omega
  · have ha0f : a0.al = false := by rw [← ha0a, hpa]
    have ha0ff := hs.free_facts ha0m ha0f
    rcases hor with h | ⟨a, ha, haf, hap, hae⟩
    · exfalso
      obtain ⟨A1, h1, B1, hbl1⟩ := hs'.prev hfm (by omega)
      have hc1 := hs'.contig
      rw [hbl1] at hc1
      obtain ⟨e1, e2⟩ := Contig_mid hc1
      have hh1m : h1 ∈ bl' := by rw [hbl1]; simp
      have hfpa := hrep'.noadj f hfm (fun x => x) hfa
      have hh1a : h1.al = true := by rw [← e2]; exact hfpa
      have hh1z : h1.sz ≠ 0 := by
        intro hz
        have : h1 = f := hs'.uniq hh1m hfm (by omega)
        rw [this, hfa] at hh1a
        exact absurd hh1a (by simp)
      obtain ⟨h', hh', ha', hb', hz'⟩ := hto h1 hh1m hh1a hh1z
      have hne : h' ≠ a0 := fun e => by rw [e, ha0f] at ha'; exact absurd ha' (by simp)
      rcases hs.sep hh' ha0m hne with e | e <;> omega
    · have haff := hs.free_facts ha haf
      have : a = a0 := by
        by_contra hne
        rcases hs.sep ha ha0m hne with e | e <;> omega
      rw [hfp, ← hap, this]
  · have := hapart c hcm hca (by omega)
    omega
  · have hcf := hs.free_facts hcm hca
    obtain ⟨A1, d, B1, hbl1⟩ := hs.next hcm (by omega)
    have hc1 := hs.contig
    rw [hbl1] at hc1
    obtain ⟨e1, e2⟩ := Contig_mid hc1
    have hdm : d ∈ bl := by rw [hbl1]; simp
    have hda : d.al = true := by
      cases hd : d.al with
      | true => rfl
      | false =>
        have := hmid.noadj d hdm (by rintro (h | h) <;> omega) hd
        rw [this, hca] at e2
        exact absurd e2 (by simp)
    have hup := hapart d hdm hda (by omega)
    have hspan := free_span hrep' hfm hfa c.bp (c.bp + c.sz) (by omega)
      (fun h hh ha hz => by
        obtain ⟨h', hh', ha', hb', hz'⟩ := hto h hh ha hz
        have hne : h' ≠ c := fun e => by rw [e, hca] at ha'; exact absurd ha' (by simp)
        rcases hs.sep hh' hcm hne with e | e <;> omega)
      (by omega) (by omega)
    omega

/-- C24: for a block `b` whose header and footer mark it free and which is
not in a class list, in a heap that apart from that satisfies the invariant
(`b` may have free neighbours), `coalesce(b)` returns: the start of the
preceding block if the prev_alloc bit of `b` is clear, and `b` otherwise.  The
size of the block returned is the size of `b` plus the size of the preceding
block if that is free plus the size of the following block if that is free;
the header and the footer of the block returned hold this size with alloc bit
0; the block returned is a node of the class list of this size and of no other
class list, and the start of `b`, if `b` was merged with its predecessor, and
the start of an absorbed successor are nodes of no class list. -/
theorem coalesce_result (s : State) (bl : List Blk) (L : Nat → List Nat) (b : Blk)
    (hmid : Mid s bl L (fun p => p = b.bp) (fun p => p = b.bp ∨ p = b.bp + b.sz))
    (hb : b ∈ bl) (hf : b.al = false) :
    ∃ p s' z, coalesce s b.bp = some (p, s') ∧
      (GET_PREV_ALLOC s.mem (HDRP b.bp) = 0 → p = PREV_BLKP s.mem b.bp) ∧
      (GET_PREV_ALLOC s.mem (HDRP b.bp) ≠ 0 → p = b.bp) ∧
      z = GET_SIZE s.mem (HDRP b.bp) +
        (if GET_PREV_ALLOC s.mem (HDRP b.bp) = 0 then
          GET_SIZE s.mem (HDRP (PREV_BLKP s.mem b.bp)) else 0) + freesize s b.bp ∧
      GET_SIZE s'.mem (HDRP p) = z ∧ GET_ALLOC s'.mem (HDRP p) = 0 ∧
      GET s'.mem (FTRP s'.mem p) = GET s'.mem (HDRP p) ∧ FTRP s'.mem p + 8 = p + z ∧
      ∀ j, j < CLASS_NUM → ∃ lj, class_list s' j = some lj ∧
        (p ∈ lj ↔ j = class_index z) ∧ (p ≠ b.bp → b.bp ∉ lj) ∧
        (freesize s b.bp ≠ 0 → NEXT_BLKP s.mem b.bp ∉ lj) := by
  obtain ⟨p, s', hcoal, hco⟩ := coalesce_spec 0 hmid hb hf
  obtain ⟨a0, c, bl', L', f, ha0m, hcm, ha0e, ha0a, hcb, hrep', hfm, hfa, hfp, hl1, hl2, hu1, hu2⟩ :=
    coalesced_extent hmid hb hf hco
  have hs := hmid.shape
  have hbf := hs.free_facts hb hf
  obtain ⟨rb1, rb2, _⟩ := hmid.read hb
  obtain ⟨rc1, _, rc3⟩ := hmid.read hcm
  obtain ⟨ra1, _, _⟩ := hmid.read ha0m
  have hnext : NEXT_BLKP s.mem b.bp = c.bp := by rw [NEXT_BLKP_eq _ _ _ rb1, hcb]
  have hfs : freesize s b.bp = if c.al = true then 0 else c.sz := by
    unfold freesize
    rw [hnext, rc3, rc1]
    cases c.al <;> simp [flag]
  have hprev : b.pa = false → PREV_BLKP s.mem b.bp = a0.bp := by
    intro hpa
    have ha0f : a0.al = false := by rw [ha0a, hpa]
    have h1 := ftr_read hmid ha0m ha0f
    have ha0ff := hs.free_facts ha0m ha0f
    rw [show a0.bp + a0.sz - 8 = b.bp - 8 by omega] at h1
    rw [PREV_BLKP_eq _ _ _ h1]
    omega
  obtain ⟨rf1, _, rf3⟩ := hrep'.read hfm
  obtain ⟨hh1, hh2⟩ := hrep'.hdrs f hfm
  have hff := hrep'.shape.free_facts hfm hfa
  have hz : f.sz = GET_SIZE s.mem (HDRP b.bp) +
      (if GET_PREV_ALLOC s.mem (HDRP b.bp) = 0 then
        GET_SIZE s.mem (HDRP (PREV_BLKP s.mem b.bp)) else 0) + freesize s b.bp := by
    rw [rb1, rb2, hfs]
    cases hpa : b.pa <;> cases hca : c.al
    · have := hl2 hpa; have := hu2 hca
      have hcf := hs.free_facts hcm hca
      rw [hprev hpa, ra1]
      simp [flag]
      omega
    · have := hl2 hpa; have := hu1 hca
      rw [hprev hpa, ra1]
      simp [flag]
      omega
    · have := hl1 hpa; have := hu2 hca
      simp [flag]
      omega
    · have := hl1 hpa; have := hu1 hca
      simp [flag]
      omega
  refine ⟨f.bp, s', f.sz, by rw [hfp]; exact hcoal, fun h0 => ?_, fun h0 => ?_, hz, rf1,
    by rw [rf3, hfa]; rfl, ?_, ?_, fun j hj => ?_⟩
  · rw [rb2] at h0
    have hpa : b.pa = false := by
      cases h : b.pa with
      | false => rfl
      | true => rw [h] at h0; simp [flag] at h0
    rw [hprev hpa]; exact hl2 hpa
  · rw [rb2] at h0
    have hpa : b.pa = true := by
      cases h : b.pa with
      | true => rfl
      | false => rw [h] at h0; simp [flag] at h0
    exact hl1 hpa
  · rw [FTRP_eq _ _ _ rf1]
    unfold HDRP WSIZE
    rw [hh1, hh2 hfa]
  · rw [FTRP_eq _ _ _ rf1]; omega
  · obtain ⟨lj, hlj, _, hmem⟩ := class_list_members hrep' j hj
    refine ⟨lj, hlj, ?_, fun hne hin => ?_, fun hfz hin => ?_⟩
    · rw [hmem]
      constructor
      · rintro ⟨g, hg, _, hgb, hgc⟩
        have : g = f := hrep'.shape.uniq hg hfm hgb
        rw [← hgc, this]
      · intro h
        exact ⟨f, hfm, hfa, rfl, h.symm⟩
    · obtain ⟨g, hg, hgf, hgb, _⟩ := (hmem _).1 hin
      have hgn : g ≠ f := fun e => by rw [e] at hgb; exact hne hgb
      have hlt : f.bp < b.bp := by
        cases hpa : b.pa with
        | true => exact absurd (hl1 hpa) hne
        | false =>
          have := hl2 hpa
          have ha0f : a0.al = false := by rw [ha0a, hpa]
          have := hs.free_facts ha0m ha0f
          omega
      have hend : b.bp + b.sz ≤ f.bp + f.sz := by
        cases hca : c.al with
        | true => have := hu1 hca; omega
        | false => have := hu2 hca; omega
      rcases hrep'.shape.sep hg hfm hgn with e | e <;> omega
    · have hca : c.al = false := by
        cases h : c.al with
        | false => rfl
        | true => rw [hfs, h] at hfz; simp at hfz
      have hcf := hs.free_facts hcm hca
      have := hu2 hca
      rw [hnext] at hin
      obtain ⟨g, hg, hgf, hgb, _⟩ := (hmem _).1 hin
      have hle : f.bp ≤ b.bp := by
        cases hpa : b.pa with
        | true => have := hl1 hpa; omega
        | false => have := hl2 hpa; omega
      have hgn : g ≠ f := fun e => by rw [e] at hgb; omega
      rcases hrep'.shape.sep hg hfm hgn with e | e <;> omega

/-! ## A heap in which a free block is pending -/

theorem pend2_consts : pend2.mem_heap = 4096 ∧ pend2.mem_brk = 6208 ∧ pend2.heap_listp = 4152 ∧
    pend2.class_head = 4096 ∧ pend2.mem_max_addr = 1052672 := by decide!

theorem pend2_mid : Mid pend2 pend2_blocks pend2_lists (fun p => p = 4160)
    (fun p => p = 4160 ∨ p = 4160 + 32) := by
  obtain ⟨h1, h2, h3, h4, h5⟩ := pend2_consts
  refine ⟨⟨?_, ?_, ?_, ?_, ?_, ?_⟩, ⟨?_, ?_, ?_⟩, ?_, ?_, ⟨?_, ?_⟩, ?_⟩
  · rw [h4, h1]
  · rw [h3, h1]
  · rw [h1]
  · rw [h2, h5]; decide
  · rw [h1, h5]; decide
  · rw [h5]; decide
  · rw [h1, h2]
    exact ⟨rfl, rfl, rfl, rfl, rfl, rfl, rfl, rfl, rfl, rfl⟩
  · intro b hb
    rw [h1, h2]
    simp only [pend2_blocks, List.mem_cons, List.mem_singleton, List.not_mem_nil, or_false] at hb
    rcases hb with rfl | rfl | rfl | rfl <;> (unfold BlkOK; decide)
  · refine ⟨[⟨4152, 8, true, true⟩, ⟨4160, 32, false, true⟩, ⟨4192, 2016, false, false⟩],
      ⟨6208, 0, true, false⟩, rfl, rfl, ?_⟩
    intro b hb
    simp only [List.mem_cons, List.mem_singleton, List.not_mem_nil, or_false] at hb
    rcases hb with rfl | rfl | rfl <;> decide
  · intro b hb
    simp only [pend2_blocks, List.mem_cons, List.mem_singleton, List.not_mem_nil, or_false] at hb
    rcases hb with rfl | rfl | rfl | rfl <;> decide!
  · intro i hi
    rw [h1]
    interval_cases i
    all_goals first
      | exact ⟨show GET pend2.mem _ = 0 by decide!, trivial⟩
      | exact ⟨⟨show GET pend2.mem _ = 40 by decide!, show GET pend2.mem _ = 0 by decide!⟩,
          show GET pend2.mem _ = 0 by decide!, trivial⟩
  · intro i
    unfold pend2_lists
    split <;> simp
  · intro i x
    rw [h1]
    constructor
    · intro hx
      unfold pend2_lists at hx
      split at hx
      · rename_i h6
        simp only [List.mem_singleton] at hx
        subst hx; subst h6
        exact ⟨⟨4192, 2016, false, false⟩, by simp [pend2_blocks], rfl, rfl, by decide, by decide⟩
      · simp at hx
    · rintro ⟨b, hb, hf, hbp, hci, hex⟩
      simp only [pend2_blocks, List.mem_cons, List.mem_singleton, List.not_mem_nil, or_false] at hb
      rcases hb with rfl | rfl | rfl | rfl
      · exact absurd hf (by decide)
      · exact absurd rfl hex
      · have hx : x = 40 := by
          have : (4192 : Nat) = 4096 + 56 + x := hbp
          omega
        have h6 : i = 6 := by rw [← hci]; decide
        rw [hx, h6]
        simp [pend2_lists]
      · exact absurd hf (by decide)
  · intro b hb hex hf
    simp only [pend2_blocks, List.mem_cons, List.mem_singleton, List.not_mem_nil, or_false] at hb
    rcases hb with rfl | rfl | rfl | rfl
    · rfl
    · rfl
    · exact absurd (Or.inr rfl) hex
    · exact absurd hf (by decide)

theorem coalesce_result_witness :
    ∃ p s' z, coalesce pend2 4160 = some (p, s') ∧
      (GET_PREV_ALLOC pend2.mem (HDRP 4160) = 0 → p = PREV_BLKP pend2.mem 4160) ∧
      (GET_PREV_ALLOC pend2.mem (HDRP 4160) ≠ 0 → p = 4160) ∧
      z = GET_SIZE pend2.mem (HDRP 4160) +
        (if GET_PREV_ALLOC pend2.mem (HDRP 4160) = 0 then
          GET_SIZE pend2.mem (HDRP (PREV_BLKP pend2.mem 4160)) else 0) + freesize pend2 4160 ∧
      GET_SIZE s'.mem (HDRP p) = z ∧ GET_ALLOC s'.mem (HDRP p) = 0 ∧
      GET s'.mem (FTRP s'.mem p) = GET s'.mem (HDRP p) ∧ FTRP s'.mem p + 8 = p + z ∧
      ∀ j, j < CLASS_NUM → ∃ lj, class_list s' j = some lj ∧
        (p ∈ lj ↔ j = class_index z) ∧ (p ≠ 4160 → 4160 ∉ lj) ∧
        (freesize pend2 4160 ≠ 0 → NEXT_BLKP pend2.mem 4160 ∉ lj) :=
  coalesce_result pend2 pend2_blocks pend2_lists ⟨4160, 32, false, true⟩ pend2_mid
    (by simp [pend2_blocks]) rfl

/-! ## Heaps after a request size that wraps -/

theorem adj2_malloc : malloc wrap8 24 = some (4168, adj2) := rfl

theorem adj3_malloc : malloc adj2 1 = some (4200, adj3) := rfl

theorem adj4_malloc : malloc adj3 100 = some (4216, adj4) := rfl

theorem adj5_free : free adj4 4160 = some adj5 := rfl

theorem adj6_free : free adj5 4200 = some adj6 := rfl

theorem ftr3_free : free adj2 4160 = some ftr3 := rfl

theorem bit3_malloc : malloc adj2 13 = some (4200, bit3) := rfl

theorem bit4_malloc : malloc bit3 100 = some (4224, bit4) := rfl

theorem bit6_free : free bit5 4160 = some bit6 := rfl

theorem bit7_free : free bit6 4200 = some bit7 := rfl

theorem self1_malloc : malloc big1 18446744073709551611 = some (4160, self1) := rfl

theorem self2_free : free self1 4160 = some self2 := rfl

/-- C13, what the code does instead: after `mm_init`, `malloc(2^64 - 3)`, whose
adjusted size wraps to 8 and which returns the block of 8 bytes at 4160,
`malloc(24)`, `malloc(1)`, `malloc(100)`, `free(4160)` and `free(4200)`, the
heap walk finds the free block of 8 bytes at 4160 followed by a free block at
4168: the succ link of the block at 4160 is the header word at 4164. -/
theorem adjacent_free_after_wrap :
    mm_init fresh_big = some (0, big1) ∧ adjust 18446744073709551613 = 8 ∧
      malloc big1 18446744073709551613 = some (4160, wrap8) ∧
      malloc wrap8 24 = some (4168, adj2) ∧ malloc adj2 1 = some (4200, adj3) ∧
      malloc adj3 100 = some (4216, adj4) ∧ free adj4 4160 = some adj5 ∧
      free adj5 4200 = some adj6 ∧
      heap_blocks adj6 = some [⟨4152, 8, true, true⟩, ⟨4160, 8, false, true⟩,
        ⟨4168, 48, false, false⟩, ⟨4216, 104, true, false⟩, ⟨4320, 1888, false, true⟩] ∧
      GET_ALLOC adj6.mem (HDRP 4160) = 0 ∧ NEXT_BLKP adj6.mem 4160 = 4168 ∧
      GET_ALLOC adj6.mem (HDRP 4168) = 0 ∧ SUCCP 4160 = HDRP 4168 :=
  ⟨big1_init, by decide, wrap8_malloc, adj2_malloc, adj3_malloc, adj4_malloc, adj5_free,
    adj6_free, by decide!, by decide!, by decide!, by decide!, by decide⟩

/-- C15, what the code does instead: after `mm_init`, `malloc(2^64 - 3)`, which
returns the block of 8 bytes at 4160, `malloc(24)`, `malloc(13)`,
`malloc(100)`, a store of the byte 11 by the user at 4212, in the payload of
the block at 4200, `free(4160)` and `free(4200)`, the heap walk finds the free
block at 4168 followed by a block at 4216 whose prev_alloc bit is set, and that
allocated block followed by the block at 4224 whose prev_alloc bit is clear. -/
theorem prev_alloc_bit_after_wrap :
    mm_init fresh_big = some (0, big1) ∧
      malloc big1 18446744073709551613 = some (4160, wrap8) ∧
      malloc wrap8 24 = some (4168, adj2) ∧ malloc adj2 13 = some (4200, bit3) ∧
      malloc bit3 100 = some (4224, bit4) ∧
      is_allocated bit4 4200 = true ∧ 4200 ≤ 4212 ∧
      4212 < 4200 + GET_SIZE bit4.mem (HDRP 4200) - 4 ∧ store_byte bit4 4212 11 = bit5 ∧
      free bit5 4160 = some bit6 ∧ free bit6 4200 = some bit7 ∧
      heap_blocks bit7 = some [⟨4152, 8, true, true⟩, ⟨4160, 8, false, true⟩,
        ⟨4168, 48, false, false⟩, ⟨4216, 8, true, true⟩, ⟨4224, 104, true, false⟩,
        ⟨4328, 1880, false, true⟩] ∧
      NEXT_BLKP bit7.mem 4168 = 4216 ∧ GET_ALLOC bit7.mem (HDRP 4168) = 0 ∧
      GET_PREV_ALLOC bit7.mem (HDRP 4216) = 2 ∧
      NEXT_BLKP bit7.mem 4216 = 4224 ∧ GET_ALLOC bit7.mem (HDRP 4216) = 1 ∧
      GET_PREV_ALLOC bit7.mem (HDRP 4224) = 0 :=
  ⟨big1_init, wrap8_malloc, adj2_malloc, bit3_malloc, bit4_malloc, by decide!, by decide,
    by decide!, rfl, bit6_free, bit7_free, by decide!, by decide!, by decide!, by decide!,
    by decide!, by decide!, by decide!⟩

/-- C16, what the code does instead: after `mm_init`, `malloc(2^64 - 3)`, which
returns the block of 8 bytes at 4160, `malloc(24)`, `malloc(1)`, `malloc(100)`,
`free(4160)` and `free(4200)`, class list 0 holds the nodes 4160 and 4200 and
the index the nodes 4160, 4200 and 4320, while the free blocks of the heap walk
are those at 4160, 4168 and 4320: the node 4200 is no block of the walk, and
the free block at 4168 is in no list. -/
theorem index_after_wrap :
    mm_init fresh_big = some (0, big1) ∧
      malloc big1 18446744073709551613 = some (4160, wrap8) ∧
      malloc wrap8 24 = some (4168, adj2) ∧ malloc adj2 1 = some (4200, adj3) ∧
      malloc adj3 100 = some (4216, adj4) ∧ free adj4 4160 = some adj5 ∧
      free adj5 4200 = some adj6 ∧
      class_list adj6 0 = some [4160, 4200] ∧ class_list adj6 6 = some [4320] ∧
      free_index adj6 = some [4160, 4200, 4320] ∧
      (heap_blocks adj6).map (fun bs => (bs.filter (fun b => !b.al)).map (fun b => b.bp)) =
        some [4160, 4168, 4320] :=
  ⟨big1_init, wrap8_malloc, adj2_malloc, adj3_malloc, adj4_malloc, adj5_free, adj6_free,
    by decide!, by decide!, by decide!, by decide!⟩

/-- C18, what the code does instead: after `mm_init`, `malloc(2^64 - 3)`, which
returns the block of 8 bytes at 4160, `malloc(24)` and `free(4160)`, the block
at 4160 is free and in class list 0, its header word is `8 | 2`, and its
footer, the word at 4160, is 0: the footer of a block of 8 bytes is its pred
link. -/
theorem free_footer_after_wrap :
    mm_init fresh_big = some (0, big1) ∧
      malloc big1 18446744073709551613 = some (4160, wrap8) ∧
      malloc wrap8 24 = some (4168, adj2) ∧ is_allocated adj2 4160 = true ∧
      free adj2 4160 = some ftr3 ∧
      GET_ALLOC ftr3.mem (HDRP 4160) = 0 ∧ class_list ftr3 0 = some [4160] ∧
      GET ftr3.mem (HDRP 4160) = 10 ∧ FTRP ftr3.mem 4160 = PREDP 4160 ∧
      GET ftr3.mem (FTRP ftr3.mem 4160) = 0 :=
  ⟨big1_init, wrap8_malloc, adj2_malloc, by decide!, ftr3_free, by decide!, by decide!,
    by decide!, by decide!, by decide!⟩

/-- C19, what the code does instead: after `mm_init`, `malloc(2^64 - 5)`, whose
adjusted size wraps to 0 and which returns the pointer 4160 of a block that
stays free and in class list 7, and `free` of that pointer, class list 7 holds
the one node 4160, and the pred offset of this first node is 8, its own
offset, not 0. -/
theorem first_pred_after_wrap :
    mm_init fresh_big = some (0, big1) ∧ adjust 18446744073709551611 = 0 ∧
      malloc big1 18446744073709551611 = some (4160, self1) ∧
      class_list self1 7 = some [4160] ∧
      free self1 4160 = some self2 ∧
      class_list self2 7 = some [4160] ∧ GET self2.mem (PREDP 4160) = 8 ∧
      A2O self2 4160 = 8 :=
  ⟨big1_init, by decide, self1_malloc, by decide!, self2_free, by decide!, by decide!,
    by decide!⟩

/-- C20, what the code does instead: after `mm_init` and `malloc(2^64 - 3)`,
whose adjusted size wraps to 8, the heap walk visits behind the prologue a
block of 8 bytes, less than 16. -/
theorem small_block_after_wrap :
    mm_init fresh_big = some (0, big1) ∧ adjust 18446744073709551613 = 8 ∧
      malloc big1 18446744073709551613 = some (4160, wrap8) ∧
      NEXT_BLKP wrap8.mem wrap8.heap_listp = 4160 ∧
      GET_SIZE wrap8.mem (HDRP 4160) = 8 ∧ GET_SIZE wrap8.mem (HDRP 4160) < 16 ∧
      heap_blocks wrap8 = some [⟨4152, 8, true, true⟩, ⟨4160, 8, true, true⟩,
        ⟨4168, 2040, false, true⟩] :=
  ⟨big1_init, by decide, wrap8_malloc, by decide!, by decide!, by decide!, by decide!⟩

/-! ## The size classes of both allocators -/

theorem search_lt (a : Nat) : Backup.search a < 11 := by
  unfold Backup.search
  split_ifs <;> omega

/-- The bounds of the classes of `search`. -/
theorem search_cases (a : Nat) :
    (a ≤ 32 ∧ Backup.search a = 0) ∨ (32 < a ∧ a ≤ 64 ∧ Backup.search a = 1) ∨
    (64 < a ∧ a ≤ 80 ∧ Backup.search a = 2) ∨ (80 < a ∧ a ≤ 96 ∧ Backup.search a = 3) ∨
    (96 < a ∧ a ≤ 128 ∧ Backup.search a = 4) ∨ (128 < a ∧ a ≤ 256 ∧ Backup.search a = 5) ∨
    (256 < a ∧ a ≤ 512 ∧ Backup.search a = 6) ∨ (512 < a ∧ a ≤ 1024 ∧ Backup.search a = 7) ∨
    (1024 < a ∧ a ≤ 2048 ∧ Backup.search a = 8) ∨ (2048 < a ∧ a ≤ 4096 ∧ Backup.search a = 9) ∨
    (4096 < a ∧ Backup.search a = 10) := by
  unfold Backup.search
  split_ifs <;> simp <;> omega

theorem search_mono (a b : Nat) (h : a ≤ b) : Backup.search a ≤ Backup.search b := by
  rcases search_cases a with h1 | h1 | h1 | h1 | h1 | h1 | h1 | h1 | h1 | h1 | h1 <;>
  rcases search_cases b with h2 | h2 | h2 | h2 | h2 | h2 | h2 | h2 | h2 | h2 | h2 <;>
  omega

/-- C27: the size-class functions are monotone and in range: for sizes
`s <= t`, the class index that `get_class_ptr` of `mm.c` computes for `s` is at
most the one for `t` and both are below 12, and `search(s) <= search(t)` in
`backup.c` with both below 11. -/
theorem class_functions_monotone (s t : Nat) (h : s ≤ t) :
    class_index s ≤ class_index t ∧ class_index s < 12 ∧ class_index t < 12 ∧
      Backup.search s ≤ Backup.search t ∧ Backup.search s < 11 ∧ Backup.search t < 11 :=
  ⟨class_index_mono s t h, class_index_lt s, class_index_lt t, search_mono s t h,
    search_lt s, search_lt t⟩

theorem class_functions_monotone_witness :
    class_index 40 ≤ class_index 100 ∧ class_index 40 < 12 ∧ class_index 100 < 12 ∧
      Backup.search 40 ≤ Backup.search 100 ∧ Backup.search 40 < 11 ∧ Backup.search 100 < 11 :=
  class_functions_monotone 40 100 (by decide)

namespace Backup

/-! ## Runs of `backup.c` -/

theorem init1_init : mm_init fresh = some (0, init1) := rfl

theorem tiny_malloc : malloc init1 1 = some (34359738424, tiny) := rfl

theorem tail1_malloc : malloc init1 9000 = some (34359745800, tail1) := rfl

theorem tail2_malloc : malloc tail1 20 = some (34359738424, tail2) := rfl

theorem tail3_malloc : malloc tail2 20 = some (34359738448, tail3) := rfl

theorem tail4_malloc : malloc tail3 300 = some (34359745496, tail4) := rfl

theorem tail5_free : free tail4 34359745800 = some tail5 := rfl

theorem tail6_free : free tail5 34359738424 = some tail6 := rfl

/-- C29, what the code does instead: after `mm_init`, `malloc(9000)`,
`malloc(20)`, `malloc(20)`, `malloc(300)`, `free` of the first and `free` of
the second block, list 0 holds the block at offset 56 and list 10 holds the
block at offset 104 followed by the block `B` at offset 7432, its last node;
`find_fit` for the adjusted size of `malloc(8000)` answers `B`, so that
`malloc(8000)` calls `delete(B)`; and `delete(B)` stores 0 into the head slot
of list 0, which is not the list of `B`: list 0 is empty afterwards. -/
theorem delete_clears_slot_zero :
    mm_init fresh = some (0, init1) ∧ malloc init1 9000 = some (34359745800, tail1) ∧
      malloc tail1 20 = some (34359738424, tail2) ∧ malloc tail2 20 = some (34359738448, tail3) ∧
      malloc tail3 300 = some (34359745496, tail4) ∧ free tail4 34359745800 = some tail5 ∧
      free tail5 34359738424 = some tail6 ∧
      class_list tail6 0 = some [34359738424] ∧
      class_list tail6 10 = some [34359738472, 34359745800] ∧
      search (GET_SIZE tail6.mem (HDRP 34359745800)) = 10 ∧
      find_fit tail6 (ALIGN (8000 + WSIZE)) = some 34359745800 ∧
      GET tail6.mem (tail6.heap_start + 0 * WSIZE) = 56 ∧
      GET (delete tail6 34359745800).mem (tail6.heap_start + 0 * WSIZE) = 0 ∧
      class_list (delete tail6 34359745800) 0 = some [] ∧
      class_list (delete tail6 34359745800) 10 = some [34359738472] :=
  ⟨init1_init, tail1_malloc, tail2_malloc, tail3_malloc, tail4_malloc, tail5_free, tail6_free,
    by decide!, by decide!, by decide!, by decide!, by decide!, by decide!, by decide!,
    by decide!⟩

/-- C30, what the code does instead: `ALIGN(1 + 4)` is 8, and after `mm_init`
the call `malloc(1)` carves a block of 8 bytes, header and footer only, out of
the free block at offset 56: the heap walk then starts with an allocated block
of 8 bytes, less than the 16 bytes that `check_block` demands. -/
theorem malloc_one_carves_eight :
    mm_init fresh = some (0, init1) ∧ ALIGN (1 + WSIZE) = 8 ∧
      malloc init1 1 = some (34359738424, tiny) ∧
      GET_SIZE tiny.mem (HDRP 34359738424) = 8 ∧ GET_ALLOC tiny.mem (HDRP 34359738424) = 1 ∧
      GET_SIZE tiny.mem (HDRP 34359738424) < 2 * DSIZE ∧
      heap_blocks tiny = some [⟨34359738424, 8, true, false⟩, ⟨34359738432, 16376, false, false⟩] :=
  ⟨init1_init, by decide, tiny_malloc, by decide!, by decide!, by decide!, by decide!⟩

/-! ## Words of `backup.c` -/

@[simp]
theorem bput_mem_heap (s : State) (p v : Nat) : (s.put p v).mem_heap = s.mem_heap := rfl
@[simp]
theorem bput_mem_brk (s : State) (p v : Nat) : (s.put p v).mem_brk = s.mem_brk := rfl

theorem gap6_consts : gap6.heap_start = 34359738368 ∧ gap6.mem_heap = 34359738368 ∧
    gap6.mem_brk = 34359754808 := ⟨rfl, rfl, rfl⟩

theorem gap6_heads :
    GET gap6.mem (34359738368 + 4 * 0) = 0 ∧ GET gap6.mem (34359738368 + 4 * 1) = 0 ∧
      GET gap6.mem (34359738368 + 4 * 2) = 0 ∧ GET gap6.mem (34359738368 + 4 * 3) = 0 ∧
      GET gap6.mem (34359738368 + 4 * 4) = 0 ∧ GET gap6.mem (34359738368 + 4 * 5) = 0 ∧
      GET gap6.mem (34359738368 + 4 * 6) = 80 ∧ GET gap6.mem (34359738368 + 4 * 7) = 0 ∧
      GET gap6.mem (34359738368 + 4 * 8) = 0 ∧ GET gap6.mem (34359738368 + 4 * 9) = 0 ∧
      GET gap6.mem (34359738368 + 4 * 10) = 520 := by
  decide!

theorem gap6_links :
    GET gap6.mem (34359738368 + 80) = 0 ∧ GET gap6.mem (34359738368 + 80 + 4) = 0 ∧
      GET gap6.mem (34359738368 + 520) = 0 ∧ GET gap6.mem (34359738368 + 520 + 4) = 0 := by
  decide!

/-- The heap `gap6` is well formed. -/
theorem gap6_rep : Rep gap6 gap6_blocks gap6_lists := by
  obtain ⟨h1, h2, h3⟩ := gap6_consts
  refine ⟨?_, ?_, ?_, ?_, ⟨?_, ?_, ?_⟩, ?_, ?_, ⟨?_, ?_⟩⟩
  · rw [h1]
  · rw [h1]; decide
  · rw [h2, h1]
  · rw [h3, h1]; decide
  · rw [h1, h3]
    exact ⟨rfl, rfl, rfl, rfl, rfl, rfl, rfl, rfl, rfl, rfl, rfl, rfl, rfl, rfl⟩
  · intro b hb
    rw [h1, h3]
    simp only [gap6_blocks, List.mem_cons, List.mem_singleton, List.not_mem_nil, or_false] at hb
    rcases hb with rfl | rfl | rfl | rfl | rfl | rfl <;> (unfold BlockOK; decide)
  · refine ⟨[⟨34359738416, 8, true, true⟩, ⟨34359738424, 24, true, true⟩,
      ⟨34359738448, 416, false, true⟩, ⟨34359738864, 24, true, false⟩,
      ⟨34359738888, 15920, false, true⟩],
      ⟨34359754808, 0, true, false⟩, rfl, rfl, ?_⟩
    intro b hb
    simp only [List.mem_cons, List.mem_singleton, List.not_mem_nil, or_false] at hb
    rcases hb with rfl | rfl | rfl | rfl | rfl <;> decide
  · intro b hb
    simp only [gap6_blocks, List.mem_cons, List.mem_singleton, List.not_mem_nil, or_false] at hb
    rcases hb with rfl | rfl | rfl | rfl | rfl | rfl <;> decide!
  · intro i hi
    rw [h1]
    obtain ⟨a0, a1, a2, a3, a4, a5, a6, a7, a8, a9, a10⟩ := gap6_heads
    obtain ⟨p6, q6, p10, q10⟩ := gap6_links
    interval_cases i
    · exact ⟨a0, trivial⟩
    · exact ⟨a1, trivial⟩
    · exact ⟨a2, trivial⟩
    · exact ⟨a3, trivial⟩
    · exact ⟨a4, trivial⟩
    · exact ⟨a5, trivial⟩
    · exact ⟨⟨a6, q6⟩, p6, trivial⟩
    · exact ⟨a7, trivial⟩
    · exact ⟨a8, trivial⟩
    · exact ⟨a9, trivial⟩
    · exact ⟨⟨a10, q10⟩, p10, trivial⟩
  · intro i
    unfold gap6_lists
    split_ifs <;> simp
  · intro i x hx
    rw [h1]
    unfold gap6_lists at hx
    split_ifs at hx with h6 h10
    · simp only [List.mem_singleton] at hx
      subst hx; subst h6
      exact ⟨⟨34359738448, 416, false, true⟩, by simp [gap6_blocks], rfl, rfl, by decide⟩
    · simp only [List.mem_singleton] at hx
      subst hx; subst h10
      exact ⟨⟨34359738888, 15920, false, true⟩, by simp [gap6_blocks], rfl, rfl, by decide⟩
    · simp at hx

theorem tiny_consts : tiny.heap_start = 34359738368 ∧ tiny.mem_heap = 34359738368 ∧
    tiny.mem_brk = 34359754808 := ⟨rfl, rfl, rfl⟩

theorem tiny_heads :
    GET tiny.mem (34359738368 + 4 * 0) = 0 ∧ GET tiny.mem (34359738368 + 4 * 1) = 0 ∧
      GET tiny.mem (34359738368 + 4 * 2) = 0 ∧ GET tiny.mem (34359738368 + 4 * 3) = 0 ∧
      GET tiny.mem (34359738368 + 4 * 4) = 0 ∧ GET tiny.mem (34359738368 + 4 * 5) = 0 ∧
      GET tiny.mem (34359738368 + 4 * 6) = 0 ∧ GET tiny.mem (34359738368 + 4 * 7) = 0 ∧
      GET tiny.mem (34359738368 + 4 * 8) = 0 ∧ GET tiny.mem (34359738368 + 4 * 9) = 0 ∧
      GET tiny.mem (34359738368 + 4 * 10) = 64 := by
  decide!

theorem tiny_links :
    GET tiny.mem (34359738368 + 64) = 0 ∧ GET tiny.mem (34359738368 + 64 + 4) = 0 := by
  decide!

/-- The heap `tiny`, after `mm_init` and `malloc(1)`, is well formed: its first block
is an allocated block of 8 bytes. -/
theorem tiny_rep : Rep tiny tiny_blocks tiny_lists := by
  obtain ⟨h1, h2, h3⟩ := tiny_consts
  refine ⟨?_, ?_, ?_, ?_, ⟨?_, ?_, ?_⟩, ?_, ?_, ⟨?_, ?_⟩⟩
  · rw [h1]
  · rw [h1]; decide
  · rw [h2, h1]
  · rw [h3, h1]; decide
  · rw [h1, h3]
    exact ⟨rfl, rfl, rfl, rfl, rfl, rfl, rfl, rfl, rfl, rfl⟩
  · intro b hb
    rw [h1, h3]
    simp only [tiny_blocks, List.mem_cons, List.mem_singleton, List.not_mem_nil, or_false] at hb
    rcases hb with rfl | rfl | rfl | rfl <;> (unfold BlockOK; decide)
  · refine ⟨[⟨34359738416, 8, true, true⟩, ⟨34359738424, 8, true, true⟩,
      ⟨34359738432, 16376, false, true⟩],
      ⟨34359754808, 0, true, false⟩, rfl, rfl, ?_⟩
    intro b hb
    simp only [List.mem_cons, List.mem_singleton, List.not_mem_nil, or_false] at hb
    rcases hb with rfl | rfl | rfl <;> decide
  · intro b hb
    simp only [tiny_blocks, List.mem_cons, List.mem_singleton, List.not_mem_nil, or_false] at hb
    rcases hb with rfl | rfl | rfl | rfl <;> decide!
  · intro i hi
    rw [h1]
    obtain ⟨a0, a1, a2, a3, a4, a5, a6, a7, a8, a9, a10⟩ := tiny_heads
    obtain ⟨p10, q10⟩ := tiny_links
    interval_cases i
    · exact ⟨a0, trivial⟩
    · exact ⟨a1, trivial⟩
    · exact ⟨a2, trivial⟩
    · exact ⟨a3, trivial⟩
    · exact ⟨a4, trivial⟩
    · exact ⟨a5, trivial⟩
    · exact ⟨a6, trivial⟩
    · exact ⟨a7, trivial⟩
    · exact ⟨a8, trivial⟩
    · exact ⟨a9, trivial⟩
    · exact ⟨⟨a10, q10⟩, p10, trivial⟩
  · intro i
    unfold tiny_lists
    split_ifs <;> simp
  · intro i x hx
    rw [h1]
    unfold tiny_lists at hx
    split_ifs at hx with h10
    · simp only [List.mem_singleton] at hx
      subst hx; subst h10
      exact ⟨⟨34359738432, 16376, false, true⟩, by simp [tiny_blocks], rfl, rfl, by decide⟩
    · simp at hx

theorem tail7_malloc : malloc tail6 8000 = some (34359746800, tail7) := rfl

/-- What `place` does with an `asize` that is 0 or larger than the block, which
it does not check: in the heap `gap6` the block at offset 80 is free, of 416
bytes, between two allocated blocks. `place` with `asize = 0` returns that
block, but free (merged with the free block behind its neighbour, 16360 bytes)
and with the footer of the block before it overwritten; `place` with
`asize = 2^32 + 24` returns the address 392 bytes behind the block, where it
makes an allocated block of 24 bytes. -/
theorem place_unchecked_sizes :
    heap_blocks gap6 = some [⟨34359738424, 24, true, false⟩, ⟨34359738448, 416, false, false⟩,
      ⟨34359738864, 24, true, false⟩, ⟨34359738888, 15920, false, false⟩] ∧
    0 % 8 = 0 ∧ 16 ≤ 416 - 0 ∧ 0 < 256 ∧
    (place gap6 34359738448 0).map (fun r => (r.1, GET_SIZE r.2.mem (HDRP 34359738448),
      GET_ALLOC r.2.mem (HDRP 34359738448), GET r.2.mem (34359738448 - 8))) =
      some (34359738448, 16360, 0, 1) ∧
    4294967320 % 8 = 0 ∧ 416 - 4294967320 < 16 ∧
    (place gap6 34359738448 4294967320).map (fun r => (r.1,
      GET_SIZE r.2.mem (HDRP 34359738448), GET_ALLOC r.2.mem (HDRP 34359738448),
      GET_SIZE r.2.mem (HDRP r.1), GET_ALLOC r.2.mem (HDRP r.1))) =
      some (34359738840, 392, 0, 24, 1) :=
  ⟨by decide!, by decide, by decide, by decide, by decide!, by decide, by decide, by decide!⟩

/-! ## Room for the footer -/

theorem twelve_malloc : malloc init1 12 = some (34359738424, twelve) := rfl

/-- C31, what the code does instead: `ALIGN(12 + 4)` is 16, and after `mm_init`
the call `malloc(12)` carves a block of 16 bytes at offset 56, less than the
`12 + 8` bytes that the payload, the header and the footer need: the footer
word of the block, which holds `16 | 1`, is at `p + 8`, inside the 12 payload
bytes `[p, p + 12)` of the pointer `p` that `malloc` returns. -/
theorem malloc_twelve_overlaps_footer :
    mm_init fresh = some (0, init1) ∧ ALIGN (12 + WSIZE) = 16 ∧
      malloc init1 12 = some (34359738424, twelve) ∧
      GET_SIZE twelve.mem (HDRP 34359738424) = 16 ∧
      GET_ALLOC twelve.mem (HDRP 34359738424) = 1 ∧
      GET_SIZE twelve.mem (HDRP 34359738424) < 12 + 8 ∧
      FTRP twelve.mem 34359738424 = 34359738424 + 8 ∧
      GET twelve.mem (FTRP twelve.mem 34359738424) = 17 ∧
      34359738424 ≤ FTRP twelve.mem 34359738424 ∧
      FTRP twelve.mem 34359738424 + WSIZE ≤ 34359738424 + 12 ∧
      heap_blocks twelve = some [⟨34359738424, 16, true, false⟩,
        ⟨34359738440, 16368, false, false⟩] :=
  ⟨init1_init, by decide, twelve_malloc, by decide!, by decide!, by decide!, by decide!,
    by decide!, by decide!, by decide!, by decide!⟩

end Backup

end MM
